import Mathlib

/-!
# simpyl: a verification development

A shallow embedding of the `simpyl` interpreter (packages `token`, `ast`, `object`,
`algorithms`, `evaluator`, `parser`) and theorems about it.

Conventions of the embedding

* Go `int64` values are Lean `Int`s; every arithmetic result is reduced with `wrap64`.
* Go `float64` values are `Float64`: what a double denotes (NaN, an infinity, the negative
  zero, or a rational number).  Comparisons and the conversion `float64(int64)` are defined
  here; the rounded arithmetic operations of the host are supplied through `FloatArith`, and
  `strconv.ParseFloat` through the argument `ParseFloat` of the parser.
* A Go run-time panic is `Except.error (Fault.panic msg)`.
* Objects live behind pointers.  `Object.NULL`, `Object.TRUE`, `Object.FALSE` are the three
  package-level singletons of the evaluator; every other object carries the address `addr` of
  its allocation, and pointer comparison is `pointerEq`.  A function that allocates its result
  takes the address of the new allocation as the argument `fresh`.
* In the package `algorithms` a slice is the `List` of its elements; a function that writes
  into a slice returns the slice after the call.
* What `Eval` can mutate is in a `Heap` that is passed through the evaluation: the
  environments, the backing arrays of the lists, and the maps of the dicts and of the sets.
  The `Elements` of a list are a `Slice`, a Go slice header (array, offset, length, capacity),
  so that two lists may share one backing array.  What the Go run time chooses (the spare
  capacity `append` leaves, the order in which `range` visits a map) is a field of `Host`.
* Recursion whose depth the input does not bound beforehand (`QuickSort`, the parse methods,
  `Eval`) takes a budget `fuel`; its exhaustion is `Fault.outOfFuel`.
* The lexer is the list of the tokens it has yet to produce.
-/

namespace Simpyl

/-- Abnormal ends of a computation: a Go run-time panic, exhaustion of the recursion budget of
a fuel-indexed definition, or an input outside the fragment a definition embeds. -/
inductive Fault where
  | panic (msg : String)
  | outOfFuel
  | outsideFragment
deriving DecidableEq, Repr

deriving instance DecidableEq for Except

/-! ## Machine numbers -/

/-- Two's-complement reduction of an integer to the `int64` range `[-2^63, 2^63)`. -/
def wrap64 (x : Int) : Int := (x + 2 ^ 63) % 2 ^ 64 - 2 ^ 63

/-- Membership in the `int64` range. -/
def isInt64 (x : Int) : Prop := -(2 ^ 63) ≤ x ∧ x < 2 ^ 63

instance (x : Int) : Decidable (isInt64 x) := by unfold isInt64; infer_instance

/-- A point of the extended real line. -/
inductive ExtReal where
  | negInf
  | fin (q : ℚ)
  | posInf
deriving DecidableEq

namespace ExtReal

/-- The order of the extended real line. -/
def le : ExtReal → ExtReal → Bool
  | negInf, _ => true
  | _, posInf => true
  | fin a, fin b => decide (a ≤ b)
  | fin _, negInf => false
  | posInf, negInf => false
  | posInf, fin _ => false

end ExtReal

/-- A Go `float64`, by what it denotes: NaN, an infinity, the negative zero, or `Finite q`
for the double of real value `q` (`Finite 0` is the positive zero). -/
inductive Float64 where
  | NaN
  | NegInf
  | NegZero
  | Finite (q : ℚ)
  | PosInf
deriving DecidableEq

namespace Float64

/-- The extended real a double denotes; NaN denotes none, both zeros denote `0`. -/
def ext : Float64 → Option ExtReal
  | NaN => none
  | NegInf => some .negInf
  | NegZero => some (.fin 0)
  | Finite q => some (.fin q)
  | PosInf => some .posInf

/-- IEEE 754 `<=`: false as soon as one side is NaN, otherwise the order of the extended
reals. -/
def le (a b : Float64) : Bool :=
  match a.ext, b.ext with
  | some x, some y => ExtReal.le x y
  | _, _ => false

/-- IEEE 754 `<`. -/
def lt (a b : Float64) : Bool :=
  match a.ext, b.ext with
  | some x, some y => ExtReal.le x y && !ExtReal.le y x
  | _, _ => false

/-- IEEE 754 `==`: NaN differs from everything, itself included; the two zeros are equal. -/
def eq (a b : Float64) : Bool :=
  match a.ext, b.ext with
  | some x, some y => ExtReal.le x y && ExtReal.le y x
  | _, _ => false

/-- Number of binary digits of `n`, for `n < 2 ^ fuel`. -/
def bitLen : Nat → Nat → Nat
  | 0, _ => 0
  | fuel + 1, n => if n = 0 then 0 else bitLen fuel (n / 2) + 1

/-- Round a natural number below `2 ^ 64` to 53 significant bits, ties to even. -/
def roundNat53 (n : Nat) : Nat :=
  if n < 2 ^ 53 then n
  else
    let e := bitLen 64 n - 53
    let q := n / 2 ^ e
    let r := n % 2 ^ e
    let half := 2 ^ (e - 1)
    let q1 := if half < r ∨ (r = half ∧ q % 2 = 1) then q + 1 else q
    q1 * 2 ^ e

/-- The conversion `float64(v)` of an `int64`: exact up to 53 bits, rounded to nearest even
beyond. -/
def ofInt64 (v : Int) : Float64 :=
  if 0 ≤ v then Finite (roundNat53 v.toNat) else Finite (-(roundNat53 (-v).toNat : ℚ))

end Float64

/-- The rounded `float64` operations of the host (`+`, `-`, `*`, `/` and unary minus). -/
structure FloatArith where
  add : Float64 → Float64 → Float64
  sub : Float64 → Float64 → Float64
  mul : Float64 → Float64 → Float64
  div : Float64 → Float64 → Float64
  neg : Float64 → Float64

/-- An arithmetic that answers NaN to every operation; it instantiates, at a concrete value,
statements that hold for every host arithmetic. -/
def FloatArith.allNaN : FloatArith :=
  ⟨fun _ _ => .NaN, fun _ _ => .NaN, fun _ _ => .NaN, fun _ _ => .NaN, fun _ => .NaN⟩

/-! ## package token -/

namespace token

/-- Token kinds are strings in the source (`type TokenType string`). -/
abbrev TokenType := String

/-- A token: its kind and the source lexeme. -/
structure Token where
  Type_ : TokenType
  Literal : String
deriving DecidableEq, Repr

def ILLEGAL : TokenType := "ILLEGAL"
def EOF : TokenType := "EOF"
def TAB : TokenType := "\t"
def NEWLINE : TokenType := "\n"
def IDENT : TokenType := "IDENT"
def INT : TokenType := "INT"
def FLOAT : TokenType := "FLOAT"
def STRING : TokenType := "STRING"
def ASSIGN : TokenType := "="
def PLUS : TokenType := "+"
def MINUS : TokenType := "-"
def BANG : TokenType := "!"
def ASTERISK : TokenType := "*"
def SLASH : TokenType := "/"
def LT : TokenType := "<"
def GT : TokenType := ">"
def EQ : TokenType := "=="
def NOT_EQ : TokenType := "!="
def COMMA : TokenType := ","
def SEMICOLON : TokenType := ";"
def COLON : TokenType := ":"
def DOT : TokenType := "."
def LPAREN : TokenType := "("
def RPAREN : TokenType := ")"
def LBRACE : TokenType := "\x7b"
def RBRACE : TokenType := "\x7d"
def LBRACKET : TokenType := "["
def RBRACKET : TokenType := "]"
def FUNCTION : TokenType := "FUNCTION"
def LET : TokenType := "LET"
def TRUE : TokenType := "TRUE"
def FALSE : TokenType := "FALSE"
def IF : TokenType := "IF"
def ELSE : TokenType := "ELSE"
def RETURN : TokenType := "RETURN"
def FOR : TokenType := "FOR"
def IN : TokenType := "IN"
def WHILE : TokenType := "WHILE"

end token

/-! ## package ast

Interface-typed and pointer-typed fields may hold Go `nil`; they are `Option`s.  A statement
interface holding a nil pointer of a concrete statement type (what `parseStatement` hands back
when `parseLetStatement` and its siblings return `nil`) is `Statement.NilPointer`. -/

namespace ast

/-- The node `*ast.Identifier`. -/
structure Identifier where
  Token : token.Token
  Value : String
deriving DecidableEq, Repr

mutual

/-- The expression nodes. -/
inductive Expression where
  | Identifier (Token : token.Token) (Value : String)
  | IntegerLiteral (Token : token.Token) (Value : Int)
  | FloatLiteral (Token : token.Token) (Value : Float64)
  | Boolean (Token : token.Token) (Value : Bool)
  | StringLiteral (Token : token.Token) (Value : String)
  | PrefixExpression (Token : token.Token) (Operator : String) (Right : Option Expression)
  | ListLiteral (Token : token.Token) (Elements : List (Option Expression))
  | DictLiteral (Token : token.Token) (Pairs : List (Option Expression × Option Expression))
  | IndexExpression (Token : token.Token) (Left : Option Expression) (Index : Option Expression)
      (Colon : Bool) (EndIndex : Option Expression)
  | IndexAssignExpression (Token : token.Token) (Left : Option Expression)
      (Index : Option Expression) (Colon : Bool) (EndIndex : Option Expression)
      (Value : Option Expression)
  | ObjectMethod (Obj : Option Expression) (Token : token.Token) (Method : Option Expression)
  | InfixExpression (Token : token.Token) (Left : Option Expression) (Operator : String)
      (Right : Option Expression)
  | IfExpression (Token : token.Token) (Condition : Option Expression)
      (Consequence : Option BlockStatement) (Alternative : Option BlockStatement)
  | CallExpression (Token : token.Token) (Function : Option Expression)
      (Arguments : List (Option Expression))
  | InExpression (Token : token.Token) (Left : Option Expression) (Right : Option Expression)

/-- The statement nodes. -/
inductive Statement where
  | LetStatement (Token : token.Token) (Name : Option Identifier) (Value : Option Expression)
  | ReturnStatement (Token : token.Token) (ReturnValue : Option Expression)
  | ExpressionStatement (Token : token.Token) (Expression : Option Expression)
  | FunctionStatement (Token : token.Token) (Name : String) (Parameters : List Identifier)
      (Body : Option BlockStatement)
  | ForStatement (Token : token.Token) (Iterator : Option Identifier)
      (Iterable : Option Expression) (Body : Option BlockStatement)
  | WhileStatement (Token : token.Token) (Condition : Option Expression)
      (Body : Option BlockStatement)
  | Block (block : BlockStatement)
  | NilPointer (typeName : String)

/-- The node `*ast.BlockStatement`. -/
inductive BlockStatement where
  | mk (Token : token.Token) (Statements : List Statement)

end

/-- The root node `*ast.Program`. -/
structure Program where
  Statements : List Statement

end ast

/-! ## package object -/

namespace object

/-- Object type tags are strings in the source (`type ObjectType string`). -/
abbrev ObjectType := String

def INTEGER_OBJ : ObjectType := "INTEGER"
def FLOAT_OBJ : ObjectType := "FLOAT"
def BOOLEAN_OBJ : ObjectType := "BOOLEAN"
def STRING_OBJ : ObjectType := "STRING"
def NULL_OBJ : ObjectType := "NULL"
def RETURN_VALUE_OBJ : ObjectType := "RETURN_VALUE"
def ERROR_OBJ : ObjectType := "ERROR"
def FUNCTION_OBJ : ObjectType := "FUNCTION"
def BUILTIN_OBJ : ObjectType := "BUILTIN"
def SYSCALL_OBJ : ObjectType := "SYSCALL"
def LIST_OBJ : ObjectType := "LIST"
def DICT_OBJ : ObjectType := "DICT"
def SET_OBJ : ObjectType := "SET"

/-- The struct `HashKey`. -/
structure HashKey where
  Type_ : ObjectType
  Value : Nat
deriving DecidableEq, Repr

/-- A non-nil `object.Object`: a pointer to one of the object structs, together with the
contents of that struct when the program never writes to it after its allocation.  `NULL`,
`TRUE` and `FALSE` are the evaluator's package-level variables (the one `Null` and the two
`Boolean`s allocated by the package `evaluator`); the program allocates no other `Null`.
Every other constructor is an object allocated at address `addr`; `Boolean addr v` is a
`*object.Boolean` other than the two singletons.  The structs `List`, `Dict` and `Set` are
written to after their allocation (index assignment, the container methods), so a pointer to
one of them is its address alone and the contents are in the `Heap`. -/
inductive Object where
  | NULL
  | TRUE
  | FALSE
  | Integer (addr : Nat) (Value : Int)
  | Float (addr : Nat) (Value : Float64)
  | Boolean (addr : Nat) (Value : Bool)
  | String (addr : Nat) (Value : String)
  | List (addr : Nat)
  | Dict (addr : Nat)
  | Set (addr : Nat)
  | ReturnValue (addr : Nat) (Value : Option Object)
  | Error (addr : Nat) (Message : String)
  | Function (addr : Nat) (Name : String) (Parameters : List ast.Identifier)
      (Body : Option ast.BlockStatement) (Env : Nat)
  | Builtin (addr : Nat) (name : String)
  | BuiltinMethod (addr : Nat) (name : String)

/-- The method `Type()` of each object struct. -/
def Type_ : Object → ObjectType
  | .NULL => NULL_OBJ
  | .TRUE => BOOLEAN_OBJ
  | .FALSE => BOOLEAN_OBJ
  | .Integer _ _ => INTEGER_OBJ
  | .Float _ _ => FLOAT_OBJ
  | .Boolean _ _ => BOOLEAN_OBJ
  | .String _ _ => STRING_OBJ
  | .List _ => LIST_OBJ
  | .Dict _ => DICT_OBJ
  | .Set _ => SET_OBJ
  | .ReturnValue _ _ => RETURN_VALUE_OBJ
  | .Error _ _ => ERROR_OBJ
  | .Function _ _ _ _ _ => FUNCTION_OBJ
  | .Builtin _ _ => BUILTIN_OBJ
  | .BuiltinMethod _ _ => BUILTIN_OBJ

/-- The field `Value` of a `*object.Boolean`. -/
def boolValue : Object → Option Bool
  | .TRUE => some true
  | .FALSE => some false
  | .Boolean _ v => some v
  | _ => none

/-- Comparison of two interface values holding pointers (`left == right`): the same dynamic
type and the same address. -/
def pointerEq : Object → Object → Bool
  | .NULL, .NULL => true
  | .TRUE, .TRUE => true
  | .FALSE, .FALSE => true
  | .Integer a _, .Integer b _ => a == b
  | .Float a _, .Float b _ => a == b
  | .Boolean a _, .Boolean b _ => a == b
  | .String a _, .String b _ => a == b
  | .List a, .List b => a == b
  | .Dict a, .Dict b => a == b
  | .Set a, .Set b => a == b
  | .ReturnValue a _, .ReturnValue b _ => a == b
  | .Error a _, .Error b _ => a == b
  | .Function a _ _ _ _, .Function b _ _ _ _ => a == b
  | .Builtin a _, .Builtin b _ => a == b
  | .BuiltinMethod a _, .BuiltinMethod b _ => a == b
  | _, _ => false

end object

/-! ## package algorithms -/

namespace algorithms

open object

/-- The table `typeMap`; a key that is absent reads as `0`, as a Go map does. -/
def typeMap (t : ObjectType) : Nat :=
  if t = "INTEGER" then 1
  else if t = "FLOAT" then 2
  else if t = "STRING" then 3
  else 0

/-- The comparator `mergeCompare` (`<=` of the mixed order). -/
def mergeCompare (a b : Object) : Except Fault Bool :=
  let ind := 10 * typeMap (Type_ a) + typeMap (Type_ b)
  match ind, a, b with
  | 11, .Integer _ x, .Integer _ y => .ok (decide (x ≤ y))
  | 12, .Integer _ x, .Float _ y => .ok (Float64.le (Float64.ofInt64 x) y)
  | 13, _, _ => .ok true
  | 21, .Float _ x, .Integer _ y => .ok (Float64.le x (Float64.ofInt64 y))
  | 22, .Float _ x, .Float _ y => .ok (Float64.le x y)
  | 23, _, _ => .ok true
  | 31, _, _ => .ok false
  | 32, _, _ => .ok false
  | 33, .String _ x, .String _ y => .ok (decide (x ≤ y))
  | _, _, _ => .error (.panic "Invalid type comparison")

/-- The loop of `merge`: `result` is the slice built so far, `left` and `right` what remains
of the two inputs.  With both inputs empty the loop is not entered and `result` is returned,
which is the first case at `right = []`. -/
def mergeLoop (result : List Object) (left right : List Object) :
    Except Fault (List Object) :=
  match left, right with
  | [], right => .ok (result ++ right)
  | a :: l, [] => .ok (result ++ a :: l)
  | a :: l, b :: r =>
    match mergeCompare a b with
    | .error e => .error e
    | .ok true => mergeLoop (result ++ [a]) l (b :: r)
    | .ok false => mergeLoop (result ++ [b]) (a :: l) r
termination_by left.length + right.length

/-- The function `merge`. -/
def merge (left right : List Object) : Except Fault (List Object) :=
  mergeLoop [] left right

/-- The function `MergeSort`. -/
def MergeSort (arr : List Object) : Except Fault (List Object) :=
  if _h : arr.length ≤ 1 then .ok arr
  else
    let middle := arr.length / 2
    match MergeSort (arr.take middle) with
    | .error e => .error e
    | .ok left =>
      match MergeSort (arr.drop middle) with
      | .error e => .error e
      | .ok right => merge left right
termination_by arr.length
decreasing_by
  all_goals simp_wf
  all_goals omega

/-- The comparator `quickCompare` (`<` of the mixed order). -/
def quickCompare (a b : Object) : Except Fault Bool :=
  let ind := 10 * typeMap (Type_ a) + typeMap (Type_ b)
  match ind, a, b with
  | 11, .Integer _ x, .Integer _ y => .ok (decide (x < y))
  | 12, .Integer _ x, .Float _ y => .ok (Float64.lt (Float64.ofInt64 x) y)
  | 13, _, _ => .ok true
  | 21, .Float _ x, .Integer _ y => .ok (Float64.lt x (Float64.ofInt64 y))
  | 22, .Float _ x, .Float _ y => .ok (Float64.lt x y)
  | 23, _, _ => .ok true
  | 31, _, _ => .ok false
  | 32, _, _ => .ok false
  | 33, .String _ x, .String _ y => .ok (decide (x < y))
  | _, _, _ => .error (.panic "Invalid type comparison")

/-- The slice read `arr[i]`; an index outside the slice panics. -/
def index (arr : List Object) (i : Int) : Except Fault Object :=
  if 0 ≤ i then
    match arr[i.toNat]? with
    | some x => .ok x
    | none => .error (.panic "index out of range")
  else .error (.panic "index out of range")

/-- The assignment `arr[i], arr[j] = arr[j], arr[i]`. -/
def swap (arr : List Object) (i j : Int) : Except Fault (List Object) :=
  match index arr j with
  | .error e => .error e
  | .ok aj =>
    match index arr i with
    | .error e => .error e
    | .ok ai => .ok ((arr.set i.toNat aj).set j.toNat ai)

/-- The `for j := low; j < high; j++` loop of `partition`, entered with the current `i` and
`j`; it returns the array and the final `i`. -/
def partitionLoop (pivot : Object) (high : Int) (arr : List Object) (i j : Int) :
    Except Fault (List Object × Int) :=
  if j < high then
    match index arr j with
    | .error e => .error e
    | .ok aj =>
      match quickCompare aj pivot with
      | .error e => .error e
      | .ok true =>
        match swap arr (i + 1) j with
        | .error e => .error e
        | .ok arr1 => partitionLoop pivot high arr1 (i + 1) (j + 1)
      | .ok false => partitionLoop pivot high arr i (j + 1)
  else .ok (arr, i)
termination_by (high - j).toNat
decreasing_by
  all_goals simp_wf
  all_goals omega

/-- The function `partition`: the array after the call and the returned index. -/
def partition (arr : List Object) (low high : Int) : Except Fault (List Object × Int) :=
  match index arr high with
  | .error e => .error e
  | .ok pivot =>
    match partitionLoop pivot high arr (low - 1) low with
    | .error e => .error e
    | .ok (arr1, i) =>
      match swap arr1 (i + 1) high with
      | .error e => .error e
      | .ok arr2 => .ok (arr2, i + 1)

/-- The function `QuickSort`, which sorts `arr` in place: the array after the call.  `fuel`
bounds the depth of the recursion. -/
def QuickSort : Nat → List Object → Int → Int → Except Fault (List Object)
  | 0, _, _, _ => .error .outOfFuel
  | fuel + 1, arr, low, high =>
    if low < high then
      match partition arr low high with
      | .error e => .error e
      | .ok (arr1, pi) =>
        match QuickSort fuel arr1 low (pi - 1) with
        | .error e => .error e
        | .ok arr2 => QuickSort fuel arr2 (pi + 1) high
    else .ok arr

/-- The field `Value` of a `*object.Integer`. -/
def integerValue : Object → Option Int
  | .Integer _ v => some v
  | _ => none

/-- The value of an Integer object (`0` for any other object). -/
def ival : Object → Int
  | .Integer _ v => v
  | _ => 0

/-- The list `arr` with the elements at positions `i` and `j` exchanged (unchanged when a
position is outside the list). -/
def swapAt (arr : List Object) (i j : Nat) : List Object :=
  match arr[i]?, arr[j]? with
  | some a, some b => (arr.set i b).set j a
  | _, _ => arr

/-- The objects the sort comparators accept: Integer, Float and String values (the keys of
`typeMap`). -/
def comparable : Object → Bool
  | .Integer _ _ => true
  | .Float _ _ => true
  | .String _ _ => true
  | _ => false

/-- The proposition "`a <= b` in the order of `mergeCompare`". -/
def mergeLE (a b : Object) : Prop := mergeCompare a b = .ok true

instance (a b : Object) : Decidable (mergeLE a b) := by unfold mergeLE; infer_instance

/-- The comparator is total on the elements of `L`. -/
def totalOn (L : List Object) : Prop :=
  ∀ a ∈ L, ∀ b ∈ L, mergeLE a b ∨ mergeLE b a

/-- The comparator is transitive on the elements of `L`. -/
def transOn (L : List Object) : Prop :=
  ∀ a ∈ L, ∀ b ∈ L, ∀ c ∈ L, mergeLE a b → mergeLE b c → mergeLE a c

instance (L : List Object) : Decidable (totalOn L) := by unfold totalOn; infer_instance

instance (L : List Object) : Decidable (transOn L) := by unfold transOn; infer_instance

/-- Stability of a sort with input `L` and output `out`: whenever `p` selects elements of `L`
that are pairwise equivalent under the order (each `<=` the other), the selected elements occur
in `out` in the same order as in `L`.  Taking for `p` the test "is `a` or is `b`" gives the
statement for two elements. -/
def stable (L out : List Object) : Prop :=
  ∀ p : Object → Bool,
    (∀ x ∈ L, ∀ y ∈ L, p x = true → p y = true → mergeLE x y ∧ mergeLE y x) →
    out.filter p = L.filter p

/-- Integer and String objects. -/
def integerOrString : Object → Bool
  | .Integer _ _ => true
  | .String _ _ => true
  | _ => false

/-- Integer objects. -/
def isInteger : Object → Bool
  | .Integer _ _ => true
  | _ => false

/-- String objects. -/
def isString : Object → Bool
  | .String _ _ => true
  | _ => false

/-- The order of section 4.5 on Integers and Strings, written out: Integers by value, Strings
lexicographically, every Integer before every String. -/
def integerStringLE : Object → Object → Prop
  | .Integer _ x, .Integer _ y => x ≤ y
  | .Integer _ _, .String _ _ => True
  | .String _ x, .String _ y => x ≤ y
  | _, _ => False

end algorithms

/-! ## package evaluator: operators -/

namespace evaluator

open object

/-- The call `newError(format, a...)`: a newly allocated `*object.Error` holding the formatted
message. -/
def newError (fresh : Nat) (message : String) : Object := .Error fresh message

/-- The function `isError`; the argument may be the nil interface. -/
def isError (obj : Option Object) : Bool :=
  match obj with
  | some o => Type_ o == ERROR_OBJ
  | none => false

/-- The function `nativeBoolToBooleanObject`: one of the two Boolean singletons. -/
def nativeBoolToBooleanObject (input : Bool) : Object :=
  if input then .TRUE else .FALSE

/-- The function `isTruthy`.  Its first three cases compare pointers with the singletons. -/
def isTruthy (obj : Object) : Bool :=
  if pointerEq obj .NULL then false
  else if pointerEq obj .TRUE then true
  else if pointerEq obj .FALSE then false
  else
    match obj with
    | .Integer _ Value => if Value = 0 then false else true
    | _ => true

/-- The function `evalBangOperatorExpression`: a `switch` on the pointer `right`. -/
def evalBangOperatorExpression (right : Object) : Object :=
  if pointerEq right .TRUE then .FALSE
  else if pointerEq right .FALSE then .TRUE
  else if pointerEq right .NULL then .TRUE
  else .FALSE

/-- The function `evalMinusPrefixOperatorExpression`. -/
def evalMinusPrefixOperatorExpression (fa : FloatArith) (fresh : Nat) (right : Object) :
    Object :=
  match right with
  | .Integer _ value => .Integer fresh (wrap64 (-value))
  | .Float _ value => .Float fresh (fa.neg value)
  | _ => newError fresh ("unknown operator: -" ++ Type_ right)

/-- The function `evalPrefixExpression`. -/
def evalPrefixExpression (fa : FloatArith) (fresh : Nat) (operator : String) (right : Object) :
    Object :=
  if operator = "!" then evalBangOperatorExpression right
  else if operator = "-" then evalMinusPrefixOperatorExpression fa fresh right
  else newError fresh ("unknown operator: " ++ operator ++ Type_ right)

/-- The function `evalIntegerInfixExpression`.  Integer division by zero is a run-time panic
of the host language. -/
def evalIntegerInfixExpression (fresh : Nat) (operator : String) (left right : Object) :
    Except Fault Object :=
  match left, right with
  | .Integer _ leftVal, .Integer _ rightVal =>
    if operator = "+" then .ok (.Integer fresh (wrap64 (leftVal + rightVal)))
    else if operator = "-" then .ok (.Integer fresh (wrap64 (leftVal - rightVal)))
    else if operator = "*" then .ok (.Integer fresh (wrap64 (leftVal * rightVal)))
    else if operator = "/" then
      if rightVal = 0 then .error (.panic "runtime error: integer divide by zero")
      else .ok (.Integer fresh (wrap64 (Int.tdiv leftVal rightVal)))
    else if operator = "<" then .ok (nativeBoolToBooleanObject (decide (leftVal < rightVal)))
    else if operator = ">" then .ok (nativeBoolToBooleanObject (decide (leftVal > rightVal)))
    else if operator = "==" then .ok (nativeBoolToBooleanObject (decide (leftVal = rightVal)))
    else if operator = "!=" then .ok (nativeBoolToBooleanObject (decide (leftVal ≠ rightVal)))
    else .ok (newError fresh
      ("unknown operator: " ++ Type_ left ++ " " ++ operator ++ " " ++ Type_ right))
  | _, _ => .error (.panic "interface conversion: object.Object is not *object.Integer")

/-- The operand promotion at the head of `evalFloatInfixExpression`: the value of a Float, the
conversion of an Integer, and the initial `float64(0)` for any other object. -/
def floatOperand (obj : Object) : Float64 :=
  match obj with
  | .Float _ v => v
  | .Integer _ v => Float64.ofInt64 v
  | _ => Float64.Finite 0

/-- The function `evalFloatInfixExpression`. -/
def evalFloatInfixExpression (fa : FloatArith) (fresh : Nat) (operator : String)
    (left right : Object) : Object :=
  let leftVal := floatOperand left
  let rightVal := floatOperand right
  if operator = "+" then .Float fresh (fa.add leftVal rightVal)
  else if operator = "-" then .Float fresh (fa.sub leftVal rightVal)
  else if operator = "*" then .Float fresh (fa.mul leftVal rightVal)
  else if operator = "/" then .Float fresh (fa.div leftVal rightVal)
  else if operator = "<" then nativeBoolToBooleanObject (Float64.lt leftVal rightVal)
  else if operator = ">" then nativeBoolToBooleanObject (Float64.lt rightVal leftVal)
  else if operator = "==" then nativeBoolToBooleanObject (Float64.eq leftVal rightVal)
  else if operator = "!=" then nativeBoolToBooleanObject (!Float64.eq leftVal rightVal)
  else newError fresh
    ("unknown operator: " ++ Type_ left ++ " " ++ operator ++ " " ++ Type_ right)

/-- The function `evalStringInfixExpression`.  The two comparison cases allocate a new
`object.Boolean` for their result. -/
def evalStringInfixExpression (fresh : Nat) (operator : String) (left right : Object) :
    Except Fault Object :=
  if operator = "+" then
    match left, right with
    | .String _ leftVal, .String _ rightVal => .ok (.String fresh (leftVal ++ rightVal))
    | _, _ => .error (.panic "interface conversion: object.Object is not *object.String")
  else if operator = "==" then
    match left, right with
    | .String _ leftVal, .String _ rightVal => .ok (.Boolean fresh (decide (leftVal = rightVal)))
    | _, _ => .error (.panic "interface conversion: object.Object is not *object.String")
  else if operator = "!=" then
    match left, right with
    | .String _ leftVal, .String _ rightVal => .ok (.Boolean fresh (decide (leftVal ≠ rightVal)))
    | _, _ => .error (.panic "interface conversion: object.Object is not *object.String")
  else .ok (newError fresh
    ("unknown operator: " ++ Type_ left ++ " " ++ operator ++ " " ++ Type_ right))

/-- The function `evalInfixExpression`. -/
def evalInfixExpression (fa : FloatArith) (fresh : Nat) (operator : String)
    (left right : Object) : Except Fault Object :=
  if Type_ left = INTEGER_OBJ ∧ Type_ right = INTEGER_OBJ then
    evalIntegerInfixExpression fresh operator left right
  else if Type_ left = FLOAT_OBJ ∨ Type_ right = FLOAT_OBJ then
    .ok (evalFloatInfixExpression fa fresh operator left right)
  else if Type_ left = STRING_OBJ ∧ Type_ right = STRING_OBJ then
    evalStringInfixExpression fresh operator left right
  else if operator = "==" then .ok (nativeBoolToBooleanObject (pointerEq left right))
  else if operator = "!=" then .ok (nativeBoolToBooleanObject (!pointerEq left right))
  else if Type_ left ≠ Type_ right then
    .ok (newError fresh
      ("type mismatch: " ++ Type_ left ++ " " ++ operator ++ " " ++ Type_ right))
  else
    .ok (newError fresh
      ("unknown operator: " ++ Type_ left ++ " " ++ operator ++ " " ++ Type_ right))

/-- The operators a pair of operands of type `t` supports: arithmetic and comparisons for the
numeric types, `+`, `==`, `!=` for Strings, `==` and `!=` for every other type. -/
def supportsOperator (t : ObjectType) (operator : String) : Bool :=
  if t = INTEGER_OBJ ∨ t = FLOAT_OBJ then
    operator ∈ ["+", "-", "*", "/", "<", ">", "==", "!="]
  else if t = STRING_OBJ then operator ∈ ["+", "==", "!="]
  else operator ∈ ["==", "!="]

end evaluator

/-! ## package evaluator: `Eval` without environment

The cases of `Eval` that read neither the environment nor a container: the nil node, the
literals, prefix and infix expressions, if-expressions, and expression, return and block
statements.  Every other node is outside this fragment (`Fault.outsideFragment`).  `next` is
the next free address; a result holds the address that is free afterwards. -/

namespace evaluator

open object

mutual

/-- The cases of `Eval` for expressions. -/
def EvalFragment (fa : FloatArith) :
    Nat → Option ast.Expression → Nat → Except Fault (Option Object × Nat)
  | 0, _, _ => .error .outOfFuel
  | fuel + 1, node, next =>
    match node with
    | none => .ok (none, next)
    | some (.IntegerLiteral _ value) => .ok (some (.Integer next value), next + 1)
    | some (.FloatLiteral _ value) => .ok (some (.Float next value), next + 1)
    | some (.Boolean _ value) => .ok (some (nativeBoolToBooleanObject value), next)
    | some (.StringLiteral _ value) => .ok (some (.String next value), next + 1)
    | some (.PrefixExpression _ operator right) => do
      let (r, next1) ← EvalFragment fa fuel right next
      if isError r then pure (r, next1)
      else
        match r with
        | some right => pure (some (evalPrefixExpression fa next1 operator right), next1 + 1)
        | none =>
          if operator = "!" then pure (some .FALSE, next1)
          else .error (.panic "invalid memory address or nil pointer dereference")
    | some (.InfixExpression _ left operator right) => do
      let (l, next1) ← EvalFragment fa fuel left next
      let (r, next2) ← EvalFragment fa fuel right next1
      if isError l then pure (l, next2)
      else if isError r then pure (r, next2)
      else
        match l, r with
        | some l, some r => do
          let v ← evalInfixExpression fa next2 operator l r
          pure (some v, next2 + 1)
        | _, _ => .error (.panic "invalid memory address or nil pointer dereference")
    | some (.IfExpression _ condition consequence alternative) =>
      evalIfExpressionFragment fa fuel condition consequence alternative next
    | some _ => .error .outsideFragment
termination_by structural fuel => fuel

/-- The function `evalIfExpression`. -/
def evalIfExpressionFragment (fa : FloatArith) :
    Nat → Option ast.Expression → Option ast.BlockStatement → Option ast.BlockStatement →
    Nat → Except Fault (Option Object × Nat)
  | 0, _, _, _, _ => .error .outOfFuel
  | fuel + 1, condition, consequence, alternative, next => do
    let (c, next1) ← EvalFragment fa fuel condition next
    if isError c then pure (c, next1)
    else
      match c with
      | none => .error (.panic "invalid memory address or nil pointer dereference")
      | some cond =>
        if isTruthy cond then
          match consequence with
          | some (.mk _ statements) => evalBlockStatementFragment fa fuel statements none next1
          | none => .error (.panic "invalid memory address or nil pointer dereference")
        else
          match alternative with
          | some (.mk _ statements) => evalBlockStatementFragment fa fuel statements none next1
          | none => pure (some .NULL, next1)
termination_by structural fuel => fuel

/-- The cases of `Eval` for statements. -/
def EvalStatementFragment (fa : FloatArith) :
    Nat → ast.Statement → Nat → Except Fault (Option Object × Nat)
  | 0, _, _ => .error .outOfFuel
  | fuel + 1, stmt, next =>
    match stmt with
    | .ExpressionStatement _ expression => EvalFragment fa fuel expression next
    | .Block (.mk _ statements) => evalBlockStatementFragment fa fuel statements none next
    | .ReturnStatement _ returnValue => do
      let (val, next1) ← EvalFragment fa fuel returnValue next
      if isError val then pure (val, next1)
      else pure (some (.ReturnValue next1 val), next1 + 1)
    | .NilPointer _ => .error (.panic "invalid memory address or nil pointer dereference")
    | _ => .error .outsideFragment
termination_by structural fuel => fuel

/-- The loop of `evalBlockStatement` over the statements that remain, `result` being the value
of the last statement evaluated. -/
def evalBlockStatementFragment (fa : FloatArith) :
    Nat → List ast.Statement → Option Object → Nat → Except Fault (Option Object × Nat)
  | 0, _, _, _ => .error .outOfFuel
  | fuel + 1, statements, result, next =>
    match statements with
    | [] => .ok (result, next)
    | statement :: rest => do
      let (result1, next1) ← EvalStatementFragment fa fuel statement next
      match result1 with
      | some r =>
        if Type_ r = RETURN_VALUE_OBJ ∨ Type_ r = ERROR_OBJ then pure (result1, next1)
        else evalBlockStatementFragment fa fuel rest result1 next1
      | none => evalBlockStatementFragment fa fuel rest result1 next1
termination_by structural fuel => fuel

end

/-- The loop of `evalProgram` over the statements that remain, `result` being the value of the
last statement evaluated. -/
def evalProgramFragment (fa : FloatArith) (fuel : Nat) :
    List ast.Statement → Option Object → Nat → Except Fault (Option Object × Nat)
  | [], result, next => .ok (result, next)
  | statement :: rest, _, next =>
    match EvalStatementFragment fa fuel statement next with
    | .error e => .error e
    | .ok (result, next1) =>
      match result with
      | some (.ReturnValue _ value) => .ok (value, next1)
      | some (.Error addr message) => .ok (some (.Error addr message), next1)
      | _ => evalProgramFragment fa fuel rest result next1

end evaluator

/-! ## package parser -/

namespace parser

open token

def LOWEST : Nat := 1
def EQUALS : Nat := 2
def LESSGREATER : Nat := 3
def SUM : Nat := 4
def PRODUCT : Nat := 5
def PREFIX : Nat := 6
def CALL : Nat := 7
def INDEX : Nat := 8

/-- The table `precedences`. -/
def precedences (t : TokenType) : Option Nat :=
  if t = IN then some EQUALS
  else if t = EQ then some EQUALS
  else if t = NOT_EQ then some EQUALS
  else if t = token.LT then some LESSGREATER
  else if t = token.GT then some LESSGREATER
  else if t = PLUS then some SUM
  else if t = MINUS then some SUM
  else if t = SLASH then some PRODUCT
  else if t = ASTERISK then some PRODUCT
  else if t = LPAREN then some CALL
  else if t = DOT then some CALL
  else if t = LBRACKET then some INDEX
  else none

/-- Modelled from the spec: the lexer (`lexer.go` is not among the sources).  The lexer is the
list of the tokens it has yet to produce; `NextToken` hands out the next one and returns `EOF`
indefinitely once the list is exhausted. -/
def NextToken (l : List Token) : Token × List Token :=
  match l with
  | [] => (⟨EOF, ""⟩, [])
  | tok :: rest => (tok, rest)

/-- The struct `Parser`; the two tables of parse functions are the definitions
`prefixParseFns` and `infixParseFns` below. -/
structure Parser where
  l : List Token
  curToken : Token
  peekToken : Token
  errors : List String
  spacing : Int
  skipFlag : Bool
deriving DecidableEq, Repr

/-- The method `nextToken`. -/
def nextToken (p : Parser) : Parser :=
  { p with curToken := p.peekToken, peekToken := (NextToken p.l).1, l := (NextToken p.l).2 }

/-- The constructor `New`. -/
def New (l : List Token) : Parser :=
  nextToken (nextToken
    { l := l, curToken := ⟨"", ""⟩, peekToken := ⟨"", ""⟩, errors := [], spacing := 0,
      skipFlag := true })

/-- The method `curTokenIs`. -/
def curTokenIs (p : Parser) (t : TokenType) : Bool := p.curToken.Type_ == t

/-- The method `peekTokenIs`. -/
def peekTokenIs (p : Parser) (t : TokenType) : Bool := p.peekToken.Type_ == t

/-- The method `expectPeek`. -/
def expectPeek (p : Parser) (t : TokenType) : Bool × Parser :=
  if peekTokenIs p t then (true, nextToken p) else (false, p)

/-- The method `peekPrecedence`. -/
def peekPrecedence (p : Parser) : Nat :=
  match precedences p.peekToken.Type_ with
  | some prec => prec
  | none => LOWEST

/-- The method `curPrecedence`. -/
def curPrecedence (p : Parser) : Nat :=
  match precedences p.curToken.Type_ with
  | some prec => prec
  | none => LOWEST

/-- The method `noPrefixParseFnError`. -/
def noPrefixParseFnError (p : Parser) (t : TokenType) : Parser :=
  { p with errors := p.errors ++ ["no prefix parse function for " ++ t ++ " found"] }

/-- The method `parseSpacing`. -/
def parseSpacing (p : Parser) : Parser :=
  if p.curToken.Type_ = TAB then nextToken { p with spacing := p.spacing + 1 }
  else if p.curToken.Type_ = NEWLINE then nextToken { p with spacing := 0 }
  else
    { p with errors := p.errors ++
        ["expected next token to be " ++ TAB ++ ", got " ++ p.peekToken.Type_ ++ " instead"] }

/-- The loop of `advanceWhitespace`; `n` bounds the iterations left. -/
def advanceWhitespaceLoop : Nat → Parser → Parser
  | 0, p => p
  | n + 1, p =>
    if curTokenIs p TAB || curTokenIs p NEWLINE then advanceWhitespaceLoop n (parseSpacing p)
    else p

/-- The method `advanceWhitespace`.  Every iteration consumes the current token, and after
the pending tokens the current token is `EOF`, so `len + 2` iterations exhaust the loop. -/
def advanceWhitespace (p : Parser) : Parser :=
  advanceWhitespaceLoop (p.l.length + 2) p

/-- The loop `for p.peekTokenIs(token.SEMICOLON) { p.nextToken() }`. -/
def skipSemicolonsLoop : Nat → Parser → Parser
  | 0, p => p
  | n + 1, p => if peekTokenIs p SEMICOLON then skipSemicolonsLoop n (nextToken p) else p

/-- The loop `for p.peekTokenIs(token.SEMICOLON) { p.nextToken() }` with its iteration
bound. -/
def skipSemicolons (p : Parser) : Parser :=
  skipSemicolonsLoop (p.l.length + 2) p

/-- A decimal digit of a literal, when it is a digit of the base. -/
def digitValue (base : Nat) (c : Char) : Option Nat :=
  if '0' ≤ c ∧ c ≤ '9' ∧ c.toNat - 48 < base then some (c.toNat - 48) else none

/-- The digits of a literal read in the given base. -/
def readDigits (base : Nat) : List Char → Nat → Option Nat
  | [], acc => some acc
  | c :: cs, acc =>
    match digitValue base c with
    | some d => readDigits base cs (acc * base + d)
    | none => none

/-- The call `strconv.ParseInt(s, 0, 64)` on a literal of the lexer (a string of decimal
digits): base 8 for the digits after a leading `0`, base 10 otherwise;
`none` stands for a non-nil `err` (empty or malformed literal, or a value beyond `int64`). -/
def ParseInt (s : String) : Option Int :=
  let value : Option Nat :=
    match s.data with
    | [] => none
    | '0' :: cs => readDigits 8 cs 0
    | cs => readDigits 10 cs 0
  match value with
  | some n => if n < 2 ^ 63 then some (n : Int) else none
  | none => none

/-- The method `parseIdentifier`. -/
def parseIdentifier (p : Parser) : Option ast.Expression × Parser :=
  (some (.Identifier p.curToken p.curToken.Literal), p)

/-- The method `parseIntegerLiteral`. -/
def parseIntegerLiteral (p : Parser) : Option ast.Expression × Parser :=
  match ParseInt p.curToken.Literal with
  | some value => (some (.IntegerLiteral p.curToken value), p)
  | none =>
    (none, { p with errors := p.errors ++
      ["could not parse \"" ++ p.curToken.Literal ++ "\" as integer"] })

/-- The method `parseFloatLiteral`; `ParseFloat` is the host's `strconv.ParseFloat(s, 64)`. -/
def parseFloatLiteral (ParseFloat : String → Option Float64) (p : Parser) :
    Option ast.Expression × Parser :=
  match ParseFloat p.curToken.Literal with
  | some value => (some (.FloatLiteral p.curToken value), p)
  | none =>
    (none, { p with errors := p.errors ++
      ["could not parse \"" ++ p.curToken.Literal ++ "\" as float"] })

/-- The method `parseBoolean`. -/
def parseBoolean (p : Parser) : Option ast.Expression × Parser :=
  (some (.Boolean p.curToken (curTokenIs p TRUE)), p)

/-- The method `parseStringLiteral`. -/
def parseStringLiteral (p : Parser) : Option ast.Expression × Parser :=
  (some (.StringLiteral p.curToken p.curToken.Literal), p)

/-- The comma loop of `parseFunctionParameters`. -/
def parseFunctionParametersLoop :
    Nat → List ast.Identifier → Parser → List ast.Identifier × Parser
  | 0, identifiers, p => (identifiers, p)
  | n + 1, identifiers, p =>
    if peekTokenIs p COMMA then
      let p1 := nextToken (nextToken p)
      parseFunctionParametersLoop n (identifiers ++ [⟨p1.curToken, p1.curToken.Literal⟩]) p1
    else (identifiers, p)

/-- The method `parseFunctionParameters`; a `nil` result is the empty list. -/
def parseFunctionParameters (p : Parser) : List ast.Identifier × Parser :=
  if peekTokenIs p RPAREN then ([], nextToken p)
  else
    let p1 := nextToken p
    let r := parseFunctionParametersLoop (p1.l.length + 2)
      [⟨p1.curToken, p1.curToken.Literal⟩] p1
    let e := expectPeek r.2 RPAREN
    if e.1 then (r.1, e.2) else ([], e.2)

/-- The assignment `dict.Pairs[key] = value` on the map of a dict literal.  Keys are
interface values holding pointers to freshly parsed nodes, so two keys coincide only when both
are the nil interface. -/
def pairsSet (pairs : List (Option ast.Expression × Option ast.Expression))
    (key value : Option ast.Expression) :
    List (Option ast.Expression × Option ast.Expression) :=
  match key with
  | some k => pairs ++ [(some k, value)]
  | none =>
    if pairs.any (fun kv => kv.1.isNone) then
      pairs.map (fun kv => if kv.1.isNone then (none, value) else kv)
    else pairs ++ [(none, value)]

/-- The keys of `prefixParseFns`, each with the method registered for it. -/
inductive PrefixParseFn where
  | parseIdentifier
  | parseIntegerLiteral
  | parseFloatLiteral
  | parsePrefixExpression
  | parseBoolean
  | parseGroupedExpression
  | parseIfExpression
  | parseStringLiteral
  | parseListLiteral
  | parseDictLiteral
deriving DecidableEq, Repr

/-- The table `prefixParseFns` filled by `New`. -/
def prefixParseFns (t : TokenType) : Option PrefixParseFn :=
  if t = IDENT then some .parseIdentifier
  else if t = INT then some .parseIntegerLiteral
  else if t = FLOAT then some .parseFloatLiteral
  else if t = BANG then some .parsePrefixExpression
  else if t = MINUS then some .parsePrefixExpression
  else if t = TRUE then some .parseBoolean
  else if t = FALSE then some .parseBoolean
  else if t = LPAREN then some .parseGroupedExpression
  else if t = IF then some .parseIfExpression
  else if t = STRING then some .parseStringLiteral
  else if t = LBRACKET then some .parseListLiteral
  else if t = LBRACE then some .parseDictLiteral
  else none

/-- The methods registered in `infixParseFns`. -/
inductive InfixParseFn where
  | parseInfixExpression
  | parseCallExpression
  | parseIndexExpression
  | parseObjectMethod
  | parseInExpression
deriving DecidableEq, Repr

/-- The table `infixParseFns` filled by `New`. -/
def infixParseFns (t : TokenType) : Option InfixParseFn :=
  if t = PLUS then some .parseInfixExpression
  else if t = MINUS then some .parseInfixExpression
  else if t = SLASH then some .parseInfixExpression
  else if t = ASTERISK then some .parseInfixExpression
  else if t = EQ then some .parseInfixExpression
  else if t = NOT_EQ then some .parseInfixExpression
  else if t = token.LT then some .parseInfixExpression
  else if t = token.GT then some .parseInfixExpression
  else if t = LPAREN then some .parseCallExpression
  else if t = LBRACKET then some .parseIndexExpression
  else if t = DOT then some .parseObjectMethod
  else if t = IN then some .parseInExpression
  else none

/-! The parse methods call each other recursively; `fuel` bounds the nesting of these calls,
and its exhaustion is the only fault.  A method returns its node together with the parser
after the call. -/

mutual

/-- The method `parseStatement`. -/
def parseStatement (ParseFloat : String → Option Float64) :
    Nat → Parser → Except Fault (ast.Statement × Parser)
  | 0, _ => .error .outOfFuel
  | fuel + 1, p =>
    if p.curToken.Type_ = TAB ∨ p.curToken.Type_ = NEWLINE then
      parseStatement ParseFloat fuel (parseSpacing p)
    else if p.curToken.Type_ = LET then parseLetStatement ParseFloat fuel p
    else if p.curToken.Type_ = IDENT ∧ p.peekToken.Type_ = ASSIGN then
      parseIdentStatement ParseFloat fuel p
    else if p.curToken.Type_ = RETURN then parseReturnStatement ParseFloat fuel p
    else if p.curToken.Type_ = FUNCTION then parseFunctionStatement ParseFloat fuel p
    else if p.curToken.Type_ = FOR then parseForStatement ParseFloat fuel p
    else if p.curToken.Type_ = WHILE then parseWhileStatement ParseFloat fuel p
    else parseExpressionStatement ParseFloat fuel p

/-- The method `parseLetStatement`. -/
def parseLetStatement (ParseFloat : String → Option Float64) :
    Nat → Parser → Except Fault (ast.Statement × Parser)
  | 0, _ => .error .outOfFuel
  | fuel + 1, p =>
    let tok := p.curToken
    let e1 := expectPeek p IDENT
    if !e1.1 then .ok (.NilPointer "*ast.LetStatement", e1.2)
    else
      let name : ast.Identifier := ⟨e1.2.curToken, e1.2.curToken.Literal⟩
      let e2 := expectPeek e1.2 ASSIGN
      if !e2.1 then .ok (.NilPointer "*ast.LetStatement", e2.2)
      else do
        let (value, p3) ← parseExpression ParseFloat fuel LOWEST (nextToken e2.2)
        let p4 := if peekTokenIs p3 SEMICOLON then nextToken p3 else p3
        pure (.LetStatement tok (some name) value, p4)

/-- The method `parseIdentStatement`. -/
def parseIdentStatement (ParseFloat : String → Option Float64) :
    Nat → Parser → Except Fault (ast.Statement × Parser)
  | 0, _ => .error .outOfFuel
  | fuel + 1, p =>
    let name : ast.Identifier := ⟨p.curToken, p.curToken.Literal⟩
    let e1 := expectPeek p ASSIGN
    if !e1.1 then .ok (.NilPointer "*ast.LetStatement", e1.2)
    else do
      let (value, p3) ← parseExpression ParseFloat fuel LOWEST (nextToken e1.2)
      pure (.LetStatement ⟨LET, "let"⟩ (some name) value, skipSemicolons p3)

/-- The method `parseReturnStatement`. -/
def parseReturnStatement (ParseFloat : String → Option Float64) :
    Nat → Parser → Except Fault (ast.Statement × Parser)
  | 0, _ => .error .outOfFuel
  | fuel + 1, p => do
    let tok := p.curToken
    let (value, p2) ← parseExpression ParseFloat fuel LOWEST (nextToken p)
    pure (.ReturnStatement tok value, skipSemicolons p2)

/-- The method `parseFunctionStatement`. -/
def parseFunctionStatement (ParseFloat : String → Option Float64) :
    Nat → Parser → Except Fault (ast.Statement × Parser)
  | 0, _ => .error .outOfFuel
  | fuel + 1, p =>
    let tok := p.curToken
    let e1 := expectPeek p IDENT
    if !e1.1 then .ok (.NilPointer "*ast.FunctionStatement", e1.2)
    else
      let name := e1.2.curToken.Literal
      let e2 := expectPeek e1.2 LPAREN
      if !e2.1 then .ok (.NilPointer "*ast.FunctionStatement", e2.2)
      else
        let params := parseFunctionParameters e2.2
        let e3 := expectPeek params.2 COLON
        if !e3.1 then .ok (.NilPointer "*ast.FunctionStatement", e3.2)
        else do
          let (body, p5) ← parseBlockStatement ParseFloat fuel e3.2
          pure (.FunctionStatement tok name params.1 (some body), p5)

/-- The method `parseForStatement`. -/
def parseForStatement (ParseFloat : String → Option Float64) :
    Nat → Parser → Except Fault (ast.Statement × Parser)
  | 0, _ => .error .outOfFuel
  | fuel + 1, p =>
    let tok := p.curToken
    let e1 := expectPeek p IDENT
    if !e1.1 then .ok (.NilPointer "*ast.ForStatement", e1.2)
    else
      let iterator : ast.Identifier := ⟨e1.2.curToken, e1.2.curToken.Literal⟩
      let e2 := expectPeek e1.2 IN
      if !e2.1 then .ok (.NilPointer "*ast.ForStatement", e2.2)
      else do
        let (iterable, p3) ← parseExpression ParseFloat fuel LOWEST (nextToken e2.2)
        let e3 := expectPeek p3 COLON
        if !e3.1 then pure (.NilPointer "*ast.ForStatement", e3.2)
        else do
          let (body, p5) ← parseBlockStatement ParseFloat fuel e3.2
          pure (.ForStatement tok (some iterator) iterable (some body), p5)

/-- The method `parseWhileStatement`. -/
def parseWhileStatement (ParseFloat : String → Option Float64) :
    Nat → Parser → Except Fault (ast.Statement × Parser)
  | 0, _ => .error .outOfFuel
  | fuel + 1, p => do
    let tok := p.curToken
    let (condition, p2) ← parseExpression ParseFloat fuel LOWEST (nextToken p)
    let e1 := expectPeek p2 COLON
    if !e1.1 then pure (.NilPointer "*ast.WhileStatement", e1.2)
    else do
      let (body, p4) ← parseBlockStatement ParseFloat fuel e1.2
      pure (.WhileStatement tok condition (some body), p4)

/-- The method `parseExpressionStatement`. -/
def parseExpressionStatement (ParseFloat : String → Option Float64) :
    Nat → Parser → Except Fault (ast.Statement × Parser)
  | 0, _ => .error .outOfFuel
  | fuel + 1, p => do
    let tok := p.curToken
    let (expression, p2) ← parseExpression ParseFloat fuel LOWEST p
    let p3 := if peekTokenIs p2 SEMICOLON then nextToken p2 else p2
    pure (.ExpressionStatement tok expression, p3)

/-- The method `parseExpression`: the call of the registered parse function for the current
token, followed by the loop over the operators to its right. -/
def parseExpression (ParseFloat : String → Option Float64) :
    Nat → Nat → Parser → Except Fault (Option ast.Expression × Parser)
  | 0, _, _ => .error .outOfFuel
  | fuel + 1, precedence, p =>
    match prefixParseFns p.curToken.Type_ with
    | none => .ok (none, noPrefixParseFnError p p.curToken.Type_)
    | some fn => do
      let (leftExp, p1) ←
        (match fn with
        | .parseIdentifier => pure (parseIdentifier p)
        | .parseIntegerLiteral => pure (parseIntegerLiteral p)
        | .parseFloatLiteral => pure (parseFloatLiteral ParseFloat p)
        | .parsePrefixExpression => parsePrefixExpression ParseFloat fuel p
        | .parseBoolean => pure (parseBoolean p)
        | .parseGroupedExpression => parseGroupedExpression ParseFloat fuel p
        | .parseIfExpression => parseIfExpression ParseFloat fuel p
        | .parseStringLiteral => pure (parseStringLiteral p)
        | .parseListLiteral => parseListLiteral ParseFloat fuel p
        | .parseDictLiteral => parseDictLiteral ParseFloat fuel p :
          Except Fault (Option ast.Expression × Parser))
      parseExpressionLoop ParseFloat fuel precedence leftExp p1

/-- The `for` loop of `parseExpression`, entered with the expression parsed so far. -/
def parseExpressionLoop (ParseFloat : String → Option Float64) :
    Nat → Nat → Option ast.Expression → Parser → Except Fault (Option ast.Expression × Parser)
  | 0, _, _, _ => .error .outOfFuel
  | fuel + 1, precedence, leftExp, p =>
    if !peekTokenIs p SEMICOLON && decide (precedence < peekPrecedence p) then
      match infixParseFns p.peekToken.Type_ with
      | none => .ok (leftExp, p)
      | some fn => do
        let p1 := nextToken p
        let (leftExp1, p2) ←
          (match fn with
          | .parseInfixExpression => parseInfixExpression ParseFloat fuel leftExp p1
          | .parseCallExpression => parseCallExpression ParseFloat fuel leftExp p1
          | .parseIndexExpression => parseIndexExpression ParseFloat fuel leftExp p1
          | .parseObjectMethod => parseObjectMethod ParseFloat fuel leftExp p1
          | .parseInExpression => parseInExpression ParseFloat fuel leftExp p1 :
            Except Fault (Option ast.Expression × Parser))
        parseExpressionLoop ParseFloat fuel precedence leftExp1 p2
    else .ok (leftExp, p)

/-- The method `parseListLiteral`. -/
def parseListLiteral (ParseFloat : String → Option Float64) :
    Nat → Parser → Except Fault (Option ast.Expression × Parser)
  | 0, _ => .error .outOfFuel
  | fuel + 1, p => do
    let tok := p.curToken
    let (elements, p1) ← parseExpressionList ParseFloat fuel RBRACKET p
    pure (some (.ListLiteral tok elements), p1)

/-- The method `parseDictLiteral`. -/
def parseDictLiteral (ParseFloat : String → Option Float64) :
    Nat → Parser → Except Fault (Option ast.Expression × Parser)
  | 0, _ => .error .outOfFuel
  | fuel + 1, p => do
    let tok := p.curToken
    let (pairs, p1) ← parseDictLiteralLoop ParseFloat fuel [] p
    match pairs with
    | none => pure (none, p1)
    | some ps =>
      let e := expectPeek p1 RBRACE
      if !e.1 then pure (none, e.2) else pure (some (.DictLiteral tok ps), e.2)

/-- The `for !p.peekTokenIs(token.RBRACE)` loop of `parseDictLiteral`; the result `none`
records a `return nil` from inside the loop. -/
def parseDictLiteralLoop (ParseFloat : String → Option Float64) :
    Nat → List (Option ast.Expression × Option ast.Expression) → Parser →
    Except Fault (Option (List (Option ast.Expression × Option ast.Expression)) × Parser)
  | 0, _, _ => .error .outOfFuel
  | fuel + 1, pairs, p =>
    if !peekTokenIs p RBRACE then do
      let p1 := advanceWhitespace (nextToken p)
      let (key, p2) ← parseExpression ParseFloat fuel LOWEST p1
      let e1 := expectPeek (advanceWhitespace p2) COLON
      if !e1.1 then pure (none, e1.2)
      else do
        let p3 := advanceWhitespace (nextToken e1.2)
        let (value, p4) ← parseExpression ParseFloat fuel LOWEST p3
        let p5 := advanceWhitespace p4
        let pairs1 := pairsSet pairs key value
        if !peekTokenIs p5 RBRACE then
          let e2 := expectPeek p5 COMMA
          if !e2.1 then pure (none, e2.2)
          else parseDictLiteralLoop ParseFloat fuel pairs1 e2.2
        else parseDictLiteralLoop ParseFloat fuel pairs1 p5
    else .ok (some pairs, p)

/-- The method `parseExpressionList`; a `nil` result is the empty list. -/
def parseExpressionList (ParseFloat : String → Option Float64) :
    Nat → TokenType → Parser → Except Fault (List (Option ast.Expression) × Parser)
  | 0, _, _ => .error .outOfFuel
  | fuel + 1, end_, p =>
    if peekTokenIs p end_ then .ok ([], nextToken p)
    else do
      let (first, p1) ← parseExpression ParseFloat fuel LOWEST (nextToken p)
      let (list, p2) ← parseExpressionListLoop ParseFloat fuel [first] p1
      let e := expectPeek p2 end_
      if !e.1 then pure ([], e.2) else pure (list, e.2)

/-- The comma loop of `parseExpressionList`. -/
def parseExpressionListLoop (ParseFloat : String → Option Float64) :
    Nat → List (Option ast.Expression) → Parser → Except Fault (List (Option ast.Expression) × Parser)
  | 0, _, _ => .error .outOfFuel
  | fuel + 1, list, p =>
    if peekTokenIs p COMMA then do
      let (next, p1) ← parseExpression ParseFloat fuel LOWEST (nextToken (nextToken p))
      parseExpressionListLoop ParseFloat fuel (list ++ [next]) p1
    else .ok (list, p)

/-- The method `parseGroupedExpression`. -/
def parseGroupedExpression (ParseFloat : String → Option Float64) :
    Nat → Parser → Except Fault (Option ast.Expression × Parser)
  | 0, _ => .error .outOfFuel
  | fuel + 1, p => do
    let (exp, p1) ← parseExpression ParseFloat fuel LOWEST (nextToken p)
    let e := expectPeek p1 RPAREN
    if !e.1 then pure (none, e.2) else pure (exp, e.2)

/-- The method `parseIfExpression`. -/
def parseIfExpression (ParseFloat : String → Option Float64) :
    Nat → Parser → Except Fault (Option ast.Expression × Parser)
  | 0, _ => .error .outOfFuel
  | fuel + 1, p => do
    let tok := p.curToken
    let (condition, p1) ← parseExpression ParseFloat fuel LOWEST (nextToken p)
    let e := expectPeek p1 COLON
    if !e.1 then pure (none, e.2)
    else do
      let (consequence, p2) ← parseBlockStatement ParseFloat fuel e.2
      let p3 := advanceWhitespace p2
      if curTokenIs p3 ELSE then
        let p4 := nextToken { p3 with skipFlag := true }
        if !curTokenIs p4 COLON then pure (none, p4)
        else do
          let (alternative, p5) ← parseBlockStatement ParseFloat fuel (nextToken p4)
          pure (some (.IfExpression tok condition (some consequence) (some alternative)), p5)
      else pure (some (.IfExpression tok condition (some consequence) none), p3)

/-- The method `parseBlockStatement`. -/
def parseBlockStatement (ParseFloat : String → Option Float64) :
    Nat → Parser → Except Fault (ast.BlockStatement × Parser)
  | 0, _ => .error .outOfFuel
  | fuel + 1, p => do
    let tok := p.curToken
    let indentLevel := p.spacing
    let p1 := advanceWhitespace (nextToken p)
    let (statements, p2) ← parseBlockStatementLoop ParseFloat fuel indentLevel [] p1
    pure (.mk tok statements, { p2 with skipFlag := false })

/-- The `for` loop of `parseBlockStatement`.  A statement interface returned by
`parseStatement` is never the nil interface, so every statement is appended. -/
def parseBlockStatementLoop (ParseFloat : String → Option Float64) :
    Nat → Int → List ast.Statement → Parser → Except Fault (List ast.Statement × Parser)
  | 0, _, _, _ => .error .outOfFuel
  | fuel + 1, indentLevel, statements, p =>
    if decide (p.spacing > indentLevel) && !curTokenIs p EOF then do
      let (stmt, p1) ← parseStatement ParseFloat fuel p
      let p2 := if p1.skipFlag then nextToken p1 else { p1 with skipFlag := true }
      parseBlockStatementLoop ParseFloat fuel indentLevel (statements ++ [stmt])
        (advanceWhitespace p2)
    else .ok (statements, p)

/-- The method `parseCallExpression`. -/
def parseCallExpression (ParseFloat : String → Option Float64) :
    Nat → Option ast.Expression → Parser → Except Fault (Option ast.Expression × Parser)
  | 0, _, _ => .error .outOfFuel
  | fuel + 1, function, p => do
    let tok := p.curToken
    let (arguments, p1) ← parseExpressionList ParseFloat fuel RPAREN p
    pure (some (.CallExpression tok function arguments), p1)

/-- The method `parseIndexExpression`. -/
def parseIndexExpression (ParseFloat : String → Option Float64) :
    Nat → Option ast.Expression → Parser → Except Fault (Option ast.Expression × Parser)
  | 0, _, _ => .error .outOfFuel
  | fuel + 1, left, p => do
    let tok := p.curToken
    let (index, p1) ← parseExpression ParseFloat fuel LOWEST (nextToken p)
    let e1 := expectPeek p1 COLON
    let (colon, endIndex, p3) ←
      (if e1.1 then do
        let (endIndex, p2) ← parseExpression ParseFloat fuel LOWEST (nextToken e1.2)
        pure (true, endIndex, p2)
      else pure (false, none, e1.2) : Except Fault (Bool × Option ast.Expression × Parser))
    let e2 := expectPeek p3 RBRACKET
    if !e2.1 then pure (none, e2.2)
    else
      let e3 := expectPeek e2.2 ASSIGN
      if e3.1 then do
        let (value, p5) ← parseExpression ParseFloat fuel LOWEST (nextToken e3.2)
        pure (some (.IndexAssignExpression tok left index colon endIndex value), p5)
      else pure (some (.IndexExpression tok left index colon endIndex), e3.2)

/-- The method `parseObjectMethod`. -/
def parseObjectMethod (ParseFloat : String → Option Float64) :
    Nat → Option ast.Expression → Parser → Except Fault (Option ast.Expression × Parser)
  | 0, _, _ => .error .outOfFuel
  | fuel + 1, left, p =>
    let tok := p.curToken
    let e := expectPeek p IDENT
    if !e.1 then .ok (none, e.2)
    else do
      let (method, p1) ← parseExpression ParseFloat fuel LOWEST e.2
      pure (some (.ObjectMethod left tok method), p1)

/-- The method `parseInExpression`. -/
def parseInExpression (ParseFloat : String → Option Float64) :
    Nat → Option ast.Expression → Parser → Except Fault (Option ast.Expression × Parser)
  | 0, _, _ => .error .outOfFuel
  | fuel + 1, left, p => do
    let tok := p.curToken
    let (right, p1) ← parseExpression ParseFloat fuel LOWEST (nextToken p)
    pure (some (.InExpression tok left right), p1)

/-- The method `parsePrefixExpression`. -/
def parsePrefixExpression (ParseFloat : String → Option Float64) :
    Nat → Parser → Except Fault (Option ast.Expression × Parser)
  | 0, _ => .error .outOfFuel
  | fuel + 1, p => do
    let tok := p.curToken
    let (right, p1) ← parseExpression ParseFloat fuel PREFIX (nextToken p)
    pure (some (.PrefixExpression tok tok.Literal right), p1)

/-- The method `parseInfixExpression`. -/
def parseInfixExpression (ParseFloat : String → Option Float64) :
    Nat → Option ast.Expression → Parser → Except Fault (Option ast.Expression × Parser)
  | 0, _, _ => .error .outOfFuel
  | fuel + 1, left, p => do
    let tok := p.curToken
    let precedence := curPrecedence p
    let (right, p1) ← parseExpression ParseFloat fuel precedence (nextToken p)
    pure (some (.InfixExpression tok left tok.Literal right), p1)

end

/-- The loop of `ParseProgram`. -/
def ParseProgramLoop (ParseFloat : String → Option Float64) :
    Nat → List ast.Statement → Parser → Except Fault (List ast.Statement × Parser)
  | 0, _, _ => .error .outOfFuel
  | fuel + 1, statements, p =>
    if p.curToken.Type_ ≠ EOF then
      match parseStatement ParseFloat fuel p with
      | .error e => .error e
      | .ok (stmt, p1) =>
        let p2 := if p1.skipFlag then nextToken p1 else { p1 with skipFlag := true }
        ParseProgramLoop ParseFloat fuel (statements ++ [stmt]) p2
    else .ok (statements, p)

/-- The method `ParseProgram`. -/
def ParseProgram (ParseFloat : String → Option Float64) (fuel : Nat) (p : Parser) :
    Except Fault (ast.Program × Parser) :=
  match ParseProgramLoop ParseFloat fuel [] p with
  | .error e => .error e
  | .ok (statements, p1) => .ok (⟨statements⟩, p1)

end parser

/-! ## Arithmetic source expressions

The expressions of integer literals, parentheses, unary `-` and the binary operators, as they
stand in the source text, with the token sequence and the syntax tree each one denotes. -/

namespace parser

open token

/-- The binary operators `+ - * / < > == !=`. -/
inductive BinaryOperator where
  | plus | minus | asterisk | slash | lt | gt | eq | notEq
deriving DecidableEq, Repr

/-- The token the lexer produces for a binary operator: its kind and its lexeme. -/
def BinaryOperator.token : BinaryOperator → Token
  | .plus => ⟨PLUS, "+"⟩
  | .minus => ⟨MINUS, "-"⟩
  | .asterisk => ⟨ASTERISK, "*"⟩
  | .slash => ⟨SLASH, "/"⟩
  | .lt => ⟨token.LT, "<"⟩
  | .gt => ⟨token.GT, ">"⟩
  | .eq => ⟨EQ, "=="⟩
  | .notEq => ⟨NOT_EQ, "!="⟩

/-- The precedence of a binary operator, read from the table `precedences`. -/
def BinaryOperator.precedence (op : BinaryOperator) : Nat :=
  match precedences op.token.Type_ with
  | some prec => prec
  | none => LOWEST

/-- An arithmetic expression of the source text: an integer literal (its lexeme and the value
`ParseInt` gives it), a unary minus, a parenthesised expression, or a binary operation. -/
inductive Source where
  | int (literal : String) (value : Int)
  | neg (operand : Source)
  | paren (inner : Source)
  | binary (left : Source) (op : BinaryOperator) (right : Source)
deriving Repr

namespace Source

/-- The tokens of a source expression, in order. -/
def tokens : Source → List Token
  | int literal _ => [⟨INT, literal⟩]
  | neg operand => ⟨MINUS, "-"⟩ :: tokens operand
  | paren inner => ⟨LPAREN, "("⟩ :: (tokens inner ++ [⟨RPAREN, ")"⟩])
  | binary left op right => tokens left ++ op.token :: tokens right

/-- The last token of a source expression. -/
def lastToken : Source → Token
  | int literal _ => ⟨INT, literal⟩
  | neg operand => lastToken operand
  | paren _ => ⟨RPAREN, ")"⟩
  | binary _ _ right => lastToken right

/-- The syntax tree a source expression stands for: parentheses leave no node, every operator
node holds its operands as they are grouped in the source expression. -/
def tree : Source → ast.Expression
  | int literal value => .IntegerLiteral ⟨INT, literal⟩ value
  | neg operand => .PrefixExpression ⟨MINUS, "-"⟩ "-" (some (tree operand))
  | paren inner => tree inner
  | binary left op right =>
    .InfixExpression op.token (some (tree left)) op.token.Literal (some (tree right))

/-- How tightly the outermost construct of a source expression binds: the precedence of its
operator for a binary operation, above every operator for a literal, a unary minus or a
parenthesised expression. -/
def level : Source → Nat
  | binary _ op _ => op.precedence
  | _ => CALL

/-- The grouping of a source expression follows the precedence table: the operand of a unary
minus is a literal, a unary minus or a parenthesised expression; the left operand of a binary
operator binds at least as tightly as the operator (equal precedence associates to the left)
and the right operand binds strictly tighter; every literal is one `ParseInt` accepts. -/
def grouped : Source → Prop
  | int literal value => ParseInt literal = some value
  | neg operand => PREFIX < level operand ∧ grouped operand
  | paren inner => grouped inner
  | binary left op right =>
    op.precedence ≤ level left ∧ op.precedence < level right ∧ grouped left ∧ grouped right

/-- The property `grouped` is decidable. -/
def decGrouped : (e : Source) → Decidable (grouped e)
  | int literal value => inferInstanceAs (Decidable (ParseInt literal = some value))
  | neg operand =>
    have := decGrouped operand
    inferInstanceAs (Decidable (PREFIX < level operand ∧ grouped operand))
  | paren inner => decGrouped inner
  | binary left op right =>
    have := decGrouped left
    have := decGrouped right
    inferInstanceAs (Decidable (op.precedence ≤ level left ∧ op.precedence < level right ∧
      grouped left ∧ grouped right))

instance (e : Source) : Decidable (grouped e) := decGrouped e

/-- The number of operators `parseExpression` consumes in its own loop while it reads the
expression: those on the left spine outside parentheses. -/
def iters : Source → Nat
  | binary left _ _ => iters left + 1
  | _ => 0

/-- A call depth that suffices to parse the expression. -/
def fuelFor : Source → Nat
  | int _ _ => 1
  | neg operand => fuelFor operand + iters operand + 3
  | paren inner => fuelFor inner + iters inner + 3
  | binary left _ right => max (fuelFor left) (fuelFor right + iters right + 3)

end Source

/-- The source expression `(5 + 10 * 2 + 15 / 3) * 2 + -10`, grouped by precedence. -/
def precedenceExample : Source :=
  .binary
    (.binary
      (.paren
        (.binary
          (.binary (.int "5" 5) .plus (.binary (.int "10" 10) .asterisk (.int "2" 2)))
          .plus
          (.binary (.int "15" 15) .slash (.int "3" 3))))
      .asterisk
      (.int "2" 2))
    .plus
    (.neg (.int "10" 10))

/-- The precedence `peekPrecedence` finds when the first token of `rest` is the peek token
(`EOF` when `rest` is empty). -/
def nextPrecedence (rest : List Token) : Nat :=
  match precedences (NextToken rest).1.Type_ with
  | some prec => prec
  | none => LOWEST

end parser


end Simpyl

namespace Simpyl

/-! ## The heap

The objects the program writes to after their allocation, and the environments, are held in a
`Heap`.  A Go map is an association list with one entry per key. -/

/-- The value a Go map held as an association list has under the key `k`. -/
def mapGet {κ α : Type} [DecidableEq κ] : List (κ × α) → κ → Option α
  | [], _ => none
  | (k1, v) :: rest, k => if k1 = k then some v else mapGet rest k

/-- The assignment `m[k] = v` on a Go map held as an association list. -/
def mapSet {κ α : Type} [DecidableEq κ] : List (κ × α) → κ → α → List (κ × α)
  | [], k, v => [(k, v)]
  | (k1, v1) :: rest, k, v => if k1 = k then (k, v) :: rest else (k1, v1) :: mapSet rest k v

/-- The statement `delete(m, k)` on a Go map held as an association list. -/
def mapDelete {κ α : Type} [DecidableEq κ] (m : List (κ × α)) (k : κ) : List (κ × α) :=
  m.filter (fun kv => kv.1 ≠ k)

/-- What the embedding takes from the host: the float arithmetic; the capacity that the
run-time system leaves unused in a slice grown by `append` (`spare n` is that of the slice
obtained from the nil slice by `n` calls of `append` with one element each); the order in
which a `range` statement visits the entries of a map, which Go leaves unspecified and varies
from one `range` to the next: `mapRange t n` lists, for the `range` begun after `t`
allocations over a map of `n` entries, the positions `0, ..., n - 1` of the entries in the
order of the visit; the result `toUint64 f` of the conversion `uint64(f)` of a double whose
integer part is no `uint64` (a negative number, a number from `2^64` on, an infinity or NaN),
which Go leaves to the implementation; and the greatest length `maxLen` with which
`make([]object.Object, n)` returns a slice: with a greater one, as with a negative one, `make`
panics (`makeslice: len out of range`).  The run-time system refuses a slice of more than
`maxAlloc` bytes, an interface takes 16 bytes, and `maxAlloc` is `2^48` on linux/amd64, so
`maxLen` is `2^44` there.  The embedding sets no bound to the memory of the machine: it is
taken to hold every slice that `make` grants and every object that is allocated. -/
structure Host where
  float : FloatArith
  spare : Nat → Nat
  mapRange : Nat → Nat → List Nat
  toUint64 : Float64 → Nat
  maxLen : Nat

/-- The least capacity reached from `cap` by doubling that holds `n` elements. -/
def doubleUntil : Nat → Nat → Nat → Nat
  | 0, cap, _ => cap
  | fuel + 1, cap, n => if n ≤ cap then cap else doubleUntil fuel (2 * cap) n

/-- A host whose `append` doubles the capacity (1, 2, 4, 8, ...), whose float operations
all return NaN, whose `range` visits the entries of a map in the order of their insertion,
whose `uint64` of a double without a `uint64` integer part is 0, and whose `make` grants a
slice of up to `2^44` objects. -/
def Host.doubling : Host :=
  ⟨FloatArith.allNaN, fun n => if n = 0 then 0 else doubleUntil n 1 n - n,
    fun _ n => List.range n, fun _ => 0, 2 ^ 44⟩

/-- A host like `Host.doubling`, except that its `range` visits the entries of a map in the
reverse of the order of their insertion. -/
def Host.reversing : Host :=
  ⟨FloatArith.allNaN, fun n => if n = 0 then 0 else doubleUntil n 1 n - n,
    fun _ n => (List.range n).reverse, fun _ => 0, 2 ^ 44⟩

/-- What Go guarantees of a `range` over a map that the loop does not change: every entry is
visited once. -/
def Host.visitsEveryEntry (host : Host) : Prop :=
  ∀ t n, (host.mapRange t n).Perm (List.range n)

namespace Float64

/-- Whether a double is a NaN. -/
def isNaN : Float64 → Bool
  | NaN => true
  | _ => false

/-- The builtin `min` of Go on two `float64`s: NaN as soon as one argument is NaN, and the
negative zero is smaller than the positive one. -/
def min (x y : Float64) : Float64 :=
  if x.isNaN || y.isNaN then NaN
  else if lt x y then x
  else if lt y x then y
  else if x = NegZero then x else y

/-- The builtin `max` of Go on two `float64`s: NaN as soon as one argument is NaN, and the
positive zero is greater than the negative one. -/
def max (x y : Float64) : Float64 :=
  if x.isNaN || y.isNaN then NaN
  else if lt x y then y
  else if lt y x then x
  else if x = NegZero then y else x

/-- The function `math.Round`: the nearest integer, halves away from zero; the sign of a zero
result is that of the argument. -/
def Round : Float64 → Float64
  | Finite q =>
    if 0 ≤ q then Finite (Rat.floor (q + 1 / 2))
    else if Rat.floor (-q + 1 / 2) = 0 then NegZero
    else Finite (-(Rat.floor (-q + 1 / 2) : ℚ))
  | f => f

/-- The integer part of a double (the fraction is discarded), for a finite double. -/
def truncate : Float64 → Option Int
  | Finite q => some (q.num.tdiv q.den)
  | NegZero => some 0
  | _ => none

/-- The conversion `int64(f)`.  Go leaves the result to the implementation when the integer
part of `f` is no `int64`: that case is outside the fragment embedded here. -/
def toInt64 (f : Float64) : Except Fault Int :=
  match f.truncate with
  | some t => if isInt64 t then .ok t else .error .outsideFragment
  | none => .error .outsideFragment

/-- The conversion `uint64(f)`: the integer part of `f`.  Go leaves the result to the
implementation when the integer part of `f` is no `uint64`: it is then the `uint64` that the
host yields, `Host.toUint64`. -/
def toUint64 (host : Host) (f : Float64) : Nat :=
  match f.truncate with
  | some t => if 0 ≤ t ∧ t < 2 ^ 64 then t.toNat else host.toUint64 f % 2 ^ 64
  | none => host.toUint64 f % 2 ^ 64

end Float64

/-- The conversion `uint64(v)` of an `int64`: the value modulo `2^64`. -/
def uint64 (v : Int) : Nat := (v % 2 ^ 64).toNat

/-- The bytes of the UTF-8 encoding of a character. -/
def utf8Char (c : Char) : List Nat :=
  let n := c.toNat
  if n < 128 then [n]
  else if n < 2048 then [192 + n / 64, 128 + n % 64]
  else if n < 65536 then [224 + n / 4096, 128 + n / 64 % 64, 128 + n % 64]
  else [240 + n / 262144, 128 + n / 4096 % 64, 128 + n / 64 % 64, 128 + n % 64]

/-- The bytes `[]byte(s)` of a Go string, the text being held as its characters. -/
def utf8Bytes (s : String) : List Nat := s.data.flatMap utf8Char

/-- The 64-bit FNV-1a hash of a sequence of bytes (`fnv.New64a`, `Write`, `Sum64`). -/
def fnv64a (bytes : List Nat) : Nat :=
  bytes.foldl (fun hash b => (Nat.xor hash b * 1099511628211) % 2 ^ 64) 14695981039346656037

namespace object

/-- The method `HashKey` of the objects that are `Hashable` (Integer, Float, Boolean, String);
`none` for an object that is not. -/
def Object.HashKey (host : Host) : Object → Option object.HashKey
  | .Integer _ value => some ⟨INTEGER_OBJ, uint64 value⟩
  | .Float _ value => some ⟨FLOAT_OBJ, value.Round.toUint64 host⟩
  | .TRUE => some ⟨BOOLEAN_OBJ, 1⟩
  | .FALSE => some ⟨BOOLEAN_OBJ, 0⟩
  | .Boolean _ value => some ⟨BOOLEAN_OBJ, if value then 1 else 0⟩
  | .String _ value => some ⟨STRING_OBJ, fnv64a (utf8Bytes value)⟩
  | _ => none

/-- The field `Value` of a `*object.Float`. -/
def floatValue : Object → Option Float64
  | .Float _ v => some v
  | _ => none

/-- The field `Value` of a `*object.String`. -/
def stringValue : Object → Option String
  | .String _ v => some v
  | _ => none

/-- The name that the verb `%T` of `fmt` prints for an object. -/
def goTypeName : Object → String
  | .NULL => "*object.Null"
  | .TRUE => "*object.Boolean"
  | .FALSE => "*object.Boolean"
  | .Integer _ _ => "*object.Integer"
  | .Float _ _ => "*object.Float"
  | .Boolean _ _ => "*object.Boolean"
  | .String _ _ => "*object.String"
  | .List _ => "*object.List"
  | .Dict _ => "*object.Dict"
  | .Set _ => "*object.Set"
  | .ReturnValue _ _ => "*object.ReturnValue"
  | .Error _ _ => "*object.Error"
  | .Function _ _ _ _ _ => "*object.Function"
  | .Builtin _ _ => "*object.Builtin"
  | .BuiltinMethod _ _ => "*object.BuiltinMethod"

/-- A Go slice of objects: the address of its backing array, the position of its first element
in that array, its length and its capacity. -/
structure Slice where
  array : Nat
  offset : Nat
  len : Nat
  cap : Nat
deriving DecidableEq, Repr

/-- The nil slice. -/
def Slice.nil : Slice := ⟨0, 0, 0, 0⟩

/-- Modelled from the spec: the struct `Environment` (its file is not among the sources), a
mapping from identifier to value plus an optional outer environment, the latter by its
address.  A stored value may be the nil interface. -/
structure Environment where
  store : List (String × Option Object)
  outer : Option Nat

/-- The struct `HashPair`. -/
structure HashPair where
  Key : Option Object
  Value : Option Object

/-- The memory of a run: the next free address, the environments, the backing arrays of the
slices (an element may be the nil interface), for each `*object.List` its field `Elements`,
for each `*object.Dict` its field `Pairs` (`none` is the nil map) and for each `*object.Set`
its field `Values`. -/
structure Heap where
  next : Nat
  envs : List (Nat × Environment)
  arrays : List (Nat × List (Option Object))
  lists : List (Nat × Slice)
  dicts : List (Nat × Option (List (HashKey × HashPair)))
  sets : List (Nat × List (HashKey × Option Object))

namespace Heap

/-- The memory before the first allocation. -/
def empty : Heap := ⟨0, [], [], [], [], []⟩

/-- The memory after one allocation at the address `next`. -/
def alloc (h : Heap) : Heap := { h with next := h.next + 1 }

/-- The read `s[i]` of an element of a slice, for `i` below the capacity. -/
def nth (h : Heap) (s : Slice) (i : Nat) : Option (Option Object) :=
  match mapGet h.arrays s.array with
  | some a => a.get? (s.offset + i)
  | none => none

/-- The elements of a slice, first to last. -/
def elements (h : Heap) (s : Slice) : List (Option Object) :=
  match mapGet h.arrays s.array with
  | some a => (a.drop s.offset).take s.len
  | none => []

/-- The write `s[i] = v` into the backing array of a slice. -/
def store (h : Heap) (s : Slice) (i : Nat) (v : Option Object) : Heap :=
  match mapGet h.arrays s.array with
  | some a => { h with arrays := mapSet h.arrays s.array (a.set (s.offset + i) v) }
  | none => h

end Heap

/-- Modelled from the spec: the function `NewEnvironment`, a new frame with an empty store and
no outer environment; the result is its address. -/
def NewEnvironment (h : Heap) : Nat × Heap :=
  (h.next, { h with next := h.next + 1, envs := mapSet h.envs h.next ⟨[], none⟩ })

/-- Modelled from the spec: the function `NewEnclosedEnvironment`, a new frame with an empty
store enclosed by the environment `outer`. -/
def NewEnclosedEnvironment (outer : Nat) (h : Heap) : Nat × Heap :=
  (h.next, { h with next := h.next + 1, envs := mapSet h.envs h.next ⟨[], some outer⟩ })

/-- Modelled from the spec: the walk of `Get` from the frame at `env` outward; `some v` is a
binding found, `none` a name that no frame of the chain binds.  The budget is the number of
frames still to visit. -/
def Environment.getFrom (h : Heap) : Nat → Nat → String → Except Fault (Option (Option Object))
  | 0, _, _ => .error .outOfFuel
  | fuel + 1, env, name =>
    match mapGet h.envs env with
    | none => .error .outsideFragment
    | some e =>
      match mapGet e.store name with
      | some v => .ok (some v)
      | none =>
        match e.outer with
        | none => .ok none
        | some outer => Environment.getFrom h fuel outer name

/-- Modelled from the spec: the method `Get`, which searches the innermost frame first and
walks outward.  A chain of frames without a cycle is no longer than the number of frames. -/
def Environment.Get (h : Heap) (env : Nat) (name : String) :
    Except Fault (Option (Option Object)) :=
  Environment.getFrom h h.envs.length env name

/-- Modelled from the spec: the method `Set`, which writes into the frame at `env`. -/
def Environment.Set (h : Heap) (env : Nat) (name : String) (val : Option Object) :
    Except Fault Heap :=
  match mapGet h.envs env with
  | none => .error .outsideFragment
  | some e => .ok { h with envs := mapSet h.envs env { e with store := mapSet e.store name val } }

/-- The method `Inspect` of the objects whose text is made of their own fields alone; that of a
Float, of a container and of a Function is outside the fragment. -/
def Inspect : Object → Except Fault String
  | .NULL => .ok "null"
  | .TRUE => .ok "true"
  | .FALSE => .ok "false"
  | .Boolean _ value => .ok (toString value)
  | .Integer _ value => .ok (toString value)
  | .String _ value => .ok value
  | .ReturnValue _ (some value) => Inspect value
  | .ReturnValue _ none => .error (.panic "invalid memory address or nil pointer dereference")
  | .Error _ message => .ok ("ERROR: " ++ message)
  | .Builtin _ _ => .ok "builtin function"
  | .BuiltinMethod _ _ => .ok "builtin object-specific function"
  | _ => .error .outsideFragment

end object

/-! ## package evaluator: `Eval`

`Eval` on expressions is `Eval`, on statements `EvalStatement`; an environment is the address
`env` of its frame.  A function of the source that calls `Eval` on the sub-nodes of its node
takes the evaluator of those sub-nodes as an argument, and `Eval` hands it `Eval` with one unit
of budget less.  Outside the fragment embedded here (`Fault.outsideFragment`) are: the
builtins `print`, `sum`, `str`, `round` and `sorted`, and `list` with two or more arguments;
the methods of a List other than `pop`, those of a String and of a Dict, and the methods
`intersection` and `union` of a Set; the search of a list for a List or a Set; the conversion
`int64(f)` of a Float whose integer part is no `int64`; and a heap in which an address that is
followed has no entry. -/

namespace evaluator

open object

/-- The panic of the run-time system at a method call or a field access through nil. -/
def nilDereference : Fault := .panic "invalid memory address or nil pointer dereference"

/-- The type of `Eval` at the nodes of type `ν`. -/
abbrev EvalFn (ν : Type) := ν → Nat → Heap → Except Fault (Option Object × Heap)

/-- The names of the map `builtins`, in the order of the source. -/
def builtinNames : List String :=
  ["print", "len", "range", "min", "max", "abs", "sum", "str", "reversed", "round", "sorted",
    "list", "dict", "set"]

/-- The map `builtins`: each name has its one `*object.Builtin`, allocated with the package. -/
def builtins (name : String) : Option Object :=
  if name ∈ builtinNames then some (.Builtin (builtinNames.indexOf name) name) else none

/-- The function `evalIdentifier`. -/
def evalIdentifier (name : String) (env : Nat) (h : Heap) : Except Fault (Option Object × Heap) :=
  match Environment.Get h env name with
  | .error e => .error e
  | .ok (some val) => .ok (val, h)
  | .ok none =>
    match builtins name with
    | some builtin => .ok (some builtin, h)
    | none => .ok (some (newError h.next ("identifier not found: " ++ name)), h.alloc)

/-- The function `unwrapReturnValue`. -/
def unwrapReturnValue (obj : Option Object) : Option Object :=
  match obj with
  | some (.ReturnValue _ value) => value
  | _ => obj

/-- The allocation `&object.List{Elements: elements}` of the slice that `evalExpressions` has
built with `append`; `evalExpressions` returns the nil slice when it has appended nothing. -/
def newList (host : Host) (elements : List (Option Object)) (h : Heap) : Option Object × Heap :=
  match elements with
  | [] =>
    (some (.List h.next),
      { h with next := h.next + 1, lists := mapSet h.lists h.next Slice.nil })
  | _ :: _ =>
    let n := elements.length
    let cap := n + host.spare n
    (some (.List (h.next + 1)),
      { h with
        next := h.next + 2
        arrays := mapSet h.arrays h.next (elements ++ List.replicate (host.spare n) none)
        lists := mapSet h.lists (h.next + 1) ⟨h.next, 0, n, cap⟩ })

/-- The adjustment `if idx < 0 { idx = int64(len(listObject.Elements)) + idx }` of an index:
negative indices count from the end.  The sum cannot leave the `int64` range. -/
def normalizeIndex (len : Nat) (idx : Int) : Int :=
  if idx < 0 then (len : Int) + idx else idx

/-- The function `evalListIndexExpression`.  The slice expression `Elements[idx:edx]` shares the
backing array; it panics unless `0 <= idx <= edx <= cap(Elements)`. -/
def evalListIndexExpression (list index : Object) (colon : Bool) (endIndex : Option Object)
    (h : Heap) : Except Fault (Option Object × Heap) :=
  match list, index with
  | .List addr, .Integer _ value =>
    match mapGet h.lists addr with
    | none => .error .outsideFragment
    | some s =>
      let idx : Int := normalizeIndex s.len value
      if colon then
        match endIndex with
        | some (.Integer _ endValue) =>
          let edx : Int := normalizeIndex s.len endValue
          if edx ≤ idx then
            .ok (some (newError h.next "Starting index must be before ending index"), h.alloc)
          else if idx < 0 ∨ (s.cap : Int) < edx then
            .error (.panic "runtime error: slice bounds out of range")
          else
            .ok (some (.List h.next),
              { h with
                next := h.next + 1
                lists := mapSet h.lists h.next
                  ⟨s.array, s.offset + idx.toNat, (edx - idx).toNat, s.cap - idx.toNat⟩ })
        | _ => .error (.panic "interface conversion: object.Object is not *object.Integer")
      else
        let max : Int := (s.len : Int) - 1
        if idx < 0 ∨ idx > max then .ok (some .NULL, h)
        else
          match h.nth s idx.toNat with
          | some element => .ok (element, h)
          | none => .error .outsideFragment
  | .List _, _ => .error (.panic "interface conversion: object.Object is not *object.Integer")
  | _, _ => .error (.panic "interface conversion: object.Object is not *object.List")

/-- The function `evalDictIndexExpression`.  The read of a key in the nil map finds nothing. -/
def evalDictIndexExpression (host : Host) (hash : Object) (index : Option Object) (h : Heap) :
    Except Fault (Option Object × Heap) :=
  match hash with
  | .Dict addr =>
    match index with
    | none => .error nilDereference
    | some i =>
      match i.HashKey host with
      | none => .ok (some (newError h.next ("unusable as hash key: " ++ Type_ i)), h.alloc)
      | some key =>
        match mapGet h.dicts addr with
        | none => .error .outsideFragment
        | some none => .ok (some .NULL, h)
        | some (some pairs) =>
          match mapGet pairs key with
          | none => .ok (some .NULL, h)
          | some pair => .ok (pair.Value, h)
  | _ => .error (.panic "interface conversion: object.Object is not *object.Dict")

/-- The function `evalIndexExpression`. -/
def evalIndexExpression (host : Host) (left index : Option Object) (colon : Bool)
    (endIndex : Option Object) (h : Heap) : Except Fault (Option Object × Heap) :=
  match left with
  | none => .error nilDereference
  | some l =>
    if Type_ l = LIST_OBJ then
      match index with
      | none => .error nilDereference
      | some i =>
        if Type_ i = INTEGER_OBJ then evalListIndexExpression l i colon endIndex h
        else .ok (some (newError h.next ("index operator not supported: " ++ Type_ l)), h.alloc)
    else if Type_ l = DICT_OBJ then evalDictIndexExpression host l index h
    else .ok (some (newError h.next ("index operator not supported: " ++ Type_ l)), h.alloc)

/-- The function `evalListIndexAssignExpression`. -/
def evalListIndexAssignExpression (list index : Object) (val : Option Object) (h : Heap) :
    Except Fault (Option Object × Heap) :=
  match list, index with
  | .List addr, .Integer _ value =>
    match mapGet h.lists addr with
    | none => .error .outsideFragment
    | some s =>
      let idx : Int := normalizeIndex s.len value
      let max : Int := (s.len : Int) - 1
      if idx < 0 ∨ idx > max then .ok (some .NULL, h)
      else .ok (some (.List addr), h.store s idx.toNat val)
  | .List _, _ => .error (.panic "interface conversion: object.Object is not *object.Integer")
  | _, _ => .error (.panic "interface conversion: object.Object is not *object.List")

/-- The function `evalDictIndexAssignExpression`.  The assignment to an entry of the nil map
panics. -/
def evalDictIndexAssignExpression (host : Host) (dict : Object) (index val : Option Object)
    (h : Heap) : Except Fault (Option Object × Heap) :=
  match dict with
  | .Dict addr =>
    match index with
    | none => .error nilDereference
    | some i =>
      match i.HashKey host with
      | none => .ok (some (newError h.next ("unusable as dict key: " ++ Type_ i)), h.alloc)
      | some key =>
        match mapGet h.dicts addr with
        | none => .error .outsideFragment
        | some none => .error (.panic "assignment to entry in nil map")
        | some (some pairs) =>
          .ok (some (.Dict addr),
            { h with dicts := mapSet h.dicts addr (some (mapSet pairs key ⟨index, val⟩)) })
  | _ => .error (.panic "interface conversion: object.Object is not *object.Dict")

/-- The function `evalIndexAssignExpression`. -/
def evalIndexAssignExpression (host : Host) (left index val : Option Object) (h : Heap) :
    Except Fault (Option Object × Heap) :=
  match left with
  | none => .error nilDereference
  | some l =>
    if Type_ l = LIST_OBJ then
      match index with
      | none => .error nilDereference
      | some i =>
        if Type_ i = INTEGER_OBJ then evalListIndexAssignExpression l i val h
        else .ok (some (newError h.next ("index operator not supported: " ++ Type_ l)), h.alloc)
    else if Type_ l = DICT_OBJ then evalDictIndexAssignExpression host l index val h
    else .ok (some (newError h.next ("index operator not supported: " ++ Type_ l)), h.alloc)

/-- The builtin `range`: `make` allocates the backing array with the length and the capacity
`r` and panics on a negative length and on one beyond `Host.maxLen`; the loop then allocates
the Integers `0, ..., r - 1`. -/
def builtinRange (host : Host) (args : List (Option Object)) (h : Heap) :
    Except Fault (Option Object × Heap) :=
  match args with
  | [arg] =>
    match arg with
    | none => .error nilDereference
    | some (.Integer _ r) =>
      if r < 0 ∨ (host.maxLen : Int) < r then
        .error (.panic "runtime error: makeslice: len out of range")
      else
        let n := r.toNat
        let array := h.next
        let list := array + 1 + n
        .ok (some (.List list),
          { h with
            next := list + 1
            arrays := mapSet h.arrays array
              ((List.range n).map (fun i => some (.Integer (array + 1 + i) (i : Int))))
            lists := mapSet h.lists list ⟨array, 0, n, n⟩ })
    | some _ =>
      .ok (some (newError h.next "range function takes integer type, got=object.ObjectType"),
        h.alloc)
  | _ =>
    .ok (some (newError h.next
      ("wrong number of arguments. got=" ++ toString args.length ++ ", want=1")), h.alloc)

/-- The Error of a builtin called with a number of arguments other than one. -/
def wrongNumberOfArguments (args : List (Option Object)) (h : Heap) : Option Object × Heap :=
  (some (newError h.next
    ("wrong number of arguments. got=" ++ toString args.length ++ ", want=1")), h.alloc)

/-- The builtin `len`; the length of a string is that of its bytes. -/
def builtinLen (args : List (Option Object)) (h : Heap) : Except Fault (Option Object × Heap) :=
  match args with
  | [arg] =>
    match arg with
    | none => .error nilDereference
    | some (.List addr) =>
      match mapGet h.lists addr with
      | none => .error .outsideFragment
      | some s => .ok (some (.Integer h.next s.len), h.alloc)
    | some (.String _ value) => .ok (some (.Integer h.next (utf8Bytes value).length), h.alloc)
    | some other =>
      .ok (some (newError h.next ("argument to `len` not supported, got " ++ Type_ other)),
        h.alloc)
  | _ => .ok (wrongNumberOfArguments args h)

/-- The loop `for i := range vals` of the builtins `min` and `max`, `pick` being the `min` or
the `max` of Go on two `float64`s: the extremum `m` so far and the flag `floatFlag`.  The
result `none` stands for the Error returned at an element that is neither Integer nor Float. -/
def extremumLoop (pick : Float64 → Float64 → Float64) :
    List (Option Object) → Float64 → Bool → Except Fault (Option (Float64 × Bool))
  | [], m, floatFlag => .ok (some (m, floatFlag))
  | none :: _, _, _ => .error nilDereference
  | some (.Integer _ value) :: rest, m, floatFlag =>
    extremumLoop pick rest (pick m (Float64.ofInt64 value)) floatFlag
  | some (.Float _ value) :: rest, m, _ => extremumLoop pick rest (pick m value) true
  | some _ :: _, _, _ => .ok none

/-- The body that the builtins `min` and `max` share word for word, `name` being the name in
the messages and `pick` the `min` or the `max` of Go.  An extremum is computed in `float64`,
whatever the elements, and converted back with `int64(m)` when no element is a Float.  A first
element that is neither Integer nor Float fails the type assertion `vals[0].(*object.Float)`. -/
def builtinExtremum (name : String) (pick : Float64 → Float64 → Float64)
    (args : List (Option Object)) (h : Heap) : Except Fault (Option Object × Heap) :=
  match args with
  | [arg] =>
    match arg with
    | none => .error nilDereference
    | some (.List addr) =>
      match mapGet h.lists addr with
      | none => .error .outsideFragment
      | some s =>
        match h.elements s with
        | [] => .ok (some (newError h.next ("cannot take " ++ name ++ " of empty list")), h.alloc)
        | first :: rest =>
          let start : Except Fault (Float64 × Bool) :=
            match first with
            | none => .error nilDereference
            | some (.Integer _ value) => .ok (Float64.ofInt64 value, false)
            | some (.Float _ value) => .ok (value, true)
            | some _ =>
              .error (.panic "interface conversion: object.Object is not *object.Float")
          match start with
          | .error e => .error e
          | .ok (m, floatFlag) =>
            match extremumLoop pick (first :: rest) m floatFlag with
            | .error e => .error e
            | .ok none =>
              .ok (some (newError h.next
                "min function requires Integer or Float type, got=object.ObjectType"), h.alloc)
            | .ok (some (m, true)) => .ok (some (.Float h.next m), h.alloc)
            | .ok (some (m, false)) =>
              match m.toInt64 with
              | .error e => .error e
              | .ok value => .ok (some (.Integer h.next value), h.alloc)
    | some _ =>
      .ok (some (newError h.next (name ++ " function takes list type, got=object.ObjectType")),
        h.alloc)
  | _ => .ok (wrongNumberOfArguments args h)

/-- The builtin `min`. -/
def builtinMin (args : List (Option Object)) (h : Heap) : Except Fault (Option Object × Heap) :=
  builtinExtremum "min" Float64.min args h

/-- The builtin `max`. -/
def builtinMax (args : List (Option Object)) (h : Heap) : Except Fault (Option Object × Heap) :=
  builtinExtremum "max" Float64.max args h

/-- The builtin `abs`: on an Integer the branch-free `(n ^ y) - y` with `y = n >> 63`, in
`int64` arithmetic. -/
def builtinAbs (host : Host) (args : List (Option Object)) (h : Heap) :
    Except Fault (Option Object × Heap) :=
  match args with
  | [arg] =>
    match arg with
    | none => .error nilDereference
    | some (.Integer _ n) =>
      let y : Int := n >>> 63
      .ok (some (.Integer h.next (wrap64 (Int.xor n y - y))), h.alloc)
    | some (.Float _ n) =>
      .ok (some (.Float h.next (if Float64.lt n (.Finite 0) then host.float.neg n else n)),
        h.alloc)
    | some _ =>
      .ok (some (newError h.next
        "abs function takes Integer or Float type, got=object.ObjectType"), h.alloc)
  | _ => .ok (wrongNumberOfArguments args h)

/-- The builtin `reversed`: `slices.Reverse` reverses the elements in their backing array, and
the new List has the slice of the argument as its `Elements`. -/
def builtinReversed (args : List (Option Object)) (h : Heap) :
    Except Fault (Option Object × Heap) :=
  match args with
  | [arg] =>
    match arg with
    | none => .error nilDereference
    | some (.List addr) =>
      match mapGet h.lists addr with
      | none => .error .outsideFragment
      | some s =>
        if s.len = 0 then .ok (arg, h)
        else
          match mapGet h.arrays s.array with
          | none => .error .outsideFragment
          | some a =>
            .ok (some (.List h.next),
              { h with
                next := h.next + 1
                arrays := mapSet h.arrays s.array
                  (a.take s.offset ++ ((a.drop s.offset).take s.len).reverse ++
                    a.drop (s.offset + s.len))
                lists := mapSet h.lists h.next s })
    | some _ =>
      .ok (some (newError h.next "sum function takes list type, got=object.ObjectType"),
        h.alloc)
  | _ => .ok (wrongNumberOfArguments args h)

/-- The builtin `dict`: `&object.Dict{}`, whose field `Pairs` is the nil map. -/
def builtinDict (h : Heap) : Except Fault (Option Object × Heap) :=
  .ok (some (.Dict h.next), { h with next := h.next + 1, dicts := mapSet h.dicts h.next none })

/-- The loop of the builtin `set` over the arguments that remain, `values` being the map so
far; the second component of the result is the argument that is not `Hashable`, if the loop
has met one. -/
def builtinSetLoop (host : Host) :
    List (Option Object) → List (HashKey × Option Object) →
    Except Fault (List (HashKey × Option Object) × Option Object)
  | [], values => .ok (values, none)
  | none :: _, _ => .error nilDereference
  | some arg :: rest, values =>
    match arg.HashKey host with
    | none => .ok (values, some arg)
    | some key =>
      match mapGet values key with
      | some _ => builtinSetLoop host rest values
      | none => builtinSetLoop host rest (mapSet values key (some arg))

/-- The builtin `set`: the Set is allocated first, with an empty map. -/
def builtinSet (host : Host) (args : List (Option Object)) (h : Heap) :
    Except Fault (Option Object × Heap) :=
  match builtinSetLoop host args [] with
  | .error e => .error e
  | .ok (values, none) =>
    .ok (some (.Set h.next), { h with next := h.next + 1, sets := mapSet h.sets h.next values })
  | .ok (values, some arg) =>
    .ok (some (newError (h.next + 1) ("argument cannot be hashed: " ++ Type_ arg)),
      { h with next := h.next + 2, sets := mapSet h.sets h.next values })

/-- The allocation of the backing array of `list.Elements` for the builtin `list`, whose List
is at `h.next`: the slice is grown from the nil slice by one `append` for each of `items`. -/
def builtinListOf (host : Host) (items : List (Option Object)) (h : Heap) :
    Option Object × Heap :=
  match items with
  | [] =>
    (some (.List h.next),
      { h with next := h.next + 1, lists := mapSet h.lists h.next Slice.nil })
  | _ :: _ =>
    let n := items.length
    (some (.List h.next),
      { h with
        next := h.next + 2
        arrays := mapSet h.arrays (h.next + 1) (items ++ List.replicate (host.spare n) none)
        lists := mapSet h.lists h.next ⟨h.next + 1, 0, n, n + host.spare n⟩ })

/-- The builtin `list`.  With a Set as its one argument it appends the values in the order in
which `range` visits the map; with one argument of another type it appends that argument; with
no argument the `Elements` stay the nil slice.  The single `append` of two or more arguments,
whose capacity `Host.spare` does not describe, is outside the fragment. -/
def builtinList (host : Host) (args : List (Option Object)) (h : Heap) :
    Except Fault (Option Object × Heap) :=
  match args with
  | [] => .ok (builtinListOf host [] h)
  | [none] => .error nilDereference
  | [some (.Set addr)] =>
    match mapGet h.sets addr with
    | none => .error .outsideFragment
    | some values =>
      let visited := (host.mapRange (h.next + 1) values.length).filterMap (fun i => values.get? i)
      .ok (builtinListOf host (visited.map Prod.snd) h)
  | [some arg] => .ok (builtinListOf host [some arg] h)
  | _ => .error .outsideFragment

/-- The call `fn.Fn(args...)` of the builtin `name`; the builtins `print`, `sum`, `str`,
`round` and `sorted` are outside the fragment. -/
def applyBuiltin (host : Host) (name : String) (args : List (Option Object)) (h : Heap) :
    Except Fault (Option Object × Heap) :=
  if name = "len" then builtinLen args h
  else if name = "list" then builtinList host args h
  else if name = "range" then builtinRange host args h
  else if name = "min" then builtinMin args h
  else if name = "max" then builtinMax args h
  else if name = "abs" then builtinAbs host args h
  else if name = "reversed" then builtinReversed args h
  else if name = "dict" then builtinDict h
  else if name = "set" then builtinSet host args h
  else .error .outsideFragment

/-- The loop of `extendFunctionEnv`; `args[paramIdx]` panics when the call has fewer arguments
than the function has parameters. -/
def extendFunctionEnvLoop :
    List ast.Identifier → Nat → List (Option Object) → Nat → Heap → Except Fault Heap
  | [], _, _, _, h => .ok h
  | param :: rest, paramIdx, args, env, h =>
    match args.get? paramIdx with
    | none => .error (.panic "runtime error: index out of range")
    | some arg => do
      let h1 ← Environment.Set h env param.Value arg
      extendFunctionEnvLoop rest (paramIdx + 1) args env h1

/-- The function `extendFunctionEnv`; `fnEnv` is the field `Env` of the function. -/
def extendFunctionEnv (parameters : List ast.Identifier) (fnEnv : Nat)
    (args : List (Option Object)) (h : Heap) : Except Fault (Nat × Heap) := do
  let (env, h1) := NewEnclosedEnvironment fnEnv h
  let h2 ← extendFunctionEnvLoop parameters 0 args env h1
  pure (env, h2)

/-- The function `applyFunction`; `Eval` evaluates the body of a user-defined function. -/
def applyFunction (host : Host) (Eval : EvalFn (Option ast.BlockStatement)) (fn : Option Object)
    (args : List (Option Object)) (h : Heap) : Except Fault (Option Object × Heap) :=
  match fn with
  | none => .error nilDereference
  | some (.Function _ _ parameters body fnEnv) => do
    let (extendedEnv, h1) ← extendFunctionEnv parameters fnEnv args h
    let (evaluated, h2) ← Eval body extendedEnv h1
    pure (unwrapReturnValue evaluated, h2)
  | some (.Builtin _ name) => applyBuiltin host name args h
  | some other => .ok (some (newError h.next ("not a function: " ++ Type_ other)), h.alloc)

/-- The type `object.BuiltinObjectMethod`. -/
abbrev BuiltinObjectMethod :=
  Object → List (Option Object) → Heap → Except Fault (Option Object × Heap)

/-- A method of the tables that is outside the fragment embedded here. -/
def methodOutsideFragment : BuiltinObjectMethod := fun _ _ _ => .error .outsideFragment

/-- What the methods of `setMethods` share: the check of the number of arguments, the check
that the receiver is a Set (its message reads the type of the argument), and the `HashKey` of
the argument; `body` is what the method does with the address of the set, its map, the
argument and its key. -/
def setMethodWithKey (host : Host) (name : String)
    (body : Nat → List (HashKey × Option Object) → Object → HashKey → Heap →
      Except Fault (Option Object × Heap)) : BuiltinObjectMethod :=
  fun obj args h =>
    match args with
    | [arg] =>
      match obj with
      | .Set addr =>
        match arg with
        | none => .error nilDereference
        | some a =>
          match a.HashKey host with
          | none =>
            .ok (some (newError h.next ("argument cannot be hashed: " ++ Type_ a)), h.alloc)
          | some key =>
            match mapGet h.sets addr with
            | none => .error .outsideFragment
            | some values => body addr values a key h
      | _ =>
        match arg with
        | none => .error nilDereference
        | some a =>
          .ok (some (newError h.next
            ("set." ++ name ++ "() must be called on set, got " ++ Type_ a)), h.alloc)
    | _ =>
      .ok (some (newError h.next
        ("set." ++ name ++ "() takes 1 argument, got=" ++ toString args.length)), h.alloc)

/-- The Error `... not found in set` of the methods `remove` and `pop` of a Set. -/
def notFoundInSet (a : Object) (h : Heap) : Except Fault (Option Object × Heap) :=
  match Inspect a with
  | .error e => .error e
  | .ok text => .ok (some (newError h.next (text ++ " not found in set")), h.alloc)

/-- A loop `for hash, val := range x.Values` of the method `difference` of a Set over the
entries that remain to be visited: `val` is put into `result`, unless `result` has the key,
when the map `other` lacks the key or has under it a value with another text. -/
def setDifferenceLoop (other : List (HashKey × Option Object)) :
    List (HashKey × Option Object) → List (HashKey × Option Object) →
    Except Fault (List (HashKey × Option Object))
  | [], result => .ok result
  | (hash, val) :: rest, result =>
    match mapGet other hash with
    | some cpy =>
      match cpy, val with
      | some c, some v =>
        match Inspect c, Inspect v with
        | .ok tc, .ok tv =>
          if tc ≠ tv then
            setDifferenceLoop other rest
              (if (mapGet result hash).isSome then result else mapSet result hash val)
          else setDifferenceLoop other rest result
        | .error e, _ => .error e
        | _, .error e => .error e
      | _, _ => .error nilDereference
    | none =>
      setDifferenceLoop other rest
        (if (mapGet result hash).isSome then result else mapSet result hash val)

/-- The method `difference` of `setMethods`: the new Set is allocated first, then one loop
goes over the values of the receiver and a second one over the values of the argument. -/
def setDifference (host : Host) : BuiltinObjectMethod := fun obj args h =>
  match args with
  | [arg] =>
    match arg with
    | none => .error nilDereference
    | some b =>
      if Type_ b ≠ SET_OBJ then
        .ok (some (newError h.next
          ("set.difference() takes set as argument, got " ++ Type_ b)), h.alloc)
      else if Type_ obj ≠ SET_OBJ then
        .ok (some (newError h.next
          ("set.difference() must be called on set, got " ++ Type_ obj)), h.alloc)
      else
        match obj, b with
        | .Set aAddr, .Set bAddr =>
          match mapGet h.sets aAddr, mapGet h.sets bAddr with
          | some aValues, some bValues =>
            let aVisited :=
              (host.mapRange (h.next + 1) aValues.length).filterMap (fun i => aValues.get? i)
            let bVisited :=
              (host.mapRange (h.next + 1) bValues.length).filterMap (fun i => bValues.get? i)
            match setDifferenceLoop bValues aVisited [] with
            | .error e => .error e
            | .ok result1 =>
              match setDifferenceLoop aValues bVisited result1 with
              | .error e => .error e
              | .ok result2 =>
                .ok (some (.Set h.next),
                  { h with next := h.next + 1, sets := mapSet h.sets h.next result2 })
          | _, _ => .error .outsideFragment
        | _, _ => .error .outsideFragment
  | _ =>
    .ok (some (newError h.next
      ("set.difference() takes 1 argument, got=" ++ toString args.length)), h.alloc)

/-- The map `setMethods`; `intersection` and `union` are outside the fragment. -/
def setMethods (host : Host) (name : String) : Option BuiltinObjectMethod :=
  if name = "add" then
    some (setMethodWithKey host "add" (fun addr values a key h =>
      match mapGet values key with
      | some _ => .ok (some .NULL, h)
      | none =>
        .ok (some .NULL, { h with sets := mapSet h.sets addr (mapSet values key (some a)) })))
  else if name = "remove" then
    some (setMethodWithKey host "remove" (fun addr values a key h =>
      match mapGet values key with
      | none => notFoundInSet a h
      | some _ => .ok (some .NULL, { h with sets := mapSet h.sets addr (mapDelete values key) })))
  else if name = "discard" then
    some (setMethodWithKey host "discard" (fun addr values _ key h =>
      .ok (some .NULL, { h with sets := mapSet h.sets addr (mapDelete values key) })))
  else if name = "pop" then
    some (setMethodWithKey host "pop" (fun addr values a key h =>
      match mapGet values key with
      | none => notFoundInSet a h
      | some result =>
        .ok (result, { h with sets := mapSet h.sets addr (mapDelete values key) })))
  else if name = "difference" then some (setDifference host)
  else if name ∈ ["intersection", "union"] then some methodOutsideFragment
  else none

/-- The method `pop` of `listMethods` from the test `ind < 0` on, `ind` being the index of the
argument or `-1`.  The read `elements[ind]` panics when the index is still negative.  The slice
that `make` allocates is dropped unused; `append(elements[:ind], elements[ind+1:]...)` has
room in the backing array of `elements` and moves the elements behind the position `ind` one
place to the front there, so that the last element stays in the array behind the new, shorter
slice. -/
def listPopAt (obj : Object) (args : List (Option Object)) (ind : Int) (h : Heap) :
    Except Fault (Option Object × Heap) :=
  match obj with
  | .List addr =>
    match mapGet h.lists addr with
    | none => .error .outsideFragment
    | some s =>
      let ind1 : Int := if ind < 0 then (s.len : Int) + ind else ind
      if ind1 ≥ (s.len : Int) then
        .ok (some (newError h.next "index out of range of list.pop()"), h.alloc)
      else if ind1 < 0 then .error (.panic "runtime error: index out of range")
      else
        match mapGet h.arrays s.array with
        | none => .error .outsideFragment
        | some a =>
          let p := s.offset + ind1.toNat
          match a.get? p with
          | none => .error .outsideFragment
          | some result =>
            .ok (result,
              { h with
                arrays := mapSet h.arrays s.array
                  (a.take p ++ (a.drop (p + 1)).take (s.len - 1 - ind1.toNat) ++
                    a.drop (s.offset + s.len - 1))
                lists := mapSet h.lists addr ⟨s.array, s.offset, s.len - 1, s.cap⟩ })
  | _ =>
    match args with
    | [] => .error (.panic "runtime error: index out of range")
    | none :: _ => .error nilDereference
    | some a :: _ =>
      .ok (some (newError h.next ("list.pop() must be called on list, got " ++ Type_ a)),
        h.alloc)

/-- The method `pop` of `listMethods`. -/
def listPop : BuiltinObjectMethod := fun obj args h =>
  match args with
  | [] => listPopAt obj args (-1) h
  | [some (.Integer _ value)] => listPopAt obj args value h
  | [some arg] =>
    .ok (some (newError h.next
      ("index of list.pop() must be Integer type, got=" ++ goTypeName arg)), h.alloc)
  | [none] =>
    .ok (some (newError h.next "index of list.pop() must be Integer type, got=<nil>"), h.alloc)
  | _ =>
    .ok (some (newError h.next
      ("list.pop() take at most 1 index, got=" ++ toString args.length)), h.alloc)

/-- The map `listMethods`; the methods other than `pop` are outside the fragment. -/
def listMethods (name : String) : Option BuiltinObjectMethod :=
  if name = "pop" then some listPop
  else if name ∈ ["append", "reverse", "copy", "sort"] then some methodOutsideFragment
  else none

/-- The keys of the map `stringMethods`; the methods are outside the fragment. -/
def stringMethods (name : String) : Option BuiltinObjectMethod :=
  if name ∈ ["join", "upper", "lower", "isupper", "islower", "swapcase"] then
    some methodOutsideFragment
  else none

/-- The keys of the map `dictMethods`; the methods are outside the fragment. -/
def dictMethods (name : String) : Option BuiltinObjectMethod :=
  if name ∈ ["keys", "values", "items", "pop"] then some methodOutsideFragment
  else none

/-- The call `table[method.String()].Fn(obj, args...)`: the text of a method that is an
identifier is its name (that of another expression is outside the fragment), and a name that
the table lacks yields the nil pointer, whose field `Fn` is then read. -/
def callObjectMethod (table : String → Option BuiltinObjectMethod) (obj : Object)
    (method : Option ast.Expression) (args : List (Option Object)) (h : Heap) :
    Except Fault (Option Object × Heap) :=
  match method with
  | none => .error nilDereference
  | some (.Identifier _ name) =>
    match table name with
    | none => .error nilDereference
    | some fn => fn obj args h
  | some _ => .error .outsideFragment

/-- The function `applyObjectMethod`. -/
def applyObjectMethod (host : Host) (obj : Option Object) (method : Option ast.Expression)
    (args : List (Option Object)) (h : Heap) : Except Fault (Option Object × Heap) :=
  match obj with
  | none => .error nilDereference
  | some (.List addr) => callObjectMethod listMethods (.List addr) method args h
  | some (.String addr value) => callObjectMethod stringMethods (.String addr value) method args h
  | some (.Dict addr) => callObjectMethod dictMethods (.Dict addr) method args h
  | some (.Set addr) => callObjectMethod (setMethods host) (.Set addr) method args h
  | some other => .ok (some (newError h.next ("not a function: " ++ Type_ other)), h.alloc)

/-- The function `searchSet`. -/
def searchSet (host : Host) (target : Option Object) (obj : Object) (h : Heap) :
    Except Fault (Option Object × Heap) :=
  match obj with
  | .Set addr =>
    match target with
    | none => .error nilDereference
    | some t =>
      match t.HashKey host with
      | none => .ok (some (newError h.next ("object cannot be hashed: " ++ Type_ t)), h.alloc)
      | some key =>
        match mapGet h.sets addr with
        | none => .error .outsideFragment
        | some values =>
          match mapGet values key with
          | some _ => .ok (some .TRUE, h)
          | none => .ok (some .FALSE, h)
  | _ => .error (.panic "interface conversion: object.Object is not *object.Set")

/-- The comparison that `searchList` makes between the target and an element of the same type
tag: `some true` and `some false` for the `==` of the two fields `Value`, `none` for the
Error of the default case.  The comparison through `compareListsEqual` and `compareSetsEqual`
of a List or Set target is outside the fragment. -/
def searchListCompare (target el : Object) : Except Fault (Option Bool) :=
  match target, el with
  | .Integer _ a, .Integer _ b => .ok (some (decide (a = b)))
  | .Float _ a, .Float _ b => .ok (some (Float64.eq a b))
  | .String _ a, .String _ b => .ok (some (decide (a = b)))
  | .List _, _ => .error .outsideFragment
  | .Set _, _ => .error .outsideFragment
  | _, _ =>
    match boolValue target, boolValue el with
    | some a, some b => .ok (some (a == b))
    | _, _ => .ok none

/-- The loop of `searchList` over the elements that remain: `some true` when it returns TRUE,
`some false` when it comes to its end, `none` when it returns the Error of the default
case. -/
def searchListLoop (target : Object) : List (Option Object) → Except Fault (Option Bool)
  | [] => .ok (some false)
  | none :: _ => .error nilDereference
  | some el :: rest =>
    if Type_ el = Type_ target then
      match searchListCompare target el with
      | .error e => .error e
      | .ok none => .ok none
      | .ok (some true) => .ok (some true)
      | .ok (some false) => searchListLoop target rest
    else searchListLoop target rest

/-- The function `searchList`. -/
def searchList (target : Option Object) (obj : Object) (h : Heap) :
    Except Fault (Option Object × Heap) :=
  match obj with
  | .List addr =>
    match target with
    | none => .error nilDereference
    | some t =>
      match mapGet h.lists addr with
      | none => .error .outsideFragment
      | some s =>
        match searchListLoop t (h.elements s) with
        | .error e => .error e
        | .ok (some found) => .ok (some (nativeBoolToBooleanObject found), h)
        | .ok none =>
          .ok (some (newError h.next
            ("cannot search list for object of type " ++ goTypeName t)), h.alloc)
  | _ => .error (.panic "interface conversion: object.Object is not *object.List")

/-- The function `evalInExpression`. -/
def evalInExpression (host : Host) (left right : Option Object) (h : Heap) :
    Except Fault (Option Object × Heap) :=
  match right with
  | none => .error nilDereference
  | some r =>
    if Type_ r = "LIST" then searchList left r h
    else if Type_ r = "SET" then searchSet host left r h
    else
      .ok (some (newError h.next
        "cannot check if object of type object.ObjectType contains an object"), h.alloc)

/-- The loop of `evalDictLiteral` over the pairs of nodes still to be visited, `pairs` being
the map so far: on the left the value that the loop returns early (the Error of a key or of a
value, or the Error for a key that is not `Hashable`), on the right the map at its end. -/
def evalDictLiteralLoop (host : Host) (Eval : EvalFn (Option ast.Expression)) :
    List (Option ast.Expression × Option ast.Expression) → List (HashKey × HashPair) → Nat →
    Heap → Except Fault ((Option Object ⊕ List (HashKey × HashPair)) × Heap)
  | [], pairs, _, h => .ok (.inr pairs, h)
  | (keyNode, valueNode) :: rest, pairs, env, h => do
    let (key, h1) ← Eval keyNode env h
    if isError key then pure (.inl key, h1)
    else
      match key with
      | none => .error nilDereference
      | some k =>
        match k.HashKey host with
        | none =>
          pure (.inl (some (newError h1.next ("unusable as hash key: " ++ Type_ k))), h1.alloc)
        | some hashed => do
          let (value, h2) ← Eval valueNode env h1
          if isError value then pure (.inl value, h2)
          else evalDictLiteralLoop host Eval rest (mapSet pairs hashed ⟨key, value⟩) env h2

/-- The function `evalDictLiteral`.  The field `Pairs` of the node is a Go map, which the
`range` statement visits in the order the host chooses. -/
def evalDictLiteral (host : Host) (Eval : EvalFn (Option ast.Expression))
    (pairs : List (Option ast.Expression × Option ast.Expression)) (env : Nat) (h : Heap) :
    Except Fault (Option Object × Heap) := do
  let visited := (host.mapRange h.next pairs.length).filterMap (fun i => pairs.get? i)
  let (result, h1) ← evalDictLiteralLoop host Eval visited [] env h
  match result with
  | .inl early => pure (early, h1)
  | .inr pairs =>
    pure (some (.Dict h1.next),
      { h1 with next := h1.next + 1, dicts := mapSet h1.dicts h1.next (some pairs) })

/-- The loop of `evalExpressions`, `result` being the slice built so far. -/
def evalExpressionsLoop (Eval : EvalFn (Option ast.Expression)) :
    List (Option ast.Expression) → List (Option Object) → Nat → Heap →
    Except Fault (List (Option Object) × Heap)
  | [], result, _, h => .ok (result, h)
  | e :: rest, result, env, h => do
    let (evaluated, h1) ← Eval e env h
    if isError evaluated then pure ([evaluated], h1)
    else evalExpressionsLoop Eval rest (result ++ [evaluated]) env h1

/-- The function `evalExpressions`. -/
def evalExpressions (Eval : EvalFn (Option ast.Expression)) (exps : List (Option ast.Expression))
    (env : Nat) (h : Heap) : Except Fault (List (Option Object) × Heap) :=
  evalExpressionsLoop Eval exps [] env h

/-- The loop of `evalBlockStatement` over the statements that remain, `result` being the value
of the last statement evaluated. -/
def evalBlockStatementLoop (Eval : EvalFn ast.Statement) :
    List ast.Statement → Option Object → Nat → Heap → Except Fault (Option Object × Heap)
  | [], result, _, h => .ok (result, h)
  | statement :: rest, _, env, h => do
    let (result, h1) ← Eval statement env h
    match result with
    | some r =>
      if Type_ r = RETURN_VALUE_OBJ ∨ Type_ r = ERROR_OBJ then pure (result, h1)
      else evalBlockStatementLoop Eval rest result env h1
    | none => evalBlockStatementLoop Eval rest result env h1

/-- The function `evalBlockStatement`; the block is a pointer, which may be nil. -/
def evalBlockStatement (Eval : EvalFn ast.Statement) (block : Option ast.BlockStatement)
    (env : Nat) (h : Heap) : Except Fault (Option Object × Heap) :=
  match block with
  | none => .error nilDereference
  | some (.mk _ statements) => evalBlockStatementLoop Eval statements none env h

/-- The loop of `evalProgram` over the statements that remain, `result` being the value of the
last statement evaluated. -/
def evalProgramLoop (Eval : EvalFn ast.Statement) :
    List ast.Statement → Option Object → Nat → Heap → Except Fault (Option Object × Heap)
  | [], result, _, h => .ok (result, h)
  | statement :: rest, _, env, h =>
    match Eval statement env h with
    | .error e => .error e
    | .ok (result, h1) =>
      match result with
      | some (.ReturnValue _ value) => .ok (value, h1)
      | some (.Error addr message) => .ok (some (.Error addr message), h1)
      | _ => evalProgramLoop Eval rest result env h1

/-- The function `evalIfExpression`; `isTruthy` calls `Type()` on the nil interface. -/
def evalIfExpression (Eval : EvalFn (Option ast.Expression))
    (EvalBlock : EvalFn (Option ast.BlockStatement)) (condition : Option ast.Expression)
    (consequence alternative : Option ast.BlockStatement) (env : Nat) (h : Heap) :
    Except Fault (Option Object × Heap) := do
  let (c, h1) ← Eval condition env h
  if isError c then pure (c, h1)
  else
    match c with
    | none => .error nilDereference
    | some cond =>
      if isTruthy cond then EvalBlock consequence env h1
      else
        match alternative with
        | some alt => EvalBlock (some alt) env h1
        | none => pure (some .NULL, h1)

/-- The `range` loop of `evalForLoop` over the slice `s`, the header of `iterable.Elements` at
the entry of the loop: `remaining` iterations from the position `k` on.  Each iteration reads
its element from the backing array. -/
def evalForLoopRange (EvalBlock : EvalFn (Option ast.BlockStatement))
    (body : Option ast.BlockStatement) (iterator : String) (s : Slice) :
    Nat → Nat → Nat → Heap → Except Fault Heap
  | 0, _, _, h => .ok h
  | remaining + 1, k, env, h =>
    match h.nth s k with
    | none => .error .outsideFragment
    | some i => do
      let h1 ← Environment.Set h env iterator i
      let (_, h2) ← EvalBlock body env h1
      evalForLoopRange EvalBlock body iterator s remaining (k + 1) env h2

/-- The function `evalForLoop`.  When the iterable is not a List the source builds an Error,
drops it, and goes on to read the field `Elements` through the nil pointer. -/
def evalForLoop (Eval : EvalFn (Option ast.Expression))
    (EvalBlock : EvalFn (Option ast.BlockStatement)) (iterator : Option ast.Identifier)
    (iterable : Option ast.Expression) (body : Option ast.BlockStatement) (env : Nat)
    (h : Heap) : Except Fault Heap := do
  let (exp, h1) ← Eval iterable env h
  match exp with
  | some (.List addr) =>
    match iterator with
    | none => .error nilDereference
    | some iterator =>
      match mapGet h1.lists addr with
      | none => .error .outsideFragment
      | some s => evalForLoopRange EvalBlock body iterator.Value s s.len 0 env h1
  | _ => .error nilDereference

mutual

/-- The function `Eval` at the expression nodes and at the nil node. -/
def Eval (host : Host) :
    Nat → Option ast.Expression → Nat → Heap → Except Fault (Option Object × Heap)
  | 0, _, _, _ => .error .outOfFuel
  | fuel + 1, node, env, h =>
    match node with
    | none => .ok (none, h)
    | some (.Identifier _ value) => evalIdentifier value env h
    | some (.IntegerLiteral _ value) => .ok (some (.Integer h.next value), h.alloc)
    | some (.FloatLiteral _ value) => .ok (some (.Float h.next value), h.alloc)
    | some (.Boolean _ value) => .ok (some (nativeBoolToBooleanObject value), h)
    | some (.StringLiteral _ value) => .ok (some (.String h.next value), h.alloc)
    | some (.ListLiteral _ elements) => do
      let (elements, h1) ← evalExpressions (Eval host fuel) elements env h
      match elements with
      | [element] =>
        if isError element then pure (element, h1) else pure (newList host elements h1)
      | _ => pure (newList host elements h1)
    | some (.IndexExpression _ left index colon endIndex) => do
      let (left, h1) ← Eval host fuel left env h
      if isError left then pure (left, h1)
      else do
        let (index, h2) ← Eval host fuel index env h1
        if isError index then pure (index, h2)
        else if colon then do
          let (endObject, h3) ← Eval host fuel endIndex env h2
          evalIndexExpression host left index colon endObject h3
        else evalIndexExpression host left index colon none h2
    | some (.IndexAssignExpression _ left index _ _ value) => do
      let (left, h1) ← Eval host fuel left env h
      if isError left then pure (left, h1)
      else do
        let (index, h2) ← Eval host fuel index env h1
        if isError index then pure (index, h2)
        else do
          let (val, h3) ← Eval host fuel value env h2
          evalIndexAssignExpression host left index val h3
    | some (.DictLiteral _ pairs) => evalDictLiteral host (Eval host fuel) pairs env h
    | some (.IfExpression _ condition consequence alternative) =>
      evalIfExpression (Eval host fuel) (evalBlockStatement (EvalStatement host fuel))
        condition consequence alternative env h
    | some (.CallExpression _ function arguments) => do
      let (function, h1) ← Eval host fuel function env h
      if isError function then pure (function, h1)
      else do
        let (args, h2) ← evalExpressions (Eval host fuel) arguments env h1
        match args with
        | [arg] =>
          if isError arg then pure (arg, h2)
          else applyFunction host (evalBlockStatement (EvalStatement host fuel)) function args h2
        | _ => applyFunction host (evalBlockStatement (EvalStatement host fuel)) function args h2
    | some (.ObjectMethod obj _ method) => do
      let (obj, h1) ← Eval host fuel obj env h
      if isError obj then pure (obj, h1)
      else
        match method with
        | some (.CallExpression _ function arguments) => do
          let (args, h2) ← evalExpressions (Eval host fuel) arguments env h1
          match args with
          | [arg] =>
            if isError arg then pure (arg, h2) else applyObjectMethod host obj function args h2
          | _ => applyObjectMethod host obj function args h2
        | _ => .error nilDereference
    | some (.InExpression _ left right) => do
      let (left, h1) ← Eval host fuel left env h
      let (right, h2) ← Eval host fuel right env h1
      evalInExpression host left right h2
    | some (.PrefixExpression _ operator right) => do
      let (right, h1) ← Eval host fuel right env h
      if isError right then pure (right, h1)
      else
        match right with
        | some right =>
          pure (some (evalPrefixExpression host.float h1.next operator right), h1.alloc)
        | none =>
          if operator = "!" then pure (some .FALSE, h1)
          else .error nilDereference
    | some (.InfixExpression _ left operator right) => do
      let (left, h1) ← Eval host fuel left env h
      let (right, h2) ← Eval host fuel right env h1
      if isError left then pure (left, h2)
      else if isError right then pure (right, h2)
      else
        match left, right with
        | some left, some right => do
          let v ← evalInfixExpression host.float h2.next operator left right
          pure (some v, h2.alloc)
        | _, _ => .error nilDereference
termination_by structural fuel => fuel

/-- The function `Eval` at the statement nodes. -/
def EvalStatement (host : Host) :
    Nat → ast.Statement → Nat → Heap → Except Fault (Option Object × Heap)
  | 0, _, _, _ => .error .outOfFuel
  | fuel + 1, node, env, h =>
    match node with
    | .ExpressionStatement _ expression => Eval host fuel expression env h
    | .Block block => evalBlockStatement (EvalStatement host fuel) (some block) env h
    | .ReturnStatement _ returnValue => do
      let (val, h1) ← Eval host fuel returnValue env h
      if isError val then pure (val, h1)
      else pure (some (.ReturnValue h1.next val), h1.alloc)
    | .LetStatement _ name value => do
      let (val, h1) ← Eval host fuel value env h
      if isError val then pure (val, h1)
      else
        match name with
        | none => .error nilDereference
        | some name => do
          let h2 ← Environment.Set h1 env name.Value val
          pure (none, h2)
    | .FunctionStatement _ name parameters body => do
      let h1 ← Environment.Set h.alloc env name (some (.Function h.next name parameters body env))
      pure (none, h1)
    | .ForStatement _ iterator iterable body => do
      let h1 ← evalForLoop (Eval host fuel) (evalBlockStatement (EvalStatement host fuel))
        iterator iterable body env h
      pure (none, h1)
    | .WhileStatement _ condition body => do
      let h1 ← evalWhileLoop host fuel condition body env h
      pure (none, h1)
    | .NilPointer _ => .error nilDereference
termination_by structural fuel => fuel

/-- The function `evalWhileLoop`: the condition is evaluated before every iteration, and
`isTruthy` calls `Type()` on the nil interface.  One unit of the budget per iteration. -/
def evalWhileLoop (host : Host) :
    Nat → Option ast.Expression → Option ast.BlockStatement → Nat → Heap → Except Fault Heap
  | 0, _, _, _, _ => .error .outOfFuel
  | fuel + 1, condition, body, env, h => do
    let (exp, h1) ← Eval host fuel condition env h
    match exp with
    | none => .error nilDereference
    | some e =>
      if isTruthy e then do
        let (_, h2) ← evalBlockStatement (EvalStatement host fuel) body env h1
        evalWhileLoop host fuel condition body env h2
      else pure h1
termination_by structural fuel => fuel

end

/-- Whether a value ends the loop of `evalBlockStatement`: a ReturnValue or an Error. -/
def endsBlock (result : Option Object) : Bool :=
  match result with
  | some r => Type_ r == RETURN_VALUE_OBJ || Type_ r == ERROR_OBJ
  | none => false

/-- `InOrder Eval env statements h r0 r h1`: evaluated one after the other in the order of the
list, the first from the heap `h` and every other from the heap its predecessor has left, the
statements have values none of which is a ReturnValue or an Error; `r` is the value of the
last statement (`r0` when the list is empty) and `h1` the heap it has left. -/
inductive InOrder (Eval : EvalFn ast.Statement) (env : Nat) :
    List ast.Statement → Heap → Option Object → Option Object → Heap → Prop
  | nil (h : Heap) (r0 : Option Object) : InOrder Eval env [] h r0 r0 h
  | cons (statement : ast.Statement) (rest : List ast.Statement) (h h1 h2 : Heap)
      (r0 r1 r : Option Object) (first : Eval statement env h = .ok (r1, h1))
      (goesOn : endsBlock r1 = false) (others : InOrder Eval env rest h1 r1 r h2) :
      InOrder Eval env (statement :: rest) h r0 r h2

/-- The function `evalProgram`. -/
def evalProgram (host : Host) (fuel : Nat) (program : ast.Program) (env : Nat) (h : Heap) :
    Except Fault (Option Object × Heap) :=
  evalProgramLoop (EvalStatement host fuel) program.Statements none env h

/-- The function `testEval` of the tests after the parse: the program is evaluated in a new
environment, the first allocation of the run. -/
def evalInNewEnvironment (host : Host) (fuel : Nat) (program : ast.Program) :
    Except Fault (Option Object × Heap) :=
  let (env, h) := NewEnvironment Heap.empty
  evalProgram host fuel program env h

end evaluator

namespace evaluator

open object

/-- The function `testEval` of the tests of the evaluator: the text, here the tokens the lexer
has for it, is parsed and the program evaluated in a new environment. -/
def testEval (host : Host) (ParseFloat : String → Option Float64) (parseFuel evalFuel : Nat)
    (input : List token.Token) : Except Fault (Option Object × Heap) :=
  match parser.ParseProgram ParseFloat parseFuel (parser.New input) with
  | .error e => .error e
  | .ok (program, _) => evalInNewEnvironment host evalFuel program

/-- What the tests read of the result of `testEval`: its type tag and its text, and `none` when
the result is the nil interface. -/
def testEvalText (host : Host) (ParseFloat : String → Option Float64) (parseFuel evalFuel : Nat)
    (input : List token.Token) : Except Fault (Option (ObjectType × String)) :=
  match testEval host ParseFloat parseFuel evalFuel input with
  | .error e => .error e
  | .ok (none, _) => .ok none
  | .ok (some evaluated, _) =>
    match Inspect evaluated with
    | .error e => .error e
    | .ok text => .ok (some (Type_ evaluated, text))

/-- The type tag and the text of each object of a list, `none` for the nil interface. -/
def inspectAll : List (Option Object) → Except Fault (List (Option (ObjectType × String)))
  | [] => .ok []
  | none :: rest =>
    match inspectAll rest with
    | .error e => .error e
    | .ok texts => .ok (none :: texts)
  | some o :: rest =>
    match Inspect o, inspectAll rest with
    | .ok text, .ok texts => .ok (some (Type_ o, text) :: texts)
    | .error e, _ => .error e
    | _, .error e => .error e

/-- What `TestBuiltinRange` reads of the result of `testEval`: the elements of the List, each
by its type tag and its text; `none` when the result is not a List. -/
def testEvalElements (host : Host) (ParseFloat : String → Option Float64)
    (parseFuel evalFuel : Nat) (input : List token.Token) :
    Except Fault (Option (List (Option (ObjectType × String)))) :=
  match testEval host ParseFloat parseFuel evalFuel input with
  | .error e => .error e
  | .ok (some (.List addr), h) =>
    match mapGet h.lists addr with
    | none => .error .outsideFragment
    | some s =>
      match inspectAll (h.elements s) with
      | .error e => .error e
      | .ok texts => .ok (some texts)
  | .ok _ => .ok none

end evaluator

/-! ## Programs of the tests -/

namespace evaluator

open object token

/-- The block `x = x + i`, as the parser has it. -/
def forRangeBody : ast.BlockStatement :=
  .mk ⟨COLON, ":"⟩
    [.LetStatement ⟨LET, "let"⟩ (some ⟨⟨IDENT, "x"⟩, "x"⟩)
      (some (.InfixExpression ⟨PLUS, "+"⟩ (some (.Identifier ⟨IDENT, "x"⟩ "x")) "+"
        (some (.Identifier ⟨IDENT, "i"⟩ "i"))))]

/-- The call `range(n)`, as the parser has it, with the Integer `n` as the argument. -/
def rangeCall (n : Int) : ast.Expression :=
  .CallExpression ⟨LPAREN, "("⟩ (some (.Identifier ⟨IDENT, "range"⟩ "range"))
    [some (.IntegerLiteral ⟨INT, toString n⟩ n)]

/-- The statement `for i in range(n):` / `x = x + i`, as the parser has it. -/
def forRangeStatement (n : Int) : ast.Statement :=
  .ForStatement ⟨FOR, "for"⟩ (some ⟨⟨IDENT, "i"⟩, "i"⟩) (some (rangeCall n))
    (some forRangeBody)

/-- The program `x = 0` / `for i in range(n):` / `x = x + i` / `return x` of `TestForLoop`,
as the parser has it, with the Integer `n` as the argument of `range`. -/
def forRangeProgram (n : Int) : ast.Program :=
  ⟨[.LetStatement ⟨LET, "let"⟩ (some ⟨⟨IDENT, "x"⟩, "x"⟩)
      (some (.IntegerLiteral ⟨INT, "0"⟩ 0)),
    forRangeStatement n,
    .ReturnStatement ⟨RETURN, "return"⟩ (some (.Identifier ⟨IDENT, "x"⟩ "x"))]⟩

/-- The backing array that `range(n)` allocates at the address `array`. -/
def rangeArray (array n : Nat) : List (Option Object) :=
  (List.range n).map (fun i => some (.Integer (array + 1 + i) (i : Int)))

/-- The heap of `forRangeProgram n` during its loop: the frame at 0 binds `x` to an Integer
and, after the first iteration, `i`; the array of the range is at 3 and its List at `4 + n`. -/
def loopHeap (n next ax : Nat) (vx : Int) (rest : List (String × Option Object)) : Heap :=
  ⟨next, [(0, ⟨("x", some (.Integer ax vx)) :: rest, none⟩)], [(3, rangeArray 3 n)],
    [(4 + n, ⟨3, 0, n, n⟩)], [], []⟩

/-- The program `def newAdder(x):` / `def f(y):` / `return x + y` / `return f` / `x = c` /
`newAdder(a)(b)`, as the parser has it, with Integers `a`, `b` and `c`. -/
def newAdderProgram (a b c : Int) : ast.Program :=
  ⟨[.FunctionStatement ⟨FUNCTION, "def"⟩ "newAdder" [⟨⟨IDENT, "x"⟩, "x"⟩]
      (some (.mk ⟨COLON, ":"⟩
        [.FunctionStatement ⟨FUNCTION, "def"⟩ "f" [⟨⟨IDENT, "y"⟩, "y"⟩]
          (some (.mk ⟨COLON, ":"⟩
            [.ReturnStatement ⟨RETURN, "return"⟩
              (some (.InfixExpression ⟨PLUS, "+"⟩ (some (.Identifier ⟨IDENT, "x"⟩ "x")) "+"
                (some (.Identifier ⟨IDENT, "y"⟩ "y"))))])),
          .ReturnStatement ⟨RETURN, "return"⟩ (some (.Identifier ⟨IDENT, "f"⟩ "f"))])),
    .LetStatement ⟨LET, "let"⟩ (some ⟨⟨IDENT, "x"⟩, "x"⟩)
      (some (.IntegerLiteral ⟨INT, toString c⟩ c)),
    .ExpressionStatement ⟨IDENT, "newAdder"⟩
      (some (.CallExpression ⟨LPAREN, "("⟩
        (some (.CallExpression ⟨LPAREN, "("⟩
          (some (.Identifier ⟨IDENT, "newAdder"⟩ "newAdder"))
          [some (.IntegerLiteral ⟨INT, toString a⟩ a)]))
        [some (.IntegerLiteral ⟨INT, toString b⟩ b)]))]⟩

/-- The body `return if true:` / `return 5` of a function, as the parser has it. -/
def nestedReturnBody : ast.BlockStatement :=
  .mk ⟨COLON, ":"⟩
    [.ReturnStatement ⟨RETURN, "return"⟩
      (some (.IfExpression ⟨IF, "if"⟩ (some (.Boolean ⟨token.TRUE, "true"⟩ true))
        (some (.mk ⟨COLON, ":"⟩
          [.ReturnStatement ⟨RETURN, "return"⟩ (some (.IntegerLiteral ⟨INT, "5"⟩ 5))]))
        none))]

/-- Whether two objects have an equal value: the same Integer, two Floats that the `==` of
`float64` finds equal (a NaN is equal to no Float, itself included, and the two zeros are
equal), the same truth value, or the same text. -/
def equalValue (a b : Object) : Bool :=
  ((algorithms.integerValue a).isSome && algorithms.integerValue a == algorithms.integerValue b) ||
  (match floatValue a, floatValue b with
    | some x, some y => Float64.eq x y
    | _, _ => false) ||
  ((boolValue a).isSome && boolValue a == boolValue b) ||
  ((stringValue a).isSome && stringValue a == stringValue b)

/-- A map of a Set that holds Integers of `int64` only, each under its own hash key. -/
def integerValues (values : List (HashKey × Option Object)) : Prop :=
  ∀ kv ∈ values, ∃ (addr : Nat) (x : Int),
    isInt64 x ∧ kv = (⟨INTEGER_OBJ, uint64 x⟩, some (.Integer addr x))

/-- The statements `s.m(a)` of a list, each a method name `m` with an Integer `a`, made one
after the other on the object `s` as `Eval` makes a call at an ObjectMethod node: the Integer
of the literal is allocated, then `applyObjectMethod` is called.  The values of the calls are
dropped, as those of expression statements are. -/
def applySetCalls (host : Host) (s : Object) : List (String × Int) → Heap → Except Fault Heap
  | [], h => .ok h
  | (method, a) :: rest, h =>
    match applyObjectMethod host (some s) (some (.Identifier ⟨IDENT, method⟩ method))
        [some (.Integer h.next a)] h.alloc with
    | .error e => .error e
    | .ok (_, h1) => applySetCalls host s rest h1

/-- The Integers that a set is to hold after the calls of a list, `members` being those it
holds before: `add` puts its argument in, and `remove`, `discard` and `pop` take theirs
out. -/
def setMembers : List Int → List (String × Int) → List Int
  | members, [] => members
  | members, (method, a) :: rest =>
    if method = "add" then setMembers (a :: members) rest
    else setMembers (members.filter (fun x => x ≠ a)) rest

end evaluator

/-! ## The tokens a parser has left -/

namespace parser

/-- The weight of a state of the parser: four for each token that the lexer has yet to
produce, four for a peek token and two for a current token other than `EOF`, and one while
`skipFlag` is unset.  No parse method increases it, and `nextToken` lowers it unless the current
and the peek token are both `EOF`. -/
def weight (p : Parser) : Nat :=
  4 * p.l.length + (if p.peekToken.Type_ = token.EOF then 0 else 4) +
    (if p.curToken.Type_ = token.EOF then 0 else 2) + (if p.skipFlag then 0 else 1)

/-- A state with a token to consume: the current or the peek token is not `EOF`. -/
def hasToken (p : Parser) : Prop :=
  p.curToken.Type_ ≠ token.EOF ∨ p.peekToken.Type_ ≠ token.EOF

/-- `returnsWithin f n c slack pre`: on every state `p` that satisfies `pre` and whose weight
`w` the budget `n` covers, `8 * w + c ≤ n`, the parse method `f` returns, with the same result
for every budget from `n` on, and leaves a state of weight at most `w + slack`. -/
def returnsWithin {α : Type} (f : Nat → Parser → Except Fault (α × Parser)) (n c slack : Nat)
    (pre : Parser → Prop) : Prop :=
  ∀ p, pre p → 8 * weight p + c ≤ n →
    ∃ r, (∀ m, n ≤ m → f m p = .ok r) ∧ weight r.2 ≤ weight p + slack

/-- Every parse method returns within the budget `n`. -/
structure allReturn (pf : String → Option Float64) (n : Nat) : Prop where
  statement : returnsWithin (parseStatement pf) n 5 0 (fun _ => True)
  letStatement : returnsWithin (parseLetStatement pf) n 1 0 (fun _ => True)
  identStatement : returnsWithin (parseIdentStatement pf) n 1 0 (fun _ => True)
  returnStatement : returnsWithin (parseReturnStatement pf) n 1 0 hasToken
  functionStatement : returnsWithin (parseFunctionStatement pf) n 1 0 (fun _ => True)
  forStatement : returnsWithin (parseForStatement pf) n 1 0 (fun _ => True)
  whileStatement : returnsWithin (parseWhileStatement pf) n 1 0 hasToken
  expressionStatement : returnsWithin (parseExpressionStatement pf) n 4 0 (fun _ => True)
  expression : ∀ precedence,
    returnsWithin (fun m => parseExpression pf m precedence) n 3 0 (fun _ => True)
  expressionLoop : ∀ precedence leftExp,
    returnsWithin (fun m => parseExpressionLoop pf m precedence leftExp) n 1 0 (fun _ => True)
  listLiteral : returnsWithin (parseListLiteral pf) n 2 0 hasToken
  dictLiteral : returnsWithin (parseDictLiteral pf) n 2 0 hasToken
  dictLiteralLoop : ∀ pairs,
    returnsWithin (fun m => parseDictLiteralLoop pf m pairs) n 1 0 hasToken
  expressionList : ∀ end_,
    returnsWithin (fun m => parseExpressionList pf m end_) n 1 0 hasToken
  expressionListLoop : ∀ list,
    returnsWithin (fun m => parseExpressionListLoop pf m list) n 1 0 (fun _ => True)
  groupedExpression : returnsWithin (parseGroupedExpression pf) n 1 0 hasToken
  ifExpression : returnsWithin (parseIfExpression pf) n 1 0 hasToken
  blockStatement : returnsWithin (parseBlockStatement pf) n 7 1 (fun _ => True)
  blockStatementLoop : ∀ indentLevel statements,
    returnsWithin (fun m => parseBlockStatementLoop pf m indentLevel statements) n 6 0
      (fun _ => True)
  callExpression : ∀ function,
    returnsWithin (fun m => parseCallExpression pf m function) n 2 0 hasToken
  indexExpression : ∀ left,
    returnsWithin (fun m => parseIndexExpression pf m left) n 1 0 hasToken
  objectMethod : ∀ left,
    returnsWithin (fun m => parseObjectMethod pf m left) n 1 0 (fun _ => True)
  inExpression : ∀ left,
    returnsWithin (fun m => parseInExpression pf m left) n 1 0 hasToken
  prefixExpression : returnsWithin (parsePrefixExpression pf) n 1 0 hasToken
  infixExpression : ∀ left,
    returnsWithin (fun m => parseInfixExpression pf m left) n 1 0 hasToken

end parser

/-! ## package repl -/

namespace repl

open object

/-- The constant `PROMPT`. -/
def PROMPT : String := ">> "

/-- The function `printParserErrors`: the text it writes. -/
def printParserErrors (errors : List String) : String :=
  errors.foldl (fun out msg => out ++ "\t" ++ msg ++ "\n") ""

/-- The loop of `StartInteractive` over the lines still to be read, each given by its tokens;
`out` is the text written so far.  The loop ends when the scanner has no line left. -/
def StartInteractiveLoop (host : Host) (ParseFloat : String → Option Float64)
    (parseFuel evalFuel : Nat) :
    List (List token.Token) → Nat → Heap → String → Except Fault String
  | [], _, _, out => .ok (out ++ PROMPT)
  | line :: rest, env, h, out =>
    match parser.ParseProgram ParseFloat parseFuel (parser.New line) with
    | .error e => .error e
    | .ok (program, p) =>
      if p.errors.length ≠ 0 then
        StartInteractiveLoop host ParseFloat parseFuel evalFuel rest env h
          (out ++ PROMPT ++ printParserErrors p.errors)
      else
        match evaluator.evalProgram host evalFuel program env h with
        | .error e => .error e
        | .ok (none, h1) =>
          StartInteractiveLoop host ParseFloat parseFuel evalFuel rest env h1 (out ++ PROMPT)
        | .ok (some evaluated, h1) =>
          match Inspect evaluated with
          | .error e => .error e
          | .ok text =>
            StartInteractiveLoop host ParseFloat parseFuel evalFuel rest env h1
              (out ++ PROMPT ++ text ++ "\n")

/-- The function `StartInteractive` on the lines `input`: the text written to `out`. -/
def StartInteractive (host : Host) (ParseFloat : String → Option Float64)
    (parseFuel evalFuel : Nat) (input : List (List token.Token)) : Except Fault String :=
  let (env, h) := NewEnvironment Heap.empty
  StartInteractiveLoop host ParseFloat parseFuel evalFuel input env h ""

end repl

end Simpyl

/-! # Theorems -/

namespace Simpyl

namespace algorithms

open object

/-! ## The merge sort -/

theorem mergeLoop_acc (res l r : List Object) :
    mergeLoop res l r = (mergeLoop [] l r).map (fun out => res ++ out) := by
  induction l generalizing res r with
  | nil => simp [mergeLoop, Except.map]
  | cons a l ihl =>
    induction r generalizing res with
    | nil => simp [mergeLoop, Except.map]
    | cons b r ihr =>
      rw [mergeLoop, mergeLoop]
      cases hc : mergeCompare a b with
      | error e => simp [Except.map]
      | ok c =>
        cases c with
        | true =>
          simp only []
          rw [ihl (res ++ [a]), ihl ([] ++ [a])]
          cases mergeLoop [] l (b :: r) <;> simp [Except.map]
        | false =>
          simp only []
          rw [ihr (res ++ [b]), ihr ([] ++ [b])]
          cases mergeLoop [] (a :: l) r <;> simp [Except.map]

theorem merge_nil_left (r : List Object) : merge [] r = .ok r := by
  simp [merge, mergeLoop]

theorem merge_nil_right (l : List Object) : merge l [] = .ok l := by
  cases l <;> simp [merge, mergeLoop]

theorem merge_cons_true {a b : Object} (l r : List Object)
    (h : mergeCompare a b = .ok true) :
    merge (a :: l) (b :: r) = (merge l (b :: r)).map (fun out => a :: out) := by
  unfold merge
  rw [mergeLoop, h]
  simp only []
  rw [mergeLoop_acc]
  simp

theorem merge_cons_false {a b : Object} (l r : List Object)
    (h : mergeCompare a b = .ok false) :
    merge (a :: l) (b :: r) = (merge (a :: l) r).map (fun out => b :: out) := by
  unfold merge
  rw [mergeLoop, h]
  simp only []
  rw [mergeLoop_acc]
  simp

theorem merge_cons_error {a b : Object} (l r : List Object) {e : Fault}
    (h : mergeCompare a b = .error e) :
    merge (a :: l) (b :: r) = .error e := by
  unfold merge
  rw [mergeLoop, h]

theorem mergeCompare_ok_of_comparable {a b : Object} (ha : comparable a = true)
    (hb : comparable b = true) : ∃ c, mergeCompare a b = .ok c := by
  cases a <;> cases b <;> simp [comparable] at ha hb <;> exact ⟨_, rfl⟩

theorem merge_ok_perm (l r : List Object) (hl : ∀ x ∈ l, comparable x = true)
    (hr : ∀ x ∈ r, comparable x = true) :
    ∃ out, merge l r = .ok out ∧ out.Perm (l ++ r) := by
  induction l generalizing r with
  | nil => exact ⟨r, merge_nil_left r, by simp⟩
  | cons a l ihl =>
    induction r with
    | nil => exact ⟨a :: l, merge_nil_right _, by simp⟩
    | cons b r ihr =>
      have ha : comparable a = true := hl a (List.mem_cons_self _ _)
      have hb : comparable b = true := hr b (List.mem_cons_self _ _)
      obtain ⟨c, hc⟩ := mergeCompare_ok_of_comparable ha hb
      cases c with
      | true =>
        obtain ⟨out, ho, hp⟩ := ihl (b :: r) (fun x hx => hl x (List.mem_cons_of_mem _ hx)) hr
        refine ⟨a :: out, ?_, ?_⟩
        · rw [merge_cons_true l r hc, ho]; rfl
        · simpa using hp
      | false =>
        obtain ⟨out, ho, hp⟩ := ihr (fun x hx => hr x (List.mem_cons_of_mem _ hx))
        refine ⟨b :: out, ?_, ?_⟩
        · rw [merge_cons_false l r hc, ho]; rfl
        · have h1 : (b :: out).Perm (b :: (a :: l ++ r)) := List.Perm.cons b hp
          exact h1.trans (List.perm_middle.symm)

theorem MergeSort_ok_perm (arr : List Object) (h : ∀ x ∈ arr, comparable x = true) :
    ∃ out, MergeSort arr = .ok out ∧ out.Perm arr := by
  induction arr using MergeSort.induct with
  | case1 x hx => exact ⟨x, by rw [MergeSort]; simp [hx], List.Perm.refl _⟩
  | case2 x hx middle e he ih =>
    obtain ⟨o, ho, _⟩ := ih (fun y hy => h y (List.mem_of_mem_take hy))
    rw [ho] at he; cases he
  | case3 x hx middle left hleft e he ih1 ih2 =>
    obtain ⟨o, ho, _⟩ := ih2 (fun y hy => h y (List.mem_of_mem_drop hy))
    rw [ho] at he; cases he
  | case4 x hx middle left hleft right hright ih1 ih2 =>
    obtain ⟨ol, hol, hpl⟩ := ih1 (fun y hy => h y (List.mem_of_mem_take hy))
    obtain ⟨or, hor, hpr⟩ := ih2 (fun y hy => h y (List.mem_of_mem_drop hy))
    have hcl : ∀ y ∈ ol, comparable y = true := fun y hy => h y (List.mem_of_mem_take (hpl.subset hy))
    have hcr : ∀ y ∈ or, comparable y = true := fun y hy => h y (List.mem_of_mem_drop (hpr.subset hy))
    obtain ⟨out, ho, hp⟩ := merge_ok_perm ol or hcl hcr
    refine ⟨out, ?_, ?_⟩
    · rw [MergeSort]; simp only [hx, ↓reduceDIte]; rw [hol, hor]; exact ho
    · have := (hp.trans (hpl.append hpr))
      rwa [List.take_append_drop] at this

/-- C1: for every list `L` of Integer, Float and String values, `MergeSort L` returns a list
that is a permutation of `L` (same elements with the same multiplicities, hence the same
length). -/
theorem MergeSort_permutation (L : List Object) (h : ∀ x ∈ L, comparable x = true) :
    ∃ out, MergeSort L = .ok out ∧ out.Perm L ∧ out.length = L.length := by
  obtain ⟨out, ho, hp⟩ := MergeSort_ok_perm L h
  exact ⟨out, ho, hp, hp.length_eq⟩

theorem MergeSort_permutation_witness :
    (∀ x ∈ [Object.Integer 10 3, Object.Float 11 (Float64.Finite 1), Object.String 12 "a",
        Object.Integer 13 2], comparable x = true) ∧
    ∃ out, MergeSort [Object.Integer 10 3, Object.Float 11 (Float64.Finite 1),
        Object.String 12 "a", Object.Integer 13 2] = .ok out ∧
      out.Perm [Object.Integer 10 3, Object.Float 11 (Float64.Finite 1), Object.String 12 "a",
        Object.Integer 13 2] ∧ out.length = 4 :=
  ⟨by simp [comparable], MergeSort_permutation _ (by simp [comparable])⟩

theorem mergeLE_of_false {L : List Object} (ht : totalOn L) {a b : Object} (ha : a ∈ L)
    (hb : b ∈ L) (h : mergeCompare a b = .ok false) : mergeLE b a := by
  rcases ht a ha b hb with h1 | h1
  · unfold mergeLE at h1; rw [h] at h1; cases h1
  · exact h1

theorem merge_sorted (L l r : List Object) (ht : totalOn L) (htr : transOn L)
    (hlL : ∀ x ∈ l, x ∈ L) (hrL : ∀ x ∈ r, x ∈ L)
    (hl : l.Pairwise mergeLE) (hr : r.Pairwise mergeLE) (out : List Object)
    (ho : merge l r = .ok out) : out.Pairwise mergeLE ∧ out.Perm (l ++ r) := by
  induction l generalizing r out with
  | nil =>
    rw [merge_nil_left] at ho; cases ho
    exact ⟨hr, by simp⟩
  | cons a l ihl =>
    induction r generalizing out with
    | nil =>
      rw [merge_nil_right] at ho; cases ho
      exact ⟨hl, by simp⟩
    | cons b r ihr =>
      have haL : a ∈ L := hlL a (List.mem_cons_self _ _)
      have hbL : b ∈ L := hrL b (List.mem_cons_self _ _)
      cases hc : mergeCompare a b with
      | error e => rw [merge_cons_error l r hc] at ho; cases ho
      | ok c =>
        cases c with
        | true =>
          rw [merge_cons_true l r hc] at ho
          cases hm : merge l (b :: r) with
          | error e => rw [hm] at ho; cases ho
          | ok out1 =>
            rw [hm] at ho; cases ho
            obtain ⟨hs, hp⟩ := ihl (b :: r) (fun x hx => hlL x (List.mem_cons_of_mem _ hx)) hrL
              (List.Pairwise.of_cons hl) hr out1 hm
            refine ⟨List.Pairwise.cons ?_ hs, by simpa using hp⟩
            intro x hx
            have hx1 : x ∈ l ++ b :: r := hp.subset hx
            rcases List.mem_append.1 hx1 with hxl | hxr
            · exact List.rel_of_pairwise_cons hl hxl
            · rcases List.mem_cons.1 hxr with rfl | hxr1
              · exact hc
              · exact htr a haL b hbL x (hrL x (List.mem_cons_of_mem _ hxr1)) hc
                  (List.rel_of_pairwise_cons hr hxr1)
        | false =>
          rw [merge_cons_false l r hc] at ho
          cases hm : merge (a :: l) r with
          | error e => rw [hm] at ho; cases ho
          | ok out1 =>
            rw [hm] at ho; cases ho
            obtain ⟨hs, hp⟩ := ihr (fun x hx => hrL x (List.mem_cons_of_mem _ hx))
              (List.Pairwise.of_cons hr) out1 hm
            have hba : mergeLE b a := mergeLE_of_false ht haL hbL hc
            refine ⟨List.Pairwise.cons ?_ hs, ?_⟩
            · intro x hx
              have hx1 : x ∈ a :: l ++ r := hp.subset hx
              rcases List.mem_append.1 hx1 with hxl | hxr
              · rcases List.mem_cons.1 hxl with rfl | hxl1
                · exact hba
                · exact htr b hbL a haL x (hlL x (List.mem_cons_of_mem _ hxl1)) hba
                    (List.rel_of_pairwise_cons hl hxl1)
              · exact List.rel_of_pairwise_cons hr hxr
            · have h1 : (b :: out1).Perm (b :: (a :: l ++ r)) := List.Perm.cons b hp
              exact h1.trans (List.perm_middle.symm)

theorem merge_filter (L l r : List Object) (htr : transOn L)
    (hlL : ∀ x ∈ l, x ∈ L) (hrL : ∀ x ∈ r, x ∈ L)
    (hl : l.Pairwise mergeLE) (p : Object → Bool)
    (hp : ∀ x ∈ L, ∀ y ∈ L, p x = true → p y = true → mergeLE x y ∧ mergeLE y x)
    (out : List Object) (ho : merge l r = .ok out) :
    out.filter p = l.filter p ++ r.filter p := by
  induction l generalizing r out with
  | nil =>
    rw [merge_nil_left] at ho; cases ho
    simp
  | cons a l ihl =>
    induction r generalizing out with
    | nil =>
      rw [merge_nil_right] at ho; cases ho
      simp
    | cons b r ihr =>
      have haL : a ∈ L := hlL a (List.mem_cons_self _ _)
      have hbL : b ∈ L := hrL b (List.mem_cons_self _ _)
      cases hc : mergeCompare a b with
      | error e => rw [merge_cons_error l r hc] at ho; cases ho
      | ok c =>
        cases c with
        | true =>
          rw [merge_cons_true l r hc] at ho
          cases hm : merge l (b :: r) with
          | error e => rw [hm] at ho; cases ho
          | ok out1 =>
            rw [hm] at ho; cases ho
            have ih := ihl (b :: r) (fun x hx => hlL x (List.mem_cons_of_mem _ hx)) hrL
              (List.Pairwise.of_cons hl) out1 hm
            simp only [Except.map, List.filter_cons, ih]
            split <;> simp
        | false =>
          rw [merge_cons_false l r hc] at ho
          cases hm : merge (a :: l) r with
          | error e => rw [hm] at ho; cases ho
          | ok out1 =>
            rw [hm] at ho; cases ho
            have ih := ihr (fun x hx => hrL x (List.mem_cons_of_mem _ hx)) out1 hm
            cases hpb : p b with
            | false => simp [Except.map, List.filter_cons, ih, hpb]
            | true =>
              have hnil : (a :: l).filter p = [] := by
                rw [List.filter_eq_nil_iff]
                intro x hx hpx
                have hxL : x ∈ L := hlL x hx
                have hxb : mergeLE x b := (hp x hxL b hbL hpx hpb).1
                have hab : mergeLE a b := by
                  rcases List.mem_cons.1 hx with rfl | hx1
                  · exact hxb
                  · exact htr a haL x hxL b hbL (List.rel_of_pairwise_cons hl hx1) hxb
                unfold mergeLE at hab
                rw [hc] at hab
                cases hab
              simp only [Except.map, List.filter_cons, ih, hpb, hnil, if_true, List.nil_append]

theorem totalOn_sub {L M : List Object} (h : totalOn L) (hs : ∀ x ∈ M, x ∈ L) : totalOn M :=
  fun a ha b hb => h a (hs a ha) b (hs b hb)

theorem transOn_sub {L M : List Object} (h : transOn L) (hs : ∀ x ∈ M, x ∈ L) : transOn M :=
  fun a ha b hb c hc => h a (hs a ha) b (hs b hb) c (hs c hc)

theorem MergeSort_spec (arr : List Object) (hc : ∀ x ∈ arr, comparable x = true)
    (ht : totalOn arr) (htr : transOn arr) :
    ∃ out, MergeSort arr = .ok out ∧ out.Perm arr ∧ out.Pairwise mergeLE ∧ stable arr out := by
  induction arr using MergeSort.induct with
  | case1 x hx =>
    refine ⟨x, by rw [MergeSort]; simp [hx], List.Perm.refl _, ?_, fun p _ => rfl⟩
    match x, hx with
    | [], _ => exact List.Pairwise.nil
    | [a], _ => exact List.pairwise_singleton _ _
  | case2 x hx middle e he ih =>
    obtain ⟨o, ho, _⟩ := MergeSort_ok_perm _ (fun y hy => hc y (List.mem_of_mem_take hy))
    rw [ho] at he; cases he
  | case3 x hx middle left hleft e he ih1 ih2 =>
    obtain ⟨o, ho, _⟩ := MergeSort_ok_perm _ (fun y hy => hc y (List.mem_of_mem_drop hy))
    rw [ho] at he; cases he
  | case4 x hx middle left hleft right hright ih1 ih2 =>
    have hsubl : ∀ y ∈ List.take middle x, y ∈ x := fun y hy => List.mem_of_mem_take hy
    have hsubr : ∀ y ∈ List.drop middle x, y ∈ x := fun y hy => List.mem_of_mem_drop hy
    obtain ⟨ol, hol, hpl, hsl, hstl⟩ := ih1 (fun y hy => hc y (hsubl y hy))
      (totalOn_sub ht hsubl) (transOn_sub htr hsubl)
    obtain ⟨or, hor, hpr, hsr, hstr⟩ := ih2 (fun y hy => hc y (hsubr y hy))
      (totalOn_sub ht hsubr) (transOn_sub htr hsubr)
    have hlL : ∀ y ∈ ol, y ∈ x := fun y hy => hsubl y (hpl.subset hy)
    have hrL : ∀ y ∈ or, y ∈ x := fun y hy => hsubr y (hpr.subset hy)
    obtain ⟨out, ho, _⟩ := merge_ok_perm ol or (fun y hy => hc y (hlL y hy))
      (fun y hy => hc y (hrL y hy))
    obtain ⟨hs, hp⟩ := merge_sorted x ol or ht htr hlL hrL hsl hsr out ho
    refine ⟨out, ?_, ?_, hs, ?_⟩
    · rw [MergeSort]; simp only [hx, ↓reduceDIte]; rw [hol, hor]; exact ho
    · have := (hp.trans (hpl.append hpr))
      rwa [List.take_append_drop] at this
    · intro p hpp
      rw [merge_filter x ol or htr hlL hrL hsl p hpp out ho]
      rw [hstl p (fun a ha b hb => hpp a (hsubl a ha) b (hsubl b hb)),
        hstr p (fun a ha b hb => hpp a (hsubr a ha) b (hsubr b hb))]
      rw [← List.filter_append, List.take_append_drop]

theorem mergeLE_iff_integerStringLE {a b : Object} (ha : integerOrString a = true)
    (hb : integerOrString b = true) : mergeLE a b ↔ integerStringLE a b := by
  cases a <;> cases b <;> simp [integerOrString] at ha hb <;>
    simp [mergeLE, mergeCompare, typeMap, Type_, INTEGER_OBJ, STRING_OBJ, integerStringLE]

theorem totalOn_integerOrString (L : List Object)
    (h : ∀ x ∈ L, integerOrString x = true) : totalOn L := by
  intro a ha b hb
  rw [mergeLE_iff_integerStringLE (h a ha) (h b hb),
    mergeLE_iff_integerStringLE (h b hb) (h a ha)]
  have h1 := h a ha
  have h2 := h b hb
  cases a <;> cases b <;> simp [integerOrString] at h1 h2 <;> simp [integerStringLE]
  · exact le_total _ _
  · exact le_total _ _

theorem transOn_integerOrString (L : List Object)
    (h : ∀ x ∈ L, integerOrString x = true) : transOn L := by
  intro a ha b hb c hc
  rw [mergeLE_iff_integerStringLE (h a ha) (h b hb),
    mergeLE_iff_integerStringLE (h b hb) (h c hc),
    mergeLE_iff_integerStringLE (h a ha) (h c hc)]
  have h1 := h a ha
  have h2 := h b hb
  have h3 := h c hc
  cases a <;> cases b <;> cases c <;> simp [integerOrString] at h1 h2 h3 <;>
    simp [integerStringLE]
  · exact le_trans
  · exact le_trans

theorem comparable_of_integerOrString {x : Object} (h : integerOrString x = true) :
    comparable x = true := by
  cases x <;> simp [integerOrString] at h <;> rfl

/-- C2: for every list `L` of Integers and Strings, `MergeSort L` returns a list that holds
the elements of `L`, each as often as `L` does, and is non-decreasing under `mergeCompare`:
`mergeCompare a b` is true for every pair of an earlier element `a` and a later element `b`,
in particular for adjacent ones; written out, Integers ascend by value, Strings ascend
lexicographically and no String precedes an Integer. -/
theorem MergeSort_sorted_integers_strings (L : List Object)
    (h : ∀ x ∈ L, integerOrString x = true) :
    ∃ out, MergeSort L = .ok out ∧ out.Perm L ∧
      out.Chain' (fun a b => mergeCompare a b = .ok true) ∧
      out.Pairwise (fun a b => mergeCompare a b = .ok true) ∧
      out.Pairwise integerStringLE := by
  obtain ⟨out, ho, hp, hs, _⟩ := MergeSort_spec L
    (fun x hx => comparable_of_integerOrString (h x hx))
    (totalOn_integerOrString L h) (transOn_integerOrString L h)
  refine ⟨out, ho, hp, List.Pairwise.chain' hs, hs, ?_⟩
  refine List.Pairwise.imp_of_mem ?_ hs
  intro a b ha hb hab
  exact (mergeLE_iff_integerStringLE (h a (hp.subset ha)) (h b (hp.subset hb))).1 hab

theorem MergeSort_sorted_integers_strings_witness :
    (∀ x ∈ [Object.String 1 "b", Object.Integer 2 7, Object.String 3 "a", Object.Integer 4 (-3)],
      integerOrString x = true) ∧
    ∃ out, MergeSort [Object.String 1 "b", Object.Integer 2 7, Object.String 3 "a",
        Object.Integer 4 (-3)] = .ok out ∧
      out.Perm [Object.String 1 "b", Object.Integer 2 7, Object.String 3 "a",
        Object.Integer 4 (-3)] ∧
      out.Chain' (fun a b => mergeCompare a b = .ok true) ∧
      out.Pairwise (fun a b => mergeCompare a b = .ok true) ∧
      out.Pairwise integerStringLE :=
  ⟨by simp [integerOrString], MergeSort_sorted_integers_strings _ (by simp [integerOrString])⟩

/-- C3, counterexample: in the list `[1, NaN, 1.0, "s"]` the Integer `1` precedes the Float
`1.0` and each is `<=` the other, yet `MergeSort` returns `[1.0, NaN, 1, "s"]`, with the Float
first: the sort is not stable on this list of Integer, Float and String values. -/
theorem MergeSort_not_stable_with_NaN :
    (∀ x ∈ [Object.Integer 1 1, Object.Float 2 Float64.NaN, Object.Float 3 (Float64.Finite 1),
        Object.String 4 "s"], comparable x = true) ∧
    mergeLE (Object.Integer 1 1) (Object.Float 3 (Float64.Finite 1)) ∧
    mergeLE (Object.Float 3 (Float64.Finite 1)) (Object.Integer 1 1) ∧
    MergeSort [Object.Integer 1 1, Object.Float 2 Float64.NaN, Object.Float 3 (Float64.Finite 1),
        Object.String 4 "s"] =
      .ok [Object.Float 3 (Float64.Finite 1), Object.Float 2 Float64.NaN, Object.Integer 1 1,
        Object.String 4 "s"] ∧
    ¬ ∃ out, MergeSort [Object.Integer 1 1, Object.Float 2 Float64.NaN,
        Object.Float 3 (Float64.Finite 1), Object.String 4 "s"] = .ok out ∧
      stable [Object.Integer 1 1, Object.Float 2 Float64.NaN, Object.Float 3 (Float64.Finite 1),
        Object.String 4 "s"] out := by
  have hsort : MergeSort [Object.Integer 1 1, Object.Float 2 Float64.NaN,
      Object.Float 3 (Float64.Finite 1), Object.String 4 "s"] =
      .ok [Object.Float 3 (Float64.Finite 1), Object.Float 2 Float64.NaN, Object.Integer 1 1,
        Object.String 4 "s"] := by
    simp [MergeSort, merge, mergeLoop, mergeCompare, typeMap, Type_, INTEGER_OBJ, FLOAT_OBJ,
      STRING_OBJ, Float64.le, Float64.ext, Float64.ofInt64]
  refine ⟨by simp [comparable], by decide, by decide, hsort, ?_⟩
  rintro ⟨out, ho, hst⟩
  rw [hsort] at ho
  cases ho
  have h := hst (fun o => match o with
    | .Integer _ _ => true
    | .Float _ (.Finite _) => true
    | _ => false) (by
      intro x hx y hy hpx hpy
      simp only [List.mem_cons, List.mem_singleton, List.not_mem_nil, or_false] at hx hy
      rcases hx with rfl | rfl | rfl | rfl <;> rcases hy with rfl | rfl | rfl | rfl <;>
        first
          | (simp at hpx; done)
          | (simp at hpy; done)
          | (constructor <;> decide))
  simp [List.filter] at h

/-- C3, amended: `MergeSort` is stable on every list `L` of Integer, Float and String values
on whose elements the order of `mergeCompare` is total and transitive: elements of `L` that
are equivalent under the order (each `<=` the other, such as Integer 1 and Float 1.0) occur in
`MergeSort L` in the same relative order as in `L`. -/
theorem MergeSort_stable_of_total_order (L : List Object)
    (hc : ∀ x ∈ L, comparable x = true) (ht : totalOn L) (htr : transOn L) :
    ∃ out, MergeSort L = .ok out ∧ stable L out := by
  obtain ⟨out, ho, _, _, hst⟩ := MergeSort_spec L hc ht htr
  exact ⟨out, ho, hst⟩

theorem MergeSort_stable_of_total_order_witness :
    (∀ x ∈ [Object.Integer 20 1, Object.Float 21 (Float64.Finite 1), Object.Integer 22 0],
      comparable x = true) ∧
    totalOn [Object.Integer 20 1, Object.Float 21 (Float64.Finite 1), Object.Integer 22 0] ∧
    transOn [Object.Integer 20 1, Object.Float 21 (Float64.Finite 1), Object.Integer 22 0] ∧
    ∃ out, MergeSort [Object.Integer 20 1, Object.Float 21 (Float64.Finite 1),
        Object.Integer 22 0] = .ok out ∧
      stable [Object.Integer 20 1, Object.Float 21 (Float64.Finite 1), Object.Integer 22 0] out :=
  ⟨by simp [comparable], by decide, by decide,
    MergeSort_stable_of_total_order _ (by simp [comparable]) (by decide)
      (by decide)⟩

/-! ## The quick sort -/

theorem index_nat (arr : List Object) (k : Nat) (x : Object) (h : arr[k]? = some x) :
    index arr (k : Int) = .ok x := by
  simp [index, h]

theorem swap_nat (arr : List Object) (i j : Nat) (hi : i < arr.length) (hj : j < arr.length) :
    swap arr (i : Int) (j : Int) = .ok (swapAt arr i j) := by
  have h1 : arr[i]? = some arr[i] := List.getElem?_eq_getElem hi
  have h2 : arr[j]? = some arr[j] := List.getElem?_eq_getElem hj
  simp [swap, index, swapAt, h1, h2]

theorem swapAt_length (arr : List Object) (i j : Nat) : (swapAt arr i j).length = arr.length := by
  unfold swapAt
  split <;> simp

theorem swapAt_getElem? (arr : List Object) (i j k : Nat) (hi : i < arr.length)
    (hj : j < arr.length) :
    (swapAt arr i j)[k]? = if k = j then arr[i]? else if k = i then arr[j]? else arr[k]? := by
  have h1 : arr[i]? = some arr[i] := List.getElem?_eq_getElem hi
  have h2 : arr[j]? = some arr[j] := List.getElem?_eq_getElem hj
  unfold swapAt
  rw [h1, h2]
  simp only [List.getElem?_set, List.length_set]
  by_cases hkj : k = j
  · subst hkj; simp [hj]
  · by_cases hki : k = i
    · subst hki; simp [hi, hkj, Ne.symm hkj]
    · simp [hkj, hki, Ne.symm hkj, Ne.symm hki]

theorem swapAt_perm (arr : List Object) (i j : Nat) : (swapAt arr i j).Perm arr := by
  classical
  unfold swapAt
  split
  · rename_i a b ha hb
    have hi : i < arr.length := (List.getElem?_eq_some_iff.1 ha).1
    have hj : j < arr.length := (List.getElem?_eq_some_iff.1 hb).1
    have hai : arr[i] = a := (List.getElem?_eq_some_iff.1 ha).2
    have hbj : arr[j] = b := (List.getElem?_eq_some_iff.1 hb).2
    have hj2 : j < (arr.set i b).length := by simpa using hj
    rw [List.perm_iff_count]
    intro c
    rw [List.count_set _ _ _ _ hj2, List.count_set _ _ _ _ hi]
    have hget : (arr.set i b)[j] = b := by
      rw [List.getElem_set]; split
      · rfl
      · exact hbj
    rw [hget, hai]
    have hge : (if (a == c) = true then 1 else 0) ≤ List.count c arr := by
      split
      · rename_i hac
        have : a = c := by simpa using hac
        subst this
        exact List.count_pos_iff.2 (hai ▸ List.getElem_mem hi)
      · omega
    omega
  · exact List.Perm.refl _

theorem quickCompare_integer {a b : Object} (ha : isInteger a = true) (hb : isInteger b = true) :
    quickCompare a b = .ok (decide (ival a < ival b)) := by
  cases a <;> cases b <;> simp [isInteger] at ha hb
  rfl

theorem partitionLoop_spec (pivot : Object) (hpv : isInteger pivot = true) (high : Nat) :
    ∀ (d : Nat) (arr : List Object) (s j : Nat), high - j = d → s ≤ j → j ≤ high →
      high ≤ arr.length → (∀ x ∈ arr, isInteger x = true) →
      (∀ (k : Nat) (x : Object), s ≤ k → k < j → arr[k]? = some x → ¬ ival x < ival pivot) →
      ∃ (arr1 : List Object) (s1 : Nat), partitionLoop pivot (high : Int) arr ((s : Int) - 1) (j : Int) =
          .ok (arr1, (s1 : Int) - 1) ∧
        s ≤ s1 ∧ s1 ≤ high ∧ arr1.length = arr.length ∧ arr1.Perm arr ∧
        (∀ (k : Nat), (k < s ∨ high ≤ k) → arr1[k]? = arr[k]?) ∧
        (∀ (k : Nat) (x : Object), s ≤ k → k < s1 → arr1[k]? = some x → ival x < ival pivot) ∧
        (∀ (k : Nat) (x : Object), s1 ≤ k → k < high → arr1[k]? = some x → ¬ ival x < ival pivot) ∧
        (∀ P : Object → Prop, (∀ (k : Nat) (x : Object), s ≤ k → k < high → arr[k]? = some x → P x) →
          (∀ (k : Nat) (x : Object), s ≤ k → k < high → arr1[k]? = some x → P x)) := by
  intro d
  induction d with
  | zero =>
    intro arr s j hd hsj hjh hlen hint hge
    have hj : j = high := by omega
    subst hj
    refine ⟨arr, s, ?_, le_refl _, hsj, rfl, List.Perm.refl _, fun _ _ => rfl, ?_, ?_,
      fun _ h => h⟩
    · rw [partitionLoop]; simp
    · intro k x h1 h2; omega
    · intro k x h1 h2 h3; exact hge k x h1 h2 h3
  | succ d ih =>
    intro arr s j hd hsj hjh hlen hint hge
    have hjlt : j < high := by omega
    have hjlen : j < arr.length := by omega
    have hslen : s < arr.length := by omega
    have haj : arr[j]? = some arr[j] := List.getElem?_eq_getElem hjlen
    have hajint : isInteger arr[j] = true := hint _ (List.getElem_mem hjlen)
    rw [partitionLoop]
    have hlt : ((j : Int) < (high : Int)) := by omega
    simp only [hlt, if_true, index_nat arr j _ haj, quickCompare_integer hajint hpv]
    by_cases hcmp : ival arr[j] < ival pivot
    · simp only [hcmp, decide_True]
      have e1 : ((s : Int) - 1 + 1) = (s : Int) := by omega
      rw [e1, swap_nat arr s j hslen hjlen]
      simp only []
      have e2 : (s : Int) = ((s + 1 : Nat) : Int) - 1 := by omega
      have e3 : (j : Int) + 1 = ((j + 1 : Nat) : Int) := by omega
      rw [e2, e3]
      have hlen1 : (swapAt arr s j).length = arr.length := swapAt_length arr s j
      have hperm1 : (swapAt arr s j).Perm arr := swapAt_perm arr s j
      obtain ⟨arr1, s1, hrun, hs1, hs1h, hl, hp, hout, hlo, hhi, hP⟩ :=
        ih (swapAt arr s j) (s + 1) (j + 1) (by omega) (by omega) (by omega) (by omega)
          (fun x hx => hint x (hperm1.subset hx))
          (by
            intro k x hk1 hk2 hkx
            rw [swapAt_getElem? arr s j k hslen hjlen] at hkx
            by_cases hkj : k = j
            · rw [if_pos hkj] at hkx
              by_cases hsj2 : s = j
              · omega
              · exact hge s x (le_refl _) (by omega) hkx
            · rw [if_neg hkj, if_neg (by omega)] at hkx
              exact hge k x (by omega) (by omega) hkx)
      refine ⟨arr1, s1, hrun, by omega, hs1h, by omega, hp.trans hperm1, ?_, ?_, hhi, ?_⟩
      · intro k hk
        rw [hout k (by omega), swapAt_getElem? arr s j k hslen hjlen]
        rw [if_neg (by omega), if_neg (by omega)]
      · intro k x hk1 hk2 hkx
        by_cases hks : k = s
        · subst hks
          rw [hout k (by omega), swapAt_getElem? arr k j k hslen hjlen] at hkx
          by_cases hkj : k = j
          · subst hkj
            simp only [if_true] at hkx
            rw [haj] at hkx; cases hkx; exact hcmp
          · rw [if_neg hkj, if_pos rfl, haj] at hkx
            cases hkx; exact hcmp
        · exact hlo k x (by omega) hk2 hkx
      · intro P hPa k x hk1 hk2 hkx
        by_cases hks : k = s
        · subst hks
          rw [hout k (by omega), swapAt_getElem? arr k j k hslen hjlen] at hkx
          by_cases hkj : k = j
          · rw [if_pos hkj] at hkx
            exact hPa k x (le_refl _) hk2 hkx
          · rw [if_neg hkj, if_pos rfl] at hkx
            exact hPa j x hsj hjlt hkx
        · refine hP P ?_ k x (by omega) hk2 hkx
          intro k2 x2 hk21 hk22 hkx2
          rw [swapAt_getElem? arr s j k2 hslen hjlen] at hkx2
          by_cases hkj : k2 = j
          · rw [if_pos hkj] at hkx2
            exact hPa s x2 (le_refl _) (by omega) hkx2
          · rw [if_neg hkj, if_neg (by omega)] at hkx2
            exact hPa k2 x2 (by omega) hk22 hkx2
    · simp only [hcmp, decide_False]
      have e3 : (j : Int) + 1 = ((j + 1 : Nat) : Int) := by omega
      rw [e3]
      obtain ⟨arr1, s1, hrun, hs1, hs1h, hl, hp, hout, hlo, hhi, hP⟩ :=
        ih arr s (j + 1) (by omega) (by omega) (by omega) hlen hint
          (by
            intro k x hk1 hk2 hkx
            by_cases hkj : k = j
            · subst hkj
              rw [haj] at hkx; cases hkx; exact hcmp
            · exact hge k x hk1 (by omega) hkx)
      exact ⟨arr1, s1, hrun, hs1, hs1h, hl, hp, hout, hlo, hhi, hP⟩

theorem partition_spec (arr : List Object) (low high : Nat) (hlh : low ≤ high)
    (hlen : high < arr.length) (hint : ∀ x ∈ arr, isInteger x = true) :
    ∃ (arr2 : List Object) (pi : Nat) (pv : Object),
      partition arr (low : Int) (high : Int) = .ok (arr2, (pi : Int)) ∧
      low ≤ pi ∧ pi ≤ high ∧ arr2.length = arr.length ∧ arr2.Perm arr ∧
      (∀ (k : Nat), (k < low ∨ high < k) → arr2[k]? = arr[k]?) ∧
      arr2[pi]? = some pv ∧
      (∀ (k : Nat) (x : Object), low ≤ k → k < pi → arr2[k]? = some x → ival x < ival pv) ∧
      (∀ (k : Nat) (x : Object), pi < k → k ≤ high → arr2[k]? = some x → ival pv ≤ ival x) ∧
      (∀ P : Object → Prop,
        (∀ (k : Nat) (x : Object), low ≤ k → k ≤ high → arr[k]? = some x → P x) →
        (∀ (k : Nat) (x : Object), low ≤ k → k ≤ high → arr2[k]? = some x → P x)) := by
  have hpiv : arr[high]? = some arr[high] := List.getElem?_eq_getElem hlen
  have hpvint : isInteger arr[high] = true := hint _ (List.getElem_mem hlen)
  obtain ⟨arr1, s1, hrun, hs1, hs1h, hl, hp, hout, hlo, hhi, hP⟩ :=
    partitionLoop_spec arr[high] hpvint high (high - low) arr low low rfl (le_refl _) hlh
      (by omega) hint (by intro k x h1 h2; omega)
  have hs1len : s1 < arr1.length := by omega
  have hhlen1 : high < arr1.length := by omega
  have hpiv1 : arr1[high]? = some arr[high] := by rw [hout high (Or.inr (le_refl _)), hpiv]
  refine ⟨swapAt arr1 s1 high, s1, arr[high], ?_, hs1, hs1h, ?_, ?_, ?_, ?_, ?_, ?_, ?_⟩
  · rw [partition]
    simp only [index_nat arr high _ hpiv, hrun]
    have e1 : ((s1 : Int) - 1 + 1) = (s1 : Int) := by omega
    rw [e1, swap_nat arr1 s1 high hs1len hhlen1]
  · rw [swapAt_length, hl]
  · exact (swapAt_perm arr1 s1 high).trans hp
  · intro k hk
    rw [swapAt_getElem? arr1 s1 high k hs1len hhlen1, if_neg (by omega), if_neg (by omega)]
    exact hout k (by omega)
  · rw [swapAt_getElem? arr1 s1 high s1 hs1len hhlen1]
    by_cases h : s1 = high
    · rw [if_pos h, h, hpiv1]
    · rw [if_neg h, if_pos rfl, hpiv1]
  · intro k x hk1 hk2 hkx
    rw [swapAt_getElem? arr1 s1 high k hs1len hhlen1, if_neg (by omega), if_neg (by omega)] at hkx
    exact hlo k x hk1 hk2 hkx
  · intro k x hk1 hk2 hkx
    rw [swapAt_getElem? arr1 s1 high k hs1len hhlen1] at hkx
    by_cases hkh : k = high
    · rw [if_pos hkh] at hkx
      exact not_lt.1 (hhi s1 x (le_refl _) (by omega) hkx)
    · rw [if_neg hkh, if_neg (by omega)] at hkx
      exact not_lt.1 (hhi k x (by omega) (by omega) hkx)
  · intro P hPa k x hk1 hk2 hkx
    have hP1 : ∀ (k : Nat) (x : Object), low ≤ k → k ≤ high → arr1[k]? = some x → P x := by
      intro k2 x2 h1 h2 h3
      by_cases hk2h : k2 = high
      · subst hk2h
        rw [hout k2 (Or.inr (le_refl _))] at h3
        exact hPa k2 x2 h1 h2 h3
      · exact hP P (fun k3 x3 a b c => hPa k3 x3 a (by omega) c) k2 x2 h1 (by omega) h3
    rw [swapAt_getElem? arr1 s1 high k hs1len hhlen1] at hkx
    by_cases hkh : k = high
    · rw [if_pos hkh] at hkx
      exact hP1 s1 x hs1 hs1h hkx
    · rw [if_neg hkh] at hkx
      by_cases hks : k = s1
      · rw [if_pos hks] at hkx
        exact hP1 high x hlh (le_refl _) hkx
      · rw [if_neg hks] at hkx
        exact hP1 k x hk1 hk2 hkx

theorem QuickSort_spec :
    ∀ (fuel : Nat) (arr : List Object) (low hi : Nat), low ≤ hi → hi ≤ arr.length →
      hi - low < fuel → (∀ x ∈ arr, isInteger x = true) →
      ∃ (out : List Object), QuickSort fuel arr (low : Int) ((hi : Int) - 1) = .ok out ∧
        out.length = arr.length ∧ out.Perm arr ∧
        (∀ (k : Nat), (k < low ∨ hi ≤ k) → out[k]? = arr[k]?) ∧
        (∀ (k1 k2 : Nat) (x y : Object), low ≤ k1 → k1 ≤ k2 → k2 < hi → out[k1]? = some x →
          out[k2]? = some y → ival x ≤ ival y) ∧
        (∀ P : Object → Prop,
          (∀ (k : Nat) (x : Object), low ≤ k → k < hi → arr[k]? = some x → P x) →
          (∀ (k : Nat) (x : Object), low ≤ k → k < hi → out[k]? = some x → P x)) := by
  intro fuel
  induction fuel with
  | zero => intro arr low hi _ _ hf; omega
  | succ fuel ih =>
    intro arr low hi hlh hlen hf hint
    rw [QuickSort]
    by_cases hlt : (low : Int) < (hi : Int) - 1
    · simp only [hlt, if_true]
      have hhi : hi - 1 < arr.length := by omega
      have ecast : ((hi : Int) - 1) = ((hi - 1 : Nat) : Int) := by omega
      obtain ⟨arr1, pi, pv, hrun, hpi1, hpi2, hl1, hp1, hout1, hpv, hlo1, hhi1, hP1⟩ :=
        partition_spec arr low (hi - 1) (by omega) hhi hint
      rw [ecast, hrun]
      simp only []
      have hint1 : ∀ x ∈ arr1, isInteger x = true := fun x hx => hint x (hp1.subset hx)
      have e2 : ((pi : Int) - 1) = ((pi : Nat) : Int) - 1 := rfl
      obtain ⟨arr2, hrun2, hl2, hp2, hout2, hs2, hP2⟩ :=
        ih arr1 low pi hpi1 (by omega) (by omega) hint1
      rw [hrun2]
      simp only []
      have hint2 : ∀ x ∈ arr2, isInteger x = true := fun x hx => hint1 x (hp2.subset hx)
      have e3 : ((pi : Int) + 1) = ((pi + 1 : Nat) : Int) := by omega
      have e4 : ((hi - 1 : Nat) : Int) = ((hi : Nat) : Int) - 1 := by omega
      obtain ⟨arr3, hrun3, hl3, hp3, hout3, hs3, hP3⟩ :=
        ih arr2 (pi + 1) hi (by omega) (by omega) (by omega) hint2
      rw [e3, e4, hrun3]
      have hpv3 : arr3[pi]? = some pv := by
        rw [hout3 pi (by omega), hout2 pi (by omega), hpv]
      have hleft3 : ∀ (k : Nat) (x : Object), low ≤ k → k < pi → arr3[k]? = some x →
          ival x < ival pv := by
        intro k x h1 h2 h3
        rw [hout3 k (by omega)] at h3
        exact hP2 (fun o => ival o < ival pv) hlo1 k x h1 h2 h3
      have hright3 : ∀ (k : Nat) (x : Object), pi + 1 ≤ k → k < hi → arr3[k]? = some x →
          ival pv ≤ ival x := by
        intro k x h1 h2 h3
        refine hP3 (fun o => ival pv ≤ ival o) ?_ k x h1 h2 h3
        intro k2 x2 a b c
        rw [hout2 k2 (by omega)] at c
        exact hhi1 k2 x2 (by omega) (by omega) c
      refine ⟨arr3, rfl, by omega, hp3.trans (hp2.trans hp1), ?_, ?_, ?_⟩
      · intro k hk
        rw [hout3 k (by omega), hout2 k (by omega), hout1 k (by omega)]
      · intro k1 k2 x y h1 h2 h3 hx hy
        by_cases c1 : k2 < pi
        · rw [hout3 k1 (by omega)] at hx
          rw [hout3 k2 (by omega)] at hy
          exact hs2 k1 k2 x y h1 h2 c1 hx hy
        · by_cases c2 : k2 = pi
          · subst c2
            rw [hpv3] at hy; cases hy
            by_cases c3 : k1 = k2
            · subst c3
              rw [hpv3] at hx; cases hx; exact le_refl _
            · exact le_of_lt (hleft3 k1 x h1 (by omega) hx)
          · have hy2 := hright3 k2 y (by omega) h3 hy
            by_cases c4 : k1 < pi
            · exact le_trans (le_of_lt (hleft3 k1 x h1 c4 hx)) hy2
            · by_cases c5 : k1 = pi
              · subst c5
                rw [hpv3] at hx; cases hx; exact hy2
              · exact hs3 k1 k2 x y (by omega) h2 h3 hx hy
      · intro P hPa k x h1 h2 h3
        have hPa1 : ∀ (k : Nat) (x : Object), low ≤ k → k < hi → arr1[k]? = some x → P x :=
          fun k x a b c => hP1 P (fun k x a b c => hPa k x a (by omega) c) k x a (by omega) c
        have hPa2 : ∀ (k : Nat) (x : Object), low ≤ k → k < hi → arr2[k]? = some x → P x := by
          intro k x a b c
          by_cases c1 : k < pi
          · exact hP2 P (fun k x a b c => hPa1 k x a (by omega) c) k x a c1 c
          · rw [hout2 k (by omega)] at c
            exact hPa1 k x a b c
        by_cases c1 : pi + 1 ≤ k
        · exact hP3 P (fun k x a b c => hPa2 k x (by omega) b c) k x c1 h2 h3
        · rw [hout3 k (by omega)] at h3
          exact hPa2 k x h1 h2 h3
    · simp only [hlt, if_false]
      refine ⟨arr, rfl, rfl, List.Perm.refl _, fun _ _ => rfl, ?_, fun _ h => h⟩
      intro k1 k2 x y h1 h2 h3 hx hy
      have : k1 = k2 := by omega
      subst this
      rw [hx] at hy; cases hy; exact le_refl _

theorem integerValue_eq_ival {x : Object} (h : isInteger x = true) :
    integerValue x = some (ival x) := by
  cases x <;> simp [isInteger] at h
  rfl

theorem mergeLE_integer {a b : Object} (ha : isInteger a = true) (hb : isInteger b = true) :
    mergeLE a b ↔ ival a ≤ ival b := by
  cases a <;> cases b <;> simp [isInteger] at ha hb
  simp [mergeLE, mergeCompare, typeMap, Type_, INTEGER_OBJ, ival]

theorem map_integerValue (l : List Object) (h : ∀ x ∈ l, isInteger x = true) :
    l.map integerValue = (l.map ival).map some := by
  rw [List.map_map]
  exact List.map_congr_left (fun x hx => integerValue_eq_ival (h x hx))

theorem integerOrString_of_isInteger {x : Object} (h : isInteger x = true) :
    integerOrString x = true := by
  cases x <;> simp [isInteger] at h
  rfl

/-- C4: for every list `arr` of Integers, `QuickSort(arr, 0, len(arr)-1)` (run with a recursion
budget larger than the length) ends normally, so does `MergeSort(arr)`, and the array left by
`QuickSort` holds the same sequence of Integer values as the result of `MergeSort`. -/
theorem QuickSort_agrees_with_MergeSort (arr : List Object)
    (h : ∀ x ∈ arr, isInteger x = true) (fuel : Nat) (hf : arr.length < fuel) :
    ∃ (q m : List Object), QuickSort fuel arr 0 ((arr.length : Int) - 1) = .ok q ∧
      MergeSort arr = .ok m ∧ q.length = arr.length ∧
      q.map integerValue = m.map integerValue := by
  obtain ⟨q, hq, hql, hqp, _, hqs, _⟩ :=
    QuickSort_spec fuel arr 0 arr.length (Nat.zero_le _) (le_refl _) (by omega) h
  have hios : ∀ x ∈ arr, integerOrString x = true :=
    fun x hx => integerOrString_of_isInteger (h x hx)
  obtain ⟨m, hm, hmp, hms, _⟩ := MergeSort_spec arr
    (fun x hx => comparable_of_integerOrString (hios x hx))
    (totalOn_integerOrString arr hios) (transOn_integerOrString arr hios)
  have hqi : ∀ x ∈ q, isInteger x = true := fun x hx => h x (hqp.subset hx)
  have hmi : ∀ x ∈ m, isInteger x = true := fun x hx => h x (hmp.subset hx)
  refine ⟨q, m, by simpa using hq, hm, hql, ?_⟩
  rw [map_integerValue q hqi, map_integerValue m hmi]
  congr 1
  have hperm : (q.map ival).Perm (m.map ival) := (hqp.trans hmp.symm).map ival
  have hqsorted : (q.map ival).Sorted (· ≤ ·) := by
    unfold List.Sorted
    rw [List.pairwise_map, List.pairwise_iff_getElem]
    intro i j hi hj hij
    exact hqs i j q[i] q[j] (Nat.zero_le _) (le_of_lt hij) (by omega)
      (List.getElem?_eq_getElem hi) (List.getElem?_eq_getElem hj)
  have hmsorted : (m.map ival).Sorted (· ≤ ·) := by
    unfold List.Sorted
    rw [List.pairwise_map]
    refine List.Pairwise.imp_of_mem ?_ hms
    intro a b ha hb hab
    exact (mergeLE_integer (hmi a ha) (hmi b hb)).1 hab
  exact List.eq_of_perm_of_sorted hperm hqsorted hmsorted

theorem QuickSort_agrees_with_MergeSort_witness :
    (∀ x ∈ [Object.Integer 1 3, Object.Integer 2 (-1), Object.Integer 3 3, Object.Integer 4 0],
      isInteger x = true) ∧
    ∃ (q m : List Object),
      QuickSort 5 [Object.Integer 1 3, Object.Integer 2 (-1), Object.Integer 3 3,
        Object.Integer 4 0] 0 (((4 : Nat) : Int) - 1) = .ok q ∧
      MergeSort [Object.Integer 1 3, Object.Integer 2 (-1), Object.Integer 3 3,
        Object.Integer 4 0] = .ok m ∧ q.length = 4 ∧
      q.map integerValue = m.map integerValue :=
  ⟨by simp [isInteger],
    QuickSort_agrees_with_MergeSort [Object.Integer 1 3, Object.Integer 2 (-1),
      Object.Integer 3 3, Object.Integer 4 0] (by simp [isInteger]) 5 (by decide)⟩


end algorithms

/-! ## Operators of the evaluator -/

theorem wrap64_of_isInt64 {x : Int} (h : isInt64 x) : wrap64 x = x := by
  unfold isInt64 at h
  unfold wrap64
  omega

theorem isInt64_wrap64 (x : Int) : isInt64 (wrap64 x) := by
  unfold isInt64 wrap64
  omega

theorem tdiv_isInt64 {a b : Int} (ha : isInt64 a) (hb0 : b ≠ 0)
    (hne : ¬ (a = -(2 ^ 63) ∧ b = -1)) : isInt64 (Int.tdiv a b) := by
  unfold isInt64 at ha ⊢
  have hq : (Int.tdiv a b).natAbs = a.natAbs / b.natAbs := Int.natAbs_tdiv a b
  have hbpos : 0 < b.natAbs := Int.natAbs_pos.2 hb0
  by_cases hb1 : b.natAbs = 1
  · rcases Int.natAbs_eq b with hb | hb
    · rw [hb1] at hb
      have : b = 1 := by simpa using hb
      subst this
      simpa using ha
    · rw [hb1] at hb
      have : b = -1 := by simpa using hb
      subst this
      have hq2 : Int.tdiv a (-1) = -a := by simp
      rw [hq2]
      have : a ≠ -(2 ^ 63) := fun h => hne ⟨h, rfl⟩
      omega
  · have hb2 : 2 ≤ b.natAbs := by omega
    have hle : a.natAbs / b.natAbs ≤ a.natAbs / 2 := Nat.div_le_div_left hb2 (by decide)
    have ha2 : a.natAbs ≤ 2 ^ 63 := by omega
    have : (Int.tdiv a b).natAbs < 2 ^ 63 := by omega
    omega

namespace evaluator

open object

/-- C6, counterexample: `-2^63 / -1` on two Integers yields the Integer `-2^63` (the 64-bit
division wraps), whereas the quotient truncated toward zero is `2^63`. -/
theorem evalIntegerInfixExpression_division_overflow :
    isInt64 (-(2 ^ 63)) ∧ isInt64 (-1) ∧
    evalIntegerInfixExpression 0 "/" (Object.Integer 1 (-(2 ^ 63))) (Object.Integer 2 (-1)) =
      .ok (Object.Integer 0 (-(2 ^ 63))) ∧
    evalInfixExpression FloatArith.allNaN 0 "/" (Object.Integer 1 (-(2 ^ 63)))
        (Object.Integer 2 (-1)) = .ok (Object.Integer 0 (-(2 ^ 63))) ∧
    Int.tdiv (-(2 ^ 63)) (-1) = 2 ^ 63 ∧
    evalIntegerInfixExpression 0 "/" (Object.Integer 1 (-(2 ^ 63))) (Object.Integer 2 (-1)) ≠
      .ok (Object.Integer 0 (Int.tdiv (-(2 ^ 63)) (-1))) := by
  refine ⟨by decide, by decide, rfl, rfl, by decide, ?_⟩
  intro h
  have h2 : evalIntegerInfixExpression 0 "/" (Object.Integer 1 (-(2 ^ 63)))
      (Object.Integer 2 (-1)) = .ok (Object.Integer 0 (-(2 ^ 63))) := rfl
  rw [h2] at h
  simp at h

/-- C6, amended: on two Integer operands `a` and `b` infix evaluation returns, for `+ - *`,
the Integer result of the 64-bit wrap-around operation; for `/` with `b != 0` the quotient
truncated toward zero, reduced to 64 bits, which is the exact truncated quotient except for
`-2^63 / -1`; and for `< > == !=` the Boolean singleton of the integer comparison.  Every
Integer result is again a 64-bit value. -/
theorem evalInfixExpression_integers (fa : FloatArith) (fresh p q : Nat) (a b : Int)
    (ha : isInt64 a) (_hb : isInt64 b) :
    evalInfixExpression fa fresh "+" (.Integer p a) (.Integer q b) =
      .ok (.Integer fresh (wrap64 (a + b))) ∧
    evalInfixExpression fa fresh "-" (.Integer p a) (.Integer q b) =
      .ok (.Integer fresh (wrap64 (a - b))) ∧
    evalInfixExpression fa fresh "*" (.Integer p a) (.Integer q b) =
      .ok (.Integer fresh (wrap64 (a * b))) ∧
    (b ≠ 0 → evalInfixExpression fa fresh "/" (.Integer p a) (.Integer q b) =
      .ok (.Integer fresh (wrap64 (Int.tdiv a b)))) ∧
    (b ≠ 0 → ¬ (a = -(2 ^ 63) ∧ b = -1) → wrap64 (Int.tdiv a b) = Int.tdiv a b) ∧
    evalInfixExpression fa fresh "<" (.Integer p a) (.Integer q b) =
      .ok (nativeBoolToBooleanObject (decide (a < b))) ∧
    evalInfixExpression fa fresh ">" (.Integer p a) (.Integer q b) =
      .ok (nativeBoolToBooleanObject (decide (a > b))) ∧
    evalInfixExpression fa fresh "==" (.Integer p a) (.Integer q b) =
      .ok (nativeBoolToBooleanObject (decide (a = b))) ∧
    evalInfixExpression fa fresh "!=" (.Integer p a) (.Integer q b) =
      .ok (nativeBoolToBooleanObject (decide (a ≠ b))) ∧
    isInt64 (wrap64 (a + b)) ∧ isInt64 (wrap64 (a - b)) ∧ isInt64 (wrap64 (a * b)) ∧
    isInt64 (wrap64 (Int.tdiv a b)) := by
  refine ⟨rfl, rfl, rfl, ?_, ?_, rfl, rfl, rfl, rfl, isInt64_wrap64 _, isInt64_wrap64 _,
    isInt64_wrap64 _, isInt64_wrap64 _⟩
  · intro hb0
    simp [evalInfixExpression, evalIntegerInfixExpression, Type_, hb0]
  · intro hb0 hne
    exact wrap64_of_isInt64 (tdiv_isInt64 ha hb0 hne)

theorem evalInfixExpression_integers_witness :
    isInt64 (-7) ∧ isInt64 2 ∧
    evalInfixExpression FloatArith.allNaN 0 "/" (.Integer 1 (-7)) (.Integer 2 2) =
      .ok (.Integer 0 (-3)) ∧
    evalInfixExpression FloatArith.allNaN 0 "<" (.Integer 1 (-7)) (.Integer 2 2) = .ok .TRUE :=
  ⟨by decide, by decide,
    (evalInfixExpression_integers FloatArith.allNaN 0 1 2 (-7) 2 (by decide)
      (by decide)).2.2.2.1 (by decide),
    (evalInfixExpression_integers FloatArith.allNaN 0 1 2 (-7) 2 (by decide)
      (by decide)).2.2.2.2.2.1⟩

/-- The part of the type-mismatch rule that the dispatch implements: operands of different
types, neither of them a Float, and an operator other than `==` and `!=` give the Error
`type mismatch: LTYPE OP RTYPE`. -/
theorem evalInfixExpression_type_mismatch (fa : FloatArith) (fresh : Nat) (operator : String)
    (left right : Object) (hop1 : operator ≠ "==") (hop2 : operator ≠ "!=")
    (hty : Type_ left ≠ Type_ right) (hl : Type_ left ≠ FLOAT_OBJ)
    (hr : Type_ right ≠ FLOAT_OBJ) :
    evalInfixExpression fa fresh operator left right =
      .ok (.Error fresh
        ("type mismatch: " ++ Type_ left ++ " " ++ operator ++ " " ++ Type_ right)) := by
  unfold evalInfixExpression
  have h1 : ¬ (Type_ left = INTEGER_OBJ ∧ Type_ right = INTEGER_OBJ) :=
    fun h => hty (h.1.trans h.2.symm)
  have h2 : ¬ (Type_ left = FLOAT_OBJ ∨ Type_ right = FLOAT_OBJ) :=
    fun h => h.elim hl hr
  have h3 : ¬ (Type_ left = STRING_OBJ ∧ Type_ right = STRING_OBJ) :=
    fun h => hty (h.1.trans h.2.symm)
  rw [if_neg h1, if_neg h2, if_neg h3, if_neg hop1, if_neg hop2, if_pos hty]
  rfl

theorem evalInfixExpression_type_mismatch_witness :
    evalInfixExpression FloatArith.allNaN 0 "+" (.Integer 1 5) .TRUE =
      .ok (.Error 0 "type mismatch: INTEGER + BOOLEAN") :=
  evalInfixExpression_type_mismatch FloatArith.allNaN 0 "+" (.Integer 1 5) .TRUE (by decide)
    (by decide) (by decide) (by decide) (by decide)

/-- C7, at the failing input: a Float paired with a Boolean or a String is not rejected.
`1.5 + true` evaluates to the Float `1.5 + 0.0`, `1.5 < true` to `FALSE` and `"a" * 2.0` to
the Float `0.0 * 2.0`; none is the Error `type mismatch: LTYPE OP RTYPE`, although the
operand types differ, are not both numeric and the operator is neither `==` nor `!=`.  The
last part is the evaluation of the syntax tree of `1.5 + true` by `Eval`. -/
theorem evalInfixExpression_float_with_non_numeric (fa : FloatArith) (fresh : Nat) :
    evalInfixExpression fa fresh "+" (.Float 1 (Float64.Finite (3 / 2))) .TRUE =
      .ok (.Float fresh (fa.add (Float64.Finite (3 / 2)) (Float64.Finite 0))) ∧
    evalInfixExpression fa fresh "<" (.Float 1 (Float64.Finite (3 / 2))) .TRUE = .ok .FALSE ∧
    evalInfixExpression fa fresh "*" (.String 1 "a") (.Float 2 (Float64.Finite 2)) =
      .ok (.Float fresh (fa.mul (Float64.Finite 0) (Float64.Finite 2))) ∧
    Type_ (.Float 1 (Float64.Finite (3 / 2))) ≠ Type_ .TRUE ∧
    Type_ (.String 1 "a") ≠ Type_ (.Float 2 (Float64.Finite 2)) ∧
    EvalFragment fa 5
        (some (.InfixExpression ⟨token.PLUS, "+"⟩
          (some (.FloatLiteral ⟨token.FLOAT, "1.5"⟩ (Float64.Finite (3 / 2)))) "+"
          (some (.Boolean ⟨token.TRUE, "true"⟩ true)))) 0 =
      .ok (some (.Float 1 (fa.add (Float64.Finite (3 / 2)) (Float64.Finite 0))), 2) := by
  refine ⟨rfl, ?_, rfl, by decide, by decide, rfl⟩
  simp [evalInfixExpression, evalFloatInfixExpression, floatOperand, Type_, FLOAT_OBJ,
    BOOLEAN_OBJ, INTEGER_OBJ, nativeBoolToBooleanObject, Float64.lt, Float64.ext, ExtReal.le]

/-- C8: two operands of the same type `T` and an operator that `T` does not support give the
Error `unknown operator: T OP T`; in particular two Strings with any operator other than
`+ == !=` and two Booleans (singletons or not) with any operator other than `==` and `!=`. -/
theorem evalInfixExpression_unknown_operator (fa : FloatArith) (fresh : Nat)
    (operator : String) (left right : Object) (hty : Type_ left = Type_ right)
    (hop : supportsOperator (Type_ left) operator = false) :
    evalInfixExpression fa fresh operator left right =
      .ok (.Error fresh
        ("unknown operator: " ++ Type_ left ++ " " ++ operator ++ " " ++ Type_ left)) ∧
    (Type_ left = STRING_OBJ → operator ≠ "+" ∧ operator ≠ "==" ∧ operator ≠ "!=" ∧
      evalInfixExpression fa fresh operator left right =
        .ok (.Error fresh
          ("unknown operator: " ++ "STRING" ++ " " ++ operator ++ " " ++ "STRING"))) ∧
    (Type_ left = BOOLEAN_OBJ → operator ≠ "==" ∧ operator ≠ "!=" ∧
      evalInfixExpression fa fresh operator left right =
        .ok (.Error fresh
          ("unknown operator: " ++ "BOOLEAN" ++ " " ++ operator ++ " " ++ "BOOLEAN"))) := by
  have main : evalInfixExpression fa fresh operator left right =
      .ok (.Error fresh
        ("unknown operator: " ++ Type_ left ++ " " ++ operator ++ " " ++ Type_ left)) := by
    cases left <;> cases right <;> simp [Type_, INTEGER_OBJ, FLOAT_OBJ, BOOLEAN_OBJ, STRING_OBJ,
      NULL_OBJ, RETURN_VALUE_OBJ, ERROR_OBJ, FUNCTION_OBJ, BUILTIN_OBJ, LIST_OBJ, DICT_OBJ,
      SET_OBJ] at hty <;>
    simp [supportsOperator, Type_, INTEGER_OBJ, FLOAT_OBJ, BOOLEAN_OBJ, STRING_OBJ,
      NULL_OBJ, RETURN_VALUE_OBJ, ERROR_OBJ, FUNCTION_OBJ, BUILTIN_OBJ, LIST_OBJ, DICT_OBJ,
      SET_OBJ] at hop <;>
    simp [evalInfixExpression, evalIntegerInfixExpression, evalFloatInfixExpression,
      evalStringInfixExpression, newError, Type_, INTEGER_OBJ, FLOAT_OBJ, BOOLEAN_OBJ,
      STRING_OBJ, NULL_OBJ, RETURN_VALUE_OBJ, ERROR_OBJ, FUNCTION_OBJ, BUILTIN_OBJ, LIST_OBJ,
      DICT_OBJ, SET_OBJ, hop]
  refine ⟨main, ?_, ?_⟩
  · intro hs
    rw [hs] at hop
    have h : operator ≠ "+" ∧ operator ≠ "==" ∧ operator ≠ "!=" := by
      simpa [supportsOperator, INTEGER_OBJ, FLOAT_OBJ, STRING_OBJ] using hop
    refine ⟨h.1, h.2.1, h.2.2, ?_⟩
    rw [main, hs]
    rfl
  · intro hs
    rw [hs] at hop
    have h : operator ≠ "==" ∧ operator ≠ "!=" := by
      simpa [supportsOperator, INTEGER_OBJ, FLOAT_OBJ, STRING_OBJ, BOOLEAN_OBJ] using hop
    refine ⟨h.1, h.2, ?_⟩
    rw [main, hs]
    rfl

theorem evalInfixExpression_unknown_operator_witness :
    evalInfixExpression FloatArith.allNaN 0 "-" (.String 1 "Hello") (.String 2 "World") =
      .ok (.Error 0 "unknown operator: STRING - STRING") ∧
    evalInfixExpression FloatArith.allNaN 0 "+" .TRUE .FALSE =
      .ok (.Error 0 "unknown operator: BOOLEAN + BOOLEAN") :=
  ⟨(evalInfixExpression_unknown_operator FloatArith.allNaN 0 "-" (.String 1 "Hello")
      (.String 2 "World") (by decide) (by decide)).1,
    (evalInfixExpression_unknown_operator FloatArith.allNaN 0 "+" .TRUE .FALSE (by decide)
      (by decide)).1⟩

/-- Outside the Integer `0`, double negation agrees with truthiness: for every value `v` that
is not an Integer `0`, `!!v` is `TRUE` when `isTruthy v` and `FALSE` otherwise. -/
theorem bang_bang_eq_isTruthy (v : Object) (h : ∀ addr, v ≠ Object.Integer addr 0) :
    evalBangOperatorExpression (evalBangOperatorExpression v) =
      nativeBoolToBooleanObject (isTruthy v) := by
  cases v <;>
    simp [evalBangOperatorExpression, isTruthy, pointerEq, nativeBoolToBooleanObject]
  rename_i addr value
  have hv : value ≠ 0 := fun hv => h addr (by rw [hv])
  rw [if_neg hv]

theorem bang_bang_eq_isTruthy_witness :
    evalBangOperatorExpression (evalBangOperatorExpression (Object.Integer 1 5)) =
      nativeBoolToBooleanObject (isTruthy (Object.Integer 1 5)) :=
  bang_bang_eq_isTruthy (Object.Integer 1 5) (by intro addr h; cases h)

set_option maxRecDepth 8192 in
/-- C9, at the failing input: the Integer `0` is not truthy, yet `!0` is `FALSE` (the
operator has no case for Integers) and so `!!0` is `TRUE`.  End to end, the program `!!0`
evaluates to `TRUE` while `if 0:` / `1` / `else:` / `2` evaluates to the Integer 2, the value
of the alternative. -/
theorem bang_bang_integer_zero (fa : FloatArith) (pf : String → Option Float64) (addr : Nat) :
    isTruthy (Object.Integer addr 0) = false ∧
    evalBangOperatorExpression (Object.Integer addr 0) = Object.FALSE ∧
    evalBangOperatorExpression (evalBangOperatorExpression (Object.Integer addr 0)) =
      Object.TRUE ∧
    (∃ (program : ast.Program) (after : parser.Parser),
      parser.ParseProgram pf 20
        (parser.New [⟨token.BANG, "!"⟩, ⟨token.BANG, "!"⟩, ⟨token.INT, "0"⟩]) =
        .ok (program, after) ∧
      after.errors = [] ∧
      evalProgramFragment fa 10 program.Statements none 0 = .ok (some .TRUE, 3)) ∧
    ∃ (program : ast.Program) (after : parser.Parser),
      parser.ParseProgram pf 20
        (parser.New [⟨token.IF, "if"⟩, ⟨token.INT, "0"⟩, ⟨token.COLON, ":"⟩,
          ⟨token.NEWLINE, "\n"⟩, ⟨token.TAB, "\t"⟩, ⟨token.INT, "1"⟩, ⟨token.NEWLINE, "\n"⟩,
          ⟨token.ELSE, "else"⟩, ⟨token.COLON, ":"⟩, ⟨token.NEWLINE, "\n"⟩, ⟨token.TAB, "\t"⟩,
          ⟨token.INT, "2"⟩]) =
        .ok (program, after) ∧
      after.errors = [] ∧
      evalProgramFragment fa 10 program.Statements none 0 = .ok (some (.Integer 1 2), 2) :=
  ⟨rfl, rfl, rfl, ⟨_, _, rfl, rfl, rfl⟩, _, _, rfl, rfl, rfl⟩

set_option maxRecDepth 8192 in
/-- C10, at the failing input: comparing two Strings with `==` or `!=` allocates a new
Boolean object instead of returning a singleton.  Such an object is truthy whatever its value
and `!` maps it to `FALSE`: the condition `"a" == "b"` counts as true although the strings
differ, `!("a" == "b")` is `FALSE`, and `"a" != "a"` counts as true.  End to end, the program
`if "a" == "b":` / `1` / `else:` / `2` parses without error and evaluates to the Integer 1,
the value of the consequence. -/
theorem string_comparison_not_singleton (fa : FloatArith) (pf : String → Option Float64)
    (fresh p q : Nat) (s t : String) :
    evalInfixExpression fa fresh "==" (.String p s) (.String q t) =
      .ok (.Boolean fresh (decide (s = t))) ∧
    evalInfixExpression fa fresh "!=" (.String p s) (.String q t) =
      .ok (.Boolean fresh (decide (s ≠ t))) ∧
    (∀ b, isTruthy (.Boolean fresh b) = true) ∧
    (∀ b, evalBangOperatorExpression (.Boolean fresh b) = .FALSE) ∧
    evalInfixExpression fa fresh "==" (.String p "a") (.String q "b") =
      .ok (.Boolean fresh false) ∧
    isTruthy (.Boolean fresh false) = true ∧
    evalBangOperatorExpression (.Boolean fresh false) = .FALSE ∧
    ∃ (program : ast.Program) (after : parser.Parser),
      parser.ParseProgram pf 20
        (parser.New [⟨token.IF, "if"⟩, ⟨token.STRING, "a"⟩, ⟨token.EQ, "=="⟩,
          ⟨token.STRING, "b"⟩, ⟨token.COLON, ":"⟩, ⟨token.NEWLINE, "\n"⟩, ⟨token.TAB, "\t"⟩,
          ⟨token.INT, "1"⟩, ⟨token.NEWLINE, "\n"⟩, ⟨token.ELSE, "else"⟩, ⟨token.COLON, ":"⟩,
          ⟨token.NEWLINE, "\n"⟩, ⟨token.TAB, "\t"⟩, ⟨token.INT, "2"⟩]) =
        .ok (program, after) ∧
      after.errors = [] ∧
      evalProgramFragment fa 10 program.Statements none 0 = .ok (some (.Integer 3 1), 4) :=
  ⟨rfl, rfl, fun _ => rfl, fun _ => rfl, rfl, rfl, rfl, _, _, rfl, rfl, rfl⟩

end evaluator

namespace parser

open token Source

/-! ## Parsing arithmetic expressions -/

theorem New_eq (ts : List Token) :
    New ts = ⟨(NextToken (NextToken ts).2).2, (NextToken ts).1, (NextToken (NextToken ts).2).1,
      [], 0, true⟩ := rfl

theorem nextToken_New (a : Token) (ts : List Token) : nextToken (New (a :: ts)) = New ts := by
  cases ts with
  | nil => rfl
  | cons b ts =>
    cases ts with
    | nil => rfl
    | cons c ts => rfl

theorem curToken_New (a : Token) (ts : List Token) : (New (a :: ts)).curToken = a := rfl

theorem peekToken_New (a : Token) (ts : List Token) :
    (New (a :: ts)).peekToken = (NextToken ts).1 := rfl

theorem peekPrecedence_New (a : Token) (ts : List Token) :
    peekPrecedence (New (a :: ts)) = nextPrecedence ts := rfl

theorem parseExpressionLoop_stop (pf : String → Option Float64) (F prec : Nat)
    (left : Option ast.Expression) (a : Token) (rest : List Token)
    (h : nextPrecedence rest ≤ prec) :
    parseExpressionLoop pf (F + 1) prec left (New (a :: rest)) = .ok (left, New (a :: rest)) := by
  rw [parseExpressionLoop]
  have : ¬ (prec < peekPrecedence (New (a :: rest))) := by
    rw [peekPrecedence_New]; omega
  simp [this]

theorem BinaryOperator.precedence_bounds (op : BinaryOperator) :
    EQUALS ≤ op.precedence ∧ op.precedence ≤ PRODUCT := by
  cases op <;> decide

theorem Source.level_bounds (e : Source) : EQUALS ≤ e.level ∧ e.level ≤ CALL := by
  cases e <;> simp [level, EQUALS, CALL]
  rename_i l op r
  have := BinaryOperator.precedence_bounds op
  simp [EQUALS, PRODUCT] at this
  omega

theorem infixParseFns_op (op : BinaryOperator) :
    infixParseFns op.token.Type_ = some .parseInfixExpression := by
  cases op <;> rfl

theorem nextPrecedence_op (op : BinaryOperator) (ts : List Token) :
    nextPrecedence (op.token :: ts) = op.precedence := by
  cases op <;> rfl

theorem nextPrecedence_rparen (ts : List Token) :
    nextPrecedence (⟨RPAREN, ")"⟩ :: ts) = LOWEST := rfl

theorem op_not_semicolon (op : BinaryOperator) : (op.token.Type_ == SEMICOLON) = false := by
  cases op <;> rfl

theorem parseExpression_source (pf : String → Option Float64) (e : Source) :
    grouped e → ∀ (prec q F : Nat) (rest : List Token), prec ≤ q → q < level e →
      nextPrecedence rest ≤ q + 1 → nextPrecedence rest ≤ PRODUCT → fuelFor e ≤ F →
      parseExpression pf (F + iters e + 1) prec (New (tokens e ++ rest)) =
        parseExpressionLoop pf F prec (some (tree e)) (New (lastToken e :: rest)) := by
  induction e with
  | int literal value =>
    intro hg prec q F rest _ _ _ _ _
    simp only [grouped] at hg
    simp only [tokens, iters, lastToken, tree, List.singleton_append, Nat.add_zero]
    rw [parseExpression]
    simp only [curToken_New]
    have h1 : prefixParseFns INT = some .parseIntegerLiteral := rfl
    rw [h1]
    simp only [parseIntegerLiteral, curToken_New, hg]
    rfl
  | neg operand ih =>
    intro hg prec q F rest _ _ _ hrest hF
    simp only [grouped] at hg
    simp only [tokens, iters, lastToken, tree, List.cons_append, Nat.add_zero]
    simp only [fuelFor] at hF
    obtain ⟨G, rfl⟩ : ∃ G, F = G + iters operand + 1 + 1 :=
      ⟨F - iters operand - 2, by omega⟩
    rw [parseExpression]
    simp only [curToken_New]
    have h1 : prefixParseFns MINUS = some .parsePrefixExpression := rfl
    rw [h1]
    simp only []
    rw [parsePrefixExpression]
    simp only [curToken_New, nextToken_New]
    rw [ih hg.2 PREFIX PREFIX G rest (le_refl _) hg.1 (by simp [PREFIX, PRODUCT] at *; omega)
      hrest (by omega)]
    obtain ⟨G1, rfl⟩ : ∃ G1, G = G1 + 1 := ⟨G - 1, by omega⟩
    rw [parseExpressionLoop_stop pf G1 PREFIX _ _ rest (by simp [PREFIX, PRODUCT] at *; omega)]
    rfl
  | paren inner ih =>
    intro hg prec q F rest _ _ _ _ hF
    simp only [grouped] at hg
    simp only [tokens, iters, lastToken, tree, List.cons_append, List.append_assoc,
      List.singleton_append, List.nil_append, Nat.add_zero]
    simp only [fuelFor] at hF
    obtain ⟨G, rfl⟩ : ∃ G, F = G + iters inner + 1 + 1 :=
      ⟨F - iters inner - 2, by omega⟩
    rw [parseExpression]
    simp only [curToken_New]
    have h1 : prefixParseFns LPAREN = some .parseGroupedExpression := rfl
    rw [h1]
    simp only []
    rw [parseGroupedExpression]
    simp only [nextToken_New]
    have hlev := (Source.level_bounds inner).1
    rw [ih hg LOWEST LOWEST G (⟨RPAREN, ")"⟩ :: rest) (le_refl _)
      (by simp [LOWEST, EQUALS] at *; omega)
      (by rw [nextPrecedence_rparen]; decide) (by rw [nextPrecedence_rparen]; decide)
      (by omega)]
    obtain ⟨G1, rfl⟩ : ∃ G1, G = G1 + 1 := ⟨G - 1, by omega⟩
    rw [parseExpressionLoop_stop pf G1 LOWEST _ _ _ (le_of_eq (nextPrecedence_rparen rest))]
    have h2 : expectPeek (New (lastToken inner :: ⟨RPAREN, ")"⟩ :: rest)) RPAREN =
        (true, New (⟨RPAREN, ")"⟩ :: rest)) := by
      simp only [expectPeek, nextToken_New]
      rfl
    simp only [bind, Except.bind, h2]
    rfl
  | binary left op right ihl ihr =>
    intro hg prec q F rest hpq hq hrest1 hrest2 hF
    simp only [grouped] at hg
    obtain ⟨hl, hr, hgl, hgr⟩ := hg
    simp only [level] at hq
    simp only [tokens, iters, lastToken, tree, List.append_assoc, List.cons_append]
    simp only [fuelFor] at hF
    have hop := BinaryOperator.precedence_bounds op
    have e1 : F + (iters left + 1) + 1 = (F + 1) + iters left + 1 := by omega
    rw [e1, ihl hgl prec (op.precedence - 1) (F + 1) (op.token :: (tokens right ++ rest))
      (by omega) (by simp [EQUALS] at hop; omega)
      (by rw [nextPrecedence_op]; simp [EQUALS] at hop; omega)
      (by rw [nextPrecedence_op]; exact hop.2) (by omega)]
    rw [parseExpressionLoop]
    have hpk : peekPrecedence (New (lastToken left :: op.token :: (tokens right ++ rest))) =
        op.precedence := by
      rw [peekPrecedence_New, nextPrecedence_op]
    have hsemi : peekTokenIs (New (lastToken left :: op.token :: (tokens right ++ rest)))
        SEMICOLON = false := by
      simp only [peekTokenIs, peekToken_New, NextToken]
      exact op_not_semicolon op
    have hlt : prec < op.precedence := by omega
    simp only [hpk, hsemi, hlt, Bool.not_false, decide_True, Bool.and_self, if_true,
      peekToken_New, NextToken, infixParseFns_op, nextToken_New]
    obtain ⟨G, rfl⟩ : ∃ G, F = G + iters right + 1 + 1 :=
      ⟨F - iters right - 2, by omega⟩
    rw [parseInfixExpression]
    simp only [curToken_New, nextToken_New]
    have hcp : curPrecedence (New (op.token :: (tokens right ++ rest))) = op.precedence := by
      cases op <;> rfl
    rw [hcp, ihr hgr op.precedence op.precedence G rest (le_refl _) hr (by omega) hrest2
      (by omega)]
    obtain ⟨G1, rfl⟩ : ∃ G1, G = G1 + 1 := ⟨G - 1, by omega⟩
    rw [parseExpressionLoop_stop pf G1 op.precedence _ _ rest (by omega)]
    rfl

theorem Source.tokens_length_pos (e : Source) : 0 < (tokens e).length := by
  cases e <;> simp [tokens]

theorem Source.iters_lt_length (e : Source) : iters e < (tokens e).length := by
  induction e with
  | int literal value => simp [iters, tokens]
  | neg operand _ => simp [iters, tokens]
  | paren inner _ => simp [iters, tokens]
  | binary left op right ihl _ =>
    simp only [iters, tokens, List.length_append, List.length_cons]
    omega

theorem Source.fuelFor_le (e : Source) : fuelFor e + iters e + 2 ≤ 3 * (tokens e).length := by
  induction e with
  | int literal value => simp [fuelFor, iters, tokens]
  | neg operand ih =>
    simp only [fuelFor, iters, tokens, List.length_cons]
    omega
  | paren inner ih =>
    simp only [fuelFor, iters, tokens, List.length_cons, List.length_append,
      List.length_singleton]
    omega
  | binary left op right ihl ihr =>
    simp only [fuelFor, iters, tokens, List.length_append, List.length_cons]
    have h1 := Source.iters_lt_length left
    rcases Nat.le_total (fuelFor left) (fuelFor right + iters right + 3) with h | h
    · rw [Nat.max_eq_right h]; omega
    · rw [Nat.max_eq_left h]; omega

theorem parseExpression_grouped (pf : String → Option Float64) (e : Source)
    (rest : List Token) (fuel : Nat) (hg : grouped e) (hrest : nextPrecedence rest = LOWEST)
    (hfuel : 3 * (tokens e).length ≤ fuel) :
    parseExpression pf fuel LOWEST (New (tokens e ++ rest)) =
      .ok (some (tree e), New (lastToken e :: rest)) := by
  have h1 := Source.fuelFor_le e
  obtain ⟨F, rfl⟩ : ∃ F, fuel = (F + 1) + iters e + 1 := ⟨fuel - iters e - 2, by omega⟩
  rw [parseExpression_source pf e hg LOWEST LOWEST (F + 1) rest (le_refl _)
    (by have := (Source.level_bounds e).1; simp [LOWEST, EQUALS] at *; omega)
    (by rw [hrest]; decide) (by rw [hrest]; decide) (by omega)]
  exact parseExpressionLoop_stop pf F LOWEST _ _ rest (le_of_eq hrest)

set_option maxRecDepth 8192 in
/-- C5: `parseExpression` groups operands by the precedence table.  For every arithmetic
source expression whose grouping follows the table (operands of higher precedence bind
tighter, equal precedence associates to the left, parentheses group explicitly), parsing its
tokens, followed by a token that is no operator, returns exactly the tree of that grouping,
for every call depth of three times the number of tokens or more.  In particular
`a + b * c` parses as `(a + (b * c))` and `a - b - c` as `((a - b) - c)`; and the program
`(5 + 10 * 2 + 15 / 3) * 2 + -10` parses to the tree of `precedenceExample` and evaluates to
the Integer 50. -/
theorem parseExpression_follows_precedence (pf : String → Option Float64) (fa : FloatArith) :
    (∀ (e : Source) (rest : List Token) (fuel : Nat), grouped e →
      nextPrecedence rest = LOWEST → 3 * (tokens e).length ≤ fuel →
      parseExpression pf fuel LOWEST (New (tokens e ++ rest)) =
        .ok (some (tree e), New (lastToken e :: rest))) ∧
    (∀ (a b c : String) (x y z : Int), ParseInt a = some x → ParseInt b = some y →
      ParseInt c = some z →
      parseExpression pf 15 LOWEST
          (New [⟨INT, a⟩, ⟨PLUS, "+"⟩, ⟨INT, b⟩, ⟨ASTERISK, "*"⟩, ⟨INT, c⟩]) =
        .ok (some (.InfixExpression ⟨PLUS, "+"⟩ (some (.IntegerLiteral ⟨INT, a⟩ x)) "+"
          (some (.InfixExpression ⟨ASTERISK, "*"⟩ (some (.IntegerLiteral ⟨INT, b⟩ y)) "*"
            (some (.IntegerLiteral ⟨INT, c⟩ z))))), New [⟨INT, c⟩]) ∧
      parseExpression pf 15 LOWEST
          (New [⟨INT, a⟩, ⟨MINUS, "-"⟩, ⟨INT, b⟩, ⟨MINUS, "-"⟩, ⟨INT, c⟩]) =
        .ok (some (.InfixExpression ⟨MINUS, "-"⟩
          (some (.InfixExpression ⟨MINUS, "-"⟩ (some (.IntegerLiteral ⟨INT, a⟩ x)) "-"
            (some (.IntegerLiteral ⟨INT, b⟩ y)))) "-"
          (some (.IntegerLiteral ⟨INT, c⟩ z))), New [⟨INT, c⟩])) ∧
    ParseProgram pf 48
        (New [⟨LPAREN, "("⟩, ⟨INT, "5"⟩, ⟨PLUS, "+"⟩, ⟨INT, "10"⟩, ⟨ASTERISK, "*"⟩, ⟨INT, "2"⟩,
          ⟨PLUS, "+"⟩, ⟨INT, "15"⟩, ⟨SLASH, "/"⟩, ⟨INT, "3"⟩, ⟨RPAREN, ")"⟩, ⟨ASTERISK, "*"⟩,
          ⟨INT, "2"⟩, ⟨PLUS, "+"⟩, ⟨MINUS, "-"⟩, ⟨INT, "10"⟩]) =
      .ok (⟨[.ExpressionStatement ⟨LPAREN, "("⟩ (some (tree precedenceExample))]⟩, New []) ∧
    evaluator.evalProgramFragment fa 10
        [.ExpressionStatement ⟨LPAREN, "("⟩ (some (tree precedenceExample))] none 0 =
      .ok (some (object.Object.Integer 13 50), 14) := by
  refine ⟨fun e rest fuel hg hrest hfuel => parseExpression_grouped pf e rest fuel hg hrest hfuel,
    ?_, rfl, rfl⟩
  intro a b c x y z ha hb hc
  constructor
  · exact parseExpression_grouped pf
      (.binary (.int a x) .plus (.binary (.int b y) .asterisk (.int c z))) [] 15
      ⟨by simp only [level]; decide, by simp only [level]; decide, ha,
        by simp only [level]; decide, by simp only [level]; decide, hb, hc⟩
      rfl (by simp [tokens])
  · exact parseExpression_grouped pf
      (.binary (.binary (.int a x) .minus (.int b y)) .minus (.int c z)) [] 15
      ⟨by simp only [level]; decide, by simp only [level]; decide,
        ⟨by simp only [level]; decide, by simp only [level]; decide, ha, hb⟩, hc⟩
      rfl (by simp [tokens])

theorem parseExpression_follows_precedence_witness :
    grouped precedenceExample ∧
    nextPrecedence [⟨SEMICOLON, ";"⟩] = LOWEST ∧
    3 * (tokens precedenceExample).length ≤ 48 ∧
    parseExpression (fun _ => none) 48 LOWEST
        (New (tokens precedenceExample ++ [⟨SEMICOLON, ";"⟩])) =
      .ok (some (tree precedenceExample), New [⟨INT, "10"⟩, ⟨SEMICOLON, ";"⟩]) :=
  have hg : grouped precedenceExample := by decide
  ⟨hg, rfl, by decide,
    (parseExpression_follows_precedence (fun _ => none) FloatArith.allNaN).1 precedenceExample
      [⟨SEMICOLON, ";"⟩] 48 hg rfl (by decide)⟩

end parser

end Simpyl

/-! # Theorems about `Eval` -/

namespace Simpyl

/-! ## Maps and slices -/

theorem mapGet_mapSet_same {κ α : Type} [DecidableEq κ] (m : List (κ × α)) (k : κ) (v : α) :
    mapGet (mapSet m k v) k = some v := by
  induction m with
  | nil => simp [mapSet, mapGet]
  | cons p m ih =>
    obtain ⟨k1, v1⟩ := p
    by_cases hk : k1 = k
    · simp [mapSet, mapGet, hk]
    · simp [mapSet, mapGet, hk, ih]

theorem mapGet_mapSet_other {κ α : Type} [DecidableEq κ] (m : List (κ × α)) (k k2 : κ) (v : α)
    (hne : k ≠ k2) : mapGet (mapSet m k v) k2 = mapGet m k2 := by
  induction m with
  | nil => simp [mapSet, mapGet, hne]
  | cons p m ih =>
    obtain ⟨k1, v1⟩ := p
    by_cases hk : k1 = k
    · subst hk
      simp [mapSet, mapGet, hne]
    · by_cases hk2 : k1 = k2
      · subst hk2
        simp [mapSet, mapGet, hk]
      · simp [mapSet, mapGet, hk, hk2, ih]

namespace evaluator

open object

theorem Heap_elements_length (h : Heap) (s : Slice) (a : List (Option Object))
    (ha : mapGet h.arrays s.array = some a) (hb : s.offset + s.len ≤ a.length) :
    (h.elements s).length = s.len := by
  simp [Heap.elements, ha]
  omega

theorem Heap_elements_get? (h : Heap) (s : Slice) (a : List (Option Object))
    (ha : mapGet h.arrays s.array = some a) (hb : s.offset + s.len ≤ a.length) (k : Nat)
    (hk : k < s.len) :
    ∃ v, (h.elements s).get? k = some v ∧ h.nth s k = some v := by
  have h1 : (h.elements s).get? k = a.get? (s.offset + k) := by
    simp [Heap.elements, ha, List.get?_eq_getElem?, List.getElem?_take, hk,
      List.getElem?_drop]
  have h2 : s.offset + k < a.length := by omega
  refine ⟨a.get ⟨s.offset + k, h2⟩, ?_, ?_⟩
  · rw [h1]
    simp [List.get?_eq_getElem?, List.getElem?_eq_getElem h2]
  · simp [Heap.nth, ha, List.get?_eq_getElem?, List.getElem?_eq_getElem h2]

/-! ## Truthiness and if-expressions -/

theorem isTruthy_eq_false_iff (c : Object) :
    isTruthy c = false ↔ c = .NULL ∨ c = .FALSE ∨ ∃ addr, c = .Integer addr 0 := by
  cases c <;> simp [isTruthy, pointerEq]

theorem Eval_IfExpression (host : Host) (fuel : Nat) (tok : token.Token)
    (condition : Option ast.Expression) (consequence alternative : Option ast.BlockStatement)
    (env : Nat) (h : Heap) :
    Eval host (fuel + 1) (some (.IfExpression tok condition consequence alternative)) env h =
      evalIfExpression (Eval host fuel) (evalBlockStatement (EvalStatement host fuel))
        condition consequence alternative env h := by
  rw [Eval]

/-- C11, the divergence: `isTruthy` tells FALSE from the other values by comparing the
pointer with the singleton, so the values that are not truthy are NULL, the singleton FALSE
and an Integer 0.  A Boolean of value false that is another object counts as truthy, and an
if-expression whose condition evaluates to one takes the consequence; the comparison of two
Strings with `==` or `!=` returns such an object.  With the condition evaluated to `c`,
leaving the heap `h1`, the if-expression evaluates to `c` itself if `c` is an Error (neither
block is evaluated), otherwise to what the consequence evaluates to from `h1` if `isTruthy c`,
otherwise to what the alternative evaluates to, or to NULL without one.  End to end,
`if "a" == "b":` / `1` / `else:` / `2` evaluates to 1, and so does the same with the condition
`"a" != "a"`; with the condition `1 == 2`, whose value is the singleton, it evaluates to 2, and
with `"a" == "b"` and no alternative it evaluates to 1, not to NULL. -/
theorem Eval_if_expression_false_Boolean_is_truthy (host : Host) (fuel : Nat)
    (tok : token.Token) (condition : Option ast.Expression)
    (consequence alternative : Option ast.BlockStatement) (env : Nat) (h : Heap) (c : Object)
    (h1 : Heap) (hc : Eval host fuel condition env h = .ok (some c, h1)) :
    (isTruthy c = false ↔ c = .NULL ∨ c = .FALSE ∨ ∃ addr, c = .Integer addr 0) ∧
    (Eval host (fuel + 1) (some (.IfExpression tok condition consequence alternative)) env h =
      if Type_ c = ERROR_OBJ then .ok (some c, h1)
      else if isTruthy c = true then
        evalBlockStatement (EvalStatement host fuel) consequence env h1
      else
        match alternative with
        | some alt => evalBlockStatement (EvalStatement host fuel) (some alt) env h1
        | none => .ok (some .NULL, h1)) ∧
    (∀ addr, c = .Boolean addr false →
      Eval host (fuel + 1) (some (.IfExpression tok condition consequence alternative)) env h =
        evalBlockStatement (EvalStatement host fuel) consequence env h1) ∧
    testEvalText Host.doubling (fun _ => none) 30 10
      [⟨token.IF, "if"⟩, ⟨token.STRING, "a"⟩, ⟨token.EQ, "=="⟩, ⟨token.STRING, "b"⟩,
        ⟨token.COLON, ":"⟩, ⟨token.NEWLINE, "\n"⟩, ⟨token.TAB, "\t"⟩, ⟨token.INT, "1"⟩,
        ⟨token.NEWLINE, "\n"⟩, ⟨token.ELSE, "else"⟩, ⟨token.COLON, ":"⟩, ⟨token.NEWLINE, "\n"⟩,
        ⟨token.TAB, "\t"⟩, ⟨token.INT, "2"⟩] =
      .ok (some (INTEGER_OBJ, "1")) ∧
    testEvalText Host.doubling (fun _ => none) 30 10
      [⟨token.IF, "if"⟩, ⟨token.STRING, "a"⟩, ⟨token.NOT_EQ, "!="⟩, ⟨token.STRING, "a"⟩,
        ⟨token.COLON, ":"⟩, ⟨token.NEWLINE, "\n"⟩, ⟨token.TAB, "\t"⟩, ⟨token.INT, "1"⟩,
        ⟨token.NEWLINE, "\n"⟩, ⟨token.ELSE, "else"⟩, ⟨token.COLON, ":"⟩, ⟨token.NEWLINE, "\n"⟩,
        ⟨token.TAB, "\t"⟩, ⟨token.INT, "2"⟩] =
      .ok (some (INTEGER_OBJ, "1")) ∧
    testEvalText Host.doubling (fun _ => none) 30 10
      [⟨token.IF, "if"⟩, ⟨token.INT, "1"⟩, ⟨token.EQ, "=="⟩, ⟨token.INT, "2"⟩,
        ⟨token.COLON, ":"⟩, ⟨token.NEWLINE, "\n"⟩, ⟨token.TAB, "\t"⟩, ⟨token.INT, "1"⟩,
        ⟨token.NEWLINE, "\n"⟩, ⟨token.ELSE, "else"⟩, ⟨token.COLON, ":"⟩, ⟨token.NEWLINE, "\n"⟩,
        ⟨token.TAB, "\t"⟩, ⟨token.INT, "2"⟩] =
      .ok (some (INTEGER_OBJ, "2")) ∧
    testEvalText Host.doubling (fun _ => none) 30 10
      [⟨token.IF, "if"⟩, ⟨token.STRING, "a"⟩, ⟨token.EQ, "=="⟩, ⟨token.STRING, "b"⟩,
        ⟨token.COLON, ":"⟩, ⟨token.NEWLINE, "\n"⟩, ⟨token.TAB, "\t"⟩, ⟨token.INT, "1"⟩] =
      .ok (some (INTEGER_OBJ, "1")) ∧
    testEvalText Host.doubling (fun _ => none) 30 10
      [⟨token.IF, "if"⟩, ⟨token.FALSE, "false"⟩, ⟨token.COLON, ":"⟩, ⟨token.NEWLINE, "\n"⟩,
        ⟨token.TAB, "\t"⟩, ⟨token.INT, "1"⟩] =
      .ok (some (NULL_OBJ, "null")) := by
  have hgen : Eval host (fuel + 1)
      (some (.IfExpression tok condition consequence alternative)) env h =
      if Type_ c = ERROR_OBJ then .ok (some c, h1)
      else if isTruthy c = true then
        evalBlockStatement (EvalStatement host fuel) consequence env h1
      else
        match alternative with
        | some alt => evalBlockStatement (EvalStatement host fuel) (some alt) env h1
        | none => .ok (some .NULL, h1) := by
    rw [Eval_IfExpression, evalIfExpression, hc]
    by_cases he : Type_ c = ERROR_OBJ
    · simp [isError, he, bind, Except.bind, pure, Except.pure]
    · by_cases ht : isTruthy c = true
      · simp [isError, he, ht, bind, Except.bind]
      · cases alternative <;> simp [isError, he, ht, bind, Except.bind, pure, Except.pure]
  refine ⟨isTruthy_eq_false_iff c, hgen, ?_, by decide!, by decide!, by decide!, by decide!,
    by decide!⟩
  intro addr hb
  subst hb
  rw [hgen]
  rfl

theorem Eval_if_expression_false_Boolean_is_truthy_witness :
    Eval Host.doubling 2
        (some (.InfixExpression ⟨token.EQ, "=="⟩
          (some (.StringLiteral ⟨token.STRING, "a"⟩ "a")) "=="
          (some (.StringLiteral ⟨token.STRING, "b"⟩ "b"))))
        0 (NewEnvironment Heap.empty).2 =
      .ok (some (.Boolean 3 false), ⟨4, [(0, ⟨[], none⟩)], [], [], [], []⟩) ∧
    Eval Host.doubling 3
        (some (.IfExpression ⟨token.IF, "if"⟩
          (some (.InfixExpression ⟨token.EQ, "=="⟩
            (some (.StringLiteral ⟨token.STRING, "a"⟩ "a")) "=="
            (some (.StringLiteral ⟨token.STRING, "b"⟩ "b"))))
          (some (.mk ⟨token.COLON, ":"⟩
            [.ExpressionStatement ⟨token.INT, "1"⟩ (some (.IntegerLiteral ⟨token.INT, "1"⟩ 1))]))
          (some (.mk ⟨token.COLON, ":"⟩
            [.ExpressionStatement ⟨token.INT, "2"⟩
              (some (.IntegerLiteral ⟨token.INT, "2"⟩ 2))]))))
        0 (NewEnvironment Heap.empty).2 =
      .ok (some (.Integer 4 1), ⟨5, [(0, ⟨[], none⟩)], [], [], [], []⟩) :=
  ⟨rfl, ((Eval_if_expression_false_Boolean_is_truthy Host.doubling 2 ⟨token.IF, "if"⟩
    (some (.InfixExpression ⟨token.EQ, "=="⟩
      (some (.StringLiteral ⟨token.STRING, "a"⟩ "a")) "=="
      (some (.StringLiteral ⟨token.STRING, "b"⟩ "b"))))
    (some (.mk ⟨token.COLON, ":"⟩
      [.ExpressionStatement ⟨token.INT, "1"⟩ (some (.IntegerLiteral ⟨token.INT, "1"⟩ 1))]))
    (some (.mk ⟨token.COLON, ":"⟩
      [.ExpressionStatement ⟨token.INT, "2"⟩ (some (.IntegerLiteral ⟨token.INT, "2"⟩ 2))]))
    0 (NewEnvironment Heap.empty).2 (.Boolean 3 false) ⟨4, [(0, ⟨[], none⟩)], [], [], [], []⟩
    rfl).2.2.1 3 rfl).trans rfl⟩

/-! ## Infix expressions -/

theorem Eval_InfixExpression_left_error (host : Host) (fuel : Nat) (tok : token.Token)
    (left right : Option ast.Expression) (operator : String) (env : Nat) (h h1 h2 : Heap)
    (e : Object) (r : Option Object)
    (hl : Eval host fuel left env h = .ok (some e, h1)) (he : Type_ e = ERROR_OBJ)
    (hr : Eval host fuel right env h1 = .ok (r, h2)) :
    Eval host (fuel + 1) (some (.InfixExpression tok left operator right)) env h =
      .ok (some e, h2) := by
  rw [Eval]
  simp [hl, hr, bind, Except.bind, isError, he, pure, Except.pure]

/-- C12, the divergence: in `a OP b` the operand `b` is evaluated before the value of `a` is
examined.  When `a` evaluates to an Error, leaving the heap `h1`, and `b` evaluates from `h1`
to any value, leaving the heap `h2`, the infix expression evaluates to the Error of `a` in the
heap `h2`, the one the evaluation of `b` has left.  At the failing input, the three lines
`l = [1]`, `nope + l[0] = 5`, `l[0]` given to the interactive loop: the second line prints
the Error `identifier not found: nope`, and the third prints 5, the Integer that the
index-assign of the second line has stored. -/
theorem Eval_infix_evaluates_right_operand_after_error :
    (∀ (host : Host) (fuel : Nat) (tok : token.Token) (left right : Option ast.Expression)
      (operator : String) (env : Nat) (h h1 h2 : Heap) (e : Object) (r : Option Object),
      Eval host fuel left env h = .ok (some e, h1) → Type_ e = ERROR_OBJ →
      Eval host fuel right env h1 = .ok (r, h2) →
      Eval host (fuel + 1) (some (.InfixExpression tok left operator right)) env h =
        .ok (some e, h2)) ∧
    repl.StartInteractive Host.doubling (fun _ => none) 30 10
      [[⟨token.IDENT, "l"⟩, ⟨token.ASSIGN, "="⟩, ⟨token.LBRACKET, "["⟩, ⟨token.INT, "1"⟩,
          ⟨token.RBRACKET, "]"⟩],
        [⟨token.IDENT, "nope"⟩, ⟨token.PLUS, "+"⟩, ⟨token.IDENT, "l"⟩,
          ⟨token.LBRACKET, "["⟩, ⟨token.INT, "0"⟩, ⟨token.RBRACKET, "]"⟩,
          ⟨token.ASSIGN, "="⟩, ⟨token.INT, "5"⟩],
        [⟨token.IDENT, "l"⟩, ⟨token.LBRACKET, "["⟩, ⟨token.INT, "0"⟩,
          ⟨token.RBRACKET, "]"⟩]] =
      .ok ">> >> ERROR: identifier not found: nope\n>> 5\n>> " :=
  ⟨fun host fuel tok left right operator env h h1 h2 e r hl he hr =>
    Eval_InfixExpression_left_error host fuel tok left right operator env h h1 h2 e r hl he hr,
    by decide!⟩

theorem Eval_infix_evaluates_right_operand_after_error_witness :
    Eval Host.doubling 4
      (some (.InfixExpression ⟨token.PLUS, "+"⟩
        (some (.Identifier ⟨token.IDENT, "nope"⟩ "nope")) "+"
        (some (.IndexAssignExpression ⟨token.LBRACKET, "["⟩
          (some (.Identifier ⟨token.IDENT, "l"⟩ "l"))
          (some (.IntegerLiteral ⟨token.INT, "0"⟩ 0)) false none
          (some (.IntegerLiteral ⟨token.INT, "5"⟩ 5))))))
      0 ⟨4, [(0, ⟨[("l", some (.List 3))], none⟩)], [(2, [some (.Integer 1 1)])],
        [(3, ⟨2, 0, 1, 1⟩)], [], []⟩ =
    .ok (some (.Error 4 "identifier not found: nope"),
      ⟨7, [(0, ⟨[("l", some (.List 3))], none⟩)], [(2, [some (.Integer 6 5)])],
        [(3, ⟨2, 0, 1, 1⟩)], [], []⟩) :=
  Eval_infix_evaluates_right_operand_after_error.1 Host.doubling 3
    ⟨token.PLUS, "+"⟩ _ _ "+" 0 _ _ _ _ _ rfl rfl rfl

/-! ## Programs and blocks -/

theorem endsBlock_eq_false (r : Option Object) (hr : endsBlock r = false) :
    (∀ addr value, r ≠ some (.ReturnValue addr value)) ∧
    (∀ addr message, r ≠ some (.Error addr message)) := by
  constructor
  · rintro addr value rfl
    simp [endsBlock, Type_] at hr
  · rintro addr message rfl
    simp [endsBlock, Type_] at hr

theorem evalProgramLoop_step (Eval : EvalFn ast.Statement) (statement : ast.Statement)
    (rest : List ast.Statement) (r0 r : Option Object) (env : Nat) (h h1 : Heap)
    (hs : Eval statement env h = .ok (r, h1)) (hr : endsBlock r = false) :
    evalProgramLoop Eval (statement :: rest) r0 env h = evalProgramLoop Eval rest r env h1 := by
  obtain ⟨h1r, h2r⟩ := endsBlock_eq_false r hr
  rw [evalProgramLoop, hs]
  cases r with
  | none => rfl
  | some o =>
    cases o <;> first | rfl | exact absurd rfl (h1r _ _) | exact absurd rfl (h2r _ _)

theorem evalBlockStatementLoop_step (Eval : EvalFn ast.Statement) (statement : ast.Statement)
    (rest : List ast.Statement) (r0 r : Option Object) (env : Nat) (h h1 : Heap)
    (hs : Eval statement env h = .ok (r, h1)) (hr : endsBlock r = false) :
    evalBlockStatementLoop Eval (statement :: rest) r0 env h =
      evalBlockStatementLoop Eval rest r env h1 := by
  rw [evalBlockStatementLoop, hs]
  cases r with
  | none => rfl
  | some o =>
    have : ¬ (Type_ o = RETURN_VALUE_OBJ ∨ Type_ o = ERROR_OBJ) := by
      simpa [endsBlock] using hr
    simp [bind, Except.bind, this]

theorem evalProgramLoop_InOrder (Eval : EvalFn ast.Statement) (env : Nat)
    (before rest : List ast.Statement) (h h1 : Heap) (r0 r1 : Option Object)
    (hb : InOrder Eval env before h r0 r1 h1) :
    evalProgramLoop Eval (before ++ rest) r0 env h = evalProgramLoop Eval rest r1 env h1 := by
  induction hb with
  | nil h r0 => rfl
  | cons statement tail h h1 h2 r0 r1 r first goesOn _ ih =>
    rw [List.cons_append, evalProgramLoop_step Eval statement _ r0 r1 env h h1 first goesOn, ih]

theorem evalBlockStatementLoop_InOrder (Eval : EvalFn ast.Statement) (env : Nat)
    (before rest : List ast.Statement) (h h1 : Heap) (r0 r1 : Option Object)
    (hb : InOrder Eval env before h r0 r1 h1) :
    evalBlockStatementLoop Eval (before ++ rest) r0 env h =
      evalBlockStatementLoop Eval rest r1 env h1 := by
  induction hb with
  | nil h r0 => rfl
  | cons statement tail h h1 h2 r0 r1 r first goesOn _ ih =>
    rw [List.cons_append,
      evalBlockStatementLoop_step Eval statement _ r0 r1 env h h1 first goesOn, ih]

/-- C13: let the statements `before` of a program or block evaluate in order, from the heap
`h`, to values none of which is a ReturnValue or an Error, and let the next statement evaluate
to `r`, leaving the heap `h2`.  If `r` is a ReturnValue, `evalProgram` returns its payload and
`evalBlockStatement` returns `r` itself, still wrapped; if `r` is an Error both return `r`.
In both cases the heap is `h2` whatever statements come `after`: none of them is evaluated.
If `r` is neither and no statement comes after, both return `r`, the value of the last
statement.  The value of the empty program is nil. -/
theorem evalProgram_stops_at_first_return_or_error (host : Host) (fuel env : Nat)
    (tok : token.Token) (before after : List ast.Statement) (statement : ast.Statement)
    (h h1 h2 : Heap) (r1 r : Option Object)
    (hbefore : InOrder (EvalStatement host fuel) env before h none r1 h1)
    (hstatement : EvalStatement host fuel statement env h1 = .ok (r, h2)) :
    (∀ addr value, r = some (.ReturnValue addr value) →
      evalProgram host fuel ⟨before ++ statement :: after⟩ env h = .ok (value, h2) ∧
      evalBlockStatement (EvalStatement host fuel)
        (some (.mk tok (before ++ statement :: after))) env h = .ok (r, h2)) ∧
    (∀ addr message, r = some (.Error addr message) →
      evalProgram host fuel ⟨before ++ statement :: after⟩ env h = .ok (r, h2) ∧
      evalBlockStatement (EvalStatement host fuel)
        (some (.mk tok (before ++ statement :: after))) env h = .ok (r, h2)) ∧
    (endsBlock r = false → after = [] →
      evalProgram host fuel ⟨before ++ statement :: after⟩ env h = .ok (r, h2) ∧
      evalBlockStatement (EvalStatement host fuel)
        (some (.mk tok (before ++ statement :: after))) env h = .ok (r, h2)) ∧
    evalProgram host fuel ⟨[]⟩ env h = .ok (none, h) := by
  have hp := evalProgramLoop_InOrder (EvalStatement host fuel) env before (statement :: after)
    h h1 none r1 hbefore
  have hb := evalBlockStatementLoop_InOrder (EvalStatement host fuel) env before
    (statement :: after) h h1 none r1 hbefore
  refine ⟨?_, ?_, ?_, rfl⟩
  · rintro addr value rfl
    constructor
    · rw [evalProgram, hp, evalProgramLoop, hstatement]
    · rw [evalBlockStatement, hb, evalBlockStatementLoop, hstatement]
      simp [bind, Except.bind, Type_, pure, Except.pure]
  · rintro addr message rfl
    constructor
    · rw [evalProgram, hp, evalProgramLoop, hstatement]
    · rw [evalBlockStatement, hb, evalBlockStatementLoop, hstatement]
      simp [bind, Except.bind, Type_, pure, Except.pure]
  · rintro hr rfl
    constructor
    · rw [evalProgram, hp,
        evalProgramLoop_step (EvalStatement host fuel) statement [] r1 r env h1 h2 hstatement hr]
      rfl
    · rw [evalBlockStatement, hb,
        evalBlockStatementLoop_step (EvalStatement host fuel) statement [] r1 r env h1 h2
          hstatement hr]
      rfl

theorem evalProgram_stops_at_first_return_or_error_witness :
    evalProgram Host.doubling 3
      ⟨[.ExpressionStatement ⟨token.INT, "9"⟩ (some (.IntegerLiteral ⟨token.INT, "9"⟩ 9)),
        .ReturnStatement ⟨token.RETURN, "return"⟩
          (some (.InfixExpression ⟨token.ASTERISK, "*"⟩
            (some (.IntegerLiteral ⟨token.INT, "2"⟩ 2)) "*"
            (some (.IntegerLiteral ⟨token.INT, "5"⟩ 5)))),
        .ExpressionStatement ⟨token.INT, "9"⟩ (some (.IntegerLiteral ⟨token.INT, "9"⟩ 9))]⟩
      0 (NewEnvironment Heap.empty).2 =
      .ok (some (.Integer 4 10), ⟨6, [(0, ⟨[], none⟩)], [], [], [], []⟩) ∧
    evalBlockStatement (EvalStatement Host.doubling 3)
      (some (.mk ⟨token.COLON, ":"⟩
        [.ExpressionStatement ⟨token.INT, "9"⟩ (some (.IntegerLiteral ⟨token.INT, "9"⟩ 9)),
          .ReturnStatement ⟨token.RETURN, "return"⟩
            (some (.InfixExpression ⟨token.ASTERISK, "*"⟩
              (some (.IntegerLiteral ⟨token.INT, "2"⟩ 2)) "*"
              (some (.IntegerLiteral ⟨token.INT, "5"⟩ 5)))),
          .ExpressionStatement ⟨token.INT, "9"⟩ (some (.IntegerLiteral ⟨token.INT, "9"⟩ 9))]))
      0 (NewEnvironment Heap.empty).2 =
      .ok (some (.ReturnValue 5 (some (.Integer 4 10))), ⟨6, [(0, ⟨[], none⟩)], [], [], [], []⟩) :=
  (evalProgram_stops_at_first_return_or_error Host.doubling 3 0 ⟨token.COLON, ":"⟩
    [.ExpressionStatement ⟨token.INT, "9"⟩ (some (.IntegerLiteral ⟨token.INT, "9"⟩ 9))]
    [.ExpressionStatement ⟨token.INT, "9"⟩ (some (.IntegerLiteral ⟨token.INT, "9"⟩ 9))]
    (.ReturnStatement ⟨token.RETURN, "return"⟩
      (some (.InfixExpression ⟨token.ASTERISK, "*"⟩
        (some (.IntegerLiteral ⟨token.INT, "2"⟩ 2)) "*"
        (some (.IntegerLiteral ⟨token.INT, "5"⟩ 5)))))
    (NewEnvironment Heap.empty).2 ⟨2, [(0, ⟨[], none⟩)], [], [], [], []⟩
    ⟨6, [(0, ⟨[], none⟩)], [], [], [], []⟩ (some (.Integer 1 9))
    (some (.ReturnValue 5 (some (.Integer 4 10))))
    (InOrder.cons _ _ _ _ _ _ _ _ rfl rfl (InOrder.nil _ _)) rfl).1 5 (some (.Integer 4 10)) rfl

/-! ## Loops -/

theorem EvalStatement_ForStatement_value (host : Host) (fuel : Nat) (tok : token.Token)
    (iterator : Option ast.Identifier) (iterable : Option ast.Expression)
    (body : Option ast.BlockStatement) (env : Nat) (h h1 : Heap) (r : Option Object)
    (hr : EvalStatement host fuel (.ForStatement tok iterator iterable body) env h =
      .ok (r, h1)) : r = none := by
  cases fuel with
  | zero => simp [EvalStatement] at hr
  | succ fuel =>
    rw [EvalStatement] at hr
    cases hl : evalForLoop (Eval host fuel) (evalBlockStatement (EvalStatement host fuel))
        iterator iterable body env h with
    | error e => simp [hl, bind, Except.bind] at hr
    | ok h2 =>
      simp [hl, bind, Except.bind, pure, Except.pure] at hr
      exact hr.1.symm

theorem EvalStatement_WhileStatement_value (host : Host) (fuel : Nat) (tok : token.Token)
    (condition : Option ast.Expression) (body : Option ast.BlockStatement) (env : Nat)
    (h h1 : Heap) (r : Option Object)
    (hr : EvalStatement host fuel (.WhileStatement tok condition body) env h = .ok (r, h1)) :
    r = none := by
  cases fuel with
  | zero => simp [EvalStatement] at hr
  | succ fuel =>
    rw [EvalStatement] at hr
    cases hl : evalWhileLoop host fuel condition body env h with
    | error e => simp [hl, bind, Except.bind] at hr
    | ok h2 =>
      simp [hl, bind, Except.bind, pure, Except.pure] at hr
      exact hr.1.symm

/-- C15, the divergence: `evalForLoop` and `evalWhileLoop` drop the value of the body, and the
value of a for or while statement is nil whatever the body has evaluated to.  At the failing
inputs: the program `def f():` / `for i in [1, 2]:` / `return i` / `return 0` / `f()`
evaluates to 0, the `return` in the loop having ended only the body of the loop; the program
`for i in [1, 2]:` / `nope` / `5` evaluates to 5 and not to the Error of the body; and the
program `def f():` / `x = 0` / `while x < 1:` / `x = x + 1` / `return 7` / `return x` /
`f()` evaluates to 1. -/
theorem EvalStatement_loop_drops_value_of_body :
    (∀ (host : Host) (fuel : Nat) (tok : token.Token) (iterator : Option ast.Identifier)
      (iterable : Option ast.Expression) (body : Option ast.BlockStatement) (env : Nat)
      (h h1 : Heap) (r : Option Object),
      EvalStatement host fuel (.ForStatement tok iterator iterable body) env h = .ok (r, h1) →
      r = none) ∧
    (∀ (host : Host) (fuel : Nat) (tok : token.Token) (condition : Option ast.Expression)
      (body : Option ast.BlockStatement) (env : Nat) (h h1 : Heap) (r : Option Object),
      EvalStatement host fuel (.WhileStatement tok condition body) env h = .ok (r, h1) →
      r = none) ∧
    testEvalText Host.doubling (fun _ => none) 60 10
      [⟨token.FUNCTION, "def"⟩, ⟨token.IDENT, "f"⟩, ⟨token.LPAREN, "("⟩,
        ⟨token.RPAREN, ")"⟩, ⟨token.COLON, ":"⟩, ⟨token.NEWLINE, "\n"⟩, ⟨token.TAB, "\t"⟩,
        ⟨token.FOR, "for"⟩, ⟨token.IDENT, "i"⟩, ⟨token.IN, "in"⟩, ⟨token.LBRACKET, "["⟩,
        ⟨token.INT, "1"⟩, ⟨token.COMMA, ","⟩, ⟨token.INT, "2"⟩, ⟨token.RBRACKET, "]"⟩,
        ⟨token.COLON, ":"⟩, ⟨token.NEWLINE, "\n"⟩, ⟨token.TAB, "\t"⟩, ⟨token.TAB, "\t"⟩,
        ⟨token.RETURN, "return"⟩, ⟨token.IDENT, "i"⟩, ⟨token.NEWLINE, "\n"⟩,
        ⟨token.TAB, "\t"⟩, ⟨token.RETURN, "return"⟩, ⟨token.INT, "0"⟩,
        ⟨token.NEWLINE, "\n"⟩, ⟨token.IDENT, "f"⟩, ⟨token.LPAREN, "("⟩,
        ⟨token.RPAREN, ")"⟩] = .ok (some (INTEGER_OBJ, "0")) ∧
    testEvalText Host.doubling (fun _ => none) 60 10
      [⟨token.FOR, "for"⟩, ⟨token.IDENT, "i"⟩, ⟨token.IN, "in"⟩, ⟨token.LBRACKET, "["⟩,
        ⟨token.INT, "1"⟩, ⟨token.COMMA, ","⟩, ⟨token.INT, "2"⟩, ⟨token.RBRACKET, "]"⟩,
        ⟨token.COLON, ":"⟩, ⟨token.NEWLINE, "\n"⟩, ⟨token.TAB, "\t"⟩,
        ⟨token.IDENT, "nope"⟩, ⟨token.NEWLINE, "\n"⟩, ⟨token.INT, "5"⟩] =
      .ok (some (INTEGER_OBJ, "5")) ∧
    testEvalText Host.doubling (fun _ => none) 80 12
      [⟨token.FUNCTION, "def"⟩, ⟨token.IDENT, "f"⟩, ⟨token.LPAREN, "("⟩,
        ⟨token.RPAREN, ")"⟩, ⟨token.COLON, ":"⟩, ⟨token.NEWLINE, "\n"⟩, ⟨token.TAB, "\t"⟩,
        ⟨token.IDENT, "x"⟩, ⟨token.ASSIGN, "="⟩, ⟨token.INT, "0"⟩, ⟨token.NEWLINE, "\n"⟩,
        ⟨token.TAB, "\t"⟩, ⟨token.WHILE, "while"⟩, ⟨token.IDENT, "x"⟩, ⟨token.LT, "<"⟩,
        ⟨token.INT, "1"⟩, ⟨token.COLON, ":"⟩, ⟨token.NEWLINE, "\n"⟩, ⟨token.TAB, "\t"⟩,
        ⟨token.TAB, "\t"⟩, ⟨token.IDENT, "x"⟩, ⟨token.ASSIGN, "="⟩, ⟨token.IDENT, "x"⟩,
        ⟨token.PLUS, "+"⟩, ⟨token.INT, "1"⟩, ⟨token.NEWLINE, "\n"⟩, ⟨token.TAB, "\t"⟩,
        ⟨token.TAB, "\t"⟩, ⟨token.RETURN, "return"⟩, ⟨token.INT, "7"⟩,
        ⟨token.NEWLINE, "\n"⟩, ⟨token.TAB, "\t"⟩, ⟨token.RETURN, "return"⟩,
        ⟨token.IDENT, "x"⟩, ⟨token.NEWLINE, "\n"⟩, ⟨token.IDENT, "f"⟩,
        ⟨token.LPAREN, "("⟩, ⟨token.RPAREN, ")"⟩] = .ok (some (INTEGER_OBJ, "1")) :=
  ⟨fun host fuel tok iterator iterable body env h h1 r hr =>
      EvalStatement_ForStatement_value host fuel tok iterator iterable body env h h1 r hr,
    fun host fuel tok condition body env h h1 r hr =>
      EvalStatement_WhileStatement_value host fuel tok condition body env h h1 r hr,
    by decide!, by decide!, by decide!⟩

theorem EvalStatement_loop_drops_value_of_body_witness :
    EvalStatement Host.doubling 4
      (.ForStatement ⟨token.FOR, "for"⟩ (some ⟨⟨token.IDENT, "i"⟩, "i"⟩)
        (some (.ListLiteral ⟨token.LBRACKET, "["⟩ [some (.IntegerLiteral ⟨token.INT, "1"⟩ 1)]))
        (some (.mk ⟨token.COLON, ":"⟩
          [.ReturnStatement ⟨token.RETURN, "return"⟩
            (some (.Identifier ⟨token.IDENT, "i"⟩ "i"))])))
      0 (NewEnvironment Heap.empty).2 =
      .ok (none, ⟨5, [(0, ⟨[("i", some (.Integer 1 1))], none⟩)], [(2, [some (.Integer 1 1)])],
        [(3, ⟨2, 0, 1, 1⟩)], [], []⟩) ∧
    (none : Option Object) = none :=
  ⟨rfl, EvalStatement_loop_drops_value_of_body.1 Host.doubling 4
    ⟨token.FOR, "for"⟩ (some ⟨⟨token.IDENT, "i"⟩, "i"⟩)
    (some (.ListLiteral ⟨token.LBRACKET, "["⟩ [some (.IntegerLiteral ⟨token.INT, "1"⟩ 1)]))
    (some (.mk ⟨token.COLON, ":"⟩
      [.ReturnStatement ⟨token.RETURN, "return"⟩ (some (.Identifier ⟨token.IDENT, "i"⟩ "i"))]))
    0 (NewEnvironment Heap.empty).2
    ⟨5, [(0, ⟨[("i", some (.Integer 1 1))], none⟩)], [(2, [some (.Integer 1 1)])],
      [(3, ⟨2, 0, 1, 1⟩)], [], []⟩ none rfl⟩

theorem EvalStatement_ForStatement_not_list (host : Host) (fuel : Nat) (tok : token.Token)
    (iterator : Option ast.Identifier) (iterable : Option ast.Expression)
    (body : Option ast.BlockStatement) (env : Nat) (h h1 : Heap) (v : Option Object)
    (hv : Eval host fuel iterable env h = .ok (v, h1))
    (hnl : ∀ addr, v ≠ some (.List addr)) :
    EvalStatement host (fuel + 1) (.ForStatement tok iterator iterable body) env h =
      .error nilDereference := by
  rw [EvalStatement, evalForLoop, hv]
  cases v with
  | none => rfl
  | some o => cases o <;> first | rfl | exact absurd rfl (hnl _)

/-- C16, the divergence: when the iterable of a for statement evaluates to anything but a
List (an Integer, a String, NULL, an Error, the nil interface, ...), `evalForLoop` builds an
Error and drops it, then reads the field `Elements` through the nil pointer that the failed
type assertion has produced: the evaluation aborts with a nil-pointer panic instead of
returning an Error value.  At the failing inputs: the programs `for i in 5:` / `x = 1` and
`for i in nope:` / `x = 1` abort. -/
theorem evalForLoop_aborts_on_non_list_iterable :
    (∀ (host : Host) (fuel : Nat) (tok : token.Token) (iterator : Option ast.Identifier)
      (iterable : Option ast.Expression) (body : Option ast.BlockStatement) (env : Nat)
      (h h1 : Heap) (v : Option Object),
      Eval host fuel iterable env h = .ok (v, h1) → (∀ addr, v ≠ some (.List addr)) →
      EvalStatement host (fuel + 1) (.ForStatement tok iterator iterable body) env h =
        .error nilDereference) ∧
    testEvalText Host.doubling (fun _ => none) 30 10
      [⟨token.FOR, "for"⟩, ⟨token.IDENT, "i"⟩, ⟨token.IN, "in"⟩, ⟨token.INT, "5"⟩,
        ⟨token.COLON, ":"⟩, ⟨token.NEWLINE, "\n"⟩, ⟨token.TAB, "\t"⟩, ⟨token.IDENT, "x"⟩,
        ⟨token.ASSIGN, "="⟩, ⟨token.INT, "1"⟩] = .error nilDereference ∧
    testEvalText Host.doubling (fun _ => none) 30 10
      [⟨token.FOR, "for"⟩, ⟨token.IDENT, "i"⟩, ⟨token.IN, "in"⟩, ⟨token.IDENT, "nope"⟩,
        ⟨token.COLON, ":"⟩, ⟨token.NEWLINE, "\n"⟩, ⟨token.TAB, "\t"⟩, ⟨token.IDENT, "x"⟩,
        ⟨token.ASSIGN, "="⟩, ⟨token.INT, "1"⟩] = .error nilDereference :=
  ⟨fun host fuel tok iterator iterable body env h h1 v hv hnl =>
      EvalStatement_ForStatement_not_list host fuel tok iterator iterable body env h h1 v hv hnl,
    by decide!, by decide!⟩

theorem evalForLoop_aborts_on_non_list_iterable_witness :
    EvalStatement Host.doubling 2
      (.ForStatement ⟨token.FOR, "for"⟩ (some ⟨⟨token.IDENT, "i"⟩, "i"⟩)
        (some (.StringLiteral ⟨token.STRING, "ab"⟩ "ab"))
        (some (.mk ⟨token.COLON, ":"⟩ [])))
      0 (NewEnvironment Heap.empty).2 = .error nilDereference :=
  evalForLoop_aborts_on_non_list_iterable.1 Host.doubling 1
    ⟨token.FOR, "for"⟩ _ _ _ 0 _ ⟨2, [(0, ⟨[], none⟩)], [], [], [], []⟩ (some (.String 1 "ab")) rfl
    (fun addr hc => by cases hc)

/-! ## Index expressions on lists -/

/-- C19: let the List at `addr` have the slice `s` as its elements, `L = h.elements s`, of
length `n = s.len`.  The index read `L[i]` returns the element at the position `i` when
`0 <= i < n`, the element at the position `n + i` when `-n <= i < 0`, and NULL for every other
`i`; the heap is unchanged. -/
theorem evalIndexExpression_list_read (host : Host) (h : Heap) (addr iaddr : Nat) (s : Slice)
    (a : List (Option Object)) (i : Int) (hl : mapGet h.lists addr = some s)
    (ha : mapGet h.arrays s.array = some a) (hb : s.offset + s.len ≤ a.length) :
    (h.elements s).length = s.len ∧
    (0 ≤ i → i < s.len → ∃ v, (h.elements s).get? i.toNat = some v ∧
      evalIndexExpression host (some (.List addr)) (some (.Integer iaddr i)) false none h =
        .ok (v, h)) ∧
    (-(s.len : Int) ≤ i → i < 0 →
      ∃ v, (h.elements s).get? ((s.len : Int) + i).toNat = some v ∧
        evalIndexExpression host (some (.List addr)) (some (.Integer iaddr i)) false none h =
          .ok (v, h)) ∧
    (i < -(s.len : Int) ∨ (s.len : Int) ≤ i →
      evalIndexExpression host (some (.List addr)) (some (.Integer iaddr i)) false none h =
        .ok (some .NULL, h)) := by
  refine ⟨Heap_elements_length h s a ha hb, ?_, ?_, ?_⟩
  · intro h0 h1
    obtain ⟨v, hv1, hv2⟩ := Heap_elements_get? h s a ha hb i.toNat (by omega)
    refine ⟨v, hv1, ?_⟩
    have hn : ¬ i < 0 := by omega
    simp [evalIndexExpression, Type_, evalListIndexExpression, normalizeIndex, hl, hn, hv2]
    intro hc
    omega
  · intro h0 h1
    obtain ⟨v, hv1, hv2⟩ := Heap_elements_get? h s a ha hb ((s.len : Int) + i).toNat (by omega)
    refine ⟨v, hv1, ?_⟩
    simp [evalIndexExpression, Type_, evalListIndexExpression, normalizeIndex, hl, h1, hv2]
    intro hc
    omega
  · intro hout
    by_cases hn : i < 0
    · have hr : ((s.len : Int) + i < 0 ∨ (s.len : Int) + i > (s.len : Int) - 1) := by omega
      simp [evalIndexExpression, Type_, evalListIndexExpression, normalizeIndex, hl, hn, hr]
    · simp [evalIndexExpression, Type_, evalListIndexExpression, normalizeIndex, hl, hn]
      intro hc
      omega

theorem evalIndexExpression_list_read_witness :
    (∃ v,
      (Heap.elements
          ⟨6, [(0, ⟨[], none⟩)],
            [(4, [some (.Integer 1 1), some (.Integer 2 2), some (.Integer 3 3), none])],
            [(5, ⟨4, 0, 3, 4⟩)], [], []⟩ ⟨4, 0, 3, 4⟩).get? 2 = some v ∧
        evalIndexExpression Host.doubling (some (.List 5)) (some (.Integer 7 (-1))) false none
            ⟨6, [(0, ⟨[], none⟩)],
              [(4, [some (.Integer 1 1), some (.Integer 2 2), some (.Integer 3 3), none])],
              [(5, ⟨4, 0, 3, 4⟩)], [], []⟩ =
          .ok (v,
            ⟨6, [(0, ⟨[], none⟩)],
              [(4, [some (.Integer 1 1), some (.Integer 2 2), some (.Integer 3 3), none])],
              [(5, ⟨4, 0, 3, 4⟩)], [], []⟩)) ∧
    testEvalText Host.doubling (fun _ => none) 30 10
      [⟨token.LBRACKET, "["⟩, ⟨token.INT, "1"⟩, ⟨token.COMMA, ","⟩, ⟨token.INT, "2"⟩,
        ⟨token.COMMA, ","⟩, ⟨token.INT, "3"⟩, ⟨token.RBRACKET, "]"⟩, ⟨token.LBRACKET, "["⟩,
        ⟨token.MINUS, "-"⟩, ⟨token.INT, "1"⟩, ⟨token.RBRACKET, "]"⟩] =
      .ok (some (INTEGER_OBJ, "3")) ∧
    testEvalText Host.doubling (fun _ => none) 30 10
      [⟨token.LBRACKET, "["⟩, ⟨token.INT, "1"⟩, ⟨token.COMMA, ","⟩, ⟨token.INT, "2"⟩,
        ⟨token.COMMA, ","⟩, ⟨token.INT, "3"⟩, ⟨token.RBRACKET, "]"⟩, ⟨token.LBRACKET, "["⟩,
        ⟨token.INT, "3"⟩, ⟨token.RBRACKET, "]"⟩] = .ok (some (NULL_OBJ, "null")) :=
  ⟨by
      obtain ⟨v, e1, e2⟩ := (evalIndexExpression_list_read Host.doubling
        ⟨6, [(0, ⟨[], none⟩)],
          [(4, [some (.Integer 1 1), some (.Integer 2 2), some (.Integer 3 3), none])],
          [(5, ⟨4, 0, 3, 4⟩)], [], []⟩ 5 7 ⟨4, 0, 3, 4⟩
        [some (.Integer 1 1), some (.Integer 2 2), some (.Integer 3 3), none] (-1) rfl rfl
        (by decide)).2.2.1 (by decide) (by decide)
      exact ⟨v, e1, e2⟩,
    by decide!, by decide!⟩

/-- C20: let the List at `addr` have the slice `s` as its elements, `L = h.elements s`, of
length `n = s.len`, and let `start` and `end` be the bounds `lo` and `hi` after the addition
of `n` to a negative bound.  If `end <= start` the slice `L[lo:hi]` is the Error `Starting
index must be before ending index`.  If `0 <= start < end <= n` it is a new List whose
elements are those of `L` at the positions `start, ..., end - 1`, in order; no backing array
is written to. -/
theorem evalIndexExpression_list_slice (host : Host) (h : Heap) (addr iaddr eaddr : Nat)
    (s : Slice)
    (a : List (Option Object)) (lo hi : Int) (hl : mapGet h.lists addr = some s)
    (ha : mapGet h.arrays s.array = some a) (hb : s.offset + s.len ≤ a.length)
    (hcap : s.len ≤ s.cap) :
    (h.elements s).length = s.len ∧
    (normalizeIndex s.len hi ≤ normalizeIndex s.len lo →
      evalIndexExpression host (some (.List addr)) (some (.Integer iaddr lo)) true
          (some (.Integer eaddr hi)) h =
        .ok (some (.Error h.next "Starting index must be before ending index"), h.alloc)) ∧
    (0 ≤ normalizeIndex s.len lo → normalizeIndex s.len lo < normalizeIndex s.len hi →
      normalizeIndex s.len hi ≤ s.len →
      ∃ (h1 : Heap) (s1 : Slice),
        evalIndexExpression host (some (.List addr)) (some (.Integer iaddr lo)) true
          (some (.Integer eaddr hi)) h = .ok (some (.List h.next), h1) ∧
        mapGet h1.lists h.next = some s1 ∧
        h1.elements s1 =
          ((h.elements s).drop (normalizeIndex s.len lo).toNat).take
            (normalizeIndex s.len hi - normalizeIndex s.len lo).toNat ∧
        h1.arrays = h.arrays) := by
  refine ⟨Heap_elements_length h s a ha hb, ?_, ?_⟩
  · intro hle
    simp [evalIndexExpression, Type_, evalListIndexExpression, hl, hle, newError]
  · intro h0 hlt hhi
    have h1 : ¬ normalizeIndex s.len hi ≤ normalizeIndex s.len lo := by omega
    have h2 : ¬ (normalizeIndex s.len lo < 0 ∨ (s.cap : Int) < normalizeIndex s.len hi) := by
      omega
    refine ⟨{ h with
        next := h.next + 1
        lists := mapSet h.lists h.next
          ⟨s.array, s.offset + (normalizeIndex s.len lo).toNat,
            (normalizeIndex s.len hi - normalizeIndex s.len lo).toNat,
            s.cap - (normalizeIndex s.len lo).toNat⟩ },
      ⟨s.array, s.offset + (normalizeIndex s.len lo).toNat,
        (normalizeIndex s.len hi - normalizeIndex s.len lo).toNat,
        s.cap - (normalizeIndex s.len lo).toNat⟩, ?_, mapGet_mapSet_same _ _ _, ?_, rfl⟩
    · simp only [evalIndexExpression, Type_, evalListIndexExpression, hl]
      simp [h1, h2]
    · simp only [Heap.elements, ha]
      generalize normalizeIndex s.len lo = st at *
      generalize normalizeIndex s.len hi = en at *
      obtain ⟨st, rfl⟩ := Int.eq_ofNat_of_zero_le h0
      obtain ⟨en, rfl⟩ := Int.eq_ofNat_of_zero_le (by omega : 0 ≤ en)
      have e1 : ((en : Int) - (st : Int)).toNat = en - st := by omega
      simp only [Int.toNat_ofNat, e1]
      rw [List.drop_take, List.take_take, List.drop_drop]
      congr 1
      omega

theorem evalIndexExpression_list_slice_witness :
    (∃ (h1 : Heap) (s1 : Slice),
      evalIndexExpression Host.doubling (some (.List 5)) (some (.Integer 7 (-2))) true
          (some (.Integer 8 3))
          ⟨9, [(0, ⟨[], none⟩)],
            [(4, [some (.Integer 1 1), some (.Integer 2 2), some (.Integer 3 3), none])],
            [(5, ⟨4, 0, 3, 4⟩)], [], []⟩ = .ok (some (.List 9), h1) ∧
        mapGet h1.lists 9 = some s1 ∧
        h1.elements s1 = [some (.Integer 2 2), some (.Integer 3 3)] ∧
        h1.arrays =
          [(4, [some (.Integer 1 1), some (.Integer 2 2), some (.Integer 3 3), none])]) ∧
    testEvalText Host.doubling (fun _ => none) 30 10
      [⟨token.LBRACKET, "["⟩, ⟨token.INT, "1"⟩, ⟨token.COMMA, ","⟩, ⟨token.INT, "2"⟩,
        ⟨token.COMMA, ","⟩, ⟨token.INT, "3"⟩, ⟨token.RBRACKET, "]"⟩, ⟨token.LBRACKET, "["⟩,
        ⟨token.MINUS, "-"⟩, ⟨token.INT, "2"⟩, ⟨token.COLON, ":"⟩, ⟨token.INT, "3"⟩,
        ⟨token.RBRACKET, "]"⟩, ⟨token.LBRACKET, "["⟩, ⟨token.INT, "0"⟩,
        ⟨token.RBRACKET, "]"⟩] = .ok (some (INTEGER_OBJ, "2")) ∧
    testEvalText Host.doubling (fun _ => none) 30 10
      [⟨token.LBRACKET, "["⟩, ⟨token.INT, "1"⟩, ⟨token.COMMA, ","⟩, ⟨token.INT, "2"⟩,
        ⟨token.COMMA, ","⟩, ⟨token.INT, "3"⟩, ⟨token.RBRACKET, "]"⟩, ⟨token.LBRACKET, "["⟩,
        ⟨token.INT, "1"⟩, ⟨token.COLON, ":"⟩, ⟨token.INT, "1"⟩, ⟨token.RBRACKET, "]"⟩] =
      .ok (some (ERROR_OBJ, "ERROR: Starting index must be before ending index")) :=
  ⟨by
      obtain ⟨h1, s1, e1, e2, e3, e4⟩ := (evalIndexExpression_list_slice Host.doubling
        ⟨9, [(0, ⟨[], none⟩)],
          [(4, [some (.Integer 1 1), some (.Integer 2 2), some (.Integer 3 3), none])],
          [(5, ⟨4, 0, 3, 4⟩)], [], []⟩ 5 7 8 ⟨4, 0, 3, 4⟩
        [some (.Integer 1 1), some (.Integer 2 2), some (.Integer 3 3), none] (-2) 3 rfl rfl
        (by decide) (by decide)).2.2 (by decide) (by decide) (by decide)
      exact ⟨h1, s1, e1, e2, e3.trans rfl, e4⟩,
    by decide!, by decide!⟩

/-! ## The for loop over a range -/

theorem wrap64_add_wrap64 (a b : Int) : wrap64 (wrap64 a + b) = wrap64 (a + b) := by
  unfold wrap64
  omega

theorem evalForLoopRange_succ (EvalBlock : EvalFn (Option ast.BlockStatement))
    (body : Option ast.BlockStatement) (iterator : String) (s : Slice) (m k env : Nat)
    (h h1 h2 : Heap) (i r : Option Object) (hn : h.nth s k = some i)
    (hs : Environment.Set h env iterator i = .ok h1) (hb : EvalBlock body env h1 = .ok (r, h2)) :
    evalForLoopRange EvalBlock body iterator s (m + 1) k env h =
      evalForLoopRange EvalBlock body iterator s m (k + 1) env h2 := by
  rw [evalForLoopRange]
  simp [hn, hs, hb, bind, Except.bind]

theorem rangeArray_get? (array n k : Nat) (hk : k < n) :
    (rangeArray array n).get? k = some (some (.Integer (array + 1 + k) (k : Int))) := by
  simp [rangeArray, List.get?_eq_getElem?, List.getElem?_map, List.getElem?_range hk]

set_option maxRecDepth 8192 in
theorem forRange_iteration (host : Host) (f n m k next ax : Nat) (vx : Int)
    (hk : k < n) (rest : List (String × Option Object))
    (hrest : rest = [] ∨ ∃ i, rest = [("i", i)]) :
    evalForLoopRange (evalBlockStatement (EvalStatement host (f + 3))) (some forRangeBody) "i"
        ⟨3, 0, n, n⟩ (m + 1) k 0 (loopHeap n next ax vx rest) =
      evalForLoopRange (evalBlockStatement (EvalStatement host (f + 3))) (some forRangeBody) "i"
        ⟨3, 0, n, n⟩ m (k + 1) 0
        (loopHeap n (next + 1) next (wrap64 (vx + k)) [("i", some (.Integer (4 + k) k))]) := by
  have hn : (loopHeap n next ax vx rest).nth ⟨3, 0, n, n⟩ k =
      some (some (.Integer (3 + 1 + k) (k : Int))) := by
    show (rangeArray 3 n).get? (0 + k) = _
    rw [Nat.zero_add]
    exact rangeArray_get? 3 n k hk
  rcases hrest with rfl | ⟨i, rfl⟩
  · exact evalForLoopRange_succ _ _ _ _ m k 0 _ _ _ _ none hn rfl rfl
  · exact evalForLoopRange_succ _ _ _ _ m k 0 _ _ _ _ none hn rfl rfl

theorem forRange_loop (host : Host) (f n m : Nat) :
    ∀ (k next ax : Nat) (vx : Int) (rest : List (String × Option Object)),
      k + m = n → (rest = [] ∨ ∃ i, rest = [("i", i)]) → isInt64 vx →
      ∃ (next1 ax1 : Nat) (rest1 : List (String × Option Object)),
        evalForLoopRange (evalBlockStatement (EvalStatement host (f + 3))) (some forRangeBody)
            "i" ⟨3, 0, n, n⟩ m k 0 (loopHeap n next ax vx rest) =
          .ok (loopHeap n next1 ax1
            (wrap64 (vx + ((∑ j in Finset.range m, (k + j) : Nat) : Int))) rest1) := by
  induction m with
  | zero =>
    intro k next ax vx rest _ _ hv
    refine ⟨next, ax, rest, ?_⟩
    simp [evalForLoopRange, wrap64_of_isInt64 hv]
  | succ m ih =>
    intro k next ax vx rest hkm hrest _
    rw [forRange_iteration host f n m k next ax vx (by omega) rest hrest]
    obtain ⟨next1, ax1, rest1, h1⟩ := ih (k + 1) (next + 1) next (wrap64 (vx + k))
      [("i", some (.Integer (4 + k) k))] (by omega) (Or.inr ⟨_, rfl⟩) (isInt64_wrap64 _)
    refine ⟨next1, ax1, rest1, ?_⟩
    rw [h1, wrap64_add_wrap64, Finset.sum_range_succ']
    congr 3
    push_cast
    simp only [Finset.sum_add_distrib]
    ring

theorem triangle_cast (N : Nat) :
    ((∑ j in Finset.range N, (0 + j) : Nat) : Int) = (N : Int) * ((N : Int) - 1) / 2 := by
  simp only [Nat.zero_add, Finset.sum_range_id]
  cases N with
  | zero => simp
  | succ M =>
    rw [Int.natCast_div]
    push_cast
    simp

theorem builtinRange_natural (host : Host) (addr N : Nat) (h : Heap) (hN : N ≤ host.maxLen) :
    builtinRange host [some (.Integer addr (N : Int))] h =
      .ok (some (.List (h.next + 1 + N)),
        { h with
          next := h.next + 1 + N + 1
          arrays := mapSet h.arrays h.next (rangeArray h.next N)
          lists := mapSet h.lists (h.next + 1 + N) ⟨h.next, 0, N, N⟩ }) := by
  have hneg : ¬ ((N : Int) < 0 ∨ (host.maxLen : Int) < (N : Int)) := by omega
  simp only [builtinRange, if_neg hneg, rangeArray, Int.toNat_ofNat]

set_option maxRecDepth 8192 in
theorem forRangeProgram_value (host : Host) (f : Nat) (N : Nat) (hN : N ≤ host.maxLen) :
    ∃ (addr : Nat) (h1 : Heap),
      evalInNewEnvironment host (f + 4) (forRangeProgram (N : Int)) =
        .ok (some (.Integer addr (wrap64 ((N : Int) * ((N : Int) - 1) / 2))), h1) := by
  have hcall : Eval host (f + 3) (some (rangeCall (N : Int))) 0
      ⟨2, [(0, ⟨[("x", some (.Integer 1 0))], none⟩)], [], [], [], []⟩ =
      .ok (some (.List (4 + N)), loopHeap N (4 + N + 1) 1 0 []) := by
    have hb := builtinRange_natural host 2 N
      ⟨3, [(0, ⟨[("x", some (.Integer 1 0))], none⟩)], [], [], [], []⟩ hN
    have hstep : Eval host (f + 3) (some (rangeCall (N : Int))) 0
        ⟨2, [(0, ⟨[("x", some (.Integer 1 0))], none⟩)], [], [], [], []⟩ =
        builtinRange host [some (.Integer 2 (N : Int))]
          ⟨3, [(0, ⟨[("x", some (.Integer 1 0))], none⟩)], [], [], [], []⟩ := rfl
    rw [hstep, hb]
    rfl
  obtain ⟨next1, ax1, rest1, hloop⟩ := forRange_loop host f N N 0 (4 + N + 1) 1 0 []
    (by omega) (Or.inl rfl) (by decide)
  have hlist : mapGet (loopHeap N (4 + N + 1) 1 0 []).lists (4 + N) = some ⟨3, 0, N, N⟩ := by
    simp [loopHeap, mapGet]
  have hfor : EvalStatement host (f + 4) (forRangeStatement (N : Int)) 0
      ⟨2, [(0, ⟨[("x", some (.Integer 1 0))], none⟩)], [], [], [], []⟩ =
      .ok (none, loopHeap N next1 ax1
        (wrap64 (0 + ((∑ j in Finset.range N, (0 + j) : Nat) : Int))) rest1) := by
    rw [forRangeStatement, EvalStatement, evalForLoop, hcall]
    simp only [bind, Except.bind, hlist, hloop, pure, Except.pure]
  have hlet : EvalStatement host (f + 4)
      (.LetStatement ⟨token.LET, "let"⟩ (some ⟨⟨token.IDENT, "x"⟩, "x"⟩)
        (some (.IntegerLiteral ⟨token.INT, "0"⟩ 0))) 0
      ⟨1, [(0, ⟨[], none⟩)], [], [], [], []⟩ =
      .ok (none, ⟨2, [(0, ⟨[("x", some (.Integer 1 0))], none⟩)], [], [], [], []⟩) := rfl
  have hprog : evalInNewEnvironment host (f + 4) (forRangeProgram (N : Int)) =
      .ok (some (.Integer ax1 (wrap64 (0 + ((∑ j in Finset.range N, (0 + j) : Nat) : Int)))),
        (loopHeap N next1 ax1
          (wrap64 (0 + ((∑ j in Finset.range N, (0 + j) : Nat) : Int))) rest1).alloc) := by
    show evalProgramLoop (EvalStatement host (f + 4))
      [.LetStatement ⟨token.LET, "let"⟩ (some ⟨⟨token.IDENT, "x"⟩, "x"⟩)
          (some (.IntegerLiteral ⟨token.INT, "0"⟩ 0)),
        forRangeStatement (N : Int),
        .ReturnStatement ⟨token.RETURN, "return"⟩
          (some (.Identifier ⟨token.IDENT, "x"⟩ "x"))]
      none 0 ⟨1, [(0, ⟨[], none⟩)], [], [], [], []⟩ = _
    rw [evalProgramLoop_step (EvalStatement host (f + 4)) _ _ none none 0 _ _ hlet rfl,
      evalProgramLoop_step (EvalStatement host (f + 4)) _ _ none none 0 _ _ hfor rfl]
    rfl
  rw [Int.zero_add, triangle_cast] at hprog
  exact ⟨ax1, _, hprog⟩

theorem forRange_sum_isInt64 (n : Int) (h0 : 0 ≤ n) (h1 : n ≤ 2 ^ 32) :
    isInt64 (n * (n - 1) / 2) := by
  have hp0 : 0 ≤ n * (n - 1) := by
    rcases (by omega : n = 0 ∨ 1 ≤ n) with rfl | h
    · simp
    · exact mul_nonneg h0 (by omega)
  have hp1 : n * (n - 1) ≤ 2 ^ 32 * (2 ^ 32 - 1) := by
    rcases (by omega : n = 0 ∨ 1 ≤ n) with rfl | h
    · simp
    · exact mul_le_mul h1 (by omega) (by omega) (by norm_num)
  unfold isInt64
  generalize n * (n - 1) = p at hp0 hp1
  omega

set_option maxRecDepth 8192 in
theorem forRangeProgram_aborts (host : Host) (f : Nat) (n : Int)
    (hn : n < 0 ∨ (host.maxLen : Int) < n) :
    evalInNewEnvironment host (f + 4) (forRangeProgram n) =
      .error (.panic "runtime error: makeslice: len out of range") := by
  have hcall : Eval host (f + 3) (some (rangeCall n)) 0
      ⟨2, [(0, ⟨[("x", some (.Integer 1 0))], none⟩)], [], [], [], []⟩ =
      .error (.panic "runtime error: makeslice: len out of range") := by
    have hstep : Eval host (f + 3) (some (rangeCall n)) 0
        ⟨2, [(0, ⟨[("x", some (.Integer 1 0))], none⟩)], [], [], [], []⟩ =
        builtinRange host [some (.Integer 2 n)]
          ⟨3, [(0, ⟨[("x", some (.Integer 1 0))], none⟩)], [], [], [], []⟩ := rfl
    rw [hstep]
    simp only [builtinRange, if_pos hn]
  have hfor : EvalStatement host (f + 4) (forRangeStatement n) 0
      ⟨2, [(0, ⟨[("x", some (.Integer 1 0))], none⟩)], [], [], [], []⟩ =
      .error (.panic "runtime error: makeslice: len out of range") := by
    rw [forRangeStatement, EvalStatement, evalForLoop, hcall]
    rfl
  have hlet : EvalStatement host (f + 4)
      (.LetStatement ⟨token.LET, "let"⟩ (some ⟨⟨token.IDENT, "x"⟩, "x"⟩)
        (some (.IntegerLiteral ⟨token.INT, "0"⟩ 0))) 0
      ⟨1, [(0, ⟨[], none⟩)], [], [], [], []⟩ =
      .ok (none, ⟨2, [(0, ⟨[("x", some (.Integer 1 0))], none⟩)], [], [], [], []⟩) := rfl
  show evalProgramLoop (EvalStatement host (f + 4))
    [.LetStatement ⟨token.LET, "let"⟩ (some ⟨⟨token.IDENT, "x"⟩, "x"⟩)
        (some (.IntegerLiteral ⟨token.INT, "0"⟩ 0)),
      forRangeStatement n,
      .ReturnStatement ⟨token.RETURN, "return"⟩
        (some (.Identifier ⟨token.IDENT, "x"⟩ "x"))]
    none 0 ⟨1, [(0, ⟨[], none⟩)], [], [], [], []⟩ = _
  rw [evalProgramLoop_step (EvalStatement host (f + 4)) _ _ none none 0 _ _ hlet rfl]
  rw [evalProgramLoop, hfor]

/-- C17, amended: for every Integer `n` from 0 to the greatest length `Host.maxLen` with which
`make` returns a slice of objects, the program `x = 0` / `for i in range(n):` / `x = x + i` /
`return x` evaluates, with any budget of at least 4, to the Integer `n * (n - 1) / 2` reduced
to 64 bits, the additions of the loop being those of `int64`; this is `n * (n - 1) / 2`
itself whenever `n <= 2^32`.  The program of `TestForLoop`, with `n = 5`, evaluates to 10. -/
theorem forRangeProgram_sum (host : Host) (f : Nat) (n : Int) (hn : 0 ≤ n)
    (hmax : n ≤ host.maxLen) :
    (∃ (addr : Nat) (h1 : Heap),
      evalInNewEnvironment host (f + 4) (forRangeProgram n) =
        .ok (some (.Integer addr (wrap64 (n * (n - 1) / 2))), h1)) ∧
    (n ≤ 2 ^ 32 → wrap64 (n * (n - 1) / 2) = n * (n - 1) / 2) ∧
    testEvalText Host.doubling (fun _ => none) 60 10
      [⟨token.IDENT, "x"⟩, ⟨token.ASSIGN, "="⟩, ⟨token.INT, "0"⟩, ⟨token.NEWLINE, "\n"⟩,
        ⟨token.FOR, "for"⟩, ⟨token.IDENT, "i"⟩, ⟨token.IN, "in"⟩, ⟨token.IDENT, "range"⟩,
        ⟨token.LPAREN, "("⟩, ⟨token.INT, "5"⟩, ⟨token.RPAREN, ")"⟩, ⟨token.COLON, ":"⟩,
        ⟨token.NEWLINE, "\n"⟩, ⟨token.TAB, "\t"⟩, ⟨token.IDENT, "x"⟩, ⟨token.ASSIGN, "="⟩,
        ⟨token.IDENT, "x"⟩, ⟨token.PLUS, "+"⟩, ⟨token.IDENT, "i"⟩, ⟨token.NEWLINE, "\n"⟩,
        ⟨token.RETURN, "return"⟩, ⟨token.IDENT, "x"⟩] =
      .ok (some (INTEGER_OBJ, "10")) := by
  refine ⟨?_, fun h1 => wrap64_of_isInt64 (forRange_sum_isInt64 n hn h1), by decide!⟩
  obtain ⟨N, rfl⟩ := Int.eq_ofNat_of_zero_le hn
  exact forRangeProgram_value host f N (by exact_mod_cast hmax)

theorem forRangeProgram_sum_witness :
    (0 : Int) ≤ 5 ∧ (5 : Int) ≤ Host.doubling.maxLen ∧
    (∃ (addr : Nat) (h1 : Heap),
      evalInNewEnvironment Host.doubling (0 + 4) (forRangeProgram 5) =
        .ok (some (.Integer addr (wrap64 (5 * (5 - 1) / 2))), h1)) ∧
    wrap64 (5 * (5 - 1) / 2) = 5 * (5 - 1) / 2 :=
  ⟨by decide, by decide, (forRangeProgram_sum Host.doubling 0 5 (by decide) (by decide)).1,
    (forRangeProgram_sum Host.doubling 0 5 (by decide) (by decide)).2.1 (by decide)⟩

/-- C17, the counterexample: on the host whose `make` grants up to `2^44` objects the program
aborts for `n = 2^44 + 1`, the call `range(n)` panicking in `make`.  And with `n = 2^32 + 1`
the sum `n * (n - 1) / 2` is `2^63 + 2^31`, which no Integer holds; the program evaluates to
the Integer `-2^63 + 2^31`. -/
theorem forRangeProgram_beyond_limits :
    (17592186044417 : Int) = 2 ^ 44 + 1 ∧
    evalInNewEnvironment Host.doubling 4 (forRangeProgram 17592186044417) =
      .error (.panic "runtime error: makeslice: len out of range") ∧
    testEvalText Host.doubling (fun _ => none) 60 10
      [⟨token.IDENT, "x"⟩, ⟨token.ASSIGN, "="⟩, ⟨token.INT, "0"⟩, ⟨token.NEWLINE, "\n"⟩,
        ⟨token.FOR, "for"⟩, ⟨token.IDENT, "i"⟩, ⟨token.IN, "in"⟩, ⟨token.IDENT, "range"⟩,
        ⟨token.LPAREN, "("⟩, ⟨token.INT, "17592186044417"⟩, ⟨token.RPAREN, ")"⟩,
        ⟨token.COLON, ":"⟩, ⟨token.NEWLINE, "\n"⟩, ⟨token.TAB, "\t"⟩, ⟨token.IDENT, "x"⟩,
        ⟨token.ASSIGN, "="⟩, ⟨token.IDENT, "x"⟩, ⟨token.PLUS, "+"⟩, ⟨token.IDENT, "i"⟩,
        ⟨token.NEWLINE, "\n"⟩, ⟨token.RETURN, "return"⟩, ⟨token.IDENT, "x"⟩] =
      .error (.panic "runtime error: makeslice: len out of range") ∧
    (∃ (addr : Nat) (h1 : Heap),
      evalInNewEnvironment Host.doubling 4 (forRangeProgram 4294967297) =
        .ok (some (.Integer addr (-9223372034707292160)), h1)) ∧
    (4294967297 * (4294967297 - 1) / 2 : Int) = 9223372039002259456 ∧
    ¬ isInt64 9223372039002259456 := by
  refine ⟨by decide, forRangeProgram_aborts Host.doubling 0 17592186044417 (Or.inr (by decide)),
    by decide!, ?_, by decide, by decide⟩
  obtain ⟨addr, h1, h⟩ := forRangeProgram_value Host.doubling 0 4294967297 (by decide)
  refine ⟨addr, h1, ?_⟩
  have hv : wrap64 (((4294967297 : Nat) : Int) * (((4294967297 : Nat) : Int) - 1) / 2) =
      -9223372034707292160 := by decide
  rw [hv] at h
  exact h

/-! ## Closures -/

set_option maxRecDepth 8192 in
/-- C18: for all Integers `a`, `b` and `c` the program `def newAdder(x):` / `def f(y):` /
`return x + y` / `return f` / `x = c` / `newAdder(a)(b)` evaluates, with any budget of at
least 8, to the Integer `a + b` of the 64-bit addition, which is `a + b` itself when the sum
is in range.  The frame of the call of `f` (at 8, binding `y`) is enclosed by the frame of the
call of `newAdder` (at 4, binding `x` to `a`), in which `f` was defined, and not by the frame
of the caller (at 0, binding `x` to `c`).  The program of `TestClosures` evaluates to 4. -/
theorem newAdder_uses_defining_environment (host : Host) (f : Nat) (a b c : Int) :
    (∃ h1 : Heap,
      evalInNewEnvironment host (f + 8) (newAdderProgram a b c) =
        .ok (some (.Integer 9 (wrap64 (a + b))), h1) ∧
      (mapGet h1.envs 8).map (fun e => (e.store, e.outer)) =
        some ([("y", some (.Integer 7 b))], some 4) ∧
      (mapGet h1.envs 4).bind (fun e => mapGet e.store "x") = some (some (.Integer 3 a)) ∧
      (mapGet h1.envs 4).map (fun e => e.outer) = some (some 0) ∧
      (mapGet h1.envs 0).bind (fun e => mapGet e.store "x") = some (some (.Integer 2 c))) ∧
    (isInt64 (a + b) → wrap64 (a + b) = a + b) ∧
    testEvalText Host.doubling (fun _ => none) 80 10
      [⟨token.NEWLINE, "\n"⟩, ⟨token.FUNCTION, "def"⟩, ⟨token.IDENT, "newAdder"⟩,
        ⟨token.LPAREN, "("⟩, ⟨token.IDENT, "x"⟩, ⟨token.RPAREN, ")"⟩, ⟨token.COLON, ":"⟩,
        ⟨token.NEWLINE, "\n"⟩, ⟨token.TAB, "\t"⟩, ⟨token.FUNCTION, "def"⟩, ⟨token.IDENT, "f"⟩,
        ⟨token.LPAREN, "("⟩, ⟨token.IDENT, "y"⟩, ⟨token.RPAREN, ")"⟩, ⟨token.COLON, ":"⟩,
        ⟨token.NEWLINE, "\n"⟩, ⟨token.TAB, "\t"⟩, ⟨token.TAB, "\t"⟩, ⟨token.RETURN, "return"⟩,
        ⟨token.IDENT, "x"⟩, ⟨token.PLUS, "+"⟩, ⟨token.IDENT, "y"⟩, ⟨token.NEWLINE, "\n"⟩,
        ⟨token.TAB, "\t"⟩, ⟨token.RETURN, "return"⟩, ⟨token.IDENT, "f"⟩, ⟨token.NEWLINE, "\n"⟩,
        ⟨token.TAB, "\t"⟩, ⟨token.NEWLINE, "\n"⟩, ⟨token.IDENT, "addTwo"⟩, ⟨token.ASSIGN, "="⟩,
        ⟨token.IDENT, "newAdder"⟩, ⟨token.LPAREN, "("⟩, ⟨token.INT, "2"⟩, ⟨token.RPAREN, ")"⟩,
        ⟨token.NEWLINE, "\n"⟩, ⟨token.IDENT, "addTwo"⟩, ⟨token.LPAREN, "("⟩, ⟨token.INT, "2"⟩,
        ⟨token.RPAREN, ")"⟩] =
      .ok (some (INTEGER_OBJ, "4")) ∧
    testEvalText Host.doubling (fun _ => none) 80 10
      [⟨token.FUNCTION, "def"⟩, ⟨token.IDENT, "newAdder"⟩, ⟨token.LPAREN, "("⟩,
        ⟨token.IDENT, "x"⟩, ⟨token.RPAREN, ")"⟩, ⟨token.COLON, ":"⟩, ⟨token.NEWLINE, "\n"⟩,
        ⟨token.TAB, "\t"⟩, ⟨token.FUNCTION, "def"⟩, ⟨token.IDENT, "f"⟩, ⟨token.LPAREN, "("⟩,
        ⟨token.IDENT, "y"⟩, ⟨token.RPAREN, ")"⟩, ⟨token.COLON, ":"⟩, ⟨token.NEWLINE, "\n"⟩,
        ⟨token.TAB, "\t"⟩, ⟨token.TAB, "\t"⟩, ⟨token.RETURN, "return"⟩, ⟨token.IDENT, "x"⟩,
        ⟨token.PLUS, "+"⟩, ⟨token.IDENT, "y"⟩, ⟨token.NEWLINE, "\n"⟩, ⟨token.TAB, "\t"⟩,
        ⟨token.RETURN, "return"⟩, ⟨token.IDENT, "f"⟩, ⟨token.NEWLINE, "\n"⟩, ⟨token.IDENT, "x"⟩,
        ⟨token.ASSIGN, "="⟩, ⟨token.INT, "10"⟩, ⟨token.NEWLINE, "\n"⟩,
        ⟨token.IDENT, "newAdder"⟩, ⟨token.LPAREN, "("⟩, ⟨token.INT, "2"⟩, ⟨token.RPAREN, ")"⟩,
        ⟨token.LPAREN, "("⟩, ⟨token.INT, "3"⟩, ⟨token.RPAREN, ")"⟩] =
      .ok (some (INTEGER_OBJ, "5")) :=
  ⟨⟨_, rfl, rfl, rfl, rfl, rfl⟩, fun h => wrap64_of_isInt64 h, by decide!, by decide!⟩

set_option maxRecDepth 8192 in
theorem newAdder_uses_defining_environment_witness :
    isInt64 ((2 : Int) + 3) ∧ wrap64 ((2 : Int) + 3) = 2 + 3 ∧
    ∃ h1 : Heap,
      evalInNewEnvironment Host.doubling (0 + 8) (newAdderProgram 2 3 10) =
        .ok (some (.Integer 9 (wrap64 (2 + 3))), h1) ∧
      (mapGet h1.envs 8).map (fun e => (e.store, e.outer)) =
        some ([("y", some (.Integer 7 3))], some 4) ∧
      (mapGet h1.envs 4).bind (fun e => mapGet e.store "x") = some (some (.Integer 3 2)) ∧
      (mapGet h1.envs 4).map (fun e => e.outer) = some (some 0) ∧
      (mapGet h1.envs 0).bind (fun e => mapGet e.store "x") = some (some (.Integer 2 10)) :=
  ⟨by decide, (newAdder_uses_defining_environment Host.doubling 0 2 3 10).2.1 (by decide),
    (newAdder_uses_defining_environment Host.doubling 0 2 3 10).1⟩

/-! ## ReturnValue at the function boundary -/

theorem unwrapReturnValue_ReturnValue (evaluated : Option Object) (o : Object)
    (h : unwrapReturnValue evaluated = some o) (ho : Type_ o = RETURN_VALUE_OBJ) :
    ∃ a, evaluated = some (.ReturnValue a (some o)) := by
  cases evaluated with
  | none => simp [unwrapReturnValue] at h
  | some e =>
    cases e <;> simp [unwrapReturnValue] at h <;> first
      | (subst h
         simp [Type_, INTEGER_OBJ, FLOAT_OBJ, BOOLEAN_OBJ, STRING_OBJ, NULL_OBJ,
           RETURN_VALUE_OBJ, ERROR_OBJ, FUNCTION_OBJ, BUILTIN_OBJ, LIST_OBJ, DICT_OBJ,
           SET_OBJ] at ho
         done)
      | exact ⟨_, by rw [h]⟩

theorem applyFunction_Function (host : Host) (Eval : EvalFn (Option ast.BlockStatement))
    (addr : Nat)
    (name : String) (parameters : List ast.Identifier) (body : Option ast.BlockStatement)
    (fnEnv : Nat) (args : List (Option Object)) (h h1 : Heap) (r : Option Object)
    (hcall : applyFunction host Eval (some (.Function addr name parameters body fnEnv)) args h =
      .ok (r, h1)) :
    ∃ (env : Nat) (h0 : Heap) (evaluated : Option Object),
      extendFunctionEnv parameters fnEnv args h = .ok (env, h0) ∧
      Eval body env h0 = .ok (evaluated, h1) ∧ r = unwrapReturnValue evaluated := by
  rw [applyFunction] at hcall
  cases he : extendFunctionEnv parameters fnEnv args h with
  | error e => simp [he, bind, Except.bind] at hcall
  | ok p =>
    obtain ⟨env, h0⟩ := p
    cases hb : Eval body env h0 with
    | error e => simp [he, hb, bind, Except.bind] at hcall
    | ok q =>
      obtain ⟨evaluated, h2⟩ := q
      simp [he, hb, bind, Except.bind, pure, Except.pure] at hcall
      exact ⟨env, h0, evaluated, rfl, by rw [hb, hcall.2], hcall.1.symm⟩

theorem evalProgramLoop_ReturnValue (Eval : EvalFn ast.Statement) (env : Nat) (o : Object)
    (h1 : Heap) (ho : Type_ o = RETURN_VALUE_OBJ) :
    ∀ (rest : List ast.Statement) (statement : ast.Statement) (r0 : Option Object) (h : Heap),
      evalProgramLoop Eval (statement :: rest) r0 env h = .ok (some o, h1) →
      ∃ s ∈ statement :: rest, ∃ (h2 : Heap) (a : Nat),
        Eval s env h2 = .ok (some (.ReturnValue a (some o)), h1) := by
  intro rest
  induction rest with
  | nil =>
    intro statement r0 h hrun
    rw [evalProgramLoop] at hrun
    cases hs : Eval statement env h with
    | error e => simp [hs] at hrun
    | ok p =>
      obtain ⟨r, h2⟩ := p
      cases r with
      | none => simp [hs, evalProgramLoop] at hrun
      | some v =>
        cases v <;> simp [hs, evalProgramLoop] at hrun <;> first
          | (obtain ⟨hv, hh⟩ := hrun
             subst hv
             simp [Type_, INTEGER_OBJ, FLOAT_OBJ, BOOLEAN_OBJ, STRING_OBJ, NULL_OBJ,
               RETURN_VALUE_OBJ, ERROR_OBJ, FUNCTION_OBJ, BUILTIN_OBJ, LIST_OBJ, DICT_OBJ,
               SET_OBJ] at ho
             done)
          | (obtain ⟨hv, hh⟩ := hrun
             subst hv hh
             exact ⟨statement, List.mem_cons_self _ _, h, _, hs⟩)
  | cons next rest ih =>
    intro statement r0 h hrun
    rw [evalProgramLoop] at hrun
    cases hs : Eval statement env h with
    | error e => simp [hs] at hrun
    | ok p =>
      obtain ⟨r, h2⟩ := p
      have hgo : evalProgramLoop Eval (next :: rest) r env h2 = .ok (some o, h1) →
          ∃ s ∈ statement :: next :: rest, ∃ (h3 : Heap) (a : Nat),
            Eval s env h3 = .ok (some (.ReturnValue a (some o)), h1) := by
        intro hrest
        obtain ⟨s, hmem, h3, a, hres⟩ := ih next r h2 hrest
        exact ⟨s, List.mem_cons_of_mem _ hmem, h3, a, hres⟩
      cases r with
      | none => exact hgo (by simpa [hs] using hrun)
      | some v =>
        cases v <;> simp only [hs] at hrun <;> first
          | exact hgo hrun
          | (simp at hrun
             obtain ⟨hv, hh⟩ := hrun
             subst hv
             simp [Type_, INTEGER_OBJ, FLOAT_OBJ, BOOLEAN_OBJ, STRING_OBJ, NULL_OBJ,
               RETURN_VALUE_OBJ, ERROR_OBJ, FUNCTION_OBJ, BUILTIN_OBJ, LIST_OBJ, DICT_OBJ,
               SET_OBJ] at ho
             done)
          | (simp at hrun
             obtain ⟨hv, hh⟩ := hrun
             subst hv hh
             exact ⟨statement, List.mem_cons_self _ _, h, _, hs⟩)

/-- What the boundary does: `applyFunction` removes one ReturnValue from the value of the body
of a user-defined function, and `evalProgram` one from the value of the statement it stops at.
The result of a call is of type RETURN_VALUE only when the body has evaluated to a ReturnValue
that holds a ReturnValue, and the result of a program only when one of its statements has. -/
theorem applyFunction_unwraps_one_ReturnValue (host : Host) (fuel : Nat) :
    (∀ (addr : Nat) (name : String) (parameters : List ast.Identifier)
      (body : Option ast.BlockStatement) (fnEnv : Nat) (args : List (Option Object))
      (h h1 : Heap) (r : Option Object),
      applyFunction host (evalBlockStatement (EvalStatement host fuel))
        (some (.Function addr name parameters body fnEnv)) args h = .ok (r, h1) →
      ∃ (env : Nat) (h0 : Heap) (evaluated : Option Object),
        extendFunctionEnv parameters fnEnv args h = .ok (env, h0) ∧
        evalBlockStatement (EvalStatement host fuel) body env h0 = .ok (evaluated, h1) ∧
        r = unwrapReturnValue evaluated ∧
        ∀ o, r = some o → Type_ o = RETURN_VALUE_OBJ →
          ∃ a, evaluated = some (.ReturnValue a (some o))) ∧
    (∀ (program : ast.Program) (env : Nat) (h h1 : Heap) (o : Object),
      evalProgram host fuel program env h = .ok (some o, h1) → Type_ o = RETURN_VALUE_OBJ →
      ∃ s ∈ program.Statements, ∃ (h2 : Heap) (a : Nat),
        EvalStatement host fuel s env h2 = .ok (some (.ReturnValue a (some o)), h1)) := by
  constructor
  · intro addr name parameters body fnEnv args h h1 r hcall
    obtain ⟨env, h0, evaluated, he, hb, hr⟩ :=
      applyFunction_Function host _ addr name parameters body fnEnv args h h1 r hcall
    refine ⟨env, h0, evaluated, he, hb, hr, ?_⟩
    intro o hro ho
    exact unwrapReturnValue_ReturnValue evaluated o (by rw [← hr, hro]) ho
  · intro program env h h1 o hrun ho
    obtain ⟨statements⟩ := program
    cases statements with
    | nil => simp [evalProgram, evalProgramLoop] at hrun
    | cons statement rest =>
      exact evalProgramLoop_ReturnValue _ env o h1 ho rest statement none h hrun

set_option maxRecDepth 8192 in
theorem applyFunction_unwraps_one_ReturnValue_witness :
    ∃ (env : Nat) (h0 : Heap) (evaluated : Option Object),
      extendFunctionEnv [] 0 [] ⟨2, [(0, ⟨[], none⟩)], [], [], [], []⟩ = .ok (env, h0) ∧
      evalBlockStatement (EvalStatement Host.doubling 5) (some nestedReturnBody) env h0 =
        .ok (evaluated, ⟨6, [(0, ⟨[], none⟩), (2, ⟨[], some 0⟩)], [], [], [], []⟩) ∧
      some (.ReturnValue 4 (some (.Integer 3 5))) = unwrapReturnValue evaluated ∧
      ∀ o, some (Object.ReturnValue 4 (some (.Integer 3 5))) = some o →
        Type_ o = RETURN_VALUE_OBJ → ∃ a, evaluated = some (.ReturnValue a (some o)) :=
  (applyFunction_unwraps_one_ReturnValue Host.doubling 5).1 1 "f" [] (some nestedReturnBody) 0
    [] ⟨2, [(0, ⟨[], none⟩)], [], [], [], []⟩
    ⟨6, [(0, ⟨[], none⟩), (2, ⟨[], some 0⟩)], [], [], [], []⟩
    (some (.ReturnValue 4 (some (.Integer 3 5)))) rfl

set_option maxRecDepth 8192 in
/-- C14, the divergence: a ReturnValue does escape.  `unwrapReturnValue` removes one
ReturnValue, but the `return` statement wraps whatever its operand evaluates to, a ReturnValue
included, and an if-expression and an assignment hand on the ReturnValue that a `return` in a
block has made.  The value of a call of the function with the body `return if true:` /
`return 5` is a ReturnValue (the inner `return` wraps 5, the outer one wraps that ReturnValue,
and `applyFunction` removes one of the two), and so is the value of the programs
`return if true:` / `return 5`, then `def f():` / `return if true:` / `return 5` /
`return f()`, and `x = if true:` / `return 5` / `return x`. -/
theorem applyFunction_returns_ReturnValue :
    applyFunction Host.doubling (evalBlockStatement (EvalStatement Host.doubling 5))
        (some (.Function 1 "f" [] (some nestedReturnBody) 0)) []
        ⟨2, [(0, ⟨[], none⟩)], [], [], [], []⟩ =
      .ok (some (.ReturnValue 4 (some (.Integer 3 5))),
        ⟨6, [(0, ⟨[], none⟩), (2, ⟨[], some 0⟩)], [], [], [], []⟩) ∧
    Type_ (.ReturnValue 4 (some (.Integer 3 5))) = RETURN_VALUE_OBJ ∧
    testEvalText Host.doubling (fun _ => none) 30 10
      [⟨token.RETURN, "return"⟩, ⟨token.IF, "if"⟩, ⟨token.TRUE, "true"⟩, ⟨token.COLON, ":"⟩,
        ⟨token.NEWLINE, "\n"⟩, ⟨token.TAB, "\t"⟩, ⟨token.RETURN, "return"⟩, ⟨token.INT, "5"⟩,
        ⟨token.NEWLINE, "\n"⟩] =
      .ok (some (RETURN_VALUE_OBJ, "5")) ∧
    testEvalText Host.doubling (fun _ => none) 60 10
      [⟨token.FUNCTION, "def"⟩, ⟨token.IDENT, "f"⟩, ⟨token.LPAREN, "("⟩, ⟨token.RPAREN, ")"⟩,
        ⟨token.COLON, ":"⟩, ⟨token.NEWLINE, "\n"⟩, ⟨token.TAB, "\t"⟩, ⟨token.RETURN, "return"⟩,
        ⟨token.IF, "if"⟩, ⟨token.TRUE, "true"⟩, ⟨token.COLON, ":"⟩, ⟨token.NEWLINE, "\n"⟩,
        ⟨token.TAB, "\t"⟩, ⟨token.TAB, "\t"⟩, ⟨token.RETURN, "return"⟩, ⟨token.INT, "5"⟩,
        ⟨token.NEWLINE, "\n"⟩, ⟨token.RETURN, "return"⟩, ⟨token.IDENT, "f"⟩,
        ⟨token.LPAREN, "("⟩, ⟨token.RPAREN, ")"⟩] =
      .ok (some (RETURN_VALUE_OBJ, "5")) ∧
    testEvalText Host.doubling (fun _ => none) 30 10
      [⟨token.IDENT, "x"⟩, ⟨token.ASSIGN, "="⟩, ⟨token.IF, "if"⟩, ⟨token.TRUE, "true"⟩,
        ⟨token.COLON, ":"⟩, ⟨token.NEWLINE, "\n"⟩, ⟨token.TAB, "\t"⟩, ⟨token.RETURN, "return"⟩,
        ⟨token.INT, "5"⟩, ⟨token.NEWLINE, "\n"⟩, ⟨token.RETURN, "return"⟩, ⟨token.IDENT, "x"⟩] =
      .ok (some (RETURN_VALUE_OBJ, "5")) :=
  ⟨rfl, rfl, by decide!, by decide!, by decide!⟩

end evaluator

end Simpyl

/-! # Theorems about the containers and the builtins -/

namespace Simpyl

/-! ## Deletion from a map -/

theorem mapGet_mapDelete_same {κ α : Type} [DecidableEq κ] (m : List (κ × α)) (k : κ) :
    mapGet (mapDelete m k) k = none := by
  induction m with
  | nil => simp [mapDelete, mapGet]
  | cons p m ih =>
    obtain ⟨k1, v1⟩ := p
    by_cases hk : k1 = k
    · simpa [mapDelete, List.filter, hk] using ih
    · simpa [mapDelete, List.filter, hk, mapGet] using ih

theorem mapGet_mapDelete_other {κ α : Type} [DecidableEq κ] (m : List (κ × α)) (k k2 : κ)
    (hne : k ≠ k2) : mapGet (mapDelete m k) k2 = mapGet m k2 := by
  induction m with
  | nil => simp [mapDelete, mapGet]
  | cons p m ih =>
    obtain ⟨k1, v1⟩ := p
    by_cases hk : k1 = k
    · subst hk
      simpa [mapDelete, List.filter, mapGet, hne] using ih
    · by_cases hk2 : k1 = k2
      · subst hk2
        simp [mapDelete, List.filter, hk, mapGet]
      · simpa [mapDelete, List.filter, hk, mapGet, hk2] using ih

namespace evaluator

open object

/-! ## Hash keys -/

theorem HashKey_Type (host : Host) (k : Object) (key : HashKey)
    (hk : k.HashKey host = some key) : key.Type_ = Type_ k := by
  cases k <;> simp [Object.HashKey] at hk
  case Integer a v => rw [← hk]; rfl
  case Float a v => rw [← hk]; rfl
  case TRUE => rw [← hk]; rfl
  case FALSE => rw [← hk]; rfl
  case Boolean a v => rw [← hk]; rfl
  case String a v => rw [← hk]; rfl

theorem HashKey_eq_none_iff (host : Host) (k : Object) :
    k.HashKey host = none ↔
      Type_ k ≠ INTEGER_OBJ ∧ Type_ k ≠ FLOAT_OBJ ∧ Type_ k ≠ BOOLEAN_OBJ ∧
        Type_ k ≠ STRING_OBJ := by
  cases k <;>
    simp [Object.HashKey, Type_, INTEGER_OBJ, FLOAT_OBJ, BOOLEAN_OBJ, STRING_OBJ, NULL_OBJ,
      RETURN_VALUE_OBJ, ERROR_OBJ, FUNCTION_OBJ, BUILTIN_OBJ, LIST_OBJ, DICT_OBJ, SET_OBJ]

theorem uint64_injective (a b : Int) (ha : isInt64 a) (hb : isInt64 b)
    (h : uint64 a = uint64 b) : a = b := by
  unfold isInt64 at ha hb
  unfold uint64 at h
  omega

/-- The key of an Integer or Boolean object, by the value of the object. -/
theorem HashKey_integer_or_boolean (host : Host) (k : Object)
    (hk : Type_ k = INTEGER_OBJ ∨ Type_ k = BOOLEAN_OBJ) :
    ∃ key, k.HashKey host = some key ∧
      ((∃ n, algorithms.integerValue k = some n ∧ boolValue k = none ∧
          key = ⟨INTEGER_OBJ, uint64 n⟩) ∨
        (∃ b, algorithms.integerValue k = none ∧ boolValue k = some b ∧
          key = ⟨BOOLEAN_OBJ, if b then 1 else 0⟩)) := by
  cases k <;>
    simp [Type_, INTEGER_OBJ, FLOAT_OBJ, BOOLEAN_OBJ, STRING_OBJ, NULL_OBJ,
      RETURN_VALUE_OBJ, ERROR_OBJ, FUNCTION_OBJ, BUILTIN_OBJ, LIST_OBJ, DICT_OBJ, SET_OBJ] at hk
  case Integer a v =>
    exact ⟨_, rfl, Or.inl ⟨v, rfl, rfl, rfl⟩⟩
  case TRUE => exact ⟨_, rfl, Or.inr ⟨true, rfl, rfl, rfl⟩⟩
  case FALSE => exact ⟨_, rfl, Or.inr ⟨false, rfl, rfl, rfl⟩⟩
  case Boolean a v => exact ⟨_, rfl, Or.inr ⟨v, rfl, rfl, rfl⟩⟩

theorem HashKey_injective_integer_boolean (host : Host) (k k2 : Object) (key key2 : HashKey)
    (hk : Type_ k = INTEGER_OBJ ∨ Type_ k = BOOLEAN_OBJ)
    (hk2 : Type_ k2 = INTEGER_OBJ ∨ Type_ k2 = BOOLEAN_OBJ)
    (hv : ∀ n, algorithms.integerValue k = some n → isInt64 n)
    (hv2 : ∀ n, algorithms.integerValue k2 = some n → isInt64 n)
    (hkey : k.HashKey host = some key) (hkey2 : k2.HashKey host = some key2)
    (hdiff : algorithms.integerValue k2 ≠ algorithms.integerValue k ∨
      boolValue k2 ≠ boolValue k) : key ≠ key2 := by
  obtain ⟨q, hq, hcase⟩ := HashKey_integer_or_boolean host k hk
  obtain ⟨q2, hq2, hcase2⟩ := HashKey_integer_or_boolean host k2 hk2
  rw [hq] at hkey
  rw [hq2] at hkey2
  simp at hkey hkey2
  subst hkey hkey2
  rcases hcase with ⟨n, hn, hb, rfl⟩ | ⟨b, hn, hb, rfl⟩ <;>
    rcases hcase2 with ⟨n2, hn2, hb2, rfl⟩ | ⟨b2, hn2, hb2, rfl⟩
  · intro heq
    have hval : uint64 n = uint64 n2 := by
      simpa using congrArg HashKey.Value heq
    have := uint64_injective n n2 (hv n hn) (hv2 n2 hn2) hval
    subst this
    rcases hdiff with hd | hd
    · exact hd (by rw [hn, hn2])
    · exact hd (by rw [hb, hb2])
  · intro heq
    have := congrArg HashKey.Type_ heq
    simp [INTEGER_OBJ, BOOLEAN_OBJ] at this
  · intro heq
    have := congrArg HashKey.Type_ heq
    simp [INTEGER_OBJ, BOOLEAN_OBJ] at this
  · intro heq
    have hval := congrArg HashKey.Value heq
    have hbb : b = b2 := by
      cases b <;> cases b2 <;> simp at hval <;> rfl
    subst hbb
    rcases hdiff with hd | hd
    · exact hd (by rw [hn, hn2])
    · exact hd (by rw [hb, hb2])

/-! ## Index expressions on dicts -/

theorem evalIndexExpression_Dict (host : Host) (addr : Nat) (index : Option Object)
    (colon : Bool) (endIndex : Option Object) (h : Heap) :
    evalIndexExpression host (some (.Dict addr)) index colon endIndex h =
      evalDictIndexExpression host (.Dict addr) index h := by
  simp [evalIndexExpression, Type_, LIST_OBJ, DICT_OBJ]

theorem evalIndexAssignExpression_Dict (host : Host) (addr : Nat) (index val : Option Object)
    (h : Heap) :
    evalIndexAssignExpression host (some (.Dict addr)) index val h =
      evalDictIndexAssignExpression host (.Dict addr) index val h := by
  simp [evalIndexAssignExpression, Type_, LIST_OBJ, DICT_OBJ]

/-- C21: let the Dict at `addr` have the map `pairs` (`none` being the nil map) and let `k` be
any index value, on any host.  Either `k` is not hashable, which is so exactly when it is no
Integer, Float, Boolean or String, and the read `d[k]` is then the Error
`unusable as hash key: TYPE`; or `k` has a HashKey `key`, and the read is NULL if the map holds
no pair under `key` and the value of that pair otherwise; the heap is unchanged.  Every Float
has a HashKey, also one that rounds to a negative number, to one from `2^64` on, an infinity or
NaN, whose key is the `uint64` that the host converts it to.  The type tag of a HashKey is that
of its object, so keys of different types are distinct.  The inputs of
`TestDictIndexExpressions` evaluate as the test expects, and the literal with the keys `"one"`,
`4` and `true` gives each key its own value. -/
theorem evalIndexExpression_dict_read (host : Host) (h : Heap) (addr : Nat)
    (pairs : Option (List (HashKey × HashPair))) (k : Object) (colon : Bool)
    (endIndex : Option Object) (hd : mapGet h.dicts addr = some pairs) :
    (k.HashKey host = none ↔
      Type_ k ≠ INTEGER_OBJ ∧ Type_ k ≠ FLOAT_OBJ ∧ Type_ k ≠ BOOLEAN_OBJ ∧
        Type_ k ≠ STRING_OBJ) ∧
    (k.HashKey host = none ∨ ∃ key, k.HashKey host = some key) ∧
    (∀ (a : Nat) (v : Float64),
      (Object.Float a v).HashKey host = some ⟨FLOAT_OBJ, v.Round.toUint64 host⟩) ∧
    (k.HashKey host = none →
      evalIndexExpression host (some (.Dict addr)) (some k) colon endIndex h =
        .ok (some (.Error h.next ("unusable as hash key: " ++ Type_ k)), h.alloc)) ∧
    (∀ key, k.HashKey host = some key →
      key.Type_ = Type_ k ∧
      (pairs.bind (fun m => mapGet m key) = none →
        evalIndexExpression host (some (.Dict addr)) (some k) colon endIndex h =
          .ok (some .NULL, h)) ∧
      (∀ pair, pairs.bind (fun m => mapGet m key) = some pair →
        evalIndexExpression host (some (.Dict addr)) (some k) colon endIndex h =
          .ok (pair.Value, h))) ∧
    testEvalText Host.doubling (fun _ => none) 30 10
      [⟨token.LBRACE, "\x7b"⟩, ⟨token.STRING, "foo"⟩, ⟨token.COLON, ":"⟩, ⟨token.INT, "5"⟩,
        ⟨token.RBRACE, "\x7d"⟩, ⟨token.LBRACKET, "["⟩, ⟨token.STRING, "foo"⟩,
        ⟨token.RBRACKET, "]"⟩] = .ok (some (INTEGER_OBJ, "5")) ∧
    testEvalText Host.doubling (fun _ => none) 30 10
      [⟨token.LBRACE, "\x7b"⟩, ⟨token.STRING, "foo"⟩, ⟨token.COLON, ":"⟩, ⟨token.INT, "5"⟩,
        ⟨token.RBRACE, "\x7d"⟩, ⟨token.LBRACKET, "["⟩, ⟨token.STRING, "bar"⟩,
        ⟨token.RBRACKET, "]"⟩] = .ok (some (NULL_OBJ, "null")) ∧
    testEvalText Host.doubling (fun _ => none) 30 10
      [⟨token.LBRACE, "\x7b"⟩, ⟨token.RBRACE, "\x7d"⟩, ⟨token.LBRACKET, "["⟩,
        ⟨token.STRING, "foo"⟩, ⟨token.RBRACKET, "]"⟩] = .ok (some (NULL_OBJ, "null")) ∧
    testEvalText Host.doubling (fun _ => none) 30 10
      [⟨token.LBRACE, "\x7b"⟩, ⟨token.INT, "1"⟩, ⟨token.COLON, ":"⟩, ⟨token.INT, "2"⟩,
        ⟨token.RBRACE, "\x7d"⟩, ⟨token.LBRACKET, "["⟩, ⟨token.LBRACKET, "["⟩, ⟨token.INT, "1"⟩,
        ⟨token.RBRACKET, "]"⟩, ⟨token.RBRACKET, "]"⟩] =
      .ok (some (ERROR_OBJ, "ERROR: unusable as hash key: LIST")) ∧
    testEvalText Host.doubling (fun _ => none) 30 10
      [⟨token.LBRACE, "\x7b"⟩, ⟨token.STRING, "one"⟩, ⟨token.COLON, ":"⟩, ⟨token.INT, "1"⟩,
        ⟨token.COMMA, ","⟩, ⟨token.INT, "4"⟩, ⟨token.COLON, ":"⟩, ⟨token.INT, "2"⟩,
        ⟨token.COMMA, ","⟩, ⟨token.TRUE, "true"⟩, ⟨token.COLON, ":"⟩, ⟨token.INT, "3"⟩,
        ⟨token.RBRACE, "\x7d"⟩, ⟨token.LBRACKET, "["⟩, ⟨token.STRING, "one"⟩,
        ⟨token.RBRACKET, "]"⟩] = .ok (some (INTEGER_OBJ, "1")) ∧
    testEvalText Host.doubling (fun _ => none) 30 10
      [⟨token.LBRACE, "\x7b"⟩, ⟨token.STRING, "one"⟩, ⟨token.COLON, ":"⟩, ⟨token.INT, "1"⟩,
        ⟨token.COMMA, ","⟩, ⟨token.INT, "4"⟩, ⟨token.COLON, ":"⟩, ⟨token.INT, "2"⟩,
        ⟨token.COMMA, ","⟩, ⟨token.TRUE, "true"⟩, ⟨token.COLON, ":"⟩, ⟨token.INT, "3"⟩,
        ⟨token.RBRACE, "\x7d"⟩, ⟨token.LBRACKET, "["⟩, ⟨token.INT, "4"⟩,
        ⟨token.RBRACKET, "]"⟩] = .ok (some (INTEGER_OBJ, "2")) ∧
    testEvalText Host.doubling (fun _ => none) 30 10
      [⟨token.LBRACE, "\x7b"⟩, ⟨token.STRING, "one"⟩, ⟨token.COLON, ":"⟩, ⟨token.INT, "1"⟩,
        ⟨token.COMMA, ","⟩, ⟨token.INT, "4"⟩, ⟨token.COLON, ":"⟩, ⟨token.INT, "2"⟩,
        ⟨token.COMMA, ","⟩, ⟨token.TRUE, "true"⟩, ⟨token.COLON, ":"⟩, ⟨token.INT, "3"⟩,
        ⟨token.RBRACE, "\x7d"⟩, ⟨token.LBRACKET, "["⟩, ⟨token.TRUE, "true"⟩,
        ⟨token.RBRACKET, "]"⟩] = .ok (some (INTEGER_OBJ, "3")) := by
  refine ⟨HashKey_eq_none_iff host k, ?_, fun _ _ => rfl, ?_, ?_, by decide!, by decide!,
    by decide!, by decide!, by decide!, by decide!, by decide!⟩
  · cases hk : k.HashKey host with
    | none => exact Or.inl rfl
    | some key => exact Or.inr ⟨key, rfl⟩
  · intro hk
    rw [evalIndexExpression_Dict]
    simp [evalDictIndexExpression, hk, newError]
  · intro key hk
    refine ⟨HashKey_Type host k key hk, ?_, ?_⟩
    · intro hnone
      rw [evalIndexExpression_Dict]
      cases pairs with
      | none => simp [evalDictIndexExpression, hk, hd]
      | some m =>
        simp at hnone
        simp [evalDictIndexExpression, hk, hd, hnone]
    · intro pair hsome
      rw [evalIndexExpression_Dict]
      cases pairs with
      | none => simp at hsome
      | some m =>
        simp at hsome
        simp [evalDictIndexExpression, hk, hd, hsome]

theorem evalIndexExpression_dict_read_witness :
    evalIndexExpression Host.doubling (some (.Dict 3)) (some (.Integer 9 4)) false none
        ⟨10, [(0, ⟨[], none⟩)], [], [],
          [(3, some [(⟨STRING_OBJ, 1875936269717626031⟩,
              ⟨some (.String 1 "one"), some (.Integer 2 1)⟩),
            (⟨INTEGER_OBJ, 4⟩, ⟨some (.Integer 4 4), some (.Integer 5 2)⟩),
            (⟨BOOLEAN_OBJ, 1⟩, ⟨some .TRUE, some (.Integer 6 3)⟩)])], []⟩ =
      .ok (some (.Integer 5 2),
        ⟨10, [(0, ⟨[], none⟩)], [], [],
          [(3, some [(⟨STRING_OBJ, 1875936269717626031⟩,
              ⟨some (.String 1 "one"), some (.Integer 2 1)⟩),
            (⟨INTEGER_OBJ, 4⟩, ⟨some (.Integer 4 4), some (.Integer 5 2)⟩),
            (⟨BOOLEAN_OBJ, 1⟩, ⟨some .TRUE, some (.Integer 6 3)⟩)])], []⟩) ∧
    (Object.String 1 "one").HashKey Host.doubling = some ⟨STRING_OBJ, 1875936269717626031⟩ ∧
    (Object.Float 4 (.Finite (-3 / 2))).HashKey Host.doubling = some ⟨FLOAT_OBJ, 0⟩ ∧
    evalIndexExpression Host.doubling (some (.Dict 3)) (some (.Float 4 (.Finite (-3 / 2))))
        false none
        ⟨5, [(0, ⟨[], none⟩)], [], [],
          [(3, some [(⟨FLOAT_OBJ, 0⟩,
            ⟨some (.Float 1 (.Finite (-3 / 2))), some (.Integer 2 7)⟩)])], []⟩ =
      .ok (some (.Integer 2 7),
        ⟨5, [(0, ⟨[], none⟩)], [], [],
          [(3, some [(⟨FLOAT_OBJ, 0⟩,
            ⟨some (.Float 1 (.Finite (-3 / 2))), some (.Integer 2 7)⟩)])], []⟩) := by
  have hfloat : (Object.Float 4 (.Finite (-3 / 2))).HashKey Host.doubling =
      some ⟨FLOAT_OBJ, 0⟩ := by
    have h2 : Rat.floor (2 : ℚ) = 2 := rfl
    have hr : Float64.Round (.Finite (-3 / 2)) = .Finite (-2) := by
      norm_num [Float64.Round, h2]
    rw [Object.HashKey, hr]
    norm_num [Float64.toUint64, Float64.truncate, Host.doubling]
  refine ⟨?_, by decide!, hfloat, ?_⟩
  · exact ((evalIndexExpression_dict_read Host.doubling
      ⟨10, [(0, ⟨[], none⟩)], [], [],
        [(3, some [(⟨STRING_OBJ, 1875936269717626031⟩,
            ⟨some (.String 1 "one"), some (.Integer 2 1)⟩),
          (⟨INTEGER_OBJ, 4⟩, ⟨some (.Integer 4 4), some (.Integer 5 2)⟩),
          (⟨BOOLEAN_OBJ, 1⟩, ⟨some .TRUE, some (.Integer 6 3)⟩)])], []⟩
      3 _ (.Integer 9 4) false none rfl).2.2.2.2.1 ⟨INTEGER_OBJ, 4⟩ rfl).2.2
      ⟨some (.Integer 4 4), some (.Integer 5 2)⟩ rfl
  · exact ((evalIndexExpression_dict_read Host.doubling
      ⟨5, [(0, ⟨[], none⟩)], [], [],
        [(3, some [(⟨FLOAT_OBJ, 0⟩,
          ⟨some (.Float 1 (.Finite (-3 / 2))), some (.Integer 2 7)⟩)])], []⟩
      3 _ (.Float 4 (.Finite (-3 / 2))) false none rfl).2.2.2.2.1 ⟨FLOAT_OBJ, 0⟩ hfloat).2.2
      ⟨some (.Float 1 (.Finite (-3 / 2))), some (.Integer 2 7)⟩ rfl

theorem evalDictLiteralLoop_early (host : Host) (Eval : EvalFn (Option ast.Expression)) :
    ∀ (nodes : List (Option ast.Expression × Option ast.Expression))
      (pairs : List (HashKey × HashPair)) (env : Nat) (h h1 : Heap) (early : Option Object),
      evalDictLiteralLoop host Eval nodes pairs env h = .ok (.inl early, h1) →
      isError early = true := by
  intro nodes
  induction nodes with
  | nil =>
    intro pairs env h h1 early hrun
    simp [evalDictLiteralLoop] at hrun
  | cons node rest ih =>
    intro pairs env h h1 early hrun
    obtain ⟨keyNode, valueNode⟩ := node
    rw [evalDictLiteralLoop] at hrun
    cases hk : Eval keyNode env h with
    | error e => simp [hk, bind, Except.bind] at hrun
    | ok p =>
      obtain ⟨key, h2⟩ := p
      simp only [hk, bind, Except.bind] at hrun
      by_cases hek : isError key = true
      · simp [hek, pure, Except.pure] at hrun
        rw [← hrun.1]
        exact hek
      · simp only [hek] at hrun
        cases key with
        | none => simp at hrun
        | some k =>
          cases hh : k.HashKey host with
          | none =>
            simp [hh, pure, Except.pure] at hrun
            rw [← hrun.1]
            rfl
          | some hashed =>
            simp only [hh] at hrun
            cases hv : Eval valueNode env h2 with
            | error e => simp [hv] at hrun
            | ok q =>
              obtain ⟨value, h3⟩ := q
              simp only [hv] at hrun
              by_cases hev : isError value = true
              · simp [hev, pure, Except.pure] at hrun
                rw [← hrun.1]
                exact hev
              · simp only [hev] at hrun
                exact ih _ env h3 h1 early (by simpa using hrun)

theorem Eval_DictLiteral_non_nil (host : Host) (fuel : Nat) (tok : token.Token)
    (nodes : List (Option ast.Expression × Option ast.Expression)) (env : Nat) (h h1 : Heap)
    (a : Nat)
    (hrun : Eval host (fuel + 1) (some (.DictLiteral tok nodes)) env h =
      .ok (some (.Dict a), h1)) :
    ∃ m, mapGet h1.dicts a = some (some m) := by
  rw [Eval, evalDictLiteral] at hrun
  generalize (host.mapRange h.next nodes.length).filterMap (fun i => nodes.get? i) = visited
    at hrun
  cases hl : evalDictLiteralLoop host (Eval host fuel) visited [] env h with
  | error e => simp [hl, bind, Except.bind] at hrun
  | ok p =>
    obtain ⟨result, h2⟩ := p
    cases result with
    | inl early =>
      have he := evalDictLiteralLoop_early host _ visited [] env h h2 early hl
      simp [hl, bind, Except.bind, pure, Except.pure] at hrun
      rw [hrun.1] at he
      simp [isError, Type_, ERROR_OBJ, DICT_OBJ] at he
    | inr pairs =>
      simp [hl, bind, Except.bind, pure, Except.pure] at hrun
      obtain ⟨ha, hh⟩ := hrun
      subst ha hh
      exact ⟨pairs, mapGet_mapSet_same _ _ _⟩

/-- C22: let the Dict at `addr` have a map that is not nil, as every Dict that a dict literal
has made, and let `k` be an Integer or Boolean key.  The index-assign `d[k] = v` returns the
Dict, and after it the read `d[k]` returns `v`; for every Integer or Boolean key `k2` that
differs from `k` in type or in value the read `d[k2]` returns what it returned before the
assignment.  The Integers are those of `int64`. -/
theorem evalIndexAssignExpression_dict_round_trip (host : Host) (h : Heap) (addr : Nat)
    (pairs : List (HashKey × HashPair)) (k : Object) (v : Option Object)
    (hd : mapGet h.dicts addr = some (some pairs))
    (hk : Type_ k = INTEGER_OBJ ∨ Type_ k = BOOLEAN_OBJ)
    (hv : ∀ n, algorithms.integerValue k = some n → isInt64 n) :
    (∀ (fuel : Nat) (tok : token.Token)
      (nodes : List (Option ast.Expression × Option ast.Expression)) (env : Nat)
      (h0 h1 : Heap) (a : Nat),
      Eval host (fuel + 1) (some (.DictLiteral tok nodes)) env h0 = .ok (some (.Dict a), h1) →
      ∃ m, mapGet h1.dicts a = some (some m)) ∧
    (∃ h1,
      evalIndexAssignExpression host (some (.Dict addr)) (some k) v h =
        .ok (some (.Dict addr), h1) ∧
      evalIndexExpression host (some (.Dict addr)) (some k) false none h1 = .ok (v, h1) ∧
      ∀ k2, (Type_ k2 = INTEGER_OBJ ∨ Type_ k2 = BOOLEAN_OBJ) →
        (∀ n, algorithms.integerValue k2 = some n → isInt64 n) →
        (algorithms.integerValue k2 ≠ algorithms.integerValue k ∨
          boolValue k2 ≠ boolValue k) →
        ∃ r, evalIndexExpression host (some (.Dict addr)) (some k2) false none h = .ok (r, h) ∧
          evalIndexExpression host (some (.Dict addr)) (some k2) false none h1 = .ok (r, h1)) ∧
    testEvalText Host.doubling (fun _ => none) 30 10
      [⟨token.IDENT, "d"⟩, ⟨token.ASSIGN, "="⟩, ⟨token.LBRACE, "\x7b"⟩, ⟨token.INT, "1"⟩,
        ⟨token.COLON, ":"⟩, ⟨token.INT, "2"⟩, ⟨token.RBRACE, "\x7d"⟩, ⟨token.NEWLINE, "\n"⟩,
        ⟨token.IDENT, "d"⟩, ⟨token.LBRACKET, "["⟩, ⟨token.TRUE, "true"⟩, ⟨token.RBRACKET, "]"⟩,
        ⟨token.ASSIGN, "="⟩, ⟨token.INT, "7"⟩, ⟨token.NEWLINE, "\n"⟩, ⟨token.IDENT, "d"⟩,
        ⟨token.LBRACKET, "["⟩, ⟨token.TRUE, "true"⟩, ⟨token.RBRACKET, "]"⟩] =
      .ok (some (INTEGER_OBJ, "7")) ∧
    testEvalText Host.doubling (fun _ => none) 30 10
      [⟨token.IDENT, "d"⟩, ⟨token.ASSIGN, "="⟩, ⟨token.LBRACE, "\x7b"⟩, ⟨token.INT, "1"⟩,
        ⟨token.COLON, ":"⟩, ⟨token.INT, "2"⟩, ⟨token.RBRACE, "\x7d"⟩, ⟨token.NEWLINE, "\n"⟩,
        ⟨token.IDENT, "d"⟩, ⟨token.LBRACKET, "["⟩, ⟨token.TRUE, "true"⟩, ⟨token.RBRACKET, "]"⟩,
        ⟨token.ASSIGN, "="⟩, ⟨token.INT, "7"⟩, ⟨token.NEWLINE, "\n"⟩, ⟨token.IDENT, "d"⟩,
        ⟨token.LBRACKET, "["⟩, ⟨token.INT, "1"⟩, ⟨token.RBRACKET, "]"⟩] =
      .ok (some (INTEGER_OBJ, "2")) ∧
    testEvalText Host.doubling (fun _ => none) 30 10
      [⟨token.IDENT, "d"⟩, ⟨token.ASSIGN, "="⟩, ⟨token.LBRACE, "\x7b"⟩, ⟨token.INT, "1"⟩,
        ⟨token.COLON, ":"⟩, ⟨token.INT, "2"⟩, ⟨token.RBRACE, "\x7d"⟩, ⟨token.NEWLINE, "\n"⟩,
        ⟨token.IDENT, "d"⟩, ⟨token.LBRACKET, "["⟩, ⟨token.INT, "1"⟩, ⟨token.RBRACKET, "]"⟩,
        ⟨token.ASSIGN, "="⟩, ⟨token.INT, "3"⟩, ⟨token.NEWLINE, "\n"⟩, ⟨token.IDENT, "d"⟩,
        ⟨token.LBRACKET, "["⟩, ⟨token.INT, "1"⟩, ⟨token.RBRACKET, "]"⟩] =
      .ok (some (INTEGER_OBJ, "3")) := by
  refine ⟨fun fuel tok nodes env h0 h1 a hrun =>
    Eval_DictLiteral_non_nil host fuel tok nodes env h0 h1 a hrun, ?_, by decide!, by decide!,
    by decide!⟩
  obtain ⟨key, hkey, -⟩ := HashKey_integer_or_boolean host k hk
  refine ⟨{ h with dicts := mapSet h.dicts addr (some (mapSet pairs key ⟨some k, v⟩)) },
    ?_, ?_, ?_⟩
  · rw [evalIndexAssignExpression_Dict]
    simp [evalDictIndexAssignExpression, hkey, hd]
  · rw [evalIndexExpression_Dict]
    simp [evalDictIndexExpression, hkey, mapGet_mapSet_same]
  · intro k2 hk2 hv2 hdiff
    obtain ⟨key2, hkey2, -⟩ := HashKey_integer_or_boolean host k2 hk2
    have hne : key ≠ key2 :=
      HashKey_injective_integer_boolean host k k2 key key2 hk hk2 hv hv2 hkey hkey2 hdiff
    rw [evalIndexExpression_Dict, evalIndexExpression_Dict]
    cases hg : mapGet pairs key2 with
    | none =>
      refine ⟨some .NULL, ?_, ?_⟩
      · simp [evalDictIndexExpression, hkey2, hd, hg]
      · simp [evalDictIndexExpression, hkey2, mapGet_mapSet_same,
          mapGet_mapSet_other _ _ _ _ hne, hg]
    | some pair =>
      refine ⟨pair.Value, ?_, ?_⟩
      · simp [evalDictIndexExpression, hkey2, hd, hg]
      · simp [evalDictIndexExpression, hkey2, mapGet_mapSet_same,
          mapGet_mapSet_other _ _ _ _ hne, hg]

theorem evalIndexAssignExpression_dict_round_trip_witness :
    ∃ h1,
      evalIndexAssignExpression Host.doubling (some (.Dict 3)) (some .TRUE)
          (some (.Integer 4 7))
          ⟨5, [(0, ⟨[("d", some (.Dict 3))], none⟩)], [], [],
            [(3, some [(⟨INTEGER_OBJ, 1⟩, ⟨some (.Integer 1 1), some (.Integer 2 2)⟩)])], []⟩ =
        .ok (some (.Dict 3), h1) ∧
      evalIndexExpression Host.doubling (some (.Dict 3)) (some .TRUE) false none h1 =
        .ok (some (.Integer 4 7), h1) ∧
      ∃ r,
        evalIndexExpression Host.doubling (some (.Dict 3)) (some (.Integer 6 1)) false none
            ⟨5, [(0, ⟨[("d", some (.Dict 3))], none⟩)], [], [],
              [(3, some [(⟨INTEGER_OBJ, 1⟩, ⟨some (.Integer 1 1), some (.Integer 2 2)⟩)])],
              []⟩ =
          .ok (r,
            ⟨5, [(0, ⟨[("d", some (.Dict 3))], none⟩)], [], [],
              [(3, some [(⟨INTEGER_OBJ, 1⟩, ⟨some (.Integer 1 1), some (.Integer 2 2)⟩)])],
              []⟩) ∧
        evalIndexExpression Host.doubling (some (.Dict 3)) (some (.Integer 6 1)) false none h1 =
          .ok (r, h1) := by
  obtain ⟨h1, e1, e2, e3⟩ := (evalIndexAssignExpression_dict_round_trip Host.doubling
    ⟨5, [(0, ⟨[("d", some (.Dict 3))], none⟩)], [], [],
      [(3, some [(⟨INTEGER_OBJ, 1⟩, ⟨some (.Integer 1 1), some (.Integer 2 2)⟩)])], []⟩
    3 _ .TRUE (some (.Integer 4 7)) rfl (Or.inr rfl)
    (fun n hn => by simp [algorithms.integerValue] at hn)).2.1
  exact ⟨h1, e1, e2, e3 (.Integer 6 1) (Or.inl rfl)
    (fun n hn => by
      simp [algorithms.integerValue] at hn
      subst hn
      decide)
    (Or.inl (by simp [algorithms.integerValue]))⟩

/-! ## The builtin `dict` -/

/-- C23, the divergence: the builtin `dict` allocates a Dict whose map `Pairs` is nil, and
the index-assign `d[k] = v` on a Dict with the nil map aborts with the panic `assignment to
entry in nil map` for every hashable key `k`, while a read of such a Dict returns NULL.  At the
failing input, the program `d = dict()` / `d[1] = 2`, the evaluation aborts; the program
`d = dict()` / `d[1]` evaluates to NULL. -/
theorem builtinDict_assignment_aborts :
    (∀ (host : Host) (args : List (Option Object)) (h : Heap),
      ∃ h1, applyBuiltin host "dict" args h = .ok (some (.Dict h.next), h1) ∧
        mapGet h1.dicts h.next = some none) ∧
    (∀ (host : Host) (h : Heap) (addr : Nat) (k : Object) (key : HashKey) (v : Option Object),
      mapGet h.dicts addr = some none → k.HashKey host = some key →
      evalIndexAssignExpression host (some (.Dict addr)) (some k) v h =
        .error (.panic "assignment to entry in nil map") ∧
      evalIndexExpression host (some (.Dict addr)) (some k) false none h = .ok (some .NULL, h)) ∧
    testEvalText Host.doubling (fun _ => none) 30 10
      [⟨token.IDENT, "d"⟩, ⟨token.ASSIGN, "="⟩, ⟨token.IDENT, "dict"⟩, ⟨token.LPAREN, "("⟩,
        ⟨token.RPAREN, ")"⟩, ⟨token.NEWLINE, "\n"⟩, ⟨token.IDENT, "d"⟩, ⟨token.LBRACKET, "["⟩,
        ⟨token.INT, "1"⟩, ⟨token.RBRACKET, "]"⟩, ⟨token.ASSIGN, "="⟩, ⟨token.INT, "2"⟩] =
      .error (.panic "assignment to entry in nil map") ∧
    testEvalText Host.doubling (fun _ => none) 30 10
      [⟨token.IDENT, "d"⟩, ⟨token.ASSIGN, "="⟩, ⟨token.IDENT, "dict"⟩, ⟨token.LPAREN, "("⟩,
        ⟨token.RPAREN, ")"⟩, ⟨token.NEWLINE, "\n"⟩, ⟨token.IDENT, "d"⟩, ⟨token.LBRACKET, "["⟩,
        ⟨token.INT, "1"⟩, ⟨token.RBRACKET, "]"⟩] = .ok (some (NULL_OBJ, "null")) := by
  refine ⟨?_, ?_, by decide!, by decide!⟩
  · intro host args h
    exact ⟨_, rfl, mapGet_mapSet_same _ _ _⟩
  · intro host h addr k key v hd hk
    constructor
    · rw [evalIndexAssignExpression_Dict]
      simp [evalDictIndexAssignExpression, hk, hd]
    · rw [evalIndexExpression_Dict]
      simp [evalDictIndexExpression, hk, hd]

theorem builtinDict_assignment_aborts_witness :
    evalIndexAssignExpression Host.doubling (some (.Dict 1)) (some (.Integer 3 1))
        (some (.Integer 4 2))
        ⟨5, [(0, ⟨[("d", some (.Dict 1))], none⟩)], [], [], [(1, none)], []⟩ =
      .error (.panic "assignment to entry in nil map") :=
  (builtinDict_assignment_aborts.2.1 Host.doubling
    ⟨5, [(0, ⟨[("d", some (.Dict 1))], none⟩)], [], [], [(1, none)], []⟩ 1 (.Integer 3 1)
    ⟨INTEGER_OBJ, 1⟩ (some (.Integer 4 2)) rfl rfl).1

/-! ## Index-assign on lists -/

theorem Heap_store_elements (h : Heap) (s : Slice) (a : List (Option Object)) (p : Nat)
    (v : Option Object) (ha : mapGet h.arrays s.array = some a) :
    (h.store s p v).elements s = (h.elements s).set p v ∧ (h.store s p v).lists = h.lists ∧
      (h.store s p v).next = h.next := by
  simp only [Heap.store, ha, Heap.elements, mapGet_mapSet_same]
  refine ⟨?_, trivial, trivial⟩
  rw [← List.set_take, List.set_drop]

/-- C24: let the List at `addr` have the slice `s` as its elements, `L = h.elements s`, of
length `n = s.len`.  When `-n <= i < n` the index-assign `L[i] = v` returns the list and
leaves it with the element at the normalised position (`i`, or `n + i` for a negative `i`)
replaced by `v`, every other element and the length being unchanged; for every other `i` it
returns NULL and leaves the heap unchanged.  The program of `TestIndexAssignExpressions`
evaluates to 3. -/
theorem evalIndexAssignExpression_list (host : Host) (h : Heap) (addr iaddr : Nat) (s : Slice)
    (a : List (Option Object)) (i : Int) (v : Option Object)
    (hl : mapGet h.lists addr = some s) (ha : mapGet h.arrays s.array = some a)
    (hb : s.offset + s.len ≤ a.length) :
    (h.elements s).length = s.len ∧
    (-(s.len : Int) ≤ i → i < s.len →
      ∃ h1,
        evalIndexAssignExpression host (some (.List addr)) (some (.Integer iaddr i)) v h =
          .ok (some (.List addr), h1) ∧
        mapGet h1.lists addr = some s ∧
        h1.elements s = (h.elements s).set (normalizeIndex s.len i).toNat v ∧
        (h1.elements s).length = s.len ∧
        (h1.elements s).get? (normalizeIndex s.len i).toNat = some v ∧
        ∀ j, j ≠ (normalizeIndex s.len i).toNat →
          (h1.elements s).get? j = (h.elements s).get? j) ∧
    (i < -(s.len : Int) ∨ (s.len : Int) ≤ i →
      evalIndexAssignExpression host (some (.List addr)) (some (.Integer iaddr i)) v h =
        .ok (some .NULL, h)) ∧
    testEvalText Host.doubling (fun _ => none) 30 10
      [⟨token.IDENT, "arr"⟩, ⟨token.ASSIGN, "="⟩, ⟨token.LBRACKET, "["⟩, ⟨token.INT, "0"⟩,
        ⟨token.COMMA, ","⟩, ⟨token.INT, "1"⟩, ⟨token.COMMA, ","⟩, ⟨token.INT, "2"⟩,
        ⟨token.RBRACKET, "]"⟩, ⟨token.NEWLINE, "\n"⟩, ⟨token.IDENT, "arr"⟩,
        ⟨token.LBRACKET, "["⟩, ⟨token.INT, "0"⟩, ⟨token.RBRACKET, "]"⟩, ⟨token.ASSIGN, "="⟩,
        ⟨token.INT, "3"⟩, ⟨token.NEWLINE, "\n"⟩, ⟨token.RETURN, "return"⟩, ⟨token.IDENT, "arr"⟩,
        ⟨token.LBRACKET, "["⟩, ⟨token.INT, "0"⟩, ⟨token.RBRACKET, "]"⟩] =
      .ok (some (INTEGER_OBJ, "3")) := by
  have hlen := Heap_elements_length h s a ha hb
  refine ⟨hlen, ?_, ?_, by decide!⟩
  · intro h0 h1
    have hp : (normalizeIndex s.len i).toNat < s.len := by
      unfold normalizeIndex
      split <;> omega
    have hr : ¬ (normalizeIndex s.len i < 0 ∨ normalizeIndex s.len i > (s.len : Int) - 1) := by
      unfold normalizeIndex
      split <;> omega
    obtain ⟨e1, e2, -⟩ := Heap_store_elements h s a (normalizeIndex s.len i).toNat v ha
    refine ⟨h.store s (normalizeIndex s.len i).toNat v, ?_, ?_, e1, ?_, ?_, ?_⟩
    · simp [evalIndexAssignExpression, Type_, evalListIndexAssignExpression, hl, hr]
    · rw [e2, hl]
    · rw [e1, List.length_set, hlen]
    · rw [e1, List.get?_eq_getElem?, List.getElem?_set_self]
      rw [hlen]
      exact hp
    · intro j hj
      rw [e1, List.get?_eq_getElem?, List.get?_eq_getElem?, List.getElem?_set_ne]
      exact fun hc => hj hc.symm
  · intro hout
    have hr : normalizeIndex s.len i < 0 ∨ normalizeIndex s.len i > (s.len : Int) - 1 := by
      unfold normalizeIndex
      split <;> omega
    simp [evalIndexAssignExpression, Type_, evalListIndexAssignExpression, hl, hr]

theorem evalIndexAssignExpression_list_witness :
    ∃ h1,
      evalIndexAssignExpression Host.doubling (some (.List 5)) (some (.Integer 6 (-1)))
          (some (.Integer 7 9))
          ⟨8, [(0, ⟨[], none⟩)],
            [(4, [some (.Integer 1 0), some (.Integer 2 1), some (.Integer 3 2), none])],
            [(5, ⟨4, 0, 3, 4⟩)], [], []⟩ = .ok (some (.List 5), h1) ∧
      h1.elements ⟨4, 0, 3, 4⟩ =
        [some (.Integer 1 0), some (.Integer 2 1), some (.Integer 7 9)] := by
  obtain ⟨h1, e1, -, e3, -⟩ := (evalIndexAssignExpression_list Host.doubling
    ⟨8, [(0, ⟨[], none⟩)],
      [(4, [some (.Integer 1 0), some (.Integer 2 1), some (.Integer 3 2), none])],
      [(5, ⟨4, 0, 3, 4⟩)], [], []⟩ 5 6 ⟨4, 0, 3, 4⟩
    [some (.Integer 1 0), some (.Integer 2 1), some (.Integer 3 2), none] (-1)
    (some (.Integer 7 9)) rfl rfl (by decide)).2.1 (by decide) (by decide)
  exact ⟨h1, e1, e3.trans rfl⟩

/-! ## Membership in a list -/

theorem searchListCompare_equalValue (target el : Object)
    (ht : Type_ target = INTEGER_OBJ ∨ Type_ target = FLOAT_OBJ ∨ Type_ target = BOOLEAN_OBJ ∨
      Type_ target = STRING_OBJ)
    (he : Type_ el = Type_ target) :
    searchListCompare target el = .ok (some (equalValue target el)) := by
  cases target <;>
    simp [Type_, INTEGER_OBJ, FLOAT_OBJ, BOOLEAN_OBJ, STRING_OBJ, NULL_OBJ,
      RETURN_VALUE_OBJ, ERROR_OBJ, FUNCTION_OBJ, BUILTIN_OBJ, LIST_OBJ, DICT_OBJ, SET_OBJ] at ht <;>
    cases el <;>
    simp [Type_, INTEGER_OBJ, FLOAT_OBJ, BOOLEAN_OBJ, STRING_OBJ, NULL_OBJ,
      RETURN_VALUE_OBJ, ERROR_OBJ, FUNCTION_OBJ, BUILTIN_OBJ, LIST_OBJ, DICT_OBJ, SET_OBJ] at he <;>
    simp [searchListCompare, equalValue, algorithms.integerValue, floatValue, boolValue,
      stringValue] <;>
    first
      | done
      | (rw [Bool.eq_iff_iff]
         simp)

theorem searchListLoop_finds (target : Object)
    (ht : Type_ target = INTEGER_OBJ ∨ Type_ target = FLOAT_OBJ ∨ Type_ target = BOOLEAN_OBJ ∨
      Type_ target = STRING_OBJ) :
    ∀ (L : List (Option Object)), (∀ e ∈ L, e ≠ none) →
      ∃ found : Bool, searchListLoop target L = .ok (some found) ∧
        (found = true ↔
          ∃ el, some el ∈ L ∧ Type_ el = Type_ target ∧ equalValue target el = true) := by
  intro L
  induction L with
  | nil =>
    intro _
    exact ⟨false, rfl, by simp⟩
  | cons e rest ih =>
    intro hnil
    obtain ⟨found, hrun, hiff⟩ := ih (fun e he => hnil e (List.mem_cons_of_mem _ he))
    cases e with
    | none => exact absurd rfl (hnil none (List.mem_cons_self _ _))
    | some el =>
      by_cases hty : Type_ el = Type_ target
      · rw [searchListLoop, if_pos hty, searchListCompare_equalValue target el ht hty]
        cases hv : equalValue target el with
        | true =>
          exact ⟨true, rfl, iff_of_true rfl ⟨el, List.mem_cons_self _ _, hty, hv⟩⟩
        | false =>
          refine ⟨found, hrun, ?_⟩
          rw [hiff]
          constructor
          · rintro ⟨x, hx, hxt, hxv⟩
            exact ⟨x, List.mem_cons_of_mem _ hx, hxt, hxv⟩
          · rintro ⟨x, hx, hxt, hxv⟩
            rcases List.mem_cons.1 hx with hx | hx
            · simp at hx
              subst hx
              rw [hv] at hxv
              simp at hxv
            · exact ⟨x, hx, hxt, hxv⟩
      · rw [searchListLoop, if_neg hty]
        refine ⟨found, hrun, ?_⟩
        rw [hiff]
        constructor
        · rintro ⟨x, hx, hxt, hxv⟩
          exact ⟨x, List.mem_cons_of_mem _ hx, hxt, hxv⟩
        · rintro ⟨x, hx, hxt, hxv⟩
          rcases List.mem_cons.1 hx with hx | hx
          · simp at hx
            subst hx
            exact absurd hxt hty
          · exact ⟨x, hx, hxt, hxv⟩

theorem equalValue_NaN (a : Nat) (el : Object) : equalValue (.Float a .NaN) el = false := by
  cases el <;>
    simp [equalValue, algorithms.integerValue, floatValue, boolValue, stringValue,
      Float64.eq, Float64.ext]

/-- C25, amended: let the List at `addr` have the elements `L = h.elements s`, each of them
an object, and let the target `x` be an Integer, a Float, a Boolean or a String.  The
membership test `x in L` returns TRUE when some element of `L` has the type of `x` and a value
equal to that of `x`, and FALSE otherwise; the heap is unchanged.  Two Floats are equal as the
`==` of `float64` has it, so a NaN target is found in no list, not even in one that holds the
target itself, and the two zeros are equal.  The list input of `TestInExpressions` evaluates
to true. -/
theorem evalInExpression_list (host : Host) (h : Heap) (addr : Nat) (s : Slice)
    (target : Object)
    (hl : mapGet h.lists addr = some s)
    (ht : Type_ target = INTEGER_OBJ ∨ Type_ target = FLOAT_OBJ ∨ Type_ target = BOOLEAN_OBJ ∨
      Type_ target = STRING_OBJ)
    (hnil : ∀ e ∈ h.elements s, e ≠ none) :
    (∃ found : Bool,
      evalInExpression host (some target) (some (.List addr)) h =
        .ok (some (if found then .TRUE else .FALSE), h) ∧
      (found = true ↔
        ∃ el, some el ∈ h.elements s ∧ Type_ el = Type_ target ∧
          equalValue target el = true)) ∧
    (floatValue target = some .NaN →
      evalInExpression host (some target) (some (.List addr)) h = .ok (some .FALSE, h)) ∧
    (∀ a b : Nat, equalValue (.Float a (.Finite 0)) (.Float b .NegZero) = true ∧
      equalValue (.Float a .NegZero) (.Float b (.Finite 0)) = true) ∧
    testEvalText Host.doubling (fun _ => none) 30 10
      [⟨token.IDENT, "l"⟩, ⟨token.ASSIGN, "="⟩, ⟨token.LBRACKET, "["⟩, ⟨token.INT, "1"⟩,
        ⟨token.COMMA, ","⟩, ⟨token.INT, "2"⟩, ⟨token.COMMA, ","⟩, ⟨token.INT, "3"⟩,
        ⟨token.RBRACKET, "]"⟩, ⟨token.NEWLINE, "\n"⟩, ⟨token.RETURN, "return"⟩,
        ⟨token.INT, "2"⟩, ⟨token.IN, "in"⟩, ⟨token.IDENT, "l"⟩] =
      .ok (some (BOOLEAN_OBJ, "true")) ∧
    testEvalText Host.doubling (fun _ => none) 30 10
      [⟨token.STRING, "b"⟩, ⟨token.IN, "in"⟩, ⟨token.LBRACKET, "["⟩, ⟨token.STRING, "a"⟩,
        ⟨token.COMMA, ","⟩, ⟨token.STRING, "b"⟩, ⟨token.RBRACKET, "]"⟩] =
      .ok (some (BOOLEAN_OBJ, "true")) ∧
    testEvalText Host.doubling (fun _ => none) 30 10
      [⟨token.INT, "1"⟩, ⟨token.IN, "in"⟩, ⟨token.LBRACKET, "["⟩, ⟨token.TRUE, "true"⟩,
        ⟨token.COMMA, ","⟩, ⟨token.STRING, "1"⟩, ⟨token.RBRACKET, "]"⟩] =
      .ok (some (BOOLEAN_OBJ, "false")) ∧
    testEvalText Host.doubling (fun s => if s = "0.0" then some (.Finite 0) else none) 30 10
      [⟨token.IDENT, "x"⟩, ⟨token.ASSIGN, "="⟩, ⟨token.FLOAT, "0.0"⟩, ⟨token.SLASH, "/"⟩,
        ⟨token.FLOAT, "0.0"⟩, ⟨token.NEWLINE, "\n"⟩, ⟨token.IDENT, "x"⟩, ⟨token.IN, "in"⟩,
        ⟨token.LBRACKET, "["⟩, ⟨token.IDENT, "x"⟩, ⟨token.RBRACKET, "]"⟩] =
      .ok (some (BOOLEAN_OBJ, "false")) := by
  have hrun : ∀ found : Bool, searchListLoop target (h.elements s) = .ok (some found) →
      evalInExpression host (some target) (some (.List addr)) h =
        .ok (some (if found then .TRUE else .FALSE), h) := by
    intro found hf
    simp [evalInExpression, Type_, LIST_OBJ, searchList, hl, hf, nativeBoolToBooleanObject]
  obtain ⟨found, hf, hiff⟩ := searchListLoop_finds target ht (h.elements s) hnil
  refine ⟨⟨found, hrun found hf, hiff⟩, ?_, fun _ _ => ⟨rfl, rfl⟩, by decide!,
    by decide!, by decide!, by decide!⟩
  intro hnan
  have hfalse : found = false := by
    cases hfd : found with
    | false => rfl
    | true =>
      obtain ⟨el, -, -, hv⟩ := hiff.1 hfd
      cases target <;> simp [floatValue] at hnan
      subst hnan
      rw [equalValue_NaN] at hv
      simp at hv
  subst hfalse
  simpa using hrun false hf

theorem evalInExpression_list_witness :
    ∃ found : Bool,
      evalInExpression Host.doubling (some (.Integer 6 2)) (some (.List 5))
          ⟨7, [(0, ⟨[], none⟩)],
            [(4, [some (.Integer 1 1), some (.Integer 2 2), some (.Integer 3 3), none])],
            [(5, ⟨4, 0, 3, 4⟩)], [], []⟩ =
        .ok (some (if found then .TRUE else .FALSE),
          ⟨7, [(0, ⟨[], none⟩)],
            [(4, [some (.Integer 1 1), some (.Integer 2 2), some (.Integer 3 3), none])],
            [(5, ⟨4, 0, 3, 4⟩)], [], []⟩) ∧
      (found = true ↔
        ∃ el, some el ∈ [some (Object.Integer 1 1), some (.Integer 2 2), some (.Integer 3 3)] ∧
          Type_ el = Type_ (.Integer 6 2) ∧ equalValue (.Integer 6 2) el = true) :=
  (evalInExpression_list Host.doubling
    ⟨7, [(0, ⟨[], none⟩)],
      [(4, [some (.Integer 1 1), some (.Integer 2 2), some (.Integer 3 3), none])],
      [(5, ⟨4, 0, 3, 4⟩)], [], []⟩ 5 ⟨4, 0, 3, 4⟩ (.Integer 6 2) rfl (Or.inl rfl)
    (by
      intro e he
      simp [Heap.elements, mapGet] at he
      rcases he with rfl | rfl | rfl <;> simp)).1

/-- C25, the counterexample: with `x` the NaN that `0.0 / 0.0` evaluates to, the test
`x in [x]` returns FALSE although the list holds `x` itself. -/
theorem evalInExpression_list_NaN_not_found :
    testEvalText Host.doubling (fun s => if s = "0.0" then some (.Finite 0) else none) 30 10
      [⟨token.IDENT, "x"⟩, ⟨token.ASSIGN, "="⟩, ⟨token.FLOAT, "0.0"⟩, ⟨token.SLASH, "/"⟩,
        ⟨token.FLOAT, "0.0"⟩, ⟨token.NEWLINE, "\n"⟩, ⟨token.IDENT, "x"⟩, ⟨token.IN, "in"⟩,
        ⟨token.LBRACKET, "["⟩, ⟨token.IDENT, "x"⟩, ⟨token.RBRACKET, "]"⟩] =
      .ok (some (BOOLEAN_OBJ, "false")) ∧
    evalInExpression Host.doubling (some (.Float 3 .NaN)) (some (.List 5))
        ⟨6, [(0, ⟨[("x", some (.Float 3 .NaN))], none⟩)], [(4, [some (.Float 3 .NaN)])],
          [(5, ⟨4, 0, 1, 1⟩)], [], []⟩ =
      .ok (some .FALSE,
        ⟨6, [(0, ⟨[("x", some (.Float 3 .NaN))], none⟩)], [(4, [some (.Float 3 .NaN)])],
          [(5, ⟨4, 0, 1, 1⟩)], [], []⟩) ∧
    Float64.eq .NaN .NaN = false :=
  ⟨by decide!, rfl, rfl⟩

/-! ## Membership in a set -/

theorem integerKey_eq_iff (x a : Int) (hx : isInt64 x) (ha : isInt64 a) :
    (⟨INTEGER_OBJ, uint64 a⟩ : HashKey) = ⟨INTEGER_OBJ, uint64 x⟩ ↔
      a = x := by
  constructor
  · intro h
    exact uint64_injective a x ha hx (by simpa using congrArg HashKey.Value h)
  · rintro rfl
    rfl

theorem builtinSetLoop_integers (host : Host) :
    ∀ (args : List (Nat × Int)) (values : List (HashKey × Option Object)) (M : List Int),
      (∀ p ∈ args, isInt64 p.2) →
      (∀ x, isInt64 x →
        ((mapGet values ⟨INTEGER_OBJ, uint64 x⟩).isSome ↔ x ∈ M)) →
      ∃ values1,
        builtinSetLoop host (args.map (fun p => some (.Integer p.1 p.2))) values =
          .ok (values1, none) ∧
        ∀ x, isInt64 x →
          ((mapGet values1 ⟨INTEGER_OBJ, uint64 x⟩).isSome ↔
            x ∈ args.map Prod.snd ∨ x ∈ M) := by
  intro args
  induction args with
  | nil =>
    intro values M _ hinv
    exact ⟨values, rfl, fun x hx => by simpa using hinv x hx⟩
  | cons p rest ih =>
    intro values M hargs hinv
    obtain ⟨pa, a⟩ := p
    have ha : isInt64 a := hargs (pa, a) (List.mem_cons_self _ _)
    have hrest : ∀ p ∈ rest, isInt64 p.2 := fun p hp => hargs p (List.mem_cons_of_mem _ hp)
    cases hg : mapGet values ⟨INTEGER_OBJ, uint64 a⟩ with
    | some old =>
      obtain ⟨values1, hrun, hinv1⟩ := ih values M hrest hinv
      refine ⟨values1, ?_, ?_⟩
      · simp only [List.map_cons, builtinSetLoop, Object.HashKey, hg]
        exact hrun
      · intro x hx
        rw [hinv1 x hx]
        have haM : a ∈ M := (hinv a ha).1 (by simp [hg])
        constructor
        · rintro (h1 | h1)
          · exact Or.inl (List.mem_cons_of_mem _ h1)
          · exact Or.inr h1
        · rintro (h1 | h1)
          · rcases List.mem_cons.1 h1 with h2 | h2
            · simp at h2
              subst h2
              exact Or.inr haM
            · exact Or.inl h2
          · exact Or.inr h1
    | none =>
      obtain ⟨values1, hrun, hinv1⟩ := ih
        (mapSet values ⟨INTEGER_OBJ, uint64 a⟩ (some (.Integer pa a))) (a :: M) hrest
        (by
          intro x hx
          by_cases hxa : a = x
          · subst hxa
            simp [mapGet_mapSet_same]
          · have hk := mt (integerKey_eq_iff x a hx ha).1 hxa
            rw [mapGet_mapSet_other _ _ _ _ hk, hinv x hx]
            simp [Ne.symm hxa])
      refine ⟨values1, ?_, ?_⟩
      · simp only [List.map_cons, builtinSetLoop, Object.HashKey, hg]
        exact hrun
      · intro x hx
        rw [hinv1 x hx]
        simp only [List.map_cons, List.mem_cons]
        tauto

theorem setMethod_integer (host : Host) (name : String) (tok : token.Token) (addr ia : Nat)
    (a : Int) (h : Heap) (values : List (HashKey × Option Object)) (M : List Int)
    (hname : name = "add" ∨ name = "remove" ∨ name = "discard" ∨ name = "pop")
    (ha : isInt64 a) (hs : mapGet h.sets addr = some values)
    (hinv : ∀ x, isInt64 x →
      ((mapGet values ⟨INTEGER_OBJ, uint64 x⟩).isSome ↔ x ∈ M)) :
    ∃ r h1 values1,
      applyObjectMethod host (some (.Set addr)) (some (.Identifier tok name))
        [some (.Integer ia a)] h = .ok (r, h1) ∧
      mapGet h1.sets addr = some values1 ∧
      ∀ x, isInt64 x →
        ((mapGet values1 ⟨INTEGER_OBJ, uint64 x⟩).isSome ↔
          x ∈ (if name = "add" then a :: M else M.filter (fun y => y ≠ a))) := by
  have hdel : ∀ x, isInt64 x →
      ((mapGet (mapDelete values ⟨INTEGER_OBJ, uint64 a⟩)
          ⟨INTEGER_OBJ, uint64 x⟩).isSome ↔ x ∈ M.filter (fun y => y ≠ a)) := by
    intro x hx
    by_cases hxa : a = x
    · subst hxa
      simp [mapGet_mapDelete_same]
    · have hk := mt (integerKey_eq_iff x a hx ha).1 hxa
      rw [mapGet_mapDelete_other _ _ _ hk, hinv x hx]
      simp [Ne.symm hxa]
  have hkeep : mapGet values ⟨INTEGER_OBJ, uint64 a⟩ = none →
      ∀ x, isInt64 x →
      ((mapGet values ⟨INTEGER_OBJ, uint64 x⟩).isSome ↔
        x ∈ M.filter (fun y => y ≠ a)) := by
    intro hg x hx
    have haM : a ∉ M := fun hc => by
      have := (hinv a ha).2 hc
      simp [hg] at this
    rw [hinv x hx]
    simp only [List.mem_filter, decide_eq_true_eq]
    constructor
    · intro hm
      exact ⟨hm, fun hc => haM (hc ▸ hm)⟩
    · exact fun hm => hm.1
  rcases hname with rfl | rfl | rfl | rfl
  · cases hg : mapGet values ⟨INTEGER_OBJ, uint64 a⟩ with
    | some old =>
      refine ⟨some .NULL, h, values, ?_, hs, ?_⟩
      · simp [applyObjectMethod, callObjectMethod, setMethods, setMethodWithKey,
          Object.HashKey, hs, hg]
      · intro x hx
        rw [hinv x hx]
        have haM : a ∈ M := (hinv a ha).1 (by simp [hg])
        simp only [if_true, List.mem_cons]
        constructor
        · exact fun hm => Or.inr hm
        · rintro (rfl | hm)
          · exact haM
          · exact hm
    | none =>
      refine ⟨some .NULL,
        { h with
          sets := mapSet h.sets addr
            (mapSet values ⟨INTEGER_OBJ, uint64 a⟩ (some (.Integer ia a))) },
        _, ?_, mapGet_mapSet_same _ _ _, ?_⟩
      · simp [applyObjectMethod, callObjectMethod, setMethods, setMethodWithKey,
          Object.HashKey, hs, hg]
      · intro x hx
        by_cases hxa : a = x
        · subst hxa
          simp [mapGet_mapSet_same]
        · have hk := mt (integerKey_eq_iff x a hx ha).1 hxa
          rw [mapGet_mapSet_other _ _ _ _ hk, hinv x hx]
          simp [Ne.symm hxa]
  · cases hg : mapGet values ⟨INTEGER_OBJ, uint64 a⟩ with
    | some old =>
      refine ⟨some .NULL,
        { h with sets := mapSet h.sets addr (mapDelete values ⟨INTEGER_OBJ, uint64 a⟩) }, _, ?_,
        mapGet_mapSet_same _ _ _, ?_⟩
      · simp [applyObjectMethod, callObjectMethod, setMethods, setMethodWithKey,
          Object.HashKey, hs, hg]
      · simpa using hdel
    | none =>
      refine ⟨some (newError h.next (toString a ++ " not found in set")), h.alloc, values,
        ?_, hs, ?_⟩
      · simp [applyObjectMethod, callObjectMethod, setMethods, setMethodWithKey,
          Object.HashKey, hs, hg, notFoundInSet, Inspect]
      · simpa using hkeep hg
  · refine ⟨some .NULL,
      { h with sets := mapSet h.sets addr (mapDelete values ⟨INTEGER_OBJ, uint64 a⟩) }, _, ?_,
      mapGet_mapSet_same _ _ _, ?_⟩
    · simp [applyObjectMethod, callObjectMethod, setMethods, setMethodWithKey,
        Object.HashKey, hs]
    · simpa using hdel
  · cases hg : mapGet values ⟨INTEGER_OBJ, uint64 a⟩ with
    | some old =>
      refine ⟨old,
        { h with sets := mapSet h.sets addr (mapDelete values ⟨INTEGER_OBJ, uint64 a⟩) }, _, ?_,
        mapGet_mapSet_same _ _ _, ?_⟩
      · simp [applyObjectMethod, callObjectMethod, setMethods, setMethodWithKey,
          Object.HashKey, hs, hg]
      · simpa using hdel
    | none =>
      refine ⟨some (newError h.next (toString a ++ " not found in set")), h.alloc, values,
        ?_, hs, ?_⟩
      · simp [applyObjectMethod, callObjectMethod, setMethods, setMethodWithKey,
          Object.HashKey, hs, hg, notFoundInSet, Inspect]
      · simpa using hkeep hg

theorem applySetCalls_members (host : Host) (addr : Nat) :
    ∀ (calls : List (String × Int)) (h : Heap) (values : List (HashKey × Option Object))
      (M : List Int),
      (∀ c ∈ calls,
        (c.1 = "add" ∨ c.1 = "remove" ∨ c.1 = "discard" ∨ c.1 = "pop") ∧ isInt64 c.2) →
      mapGet h.sets addr = some values →
      (∀ x, isInt64 x → ((mapGet values ⟨INTEGER_OBJ, uint64 x⟩).isSome ↔ x ∈ M)) →
      ∃ h2 values2, applySetCalls host (.Set addr) calls h = .ok h2 ∧
        mapGet h2.sets addr = some values2 ∧
        ∀ x, isInt64 x →
          ((mapGet values2 ⟨INTEGER_OBJ, uint64 x⟩).isSome ↔ x ∈ setMembers M calls) := by
  intro calls
  induction calls with
  | nil =>
    intro h values M _ hs hinv
    exact ⟨h, values, rfl, hs, hinv⟩
  | cons c rest ih =>
    intro h values M hcalls hs hinv
    obtain ⟨method, a⟩ := c
    obtain ⟨hname, ha⟩ := hcalls (method, a) (List.mem_cons_self _ _)
    obtain ⟨r, h1, values1, hrun, hs1, hinv1⟩ :=
      setMethod_integer host method ⟨token.IDENT, method⟩ addr h.next a h.alloc values M hname
        ha hs hinv
    by_cases hadd : method = "add"
    · obtain ⟨h2, values2, hrun2, hs2, hinv2⟩ := ih h1 values1 (a :: M)
        (fun c hc => hcalls c (List.mem_cons_of_mem _ hc)) hs1
        (by simpa [hadd] using hinv1)
      refine ⟨h2, values2, ?_, hs2, ?_⟩
      · rw [applySetCalls, hrun]
        exact hrun2
      · simpa [setMembers, hadd] using hinv2
    · obtain ⟨h2, values2, hrun2, hs2, hinv2⟩ := ih h1 values1 (M.filter (fun y => y ≠ a))
        (fun c hc => hcalls c (List.mem_cons_of_mem _ hc)) hs1
        (by simpa [hadd] using hinv1)
      refine ⟨h2, values2, ?_, hs2, ?_⟩
      · rw [applySetCalls, hrun]
        exact hrun2
      · simpa [setMembers, hadd] using hinv2

theorem setMembers_append (M : List Int) (calls calls2 : List (String × Int)) :
    setMembers M (calls ++ calls2) = setMembers (setMembers M calls) calls2 := by
  induction calls generalizing M with
  | nil => rfl
  | cons c rest ih =>
    obtain ⟨method, a⟩ := c
    by_cases hadd : method = "add"
    · simp [setMembers, hadd, ih]
    · simp [setMembers, hadd, ih]

theorem setMembers_subset (x : Int) :
    ∀ (calls : List (String × Int)) (M : List Int), x ∉ M → (∀ c ∈ calls, c.2 ≠ x) →
      x ∉ setMembers M calls := by
  intro calls
  induction calls with
  | nil =>
    intro M hM _
    exact hM
  | cons c rest ih =>
    intro M hM hcalls
    obtain ⟨method, a⟩ := c
    have hax : a ≠ x := hcalls (method, a) (List.mem_cons_self _ _)
    by_cases hadd : method = "add"
    · rw [setMembers, if_pos hadd]
      refine ih (a :: M) ?_ (fun c hc => hcalls c (List.mem_cons_of_mem _ hc))
      simp [hM, Ne.symm hax]
    · rw [setMembers, if_neg hadd]
      refine ih _ ?_ (fun c hc => hcalls c (List.mem_cons_of_mem _ hc))
      simp [hM]

/-- C26: let a set be built by `set(a1, ..., ak)` from Integers and then be the receiver of
the calls of a list, each one `add`, `remove`, `discard` or `pop` with an Integer argument,
and let `x` be an Integer; the Integers are those of `int64`.  All the calls return, and the
membership test `x in s` made after them returns TRUE when `x` is among `setMembers`, the
Integers put in and not taken out later, and FALSE otherwise.  `x` is among them right after
`s.add(x)`, and is not when it is no argument of `set` or of a call.  The set inputs of
`TestInExpressions` evaluate as the test expects. -/
theorem evalInExpression_set (host : Host) (h : Heap) (args : List (Nat × Int))
    (calls : List (String × Int)) (x : Int) (xaddr : Nat)
    (hargs : ∀ p ∈ args, isInt64 p.2)
    (hcalls : ∀ c ∈ calls,
      (c.1 = "add" ∨ c.1 = "remove" ∨ c.1 = "discard" ∨ c.1 = "pop") ∧ isInt64 c.2)
    (hx : isInt64 x) :
    (∃ h1 h2,
      applyBuiltin host "set" (args.map (fun p => some (.Integer p.1 p.2))) h =
        .ok (some (.Set h.next), h1) ∧
      applySetCalls host (.Set h.next) calls h1 = .ok h2 ∧
      evalInExpression host (some (.Integer xaddr x)) (some (.Set h.next)) h2 =
        .ok (some (if x ∈ setMembers (args.map Prod.snd) calls then .TRUE else .FALSE), h2)) ∧
    x ∈ setMembers (args.map Prod.snd) (calls ++ [("add", x)]) ∧
    (x ∉ args.map Prod.snd → (∀ c ∈ calls, c.2 ≠ x) →
      x ∉ setMembers (args.map Prod.snd) calls) ∧
    testEvalText Host.doubling (fun _ => none) 30 10
      [⟨token.NEWLINE, "\n"⟩, ⟨token.IDENT, "s"⟩, ⟨token.ASSIGN, "="⟩, ⟨token.IDENT, "set"⟩,
        ⟨token.LPAREN, "("⟩, ⟨token.RPAREN, ")"⟩, ⟨token.NEWLINE, "\n"⟩, ⟨token.IDENT, "s"⟩,
        ⟨token.DOT, "."⟩, ⟨token.IDENT, "add"⟩, ⟨token.LPAREN, "("⟩, ⟨token.INT, "1"⟩,
        ⟨token.RPAREN, ")"⟩, ⟨token.NEWLINE, "\n"⟩, ⟨token.RETURN, "return"⟩, ⟨token.INT, "1"⟩,
        ⟨token.IN, "in"⟩, ⟨token.IDENT, "s"⟩] = .ok (some (BOOLEAN_OBJ, "true")) ∧
    testEvalText Host.doubling (fun _ => none) 30 10
      [⟨token.NEWLINE, "\n"⟩, ⟨token.IDENT, "s"⟩, ⟨token.ASSIGN, "="⟩, ⟨token.IDENT, "set"⟩,
        ⟨token.LPAREN, "("⟩, ⟨token.RPAREN, ")"⟩, ⟨token.NEWLINE, "\n"⟩, ⟨token.IDENT, "s"⟩,
        ⟨token.DOT, "."⟩, ⟨token.IDENT, "add"⟩, ⟨token.LPAREN, "("⟩, ⟨token.INT, "1"⟩,
        ⟨token.RPAREN, ")"⟩, ⟨token.NEWLINE, "\n"⟩, ⟨token.RETURN, "return"⟩, ⟨token.INT, "2"⟩,
        ⟨token.IN, "in"⟩, ⟨token.IDENT, "s"⟩] = .ok (some (BOOLEAN_OBJ, "false")) ∧
    testEvalText Host.doubling (fun _ => none) 30 10
      [⟨token.IDENT, "s"⟩, ⟨token.ASSIGN, "="⟩, ⟨token.IDENT, "set"⟩, ⟨token.LPAREN, "("⟩,
        ⟨token.INT, "1"⟩, ⟨token.COMMA, ","⟩, ⟨token.INT, "2"⟩, ⟨token.RPAREN, ")"⟩,
        ⟨token.NEWLINE, "\n"⟩, ⟨token.IDENT, "s"⟩, ⟨token.DOT, "."⟩, ⟨token.IDENT, "remove"⟩,
        ⟨token.LPAREN, "("⟩, ⟨token.INT, "1"⟩, ⟨token.RPAREN, ")"⟩, ⟨token.NEWLINE, "\n"⟩,
        ⟨token.RETURN, "return"⟩, ⟨token.INT, "1"⟩, ⟨token.IN, "in"⟩, ⟨token.IDENT, "s"⟩] =
      .ok (some (BOOLEAN_OBJ, "false")) := by
  refine ⟨?_, ?_, fun hM hc => setMembers_subset x calls _ hM hc, by decide!, by decide!,
    by decide!⟩
  · obtain ⟨values1, hloop, hinv1⟩ := builtinSetLoop_integers host args [] [] hargs
      (fun x _ => by simp [mapGet])
    obtain ⟨h2, values2, hrun2, hs2, hinv2⟩ := applySetCalls_members host h.next calls
      { h with next := h.next + 1, sets := mapSet h.sets h.next values1 } values1
      (args.map Prod.snd) hcalls (mapGet_mapSet_same _ _ _)
      (fun x hx => by simpa using hinv1 x hx)
    refine ⟨_, h2, ?_, hrun2, ?_⟩
    · simp [applyBuiltin, builtinSet, hloop]
    · have hmem := hinv2 x hx
      by_cases hin : x ∈ setMembers (args.map Prod.snd) calls
      · obtain ⟨w, hw⟩ := Option.isSome_iff_exists.1 (hmem.2 hin)
        simp [evalInExpression, Type_, LIST_OBJ, SET_OBJ, searchSet, Object.HashKey, hs2, hw,
          hin]
      · have hw : mapGet values2 ⟨INTEGER_OBJ, uint64 x⟩ = none := by
          cases hq : mapGet values2 ⟨INTEGER_OBJ, uint64 x⟩ with
          | none => rfl
          | some w => exact absurd (hmem.1 (by simp [hq])) hin
        simp [evalInExpression, Type_, LIST_OBJ, SET_OBJ, searchSet, Object.HashKey, hs2, hw,
          hin]
  · rw [setMembers_append]
    simp [setMembers]

theorem evalInExpression_set_witness :
    ∃ h1 h2,
      applyBuiltin Host.doubling "set" [some (.Integer 1 1), some (.Integer 2 2)]
          ⟨3, [(0, ⟨[], none⟩)], [], [], [], []⟩ = .ok (some (.Set 3), h1) ∧
      applySetCalls Host.doubling (.Set 3) [("remove", 1), ("add", 5)] h1 = .ok h2 ∧
      evalInExpression Host.doubling (some (.Integer 9 5)) (some (.Set 3)) h2 =
        .ok (some .TRUE, h2) := by
  obtain ⟨h1, h2, e1, e2, e3⟩ := (evalInExpression_set Host.doubling
    ⟨3, [(0, ⟨[], none⟩)], [], [], [], []⟩ [(1, 1), (2, 2)] [("remove", 1), ("add", 5)] 5 9
    (by decide) (by decide) (by decide)).1
  exact ⟨h1, h2, e1, e2, e3⟩

/-! ## The builtin `range` -/

theorem rangeArray_length (array n : Nat) : (rangeArray array n).length = n := by
  simp [rangeArray]

/-- C27, the divergence: for an Integer `n < 0` the call `range(n)` aborts, `make` panicking
on the negative length, instead of returning the empty list.  So it does for an `n` beyond the
greatest length `Host.maxLen` that `make` grants.  For `0 <= n <= Host.maxLen` it returns a new
List of length `n` whose element at the position `i` is the Integer `i`.  At the failing
input, `range(-1)`, the evaluation aborts, and so does that of `for i in range(0 - 3):` /
`x = 1`; the input `range(1+2)` of `TestBuiltinRange` gives the elements 0, 1, 2, and
`range(0)` the empty list. -/
theorem builtinRange_negative_aborts :
    (∀ (host : Host) (h : Heap) (addr : Nat) (n : Int), n < 0 →
      applyBuiltin host "range" [some (.Integer addr n)] h =
        .error (.panic "runtime error: makeslice: len out of range")) ∧
    (∀ (host : Host) (h : Heap) (addr : Nat) (n : Int), (host.maxLen : Int) < n →
      applyBuiltin host "range" [some (.Integer addr n)] h =
        .error (.panic "runtime error: makeslice: len out of range")) ∧
    (∀ (host : Host) (h : Heap) (addr : Nat) (n : Int), 0 ≤ n → n ≤ host.maxLen →
      ∃ l h1 s,
        applyBuiltin host "range" [some (.Integer addr n)] h = .ok (some (.List l), h1) ∧
        mapGet h1.lists l = some s ∧ (h1.elements s).length = n.toNat ∧
        ∀ i, i < n.toNat →
          ∃ a, (h1.elements s).get? i = some (some (.Integer a (i : Int)))) ∧
    testEvalText Host.doubling (fun _ => none) 30 10
      [⟨token.IDENT, "range"⟩, ⟨token.LPAREN, "("⟩, ⟨token.MINUS, "-"⟩, ⟨token.INT, "1"⟩,
        ⟨token.RPAREN, ")"⟩] =
      .error (.panic "runtime error: makeslice: len out of range") ∧
    testEvalText Host.doubling (fun _ => none) 30 10
      [⟨token.FOR, "for"⟩, ⟨token.IDENT, "i"⟩, ⟨token.IN, "in"⟩, ⟨token.IDENT, "range"⟩,
        ⟨token.LPAREN, "("⟩, ⟨token.INT, "0"⟩, ⟨token.MINUS, "-"⟩, ⟨token.INT, "3"⟩,
        ⟨token.RPAREN, ")"⟩, ⟨token.COLON, ":"⟩, ⟨token.NEWLINE, "\n"⟩, ⟨token.TAB, "\t"⟩,
        ⟨token.IDENT, "x"⟩, ⟨token.ASSIGN, "="⟩, ⟨token.INT, "1"⟩] =
      .error (.panic "runtime error: makeslice: len out of range") ∧
    testEvalText Host.doubling (fun _ => none) 30 10
      [⟨token.IDENT, "range"⟩, ⟨token.LPAREN, "("⟩, ⟨token.INT, "17592186044417"⟩,
        ⟨token.RPAREN, ")"⟩] =
      .error (.panic "runtime error: makeslice: len out of range") ∧
    testEvalElements Host.doubling (fun _ => none) 30 10
      [⟨token.IDENT, "range"⟩, ⟨token.LPAREN, "("⟩, ⟨token.INT, "1"⟩, ⟨token.PLUS, "+"⟩,
        ⟨token.INT, "2"⟩, ⟨token.RPAREN, ")"⟩] =
      .ok (some [some (INTEGER_OBJ, "0"), some (INTEGER_OBJ, "1"), some (INTEGER_OBJ, "2")]) ∧
    testEvalElements Host.doubling (fun _ => none) 30 10
      [⟨token.IDENT, "range"⟩, ⟨token.LPAREN, "("⟩, ⟨token.INT, "0"⟩, ⟨token.RPAREN, ")"⟩] =
      .ok (some []) := by
  refine ⟨?_, ?_, ?_, by decide!, by decide!, by decide!, by decide!, by decide!⟩
  · intro host h addr n hn
    simp [applyBuiltin, builtinRange, hn]
  · intro host h addr n hn
    simp [applyBuiltin, builtinRange, hn]
  · intro host h addr n hn hmax
    obtain ⟨N, rfl⟩ := Int.eq_ofNat_of_zero_le hn
    have hN : N ≤ host.maxLen := by exact_mod_cast hmax
    have hrun : applyBuiltin host "range" [some (.Integer addr (N : Int))] h =
        builtinRange host [some (.Integer addr (N : Int))] h := by
      simp [applyBuiltin]
    have helems : ∀ h1 : Heap, mapGet h1.arrays h.next = some (rangeArray h.next N) →
        h1.elements ⟨h.next, 0, N, N⟩ = rangeArray h.next N := by
      intro h1 ha
      simp only [Heap.elements, ha, List.drop_zero]
      exact List.take_of_length_le (by rw [rangeArray_length])
    refine ⟨_, _, ⟨h.next, 0, N, N⟩, hrun.trans (builtinRange_natural host addr N h hN),
      mapGet_mapSet_same _ _ _, ?_, ?_⟩
    · rw [helems _ (mapGet_mapSet_same _ _ _), rangeArray_length]
      simp
    · intro i hi
      rw [helems _ (mapGet_mapSet_same _ _ _)]
      exact ⟨_, rangeArray_get? h.next N i (by simpa using hi)⟩

theorem builtinRange_negative_aborts_witness :
    applyBuiltin Host.doubling "range" [some (.Integer 2 (-1))]
        ⟨3, [(0, ⟨[], none⟩)], [], [], [], []⟩ =
      .error (.panic "runtime error: makeslice: len out of range") ∧
    applyBuiltin Host.doubling "range" [some (.Integer 2 17592186044417)]
        ⟨3, [(0, ⟨[], none⟩)], [], [], [], []⟩ =
      .error (.panic "runtime error: makeslice: len out of range") ∧
    ∃ l h1 s,
      applyBuiltin Host.doubling "range" [some (.Integer 2 3)]
          ⟨3, [(0, ⟨[], none⟩)], [], [], [], []⟩ = .ok (some (.List l), h1) ∧
        mapGet h1.lists l = some s ∧ (h1.elements s).length = 3 :=
  ⟨builtinRange_negative_aborts.1 Host.doubling ⟨3, [(0, ⟨[], none⟩)], [], [], [], []⟩ 2 (-1)
      (by decide),
    builtinRange_negative_aborts.2.1 Host.doubling ⟨3, [(0, ⟨[], none⟩)], [], [], [], []⟩ 2
      17592186044417 (by decide),
    by
      obtain ⟨l, h1, s, e1, e2, e3, -⟩ := builtinRange_negative_aborts.2.2.1 Host.doubling
        ⟨3, [(0, ⟨[], none⟩)], [], [], [], []⟩ 2 3 (by decide) (by decide)
      exact ⟨l, h1, s, e1, e2, e3⟩⟩

/-! ## The builtins `min` and `max` -/

theorem ofInt64_exact (v : Int) (hv : -(2 ^ 53) ≤ v ∧ v ≤ 2 ^ 53) :
    Float64.ofInt64 v = .Finite (v : ℚ) := by
  have hround : ∀ n : Nat, n ≤ 2 ^ 53 → Float64.roundNat53 n = n := by
    intro n hn
    rcases Nat.lt_or_eq_of_le hn with h1 | h1
    · unfold Float64.roundNat53
      rw [if_pos h1]
    · subst h1
      decide!
  unfold Float64.ofInt64
  by_cases h0 : 0 ≤ v
  · rw [if_pos h0, hround v.toNat (by omega)]
    congr 1
    exact_mod_cast Int.toNat_of_nonneg h0
  · rw [if_neg h0, hround (-v).toNat (by omega)]
    have h1 : 0 ≤ -v := by omega
    have hw : ((-v).toNat : Int) = -v := Int.toNat_of_nonneg h1
    have hq : (((-v).toNat : Nat) : ℚ) = -(v : ℚ) := by
      have hc : ((((-v).toNat : Nat) : Int) : ℚ) = ((-v : Int) : ℚ) := by rw [hw]
      rw [Int.cast_natCast, Int.cast_neg] at hc
      exact hc
    rw [hq, neg_neg]

theorem Float64_min_Finite (a b : Int) :
    Float64.min (.Finite (a : ℚ)) (.Finite (b : ℚ)) = .Finite ((min a b : Int) : ℚ) := by
  rcases lt_trichotomy a b with h | h | h
  · have h1 : (a : ℚ) ≤ b := by exact_mod_cast h.le
    have h2 : ¬ (b : ℚ) ≤ a := by exact_mod_cast not_le.2 h
    simp [Float64.min, Float64.isNaN, Float64.lt, Float64.ext, ExtReal.le, h1, h2,
      min_eq_left h.le]
  · subst h
    simp [Float64.min, Float64.isNaN, Float64.lt, Float64.ext, ExtReal.le]
  · have h1 : (b : ℚ) ≤ a := by exact_mod_cast h.le
    have h2 : ¬ (a : ℚ) ≤ b := by exact_mod_cast not_le.2 h
    simp [Float64.min, Float64.isNaN, Float64.lt, Float64.ext, ExtReal.le, h1, h2,
      min_eq_right h.le]

theorem Float64_max_Finite (a b : Int) :
    Float64.max (.Finite (a : ℚ)) (.Finite (b : ℚ)) = .Finite ((max a b : Int) : ℚ) := by
  rcases lt_trichotomy a b with h | h | h
  · have h1 : (a : ℚ) ≤ b := by exact_mod_cast h.le
    have h2 : ¬ (b : ℚ) ≤ a := by exact_mod_cast not_le.2 h
    simp [Float64.max, Float64.isNaN, Float64.lt, Float64.ext, ExtReal.le, h1, h2,
      max_eq_right h.le]
  · subst h
    simp [Float64.max, Float64.isNaN, Float64.lt, Float64.ext, ExtReal.le]
  · have h1 : (b : ℚ) ≤ a := by exact_mod_cast h.le
    have h2 : ¬ (a : ℚ) ≤ b := by exact_mod_cast not_le.2 h
    simp [Float64.max, Float64.isNaN, Float64.lt, Float64.ext, ExtReal.le, h1, h2,
      max_eq_left h.le]

theorem toInt64_Finite (m : Int) (hm : isInt64 m) :
    Float64.toInt64 (.Finite (m : ℚ)) = .ok m := by
  simp [Float64.toInt64, Float64.truncate, hm]

theorem extremumLoop_integers (pick : Float64 → Float64 → Float64) (op : Int → Int → Int)
    (hpick : ∀ a b : Int,
      pick (.Finite (a : ℚ)) (.Finite (b : ℚ)) = .Finite ((op a b : Int) : ℚ)) :
    ∀ (vals : List (Nat × Int)) (m : Int),
      (∀ p ∈ vals, -(2 ^ 53) ≤ p.2 ∧ p.2 ≤ 2 ^ 53) →
      extremumLoop pick (vals.map (fun p => some (.Integer p.1 p.2))) (.Finite (m : ℚ)) false =
        .ok (some (.Finite (((vals.map Prod.snd).foldl op m : Int) : ℚ), false)) := by
  intro vals
  induction vals with
  | nil =>
    intro m _
    rfl
  | cons p rest ih =>
    intro m hb
    obtain ⟨a, v⟩ := p
    simp only [List.map_cons, extremumLoop, List.foldl_cons]
    rw [ofInt64_exact v (hb (a, v) (List.mem_cons_self _ _)), hpick]
    exact ih (op m v) (fun p hp => hb p (List.mem_cons_of_mem _ hp))

theorem foldl_min_spec (L : List Int) :
    ∀ m : Int, (L.foldl min m = m ∨ L.foldl min m ∈ L) ∧ L.foldl min m ≤ m ∧
      ∀ v ∈ L, L.foldl min m ≤ v := by
  induction L with
  | nil =>
    intro m
    simp
  | cons x rest ih =>
    intro m
    obtain ⟨h1, h2, h3⟩ := ih (min m x)
    simp only [List.foldl_cons, List.mem_cons]
    refine ⟨?_, ?_, ?_⟩
    · rcases h1 with h1 | h1
      · rcases min_choice m x with hc | hc
        · exact Or.inl (by rw [h1, hc])
        · exact Or.inr (Or.inl (by rw [h1, hc]))
      · exact Or.inr (Or.inr h1)
    · exact le_trans h2 (min_le_left _ _)
    · rintro v (rfl | hv)
      · exact le_trans h2 (min_le_right _ _)
      · exact h3 v hv

theorem foldl_max_spec (L : List Int) :
    ∀ m : Int, (L.foldl max m = m ∨ L.foldl max m ∈ L) ∧ m ≤ L.foldl max m ∧
      ∀ v ∈ L, v ≤ L.foldl max m := by
  induction L with
  | nil =>
    intro m
    simp
  | cons x rest ih =>
    intro m
    obtain ⟨h1, h2, h3⟩ := ih (max m x)
    simp only [List.foldl_cons, List.mem_cons]
    refine ⟨?_, ?_, ?_⟩
    · rcases h1 with h1 | h1
      · rcases max_choice m x with hc | hc
        · exact Or.inl (by rw [h1, hc])
        · exact Or.inr (Or.inl (by rw [h1, hc]))
      · exact Or.inr (Or.inr h1)
    · exact le_trans (le_max_left _ _) h2
    · rintro v (rfl | hv)
      · exact le_trans (le_max_right _ _) h2
      · exact h3 v hv

theorem builtinExtremum_integers (name : String) (pick : Float64 → Float64 → Float64)
    (op : Int → Int → Int)
    (hpick : ∀ a b : Int,
      pick (.Finite (a : ℚ)) (.Finite (b : ℚ)) = .Finite ((op a b : Int) : ℚ))
    (h : Heap) (addr : Nat) (s : Slice) (a0 : Nat) (v0 : Int) (rest : List (Nat × Int))
    (hl : mapGet h.lists addr = some s)
    (he : h.elements s = ((a0, v0) :: rest).map (fun p => some (.Integer p.1 p.2)))
    (hb : ∀ p ∈ (a0, v0) :: rest, -(2 ^ 53) ≤ p.2 ∧ p.2 ≤ 2 ^ 53)
    (hr : isInt64 ((((a0, v0) :: rest).map Prod.snd).foldl op v0)) :
    builtinExtremum name pick [some (.List addr)] h =
      .ok (some (.Integer h.next ((((a0, v0) :: rest).map Prod.snd).foldl op v0)), h.alloc) := by
  have hloop := extremumLoop_integers pick op hpick ((a0, v0) :: rest) v0 hb
  rw [List.map_cons] at he hloop
  simp only [builtinExtremum, hl, he]
  rw [ofInt64_exact v0 (hb (a0, v0) (List.mem_cons_self _ _))]
  simp only [hloop]
  rw [toInt64_Finite _ hr]

/-- C28, amended: let the List at `addr` have the elements `L`, all of them Integers of
absolute value at most `2^53`, and at least one.  `min(L)` returns an Integer whose value is an
element of `L` that no element is below, and `max(L)` one that no element is above.  The
inputs of `TestBuiltinMin` and `TestBuiltinMax` evaluate to 1 and to 3. -/
theorem builtinMin_exact_up_to_2_pow_53 (host : Host) (h : Heap) (addr : Nat) (s : Slice)
    (vals : List (Nat × Int)) (hl : mapGet h.lists addr = some s)
    (he : h.elements s = vals.map (fun p => some (.Integer p.1 p.2))) (hne : vals ≠ [])
    (hb : ∀ p ∈ vals, -(2 ^ 53) ≤ p.2 ∧ p.2 ≤ 2 ^ 53) :
    (∃ m, applyBuiltin host "min" [some (.List addr)] h =
        .ok (some (.Integer h.next m), h.alloc) ∧
      m ∈ vals.map Prod.snd ∧ ∀ v ∈ vals.map Prod.snd, m ≤ v) ∧
    (∃ m, applyBuiltin host "max" [some (.List addr)] h =
        .ok (some (.Integer h.next m), h.alloc) ∧
      m ∈ vals.map Prod.snd ∧ ∀ v ∈ vals.map Prod.snd, v ≤ m) ∧
    testEvalText Host.doubling (fun _ => none) 30 10
      [⟨token.IDENT, "min"⟩, ⟨token.LPAREN, "("⟩, ⟨token.LBRACKET, "["⟩, ⟨token.INT, "1"⟩,
        ⟨token.COMMA, ","⟩, ⟨token.INT, "2"⟩, ⟨token.COMMA, ","⟩, ⟨token.INT, "3"⟩,
        ⟨token.RBRACKET, "]"⟩, ⟨token.RPAREN, ")"⟩] = .ok (some (INTEGER_OBJ, "1")) ∧
    testEvalText Host.doubling (fun _ => none) 30 10
      [⟨token.IDENT, "max"⟩, ⟨token.LPAREN, "("⟩, ⟨token.LBRACKET, "["⟩, ⟨token.INT, "1"⟩,
        ⟨token.COMMA, ","⟩, ⟨token.INT, "2"⟩, ⟨token.COMMA, ","⟩, ⟨token.INT, "3"⟩,
        ⟨token.RBRACKET, "]"⟩, ⟨token.RPAREN, ")"⟩] = .ok (some (INTEGER_OBJ, "3")) := by
  cases vals with
  | nil => exact absurd rfl hne
  | cons p rest =>
    obtain ⟨a0, v0⟩ := p
    have hmem : ∀ m, m ∈ ((a0, v0) :: rest).map Prod.snd → isInt64 m := by
      intro m hm
      obtain ⟨p, hp, rfl⟩ := List.mem_map.1 hm
      have := hb p hp
      unfold isInt64
      omega
    refine ⟨?_, ?_, by decide!, by decide!⟩
    · obtain ⟨h1, -, h3⟩ := foldl_min_spec (((a0, v0) :: rest).map Prod.snd) v0
      have hin : (((a0, v0) :: rest).map Prod.snd).foldl min v0 ∈
          ((a0, v0) :: rest).map Prod.snd := by
        rcases h1 with h1 | h1
        · rw [h1]
          simp
        · exact h1
      refine ⟨_, ?_, hin, h3⟩
      have hrun := builtinExtremum_integers "min" Float64.min min Float64_min_Finite h addr s
        a0 v0 rest hl he hb (hmem _ hin)
      simpa [applyBuiltin, builtinMin] using hrun
    · obtain ⟨h1, -, h3⟩ := foldl_max_spec (((a0, v0) :: rest).map Prod.snd) v0
      have hin : (((a0, v0) :: rest).map Prod.snd).foldl max v0 ∈
          ((a0, v0) :: rest).map Prod.snd := by
        rcases h1 with h1 | h1
        · rw [h1]
          simp
        · exact h1
      refine ⟨_, ?_, hin, h3⟩
      have hrun := builtinExtremum_integers "max" Float64.max max Float64_max_Finite h addr s
        a0 v0 rest hl he hb (hmem _ hin)
      simpa [applyBuiltin, builtinMax] using hrun

theorem builtinMin_exact_up_to_2_pow_53_witness :
    ∃ m, applyBuiltin Host.doubling "min" [some (.List 5)]
        ⟨6, [(0, ⟨[], none⟩)],
          [(4, [some (.Integer 1 7), some (.Integer 2 (-2)), some (.Integer 3 3), none])],
          [(5, ⟨4, 0, 3, 4⟩)], [], []⟩ =
        .ok (some (.Integer 6 m),
          ⟨7, [(0, ⟨[], none⟩)],
            [(4, [some (.Integer 1 7), some (.Integer 2 (-2)), some (.Integer 3 3), none])],
            [(5, ⟨4, 0, 3, 4⟩)], [], []⟩) ∧
      m ∈ [(7 : Int), -2, 3] ∧ ∀ v ∈ [(7 : Int), -2, 3], m ≤ v :=
  (builtinMin_exact_up_to_2_pow_53 Host.doubling
    ⟨6, [(0, ⟨[], none⟩)],
      [(4, [some (.Integer 1 7), some (.Integer 2 (-2)), some (.Integer 3 3), none])],
      [(5, ⟨4, 0, 3, 4⟩)], [], []⟩ 5 ⟨4, 0, 3, 4⟩ [(1, 7), (2, -2), (3, 3)] rfl rfl
    (by decide) (by decide)).1

/-- C28, the counterexample: `min` and `max` compute in `float64`, and the conversion of the
Integer `2^53 + 1` rounds it to `2^53`: `min([9007199254740993])` and
`max([9007199254740993])` evaluate to 9007199254740992, which is no element of the list, and
`min([9007199254740993, 9007199254740994]) == 9007199254740993` to false although
9007199254740993 is the least element. -/
theorem builtinMin_rounds_above_2_pow_53 :
    testEvalText Host.doubling (fun _ => none) 30 10
      [⟨token.IDENT, "min"⟩, ⟨token.LPAREN, "("⟩, ⟨token.LBRACKET, "["⟩,
        ⟨token.INT, "9007199254740993"⟩, ⟨token.RBRACKET, "]"⟩, ⟨token.RPAREN, ")"⟩] =
      .ok (some (INTEGER_OBJ, "9007199254740992")) ∧
    testEvalText Host.doubling (fun _ => none) 30 10
      [⟨token.IDENT, "max"⟩, ⟨token.LPAREN, "("⟩, ⟨token.LBRACKET, "["⟩,
        ⟨token.INT, "9007199254740993"⟩, ⟨token.RBRACKET, "]"⟩, ⟨token.RPAREN, ")"⟩] =
      .ok (some (INTEGER_OBJ, "9007199254740992")) ∧
    testEvalText Host.doubling (fun _ => none) 30 10
      [⟨token.IDENT, "min"⟩, ⟨token.LPAREN, "("⟩, ⟨token.LBRACKET, "["⟩,
        ⟨token.INT, "9007199254740993"⟩, ⟨token.COMMA, ","⟩, ⟨token.INT, "9007199254740994"⟩,
        ⟨token.RBRACKET, "]"⟩, ⟨token.RPAREN, ")"⟩, ⟨token.EQ, "=="⟩,
        ⟨token.INT, "9007199254740993"⟩] = .ok (some (BOOLEAN_OBJ, "false")) ∧
    (9007199254740993 : Int) = 2 ^ 53 + 1 ∧ isInt64 9007199254740993 := by
  refine ⟨by decide!, by decide!, by decide!, by decide, by decide⟩

/-! ## The builtin `abs` -/

theorem abs_branch_free (n : Int) (hn : isInt64 n) :
    Int.xor n (n >>> 63) - (n >>> 63) = |n| := by
  unfold isInt64 at hn
  cases n with
  | ofNat m =>
    have hm : m < 2 ^ 63 := by
      have := hn.2
      simp only [Int.ofNat_eq_coe] at this
      omega
    have hs : (Int.ofNat m) >>> 63 = 0 := by
      show Int.ofNat (m >>> 63) = 0
      rw [Nat.shiftRight_eq_div_pow, Nat.div_eq_of_lt hm]
      rfl
    rw [hs]
    show Int.ofNat (m ^^^ 0) - 0 = |Int.ofNat m|
    simp
  | negSucc m =>
    have hm : m < 2 ^ 63 := by
      have := hn.1
      simp only [Int.negSucc_eq] at this
      omega
    have hs : (Int.negSucc m) >>> 63 = Int.negSucc 0 := by
      show Int.negSucc (m >>> 63) = Int.negSucc 0
      rw [Nat.shiftRight_eq_div_pow, Nat.div_eq_of_lt hm]
    rw [hs]
    show Int.ofNat (m ^^^ 0) - Int.negSucc 0 = |Int.negSucc m|
    rw [abs_of_neg (Int.negSucc_lt_zero m)]
    simp [Int.negSucc_eq]

/-- C29, amended: for every Integer `n` of `int64` the call `abs(n)` returns the Integer `|n|`
reduced to 64 bits, the subtraction of `(n ^ (n >> 63)) - (n >> 63)` being that of `int64`.
For `n` other than `-2^63` this is `|n|` itself: `n` when `n >= 0`, `-n` when `n < 0`, and
never negative.  The input `abs(-1)` of `TestBuiltinAbs` evaluates to 1. -/
theorem builtinAbs_integer (host : Host) (h : Heap) (addr : Nat) (n : Int) (hn : isInt64 n) :
    applyBuiltin host "abs" [some (.Integer addr n)] h =
      .ok (some (.Integer h.next (wrap64 |n|)), h.alloc) ∧
    (n ≠ -(2 ^ 63) →
      wrap64 |n| = |n| ∧ 0 ≤ wrap64 |n| ∧ (0 ≤ n → wrap64 |n| = n) ∧
        (n < 0 → wrap64 |n| = -n)) ∧
    testEvalText Host.doubling (fun _ => none) 30 10
      [⟨token.IDENT, "abs"⟩, ⟨token.LPAREN, "("⟩, ⟨token.MINUS, "-"⟩, ⟨token.INT, "1"⟩,
        ⟨token.RPAREN, ")"⟩] = .ok (some (INTEGER_OBJ, "1")) := by
  refine ⟨?_, ?_, by decide!⟩
  · simp [applyBuiltin, builtinAbs, abs_branch_free n hn]
  · intro hne
    have hr : isInt64 |n| := by
      unfold isInt64 at hn ⊢
      rcases abs_cases n with ⟨h1, _⟩ | ⟨h1, _⟩ <;> rw [h1] <;> omega
    rw [wrap64_of_isInt64 hr]
    exact ⟨rfl, abs_nonneg n, fun h0 => abs_of_nonneg h0, fun h0 => abs_of_neg h0⟩

theorem builtinAbs_integer_witness :
    isInt64 (-7) ∧
    applyBuiltin Host.doubling "abs" [some (.Integer 2 (-7))]
        ⟨3, [(0, ⟨[], none⟩)], [], [], [], []⟩ =
      .ok (some (.Integer 3 (wrap64 |(-7)|)), ⟨4, [(0, ⟨[], none⟩)], [], [], [], []⟩) ∧
    wrap64 |(-7)| = -(-7) :=
  ⟨by decide,
    (builtinAbs_integer Host.doubling ⟨3, [(0, ⟨[], none⟩)], [], [], [], []⟩ 2 (-7)
      (by decide)).1,
    ((builtinAbs_integer Host.doubling ⟨3, [(0, ⟨[], none⟩)], [], [], [], []⟩ 2 (-7)
      (by decide)).2.1 (by decide)).2.2.2 (by decide)⟩

/-- C29, the counterexample: `abs` of the Integer `-2^63` is `-2^63`, a negative Integer.  The
input `abs(-9223372036854775807 - 1)` evaluates to -9223372036854775808, and
`abs(-9223372036854775807 - 1) < 0` to true. -/
theorem builtinAbs_of_least_integer_is_negative :
    (∀ (host : Host) (h : Heap) (addr : Nat),
      applyBuiltin host "abs" [some (.Integer addr (-9223372036854775808))] h =
        .ok (some (.Integer h.next (-9223372036854775808)), h.alloc)) ∧
    isInt64 (-9223372036854775808) ∧ (-9223372036854775808 : Int) = -(2 ^ 63) ∧
    testEvalText Host.doubling (fun _ => none) 30 10
      [⟨token.IDENT, "abs"⟩, ⟨token.LPAREN, "("⟩, ⟨token.MINUS, "-"⟩,
        ⟨token.INT, "9223372036854775807"⟩, ⟨token.MINUS, "-"⟩, ⟨token.INT, "1"⟩,
        ⟨token.RPAREN, ")"⟩] = .ok (some (INTEGER_OBJ, "-9223372036854775808")) ∧
    testEvalText Host.doubling (fun _ => none) 30 10
      [⟨token.IDENT, "abs"⟩, ⟨token.LPAREN, "("⟩, ⟨token.MINUS, "-"⟩,
        ⟨token.INT, "9223372036854775807"⟩, ⟨token.MINUS, "-"⟩, ⟨token.INT, "1"⟩,
        ⟨token.RPAREN, ")"⟩, ⟨token.LT, "<"⟩, ⟨token.INT, "0"⟩] =
      .ok (some (BOOLEAN_OBJ, "true")) :=
  ⟨fun _ _ _ => rfl, by decide, by decide, by decide!, by decide!⟩

/-! ## The builtin `reversed` -/

theorem reversedArray_segment (a : List (Option Object)) (offset len : Nat)
    (hb : offset + len ≤ a.length) :
    ((a.take offset ++ ((a.drop offset).take len).reverse ++
        a.drop (offset + len)).drop offset).take len = ((a.drop offset).take len).reverse ∧
      (a.take offset ++ ((a.drop offset).take len).reverse ++ a.drop (offset + len)).length =
        a.length := by
  have h1 : (a.take offset).length = offset := by
    rw [List.length_take]
    omega
  have h2 : (((a.drop offset).take len).reverse).length = len := by
    rw [List.length_reverse, List.length_take, List.length_drop]
    omega
  constructor
  · rw [List.append_assoc, List.drop_left' h1, List.take_left' h2]
  · simp only [List.length_append, h1, h2, List.length_drop]
    omega

theorem builtinReversed_step (h : Heap) (addr : Nat) (s : Slice) (a : List (Option Object))
    (hl : mapGet h.lists addr = some s) (ha : mapGet h.arrays s.array = some a)
    (hb : s.offset + s.len ≤ a.length) (hlen : 0 < s.len) :
    ∃ h1 a1,
      builtinReversed [some (.List addr)] h = .ok (some (.List h.next), h1) ∧
      mapGet h1.lists h.next = some s ∧ mapGet h1.lists addr = some s ∧
      mapGet h1.arrays s.array = some a1 ∧ s.offset + s.len ≤ a1.length ∧
      h1.elements s = (h.elements s).reverse := by
  obtain ⟨e1, e2⟩ := reversedArray_segment a s.offset s.len hb
  refine ⟨{ h with
      next := h.next + 1
      arrays := mapSet h.arrays s.array
        (a.take s.offset ++ ((a.drop s.offset).take s.len).reverse ++
          a.drop (s.offset + s.len))
      lists := mapSet h.lists h.next s }, _, ?_, mapGet_mapSet_same _ _ _, ?_,
    mapGet_mapSet_same _ _ _, ?_, ?_⟩
  · have hne : s.len ≠ 0 := by omega
    simp [builtinReversed, hl, ha, hne]
  · by_cases hq : h.next = addr
    · subst hq
      exact mapGet_mapSet_same _ _ _
    · show mapGet (mapSet h.lists h.next s) addr = some s
      rw [mapGet_mapSet_other _ _ _ _ hq, hl]
  · rw [e2]
    exact hb
  · simp only [Heap.elements, mapGet_mapSet_same, ha]
    exact e1

/-- C30: let the List at `addr` have the slice `s` as its elements, `L = h.elements s`.  When
`L` is not empty, `reversed(L)` returns a new List with the same slice, and after the call the
elements of that slice, those of `L` and of the result alike, are the elements of `L` before
the call in the reverse order: the list is reversed in place.  A second call restores the
order of `L`.  When `L` is empty the call returns `L` and leaves the heap unchanged. -/
theorem builtinReversed_in_place (host : Host) (h : Heap) (addr : Nat) (s : Slice)
    (a : List (Option Object)) (hl : mapGet h.lists addr = some s)
    (ha : mapGet h.arrays s.array = some a) (hb : s.offset + s.len ≤ a.length) :
    (s.len = 0 →
      applyBuiltin host "reversed" [some (.List addr)] h = .ok (some (.List addr), h)) ∧
    (0 < s.len →
      ∃ h1,
        applyBuiltin host "reversed" [some (.List addr)] h = .ok (some (.List h.next), h1) ∧
        mapGet h1.lists h.next = some s ∧ mapGet h1.lists addr = some s ∧
        h1.elements s = (h.elements s).reverse ∧
        ∃ h2,
          applyBuiltin host "reversed" [some (.List addr)] h1 =
            .ok (some (.List h1.next), h2) ∧
          mapGet h2.lists addr = some s ∧ h2.elements s = h.elements s) ∧
    testEvalText Host.doubling (fun _ => none) 30 10
      [⟨token.IDENT, "l"⟩, ⟨token.ASSIGN, "="⟩, ⟨token.LBRACKET, "["⟩, ⟨token.INT, "1"⟩,
        ⟨token.COMMA, ","⟩, ⟨token.INT, "2"⟩, ⟨token.COMMA, ","⟩, ⟨token.INT, "3"⟩,
        ⟨token.RBRACKET, "]"⟩, ⟨token.NEWLINE, "\n"⟩, ⟨token.IDENT, "r"⟩, ⟨token.ASSIGN, "="⟩,
        ⟨token.IDENT, "reversed"⟩, ⟨token.LPAREN, "("⟩, ⟨token.IDENT, "l"⟩, ⟨token.RPAREN, ")"⟩,
        ⟨token.NEWLINE, "\n"⟩, ⟨token.RETURN, "return"⟩, ⟨token.IDENT, "r"⟩,
        ⟨token.LBRACKET, "["⟩, ⟨token.INT, "0"⟩, ⟨token.RBRACKET, "]"⟩] =
      .ok (some (INTEGER_OBJ, "3")) ∧
    testEvalText Host.doubling (fun _ => none) 30 10
      [⟨token.IDENT, "l"⟩, ⟨token.ASSIGN, "="⟩, ⟨token.LBRACKET, "["⟩, ⟨token.INT, "1"⟩,
        ⟨token.COMMA, ","⟩, ⟨token.INT, "2"⟩, ⟨token.COMMA, ","⟩, ⟨token.INT, "3"⟩,
        ⟨token.RBRACKET, "]"⟩, ⟨token.NEWLINE, "\n"⟩, ⟨token.IDENT, "r"⟩, ⟨token.ASSIGN, "="⟩,
        ⟨token.IDENT, "reversed"⟩, ⟨token.LPAREN, "("⟩, ⟨token.IDENT, "l"⟩, ⟨token.RPAREN, ")"⟩,
        ⟨token.NEWLINE, "\n"⟩, ⟨token.RETURN, "return"⟩, ⟨token.IDENT, "l"⟩,
        ⟨token.LBRACKET, "["⟩, ⟨token.INT, "0"⟩, ⟨token.RBRACKET, "]"⟩] =
      .ok (some (INTEGER_OBJ, "3")) ∧
    testEvalText Host.doubling (fun _ => none) 30 10
      [⟨token.IDENT, "l"⟩, ⟨token.ASSIGN, "="⟩, ⟨token.LBRACKET, "["⟩, ⟨token.INT, "1"⟩,
        ⟨token.COMMA, ","⟩, ⟨token.INT, "2"⟩, ⟨token.COMMA, ","⟩, ⟨token.INT, "3"⟩,
        ⟨token.RBRACKET, "]"⟩, ⟨token.NEWLINE, "\n"⟩, ⟨token.IDENT, "r"⟩, ⟨token.ASSIGN, "="⟩,
        ⟨token.IDENT, "reversed"⟩, ⟨token.LPAREN, "("⟩, ⟨token.IDENT, "reversed"⟩,
        ⟨token.LPAREN, "("⟩, ⟨token.IDENT, "l"⟩, ⟨token.RPAREN, ")"⟩, ⟨token.RPAREN, ")"⟩,
        ⟨token.NEWLINE, "\n"⟩, ⟨token.RETURN, "return"⟩, ⟨token.IDENT, "l"⟩,
        ⟨token.LBRACKET, "["⟩, ⟨token.INT, "0"⟩, ⟨token.RBRACKET, "]"⟩] =
      .ok (some (INTEGER_OBJ, "1")) := by
  have happ : ∀ h0 : Heap, applyBuiltin host "reversed" [some (.List addr)] h0 =
      builtinReversed [some (.List addr)] h0 := by
    intro h0
    simp [applyBuiltin]
  refine ⟨?_, ?_, by decide!, by decide!, by decide!⟩
  · intro h0
    rw [happ]
    simp [builtinReversed, hl, h0]
  · intro hlen
    obtain ⟨h1, a1, e1, e2, e3, e4, e5, e6⟩ := builtinReversed_step h addr s a hl ha hb hlen
    obtain ⟨h2, a2, f1, -, f3, -, -, f6⟩ := builtinReversed_step h1 addr s a1 e3 e4 e5 hlen
    refine ⟨h1, (happ h).trans e1, e2, e3, e6, h2, (happ h1).trans f1, f3, ?_⟩
    rw [f6, e6, List.reverse_reverse]

theorem builtinReversed_in_place_witness :
    ∃ h1,
      applyBuiltin Host.doubling "reversed" [some (.List 5)]
          ⟨6, [(0, ⟨[], none⟩)],
            [(4, [some (.Integer 1 1), some (.Integer 2 2), some (.Integer 3 3), none])],
            [(5, ⟨4, 0, 3, 4⟩)], [], []⟩ = .ok (some (.List 6), h1) ∧
      mapGet h1.lists 6 = some ⟨4, 0, 3, 4⟩ ∧ mapGet h1.lists 5 = some ⟨4, 0, 3, 4⟩ ∧
      h1.elements ⟨4, 0, 3, 4⟩ =
        [some (.Integer 3 3), some (.Integer 2 2), some (.Integer 1 1)] := by
  obtain ⟨h1, e1, e2, e3, e4, -⟩ := (builtinReversed_in_place Host.doubling
    ⟨6, [(0, ⟨[], none⟩)],
      [(4, [some (.Integer 1 1), some (.Integer 2 2), some (.Integer 3 3), none])],
      [(5, ⟨4, 0, 3, 4⟩)], [], []⟩ 5 ⟨4, 0, 3, 4⟩
    [some (.Integer 1 1), some (.Integer 2 2), some (.Integer 3 3), none] rfl rfl
    (by decide)).2.1 (by decide)
  exact ⟨h1, e1, e2, e3, e4.trans rfl⟩

end evaluator

end Simpyl

/-! # Theorems about the methods, the faults of the evaluator, and the parser -/

namespace Simpyl

namespace evaluator

open object

/-! ## Method names that a table lacks -/

/-- C33, the divergence: for a receiver of type List, String, Dict or Set and an identifier
that is no key of the method table of that type, `applyObjectMethod` does not return an Error:
the lookup yields the nil pointer and the read of its field `Fn` aborts the run.  The Error
`not a function: TYPE` is what a receiver of another type gets.  End to end, each of
`[1].foo()`, `"a".foo()`, `{1: 1}.foo()` and `set(1).foo()` aborts, while `x = 1` / `x.foo()`
evaluates to the Error `not a function: INTEGER`. -/
theorem applyObjectMethod_missing_method_aborts :
    (∀ (host : Host) (tok : token.Token) (name : String) (args : List (Option Object))
        (h : Heap) (addr : Nat),
      listMethods name = none →
      applyObjectMethod host (some (.List addr)) (some (.Identifier tok name)) args h =
        .error nilDereference) ∧
    (∀ (host : Host) (tok : token.Token) (name : String) (args : List (Option Object))
        (h : Heap) (addr : Nat) (value : String),
      stringMethods name = none →
      applyObjectMethod host (some (.String addr value)) (some (.Identifier tok name)) args h =
        .error nilDereference) ∧
    (∀ (host : Host) (tok : token.Token) (name : String) (args : List (Option Object))
        (h : Heap) (addr : Nat),
      dictMethods name = none →
      applyObjectMethod host (some (.Dict addr)) (some (.Identifier tok name)) args h =
        .error nilDereference) ∧
    (∀ (host : Host) (tok : token.Token) (name : String) (args : List (Option Object))
        (h : Heap) (addr : Nat),
      setMethods host name = none →
      applyObjectMethod host (some (.Set addr)) (some (.Identifier tok name)) args h =
        .error nilDereference) ∧
    (∀ (host : Host) (tok : token.Token) (name : String) (args : List (Option Object))
        (h : Heap) (addr : Nat) (value : Int),
      applyObjectMethod host (some (.Integer addr value)) (some (.Identifier tok name)) args h =
        .ok (some (newError h.next "not a function: INTEGER"), h.alloc)) ∧
    testEvalText Host.doubling (fun _ => none) 30 10
      [⟨token.LBRACKET, "["⟩, ⟨token.INT, "1"⟩, ⟨token.RBRACKET, "]"⟩, ⟨token.DOT, "."⟩,
        ⟨token.IDENT, "foo"⟩, ⟨token.LPAREN, "("⟩, ⟨token.RPAREN, ")"⟩] =
      .error nilDereference ∧
    testEvalText Host.doubling (fun _ => none) 30 10
      [⟨token.STRING, "a"⟩, ⟨token.DOT, "."⟩, ⟨token.IDENT, "foo"⟩, ⟨token.LPAREN, "("⟩,
        ⟨token.RPAREN, ")"⟩] =
      .error nilDereference ∧
    testEvalText Host.doubling (fun _ => none) 30 10
      [⟨token.LBRACE, "\x7b"⟩, ⟨token.INT, "1"⟩, ⟨token.COLON, ":"⟩, ⟨token.INT, "1"⟩,
        ⟨token.RBRACE, "\x7d"⟩, ⟨token.DOT, "."⟩, ⟨token.IDENT, "foo"⟩, ⟨token.LPAREN, "("⟩,
        ⟨token.RPAREN, ")"⟩] =
      .error nilDereference ∧
    testEvalText Host.doubling (fun _ => none) 30 10
      [⟨token.IDENT, "set"⟩, ⟨token.LPAREN, "("⟩, ⟨token.INT, "1"⟩, ⟨token.RPAREN, ")"⟩,
        ⟨token.DOT, "."⟩, ⟨token.IDENT, "foo"⟩, ⟨token.LPAREN, "("⟩, ⟨token.RPAREN, ")"⟩] =
      .error nilDereference ∧
    testEvalText Host.doubling (fun _ => none) 30 10
      [⟨token.IDENT, "x"⟩, ⟨token.ASSIGN, "="⟩, ⟨token.INT, "1"⟩, ⟨token.NEWLINE, "\n"⟩,
        ⟨token.IDENT, "x"⟩, ⟨token.DOT, "."⟩, ⟨token.IDENT, "foo"⟩, ⟨token.LPAREN, "("⟩,
        ⟨token.RPAREN, ")"⟩] =
      .ok (some (ERROR_OBJ, "ERROR: not a function: INTEGER")) := by
  refine ⟨?_, ?_, ?_, ?_, ?_, by decide!, by decide!, by decide!, by decide!, by decide!⟩
  · intro host tok name args h addr hname
    simp [applyObjectMethod, callObjectMethod, hname]
  · intro host tok name args h addr value hname
    simp [applyObjectMethod, callObjectMethod, hname]
  · intro host tok name args h addr hname
    simp [applyObjectMethod, callObjectMethod, hname]
  · intro host tok name args h addr hname
    simp [applyObjectMethod, callObjectMethod, hname]
  · intro host tok name args h addr value
    rfl

theorem applyObjectMethod_missing_method_aborts_witness :
    listMethods "foo" = none ∧
    applyObjectMethod Host.doubling (some (.List 3)) (some (.Identifier ⟨token.IDENT, "foo"⟩ "foo"))
        [] Heap.empty = .error nilDereference ∧
    stringMethods "foo" = none ∧
    applyObjectMethod Host.doubling (some (.String 3 "a"))
        (some (.Identifier ⟨token.IDENT, "foo"⟩ "foo")) [] Heap.empty = .error nilDereference ∧
    dictMethods "foo" = none ∧
    applyObjectMethod Host.doubling (some (.Dict 3)) (some (.Identifier ⟨token.IDENT, "foo"⟩ "foo"))
        [] Heap.empty = .error nilDereference ∧
    setMethods Host.doubling "foo" = none ∧
    applyObjectMethod Host.doubling (some (.Set 3)) (some (.Identifier ⟨token.IDENT, "foo"⟩ "foo"))
        [] Heap.empty = .error nilDereference :=
  ⟨rfl,
    applyObjectMethod_missing_method_aborts.1 Host.doubling ⟨token.IDENT, "foo"⟩ "foo" []
      Heap.empty 3 rfl,
    rfl,
    applyObjectMethod_missing_method_aborts.2.1 Host.doubling ⟨token.IDENT, "foo"⟩ "foo" []
      Heap.empty 3 "a" rfl,
    rfl,
    applyObjectMethod_missing_method_aborts.2.2.1 Host.doubling ⟨token.IDENT, "foo"⟩ "foo" []
      Heap.empty 3 rfl,
    rfl,
    applyObjectMethod_missing_method_aborts.2.2.2.1 Host.doubling ⟨token.IDENT, "foo"⟩ "foo" []
      Heap.empty 3 rfl⟩

/-! ## Integer division by zero -/

/-- C34, the divergence: `evalIntegerInfixExpression` does not return for the operator `/`
and the right operand 0, whatever the left operand: the division of the two `int64`s aborts
the run.  For every other pair of an operator and Integer operands it returns a value, an
Error for an operator it does not know.  End to end, `1 / 0` aborts, and so does `0 / 0`. -/
theorem evalIntegerInfixExpression_division_by_zero_aborts :
    (∀ (fresh p q : Nat) (a : Int),
      evalIntegerInfixExpression fresh "/" (.Integer p a) (.Integer q 0) =
        .error (.panic "runtime error: integer divide by zero")) ∧
    (∀ (fa : FloatArith) (fresh p q : Nat) (a : Int),
      evalInfixExpression fa fresh "/" (.Integer p a) (.Integer q 0) =
        .error (.panic "runtime error: integer divide by zero")) ∧
    (∀ (fresh p q : Nat) (operator : String) (a b : Int), operator ≠ "/" ∨ b ≠ 0 →
      ∃ v, evalIntegerInfixExpression fresh operator (.Integer p a) (.Integer q b) = .ok v) ∧
    testEvalText Host.doubling (fun _ => none) 30 10
      [⟨token.INT, "1"⟩, ⟨token.SLASH, "/"⟩, ⟨token.INT, "0"⟩] =
      .error (.panic "runtime error: integer divide by zero") ∧
    testEvalText Host.doubling (fun _ => none) 30 10
      [⟨token.INT, "0"⟩, ⟨token.SLASH, "/"⟩, ⟨token.INT, "0"⟩] =
      .error (.panic "runtime error: integer divide by zero") := by
  refine ⟨fun _ _ _ _ => rfl, fun _ _ _ _ _ => rfl, ?_, by decide!, by decide!⟩
  intro fresh p q operator a b hne
  unfold evalIntegerInfixExpression
  simp only
  split_ifs with h1 h2 h3 h4 h5 <;> first
    | exact ⟨_, rfl⟩
    | (rcases hne with hne | hne
       · exact absurd (by assumption) hne
       · exact absurd (by assumption) hne)

theorem evalIntegerInfixExpression_division_by_zero_aborts_witness :
    (("/" : String) ≠ "/" ∨ (2 : Int) ≠ 0) ∧
    ∃ v, evalIntegerInfixExpression 7 "/" (.Integer 1 6) (.Integer 2 2) = .ok v :=
  ⟨by decide,
    evalIntegerInfixExpression_division_by_zero_aborts.2.2.1 7 1 2 "/" 6 2 (by decide)⟩

/-! ## The method `pop` of a List -/

theorem popped_segment {α : Type} (a : List α) (off len p : Nat) (hp : p < len)
    (hb : off + len ≤ a.length) :
    ((a.take (off + p) ++ (a.drop (off + p + 1)).take (len - 1 - p) ++
        a.drop (off + len - 1)).drop off).take (len - 1) =
      ((a.drop off).take len).eraseIdx p := by
  apply List.ext_getElem?
  intro k
  rw [List.getElem?_eraseIdx]
  simp only [List.getElem?_take, List.getElem?_drop, List.getElem?_append, List.length_take,
    List.length_append, List.length_drop]
  by_cases hk : k < len - 1
  · by_cases hkp : k < p
    · have h1 : off + k < min (off + p) a.length := by omega
      have h2 : off + k <
          min (off + p) a.length + min (len - 1 - p) (a.length - (off + p + 1)) := by
        omega
      have h3 : k < len := by omega
      simp [hk, hkp, h1, h2, h3]
    · have h1 : ¬ off + k < min (off + p) a.length := by omega
      have h2 : off + k <
          min (off + p) a.length + min (len - 1 - p) (a.length - (off + p + 1)) := by
        omega
      have h3 : k + 1 < len := by omega
      have h4 : off + k - min (off + p) a.length < len - 1 - p := by omega
      have h5 : off + p + 1 + (off + k - min (off + p) a.length) = off + (k + 1) := by omega
      simp [hk, hkp, h1, h2, h3, h4, h5]
  · have h3 : ¬ k + 1 < len := by omega
    have h4 : ¬ k < p := by omega
    simp [hk, h3, h4]

theorem listPopAt_in_range (h : Heap) (addr : Nat) (s : Slice) (a : List (Option Object))
    (args : List (Option Object)) (i : Int) (hl : mapGet h.lists addr = some s)
    (ha : mapGet h.arrays s.array = some a) (hb : s.offset + s.len ≤ a.length)
    (hlo : -(s.len : Int) ≤ i) (hhi : i < s.len) :
    ∃ r h1 s1,
      listPopAt (.List addr) args i h = .ok (r, h1) ∧
      (h.elements s).get? (normalizeIndex s.len i).toNat = some r ∧
      mapGet h1.lists addr = some s1 ∧ s1.len = s.len - 1 ∧
      h1.elements s1 = (h.elements s).eraseIdx (normalizeIndex s.len i).toNat ∧
      h1.next = h.next := by
  have hp : (normalizeIndex s.len i).toNat < s.len := by
    unfold normalizeIndex
    split_ifs <;> omega
  have hind : (if i < 0 then (s.len : Int) + i else i) =
      (((normalizeIndex s.len i).toNat : Nat) : Int) := by
    unfold normalizeIndex
    split_ifs <;> omega
  obtain ⟨r, hr1, hr2⟩ := Heap_elements_get? h s a ha hb _ hp
  have hr3 : a.get? (s.offset + (normalizeIndex s.len i).toNat) = some r := by
    simpa [Heap.nth, ha] using hr2
  refine ⟨r,
    { h with
      arrays := mapSet h.arrays s.array
        (a.take (s.offset + (normalizeIndex s.len i).toNat) ++
          (a.drop (s.offset + (normalizeIndex s.len i).toNat + 1)).take
            (s.len - 1 - (normalizeIndex s.len i).toNat) ++
          a.drop (s.offset + s.len - 1))
      lists := mapSet h.lists addr ⟨s.array, s.offset, s.len - 1, s.cap⟩ },
    ⟨s.array, s.offset, s.len - 1, s.cap⟩, ?_, hr1, mapGet_mapSet_same _ _ _, rfl, ?_, rfl⟩
  · simp only [listPopAt, hl, ha, hind, Int.toNat_ofNat, hr3]
    have h1 : ¬ (((normalizeIndex s.len i).toNat : Nat) : Int) ≥ (s.len : Int) := by omega
    have h2 : ¬ (((normalizeIndex s.len i).toNat : Nat) : Int) < 0 := by omega
    simp only [h1, h2, if_false]
  · simp only [Heap.elements, mapGet_mapSet_same, ha]
    exact popped_segment a s.offset s.len _ hp hb

/-- C31: let the List at `addr` have the slice `s` as its elements, `L = h.elements s`, of
length `n = s.len`, and let `-n <= i < n`.  The call `L.pop(i)` returns the element of `L` at
the normalised position `p` (`i`, or `n + i` for a negative `i`), and afterwards the list
holds `L` without the position `p`, in the original order, its length being `n - 1`.  The
call `L.pop()` is the call `L.pop(-1)`, whose position is `n - 1`, the last one.  End to end,
on `l = [1, 2, 3]` the call `l.pop(0)` has the value 1 and leaves `[2, 3]`, `l.pop(-3)` leaves
`[2, 3]`, and `l.pop()` has the value 3 and leaves `[1, 2]`. -/
theorem listPop_in_range (host : Host) (tok : token.Token) (h : Heap) (addr ia : Nat)
    (s : Slice) (a : List (Option Object)) (i : Int) (hl : mapGet h.lists addr = some s)
    (ha : mapGet h.arrays s.array = some a) (hb : s.offset + s.len ≤ a.length)
    (hlo : -(s.len : Int) ≤ i) (hhi : i < s.len) :
    (∃ r h1 s1,
      applyObjectMethod host (some (.List addr)) (some (.Identifier tok "pop"))
        [some (.Integer ia i)] h = .ok (r, h1) ∧
      (h.elements s).get? (normalizeIndex s.len i).toNat = some r ∧
      mapGet h1.lists addr = some s1 ∧ s1.len = s.len - 1 ∧
      h1.elements s1 = (h.elements s).eraseIdx (normalizeIndex s.len i).toNat ∧
      (h1.elements s1).length = s.len - 1) ∧
    applyObjectMethod host (some (.List addr)) (some (.Identifier tok "pop")) [] h =
      applyObjectMethod host (some (.List addr)) (some (.Identifier tok "pop"))
        [some (.Integer ia (-1))] h ∧
    (normalizeIndex s.len (-1)).toNat = s.len - 1 ∧
    testEvalText Host.doubling (fun _ => none) 30 10
      [⟨token.IDENT, "l"⟩, ⟨token.ASSIGN, "="⟩, ⟨token.LBRACKET, "["⟩, ⟨token.INT, "1"⟩,
        ⟨token.COMMA, ","⟩, ⟨token.INT, "2"⟩, ⟨token.COMMA, ","⟩, ⟨token.INT, "3"⟩,
        ⟨token.RBRACKET, "]"⟩, ⟨token.NEWLINE, "\n"⟩, ⟨token.IDENT, "l"⟩, ⟨token.DOT, "."⟩,
        ⟨token.IDENT, "pop"⟩, ⟨token.LPAREN, "("⟩, ⟨token.INT, "0"⟩, ⟨token.RPAREN, ")"⟩] =
      .ok (some (INTEGER_OBJ, "1")) ∧
    testEvalElements Host.doubling (fun _ => none) 30 10
      [⟨token.IDENT, "l"⟩, ⟨token.ASSIGN, "="⟩, ⟨token.LBRACKET, "["⟩, ⟨token.INT, "1"⟩,
        ⟨token.COMMA, ","⟩, ⟨token.INT, "2"⟩, ⟨token.COMMA, ","⟩, ⟨token.INT, "3"⟩,
        ⟨token.RBRACKET, "]"⟩, ⟨token.NEWLINE, "\n"⟩, ⟨token.IDENT, "l"⟩, ⟨token.DOT, "."⟩,
        ⟨token.IDENT, "pop"⟩, ⟨token.LPAREN, "("⟩, ⟨token.INT, "0"⟩, ⟨token.RPAREN, ")"⟩,
        ⟨token.NEWLINE, "\n"⟩, ⟨token.IDENT, "l"⟩] =
      .ok (some [some (INTEGER_OBJ, "2"), some (INTEGER_OBJ, "3")]) ∧
    testEvalElements Host.doubling (fun _ => none) 30 10
      [⟨token.IDENT, "l"⟩, ⟨token.ASSIGN, "="⟩, ⟨token.LBRACKET, "["⟩, ⟨token.INT, "1"⟩,
        ⟨token.COMMA, ","⟩, ⟨token.INT, "2"⟩, ⟨token.COMMA, ","⟩, ⟨token.INT, "3"⟩,
        ⟨token.RBRACKET, "]"⟩, ⟨token.NEWLINE, "\n"⟩, ⟨token.IDENT, "l"⟩, ⟨token.DOT, "."⟩,
        ⟨token.IDENT, "pop"⟩, ⟨token.LPAREN, "("⟩, ⟨token.MINUS, "-"⟩, ⟨token.INT, "3"⟩,
        ⟨token.RPAREN, ")"⟩, ⟨token.NEWLINE, "\n"⟩, ⟨token.IDENT, "l"⟩] =
      .ok (some [some (INTEGER_OBJ, "2"), some (INTEGER_OBJ, "3")]) ∧
    testEvalText Host.doubling (fun _ => none) 30 10
      [⟨token.IDENT, "l"⟩, ⟨token.ASSIGN, "="⟩, ⟨token.LBRACKET, "["⟩, ⟨token.INT, "1"⟩,
        ⟨token.COMMA, ","⟩, ⟨token.INT, "2"⟩, ⟨token.COMMA, ","⟩, ⟨token.INT, "3"⟩,
        ⟨token.RBRACKET, "]"⟩, ⟨token.NEWLINE, "\n"⟩, ⟨token.IDENT, "l"⟩, ⟨token.DOT, "."⟩,
        ⟨token.IDENT, "pop"⟩, ⟨token.LPAREN, "("⟩, ⟨token.RPAREN, ")"⟩] =
      .ok (some (INTEGER_OBJ, "3")) ∧
    testEvalElements Host.doubling (fun _ => none) 30 10
      [⟨token.IDENT, "l"⟩, ⟨token.ASSIGN, "="⟩, ⟨token.LBRACKET, "["⟩, ⟨token.INT, "1"⟩,
        ⟨token.COMMA, ","⟩, ⟨token.INT, "2"⟩, ⟨token.COMMA, ","⟩, ⟨token.INT, "3"⟩,
        ⟨token.RBRACKET, "]"⟩, ⟨token.NEWLINE, "\n"⟩, ⟨token.IDENT, "l"⟩, ⟨token.DOT, "."⟩,
        ⟨token.IDENT, "pop"⟩, ⟨token.LPAREN, "("⟩, ⟨token.RPAREN, ")"⟩, ⟨token.NEWLINE, "\n"⟩,
        ⟨token.IDENT, "l"⟩] =
      .ok (some [some (INTEGER_OBJ, "1"), some (INTEGER_OBJ, "2")]) := by
  refine ⟨?_, rfl, ?_, by decide!, by decide!, by decide!, by decide!, by decide!⟩
  · obtain ⟨r, h1, s1, hrun, hr, hs1, hlen, hel, -⟩ :=
      listPopAt_in_range h addr s a [some (.Integer ia i)] i hl ha hb hlo hhi
    refine ⟨r, h1, s1, hrun, hr, hs1, hlen, hel, ?_⟩
    have hp : (normalizeIndex s.len i).toNat < s.len := by
      unfold normalizeIndex
      split_ifs <;> omega
    rw [hel, List.length_eraseIdx, Heap_elements_length h s a ha hb, if_pos hp]
  · unfold normalizeIndex
    split_ifs <;> omega

theorem listPop_in_range_witness :
    ∃ r h1 s1,
      applyObjectMethod Host.doubling (some (.List 5))
          (some (.Identifier ⟨token.IDENT, "pop"⟩ "pop")) [some (.Integer 6 (-2))]
          ⟨7, [(0, ⟨[], none⟩)],
            [(4, [some (.Integer 1 1), some (.Integer 2 2), some (.Integer 3 3), none])],
            [(5, ⟨4, 0, 3, 4⟩)], [], []⟩ = .ok (r, h1) ∧
      [some (Object.Integer 1 1), some (.Integer 2 2), some (.Integer 3 3)].get? 1 = some r ∧
      mapGet h1.lists 5 = some s1 ∧ s1.len = 2 ∧
      h1.elements s1 = [some (.Integer 1 1), some (.Integer 3 3)] ∧
      (h1.elements s1).length = 2 :=
  (listPop_in_range Host.doubling ⟨token.IDENT, "pop"⟩
    ⟨7, [(0, ⟨[], none⟩)],
      [(4, [some (.Integer 1 1), some (.Integer 2 2), some (.Integer 3 3), none])],
      [(5, ⟨4, 0, 3, 4⟩)], [], []⟩ 5 6 ⟨4, 0, 3, 4⟩
    [some (.Integer 1 1), some (.Integer 2 2), some (.Integer 3 3), none] (-2) rfl rfl
    (by decide) (by decide) (by decide)).1

/-- C40, the divergence: for an index `i < -n` the call `L.pop(i)` on a list of length `n`
does not return an Error: the index is still negative after `n` has been added, the test
`ind >= len(elements)` lets it pass, and the read `elements[ind]` aborts the run.  So does
`L.pop()` on the empty list, whose index is `-1`.  For `i >= n` the call returns the Error
`index out of range of list.pop()` and leaves the list unchanged.  End to end, on
`l = [1, 2, 3]` the call `l.pop(-4)` aborts and `l.pop(3)` evaluates to the Error, and
`l = []` / `l.pop()` aborts. -/
theorem listPop_below_range_aborts :
    (∀ (host : Host) (tok : token.Token) (h : Heap) (addr ia : Nat) (s : Slice) (i : Int),
      mapGet h.lists addr = some s → i < -(s.len : Int) →
      applyObjectMethod host (some (.List addr)) (some (.Identifier tok "pop"))
        [some (.Integer ia i)] h = .error (.panic "runtime error: index out of range")) ∧
    (∀ (host : Host) (tok : token.Token) (h : Heap) (addr : Nat) (s : Slice),
      mapGet h.lists addr = some s → s.len = 0 →
      applyObjectMethod host (some (.List addr)) (some (.Identifier tok "pop")) [] h =
        .error (.panic "runtime error: index out of range")) ∧
    (∀ (host : Host) (tok : token.Token) (h : Heap) (addr ia : Nat) (s : Slice) (i : Int),
      mapGet h.lists addr = some s → (s.len : Int) ≤ i →
      applyObjectMethod host (some (.List addr)) (some (.Identifier tok "pop"))
        [some (.Integer ia i)] h =
        .ok (some (newError h.next "index out of range of list.pop()"), h.alloc)) ∧
    testEvalText Host.doubling (fun _ => none) 30 10
      [⟨token.IDENT, "l"⟩, ⟨token.ASSIGN, "="⟩, ⟨token.LBRACKET, "["⟩, ⟨token.INT, "1"⟩,
        ⟨token.COMMA, ","⟩, ⟨token.INT, "2"⟩, ⟨token.COMMA, ","⟩, ⟨token.INT, "3"⟩,
        ⟨token.RBRACKET, "]"⟩, ⟨token.NEWLINE, "\n"⟩, ⟨token.IDENT, "l"⟩, ⟨token.DOT, "."⟩,
        ⟨token.IDENT, "pop"⟩, ⟨token.LPAREN, "("⟩, ⟨token.MINUS, "-"⟩, ⟨token.INT, "4"⟩,
        ⟨token.RPAREN, ")"⟩] =
      .error (.panic "runtime error: index out of range") ∧
    testEvalText Host.doubling (fun _ => none) 30 10
      [⟨token.IDENT, "l"⟩, ⟨token.ASSIGN, "="⟩, ⟨token.LBRACKET, "["⟩, ⟨token.RBRACKET, "]"⟩,
        ⟨token.NEWLINE, "\n"⟩, ⟨token.IDENT, "l"⟩, ⟨token.DOT, "."⟩, ⟨token.IDENT, "pop"⟩,
        ⟨token.LPAREN, "("⟩, ⟨token.RPAREN, ")"⟩] =
      .error (.panic "runtime error: index out of range") ∧
    testEvalText Host.doubling (fun _ => none) 30 10
      [⟨token.IDENT, "l"⟩, ⟨token.ASSIGN, "="⟩, ⟨token.LBRACKET, "["⟩, ⟨token.INT, "1"⟩,
        ⟨token.COMMA, ","⟩, ⟨token.INT, "2"⟩, ⟨token.COMMA, ","⟩, ⟨token.INT, "3"⟩,
        ⟨token.RBRACKET, "]"⟩, ⟨token.NEWLINE, "\n"⟩, ⟨token.IDENT, "l"⟩, ⟨token.DOT, "."⟩,
        ⟨token.IDENT, "pop"⟩, ⟨token.LPAREN, "("⟩, ⟨token.INT, "3"⟩, ⟨token.RPAREN, ")"⟩] =
      .ok (some (ERROR_OBJ, "ERROR: index out of range of list.pop()")) := by
  refine ⟨?_, ?_, ?_, by decide!, by decide!, by decide!⟩
  · intro host tok h addr ia s i hl hi
    have h0 : i < 0 := by omega
    have h1 : ¬ (s.len : Int) + i ≥ (s.len : Int) := by omega
    have h2 : (s.len : Int) + i < 0 := by omega
    simp [applyObjectMethod, callObjectMethod, listMethods, listPop, listPopAt, hl, h0, h1, h2]
  · intro host tok h addr s hl hlen
    simp [applyObjectMethod, callObjectMethod, listMethods, listPop, listPopAt, hl, hlen]
  · intro host tok h addr ia s i hl hi
    by_cases h0 : i < 0
    · omega
    · have h1 : i ≥ (s.len : Int) := hi
      simp [applyObjectMethod, callObjectMethod, listMethods, listPop, listPopAt, hl, h0, h1]

theorem listPop_below_range_aborts_witness :
    mapGet (⟨7, [(0, ⟨[], none⟩)],
        [(4, [some (.Integer 1 1), some (.Integer 2 2), some (.Integer 3 3), none])],
        [(5, ⟨4, 0, 3, 4⟩)], [], []⟩ : Heap).lists 5 = some ⟨4, 0, 3, 4⟩ ∧
    (-4 : Int) < -((3 : Nat) : Int) ∧
    applyObjectMethod Host.doubling (some (.List 5))
        (some (.Identifier ⟨token.IDENT, "pop"⟩ "pop")) [some (.Integer 6 (-4))]
        ⟨7, [(0, ⟨[], none⟩)],
          [(4, [some (.Integer 1 1), some (.Integer 2 2), some (.Integer 3 3), none])],
          [(5, ⟨4, 0, 3, 4⟩)], [], []⟩ =
      .error (.panic "runtime error: index out of range") :=
  ⟨rfl, by decide,
    listPop_below_range_aborts.1 Host.doubling ⟨token.IDENT, "pop"⟩
      ⟨7, [(0, ⟨[], none⟩)],
        [(4, [some (.Integer 1 1), some (.Integer 2 2), some (.Integer 3 3), none])],
        [(5, ⟨4, 0, 3, 4⟩)], [], []⟩ 5 6 ⟨4, 0, 3, 4⟩ (-4) rfl (by decide)⟩

/-! ## An Error as the value of an index-assign -/

/-- C38, the divergence: `Eval` at an IndexAssignExpression node does not test the value for
an Error.  Whatever `node.Value` evaluates to is handed to `evalIndexAssignExpression`, which
stores it: into the backing array of a List, the result being the List, or as the value of the
entry of a Dict, the result being the Dict.  End to end, after `l = [1]` the statement
`l[0] = nope` has the List as its value, whose one element is now the Error
`identifier not found: nope`, and a later `l[0]` reads that Error; likewise `d[1] = nope`
after `d = {1: 1}` puts the Error into the Dict, where `d[1]` reads it. -/
theorem indexAssign_stores_error :
    (∀ (host : Host) (fuel : Nat) (tok : token.Token)
        (left index endIndex value : Option ast.Expression) (colon : Bool) (env : Nat)
        (h h1 h2 h3 : Heap) (l i v : Option Object),
      Eval host fuel left env h = .ok (l, h1) → isError l = false →
      Eval host fuel index env h1 = .ok (i, h2) → isError i = false →
      Eval host fuel value env h2 = .ok (v, h3) →
      Eval host (fuel + 1) (some (.IndexAssignExpression tok left index colon endIndex value))
        env h = evalIndexAssignExpression host l i v h3) ∧
    (∀ (host : Host) (h : Heap) (addr ia ea : Nat) (s : Slice) (i : Int) (message : String),
      mapGet h.lists addr = some s → 0 ≤ i → i < s.len →
      evalIndexAssignExpression host (some (.List addr)) (some (.Integer ia i))
          (some (.Error ea message)) h =
        .ok (some (.List addr), h.store s i.toNat (some (.Error ea message)))) ∧
    (∀ (host : Host) (h : Heap) (addr ea : Nat) (pairs : List (HashKey × HashPair))
        (k : Object) (key : HashKey) (message : String),
      mapGet h.dicts addr = some (some pairs) → k.HashKey host = some key →
      evalIndexAssignExpression host (some (.Dict addr)) (some k)
          (some (.Error ea message)) h =
        .ok (some (.Dict addr),
          { h with
            dicts := mapSet h.dicts addr
              (some (mapSet pairs key ⟨some k, some (.Error ea message)⟩)) })) ∧
    testEvalElements Host.doubling (fun _ => none) 30 10
      [⟨token.IDENT, "l"⟩, ⟨token.ASSIGN, "="⟩, ⟨token.LBRACKET, "["⟩, ⟨token.INT, "1"⟩,
        ⟨token.RBRACKET, "]"⟩, ⟨token.NEWLINE, "\n"⟩, ⟨token.IDENT, "l"⟩, ⟨token.LBRACKET, "["⟩,
        ⟨token.INT, "0"⟩, ⟨token.RBRACKET, "]"⟩, ⟨token.ASSIGN, "="⟩, ⟨token.IDENT, "nope"⟩] =
      .ok (some [some (ERROR_OBJ, "ERROR: identifier not found: nope")]) ∧
    testEvalText Host.doubling (fun _ => none) 30 10
      [⟨token.IDENT, "l"⟩, ⟨token.ASSIGN, "="⟩, ⟨token.LBRACKET, "["⟩, ⟨token.INT, "1"⟩,
        ⟨token.RBRACKET, "]"⟩, ⟨token.NEWLINE, "\n"⟩, ⟨token.IDENT, "l"⟩, ⟨token.LBRACKET, "["⟩,
        ⟨token.INT, "0"⟩, ⟨token.RBRACKET, "]"⟩, ⟨token.ASSIGN, "="⟩, ⟨token.IDENT, "nope"⟩,
        ⟨token.NEWLINE, "\n"⟩, ⟨token.IDENT, "l"⟩, ⟨token.LBRACKET, "["⟩, ⟨token.INT, "0"⟩,
        ⟨token.RBRACKET, "]"⟩] =
      .ok (some (ERROR_OBJ, "ERROR: identifier not found: nope")) ∧
    testEvalText Host.doubling (fun _ => none) 30 10
      [⟨token.IDENT, "d"⟩, ⟨token.ASSIGN, "="⟩, ⟨token.LBRACE, "\x7b"⟩, ⟨token.INT, "1"⟩,
        ⟨token.COLON, ":"⟩, ⟨token.INT, "1"⟩, ⟨token.RBRACE, "\x7d"⟩, ⟨token.NEWLINE, "\n"⟩,
        ⟨token.IDENT, "d"⟩, ⟨token.LBRACKET, "["⟩, ⟨token.INT, "1"⟩, ⟨token.RBRACKET, "]"⟩,
        ⟨token.ASSIGN, "="⟩, ⟨token.IDENT, "nope"⟩, ⟨token.NEWLINE, "\n"⟩, ⟨token.IDENT, "d"⟩,
        ⟨token.LBRACKET, "["⟩, ⟨token.INT, "1"⟩, ⟨token.RBRACKET, "]"⟩] =
      .ok (some (ERROR_OBJ, "ERROR: identifier not found: nope")) := by
  refine ⟨?_, ?_, ?_, by decide!, by decide!, by decide!⟩
  · intro host fuel tok left index endIndex value colon env h h1 h2 h3 l i v hl hle hi hie hv
    simp [Eval, hl, hle, hi, hie, hv, bind, Except.bind, pure, Except.pure]
  · intro host h addr ia ea s i message hl h0 h1
    have hn : normalizeIndex s.len i = i := by simp [normalizeIndex]; omega
    have hc : ¬ (i < 0 ∨ i > (s.len : Int) - 1) := by omega
    simp [evalIndexAssignExpression, Type_, LIST_OBJ, INTEGER_OBJ, evalListIndexAssignExpression,
      hl, hn, hc]
  · intro host h addr ea pairs k key message hd hk
    simp [evalIndexAssignExpression, Type_, LIST_OBJ, DICT_OBJ, evalDictIndexAssignExpression,
      hd, hk]

theorem indexAssign_stores_error_witness :
    mapGet (⟨7, [(0, ⟨[], none⟩)], [(4, [some (.Integer 1 1)])], [(5, ⟨4, 0, 1, 1⟩)], [],
      []⟩ : Heap).lists 5 = some ⟨4, 0, 1, 1⟩ ∧
    evalIndexAssignExpression Host.doubling (some (.List 5)) (some (.Integer 6 0))
        (some (.Error 7 "identifier not found: nope"))
        ⟨7, [(0, ⟨[], none⟩)], [(4, [some (.Integer 1 1)])], [(5, ⟨4, 0, 1, 1⟩)], [], []⟩ =
      .ok (some (.List 5),
        ⟨7, [(0, ⟨[], none⟩)], [(4, [some (.Error 7 "identifier not found: nope")])],
          [(5, ⟨4, 0, 1, 1⟩)], [], []⟩) :=
  ⟨rfl,
    indexAssign_stores_error.2.1 Host.doubling
      ⟨7, [(0, ⟨[], none⟩)], [(4, [some (.Integer 1 1)])], [(5, ⟨4, 0, 1, 1⟩)], [], []⟩
      5 6 7 ⟨4, 0, 1, 1⟩ 0 "identifier not found: nope" rfl (by decide) (by decide)⟩

/-! ## Slices of a list -/

/-- C39, the divergence: the slice expression `Elements[idx:edx]` of
`evalListIndexExpression` is guarded by the test `edx <= idx` alone.  With the bounds
normalised (the length added to a negative one), a start that is still negative, or an end
beyond the capacity of `Elements`, aborts the run.  `[1, 2, 3][-5:2]` aborts on every host.
`[1, 2, 3][0:10]` aborts as soon as the capacity of the literal is below 10, as it is on the
host whose `append` doubles the capacity, where it is 4; there `[1, 2, 3][0:4]` returns a
list of four elements, the last of which is the nil interface that the backing array holds
behind the three elements, and `[1, 2, 3][0:2]` returns `[1, 2]`. -/
theorem evalListIndexExpression_slice_aborts :
    (∀ (host : Host) (h : Heap) (addr ia ib : Nat) (s : Slice) (a b : Int),
      mapGet h.lists addr = some s →
      normalizeIndex s.len a < normalizeIndex s.len b →
      normalizeIndex s.len a < 0 ∨ (s.cap : Int) < normalizeIndex s.len b →
      evalIndexExpression host (some (.List addr)) (some (.Integer ia a)) true
          (some (.Integer ib b)) h =
        .error (.panic "runtime error: slice bounds out of range")) ∧
    (∀ (host : Host) (ParseFloat : String → Option Float64),
      testEvalText host ParseFloat 30 10
        [⟨token.LBRACKET, "["⟩, ⟨token.INT, "1"⟩, ⟨token.COMMA, ","⟩, ⟨token.INT, "2"⟩,
          ⟨token.COMMA, ","⟩, ⟨token.INT, "3"⟩, ⟨token.RBRACKET, "]"⟩, ⟨token.LBRACKET, "["⟩,
          ⟨token.MINUS, "-"⟩, ⟨token.INT, "5"⟩, ⟨token.COLON, ":"⟩, ⟨token.INT, "2"⟩,
          ⟨token.RBRACKET, "]"⟩] =
        .error (.panic "runtime error: slice bounds out of range")) ∧
    testEvalText Host.doubling (fun _ => none) 30 10
      [⟨token.LBRACKET, "["⟩, ⟨token.INT, "1"⟩, ⟨token.COMMA, ","⟩, ⟨token.INT, "2"⟩,
        ⟨token.COMMA, ","⟩, ⟨token.INT, "3"⟩, ⟨token.RBRACKET, "]"⟩, ⟨token.LBRACKET, "["⟩,
        ⟨token.INT, "0"⟩, ⟨token.COLON, ":"⟩, ⟨token.INT, "10"⟩, ⟨token.RBRACKET, "]"⟩] =
      .error (.panic "runtime error: slice bounds out of range") ∧
    testEvalElements Host.doubling (fun _ => none) 30 10
      [⟨token.LBRACKET, "["⟩, ⟨token.INT, "1"⟩, ⟨token.COMMA, ","⟩, ⟨token.INT, "2"⟩,
        ⟨token.COMMA, ","⟩, ⟨token.INT, "3"⟩, ⟨token.RBRACKET, "]"⟩, ⟨token.LBRACKET, "["⟩,
        ⟨token.INT, "0"⟩, ⟨token.COLON, ":"⟩, ⟨token.INT, "4"⟩, ⟨token.RBRACKET, "]"⟩] =
      .ok (some [some (INTEGER_OBJ, "1"), some (INTEGER_OBJ, "2"), some (INTEGER_OBJ, "3"),
        none]) ∧
    testEvalElements Host.doubling (fun _ => none) 30 10
      [⟨token.LBRACKET, "["⟩, ⟨token.INT, "1"⟩, ⟨token.COMMA, ","⟩, ⟨token.INT, "2"⟩,
        ⟨token.COMMA, ","⟩, ⟨token.INT, "3"⟩, ⟨token.RBRACKET, "]"⟩, ⟨token.LBRACKET, "["⟩,
        ⟨token.INT, "0"⟩, ⟨token.COLON, ":"⟩, ⟨token.INT, "2"⟩, ⟨token.RBRACKET, "]"⟩] =
      .ok (some [some (INTEGER_OBJ, "1"), some (INTEGER_OBJ, "2")]) := by
  refine ⟨?_, fun host ParseFloat => rfl, by decide!, by decide!, by decide!⟩
  intro host h addr ia ib s a b hl hlt hout
  have h1 : ¬ normalizeIndex s.len b ≤ normalizeIndex s.len a := by omega
  simp [evalIndexExpression, Type_, LIST_OBJ, INTEGER_OBJ, evalListIndexExpression, hl, h1, hout]

theorem evalListIndexExpression_slice_aborts_witness :
    mapGet (⟨7, [(0, ⟨[], none⟩)],
        [(4, [some (.Integer 1 1), some (.Integer 2 2), some (.Integer 3 3), none])],
        [(5, ⟨4, 0, 3, 4⟩)], [], []⟩ : Heap).lists 5 = some ⟨4, 0, 3, 4⟩ ∧
    normalizeIndex 3 0 < normalizeIndex 3 10 ∧
    (normalizeIndex 3 0 < 0 ∨ ((4 : Nat) : Int) < normalizeIndex 3 10) ∧
    evalIndexExpression Host.doubling (some (.List 5)) (some (.Integer 6 0)) true
        (some (.Integer 7 10))
        ⟨8, [(0, ⟨[], none⟩)],
          [(4, [some (.Integer 1 1), some (.Integer 2 2), some (.Integer 3 3), none])],
          [(5, ⟨4, 0, 3, 4⟩)], [], []⟩ =
      .error (.panic "runtime error: slice bounds out of range") :=
  ⟨rfl, by decide, by decide,
    evalListIndexExpression_slice_aborts.1 Host.doubling
      ⟨8, [(0, ⟨[], none⟩)],
        [(4, [some (.Integer 1 1), some (.Integer 2 2), some (.Integer 3 3), none])],
        [(5, ⟨4, 0, 3, 4⟩)], [], []⟩ 5 6 7 ⟨4, 0, 3, 4⟩ 0 10 rfl (by decide) (by decide)⟩

/-! ## The method `difference` of a Set -/

theorem mapGet_mem {κ α : Type} [DecidableEq κ] (m : List (κ × α)) (k : κ) (v : α)
    (h : mapGet m k = some v) : (k, v) ∈ m := by
  induction m with
  | nil => simp [mapGet] at h
  | cons p m ih =>
    obtain ⟨k1, v1⟩ := p
    by_cases hk : k1 = k
    · subst hk
      simp [mapGet] at h
      simp [h]
    · simp [mapGet, hk] at h
      exact List.mem_cons_of_mem _ (ih h)

theorem mapGet_isSome_iff {κ α : Type} [DecidableEq κ] (m : List (κ × α)) (k : κ) :
    (mapGet m k).isSome ↔ ∃ v, (k, v) ∈ m := by
  induction m with
  | nil => simp [mapGet]
  | cons p m ih =>
    obtain ⟨k1, v1⟩ := p
    by_cases hk : k1 = k
    · subst hk
      simp [mapGet]
    · simp only [mapGet, hk, if_false, ih, List.mem_cons, Prod.mk.injEq]
      constructor
      · rintro ⟨v, hv⟩
        exact ⟨v, Or.inr hv⟩
      · rintro ⟨v, hv | hv⟩
        · exact absurd hv.1.symm hk
        · exact ⟨v, hv⟩

theorem filterMap_get?_range {α : Type} (l : List α) :
    (List.range l.length).filterMap (fun i => l.get? i) = l := by
  induction l with
  | nil => rfl
  | cons x l ih =>
    rw [List.length_cons, List.range_succ_eq_map, List.filterMap_cons]
    simp only [List.get?_cons_zero, List.filterMap_map]
    have : ((fun i => (x :: l).get? i) ∘ Nat.succ) = fun i => l.get? i := by
      funext i
      simp
    rw [this, ih]

theorem visited_mem (host : Host) (hhost : host.visitsEveryEntry) (t : Nat) {α : Type}
    (l : List α) (e : α) :
    e ∈ (host.mapRange t l.length).filterMap (fun i => l.get? i) ↔ e ∈ l := by
  have hp := (hhost t l.length).filterMap (fun i => l.get? i)
  rw [filterMap_get?_range] at hp
  exact hp.mem_iff

theorem mapSet_mem {κ α : Type} [DecidableEq κ] (m : List (κ × α)) (k : κ) (v : α)
    (e : κ × α) (h : e ∈ mapSet m k v) : e ∈ m ∨ e = (k, v) := by
  induction m with
  | nil =>
    simp [mapSet] at h
    exact Or.inr h
  | cons p m ih =>
    obtain ⟨k1, v1⟩ := p
    by_cases hk : k1 = k
    · simp only [mapSet, hk, if_true, List.mem_cons] at h
      rcases h with h | h
      · exact Or.inr h
      · exact Or.inl (List.mem_cons_of_mem _ h)
    · simp only [mapSet, hk, if_false, List.mem_cons] at h
      rcases h with h | h
      · exact Or.inl (by rw [h]; exact List.mem_cons_self _ _)
      · rcases ih h with h1 | h1
        · exact Or.inl (List.mem_cons_of_mem _ h1)
        · exact Or.inr h1

theorem integerValues_mapGet (values : List (HashKey × Option Object))
    (hv : integerValues values) (k : HashKey) (v : Option Object)
    (h : mapGet values k = some v) :
    ∃ (addr : Nat) (x : Int),
      isInt64 x ∧ k = ⟨INTEGER_OBJ, uint64 x⟩ ∧ v = some (.Integer addr x) := by
  obtain ⟨addr, x, hx, he⟩ := hv (k, v) (mapGet_mem values k v h)
  simp only [Prod.mk.injEq] at he
  exact ⟨addr, x, hx, he.1, he.2⟩

theorem setDifferenceLoop_integers (other : List (HashKey × Option Object))
    (ho : integerValues other) :
    ∀ (visited result : List (HashKey × Option Object)),
      integerValues visited → integerValues result →
      ∃ result1,
        setDifferenceLoop other visited result = .ok result1 ∧ integerValues result1 ∧
        ∀ k, ((mapGet result1 k).isSome ↔
          ((mapGet result k).isSome ∨ ((∃ v, (k, v) ∈ visited) ∧ mapGet other k = none))) := by
  intro visited
  induction visited with
  | nil =>
    intro result _ hr
    exact ⟨result, rfl, hr, fun k => by simp⟩
  | cons e rest ih =>
    intro result hvis hr
    obtain ⟨hash, val⟩ := e
    obtain ⟨addr, x, hx, he⟩ := hvis (hash, val) (List.mem_cons_self _ _)
    simp only [Prod.mk.injEq] at he
    obtain ⟨hhash, hval⟩ := he
    have hrest : integerValues rest := fun kv hkv => hvis kv (List.mem_cons_of_mem _ hkv)
    cases hg : mapGet other hash with
    | some cpy =>
      obtain ⟨caddr, y, hy, hk, hc⟩ := integerValues_mapGet other ho hash cpy hg
      have hxy : y = x := by
        rw [hhash] at hk
        exact ((integerKey_eq_iff y x hy hx).1 hk).symm
      subst hxy
      obtain ⟨result1, hrun, hi1, hmem⟩ := ih result hrest hr
      refine ⟨result1, ?_, hi1, ?_⟩
      · simp only [setDifferenceLoop, hg, hc, hval, Inspect, ne_eq, not_true_eq_false,
          if_false]
        exact hrun
      · intro k
        rw [hmem k]
        constructor
        · rintro (h1 | ⟨⟨v, hv⟩, h2⟩)
          · exact Or.inl h1
          · exact Or.inr ⟨⟨v, List.mem_cons_of_mem _ hv⟩, h2⟩
        · rintro (h1 | ⟨⟨v, hv⟩, h2⟩)
          · exact Or.inl h1
          · rcases List.mem_cons.1 hv with h3 | h3
            · simp only [Prod.mk.injEq] at h3
              rw [h3.1, hg] at h2
              simp at h2
            · exact Or.inr ⟨⟨v, h3⟩, h2⟩
    | none =>
      have hr1 : integerValues
          (if (mapGet result hash).isSome then result else mapSet result hash val) := by
        split_ifs
        · exact hr
        · intro kv hkv
          rcases mapSet_mem result hash val kv hkv with h1 | h1
          · exact hr kv h1
          · exact ⟨addr, x, hx, by rw [h1, hhash, hval]⟩
      obtain ⟨result1, hrun, hi1, hmem⟩ := ih _ hrest hr1
      refine ⟨result1, ?_, hi1, ?_⟩
      · simp only [setDifferenceLoop, hg]
        exact hrun
      · intro k
        rw [hmem k]
        have hset : (mapGet (if (mapGet result hash).isSome then result
            else mapSet result hash val) k).isSome ↔ ((mapGet result k).isSome ∨ k = hash) := by
          by_cases hkh : k = hash
          · subst hkh
            by_cases hs : (mapGet result k).isSome
            · simp [hs]
            · simp [hs, mapGet_mapSet_same]
          · by_cases hs : (mapGet result hash).isSome
            · simp [hs, hkh]
            · simp [hs, hkh, mapGet_mapSet_other _ _ _ _ (Ne.symm hkh)]
        rw [hset]
        constructor
        · rintro ((h1 | h1) | ⟨⟨v, hv⟩, h2⟩)
          · exact Or.inl h1
          · exact Or.inr ⟨⟨val, by rw [h1]; exact List.mem_cons_self _ _⟩, by rw [h1]; exact hg⟩
          · exact Or.inr ⟨⟨v, List.mem_cons_of_mem _ hv⟩, h2⟩
        · rintro (h1 | ⟨⟨v, hv⟩, h2⟩)
          · exact Or.inl (Or.inl h1)
          · rcases List.mem_cons.1 hv with h3 | h3
            · simp only [Prod.mk.injEq] at h3
              exact Or.inl (Or.inr h3.1)
            · exact Or.inr ⟨⟨v, h3⟩, h2⟩

/-- C32, the divergence: on two sets `a` and `b` of Integers, `a.difference(b)` returns a new
set and writes to nothing else, but the set is the symmetric difference: after the loop over
the values of `a`, which puts in those that `b` lacks, a second loop goes over the values of
`b` and puts in those that `a` lacks.  So an Integer `x` that occurs in `b` only is found in
the result by the test `x in`.  The host is one whose `range` visits every entry of a map.
End to end, `2 in set(1).difference(set(2))` is TRUE, and of `set(1, 2).difference(set(2, 3))`
the Integers 1 and 3 are members while 2 is not. -/
theorem setDifference_adds_values_of_argument (host : Host) (hhost : host.visitsEveryEntry)
    (tok : token.Token) (h : Heap) (aAddr bAddr : Nat)
    (aValues bValues : List (HashKey × Option Object))
    (ha : mapGet h.sets aAddr = some aValues) (hb : mapGet h.sets bAddr = some bValues)
    (hai : integerValues aValues) (hbi : integerValues bValues) :
    (∃ result,
      applyObjectMethod host (some (.Set aAddr)) (some (.Identifier tok "difference"))
          [some (.Set bAddr)] h =
        .ok (some (.Set h.next),
          { h with next := h.next + 1, sets := mapSet h.sets h.next result }) ∧
      integerValues result ∧
      (∀ k, ((mapGet result k).isSome ↔
        (((mapGet aValues k).isSome ∧ mapGet bValues k = none) ∨
          ((mapGet bValues k).isSome ∧ mapGet aValues k = none)))) ∧
      ∀ (x : Int) (xaddr : Nat),
        (mapGet bValues ⟨INTEGER_OBJ, uint64 x⟩).isSome →
        mapGet aValues ⟨INTEGER_OBJ, uint64 x⟩ = none →
        evalInExpression host (some (.Integer xaddr x)) (some (.Set h.next))
            { h with next := h.next + 1, sets := mapSet h.sets h.next result } =
          .ok (some .TRUE,
            { h with next := h.next + 1, sets := mapSet h.sets h.next result })) ∧
    testEvalText Host.doubling (fun _ => none) 30 10
      [⟨token.RETURN, "return"⟩, ⟨token.INT, "2"⟩, ⟨token.IN, "in"⟩, ⟨token.IDENT, "set"⟩,
        ⟨token.LPAREN, "("⟩, ⟨token.INT, "1"⟩, ⟨token.RPAREN, ")"⟩, ⟨token.DOT, "."⟩,
        ⟨token.IDENT, "difference"⟩, ⟨token.LPAREN, "("⟩, ⟨token.IDENT, "set"⟩,
        ⟨token.LPAREN, "("⟩, ⟨token.INT, "2"⟩, ⟨token.RPAREN, ")"⟩, ⟨token.RPAREN, ")"⟩] =
      .ok (some (BOOLEAN_OBJ, "true")) ∧
    testEvalText Host.doubling (fun _ => none) 30 10
      [⟨token.RETURN, "return"⟩, ⟨token.INT, "3"⟩, ⟨token.IN, "in"⟩, ⟨token.IDENT, "set"⟩,
        ⟨token.LPAREN, "("⟩, ⟨token.INT, "1"⟩, ⟨token.COMMA, ","⟩, ⟨token.INT, "2"⟩,
        ⟨token.RPAREN, ")"⟩, ⟨token.DOT, "."⟩, ⟨token.IDENT, "difference"⟩, ⟨token.LPAREN, "("⟩,
        ⟨token.IDENT, "set"⟩, ⟨token.LPAREN, "("⟩, ⟨token.INT, "2"⟩, ⟨token.COMMA, ","⟩,
        ⟨token.INT, "3"⟩, ⟨token.RPAREN, ")"⟩, ⟨token.RPAREN, ")"⟩] =
      .ok (some (BOOLEAN_OBJ, "true")) ∧
    testEvalText Host.doubling (fun _ => none) 30 10
      [⟨token.RETURN, "return"⟩, ⟨token.INT, "1"⟩, ⟨token.IN, "in"⟩, ⟨token.IDENT, "set"⟩,
        ⟨token.LPAREN, "("⟩, ⟨token.INT, "1"⟩, ⟨token.COMMA, ","⟩, ⟨token.INT, "2"⟩,
        ⟨token.RPAREN, ")"⟩, ⟨token.DOT, "."⟩, ⟨token.IDENT, "difference"⟩, ⟨token.LPAREN, "("⟩,
        ⟨token.IDENT, "set"⟩, ⟨token.LPAREN, "("⟩, ⟨token.INT, "2"⟩, ⟨token.COMMA, ","⟩,
        ⟨token.INT, "3"⟩, ⟨token.RPAREN, ")"⟩, ⟨token.RPAREN, ")"⟩] =
      .ok (some (BOOLEAN_OBJ, "true")) ∧
    testEvalText Host.doubling (fun _ => none) 30 10
      [⟨token.RETURN, "return"⟩, ⟨token.INT, "2"⟩, ⟨token.IN, "in"⟩, ⟨token.IDENT, "set"⟩,
        ⟨token.LPAREN, "("⟩, ⟨token.INT, "1"⟩, ⟨token.COMMA, ","⟩, ⟨token.INT, "2"⟩,
        ⟨token.RPAREN, ")"⟩, ⟨token.DOT, "."⟩, ⟨token.IDENT, "difference"⟩, ⟨token.LPAREN, "("⟩,
        ⟨token.IDENT, "set"⟩, ⟨token.LPAREN, "("⟩, ⟨token.INT, "2"⟩, ⟨token.COMMA, ","⟩,
        ⟨token.INT, "3"⟩, ⟨token.RPAREN, ")"⟩, ⟨token.RPAREN, ")"⟩] =
      .ok (some (BOOLEAN_OBJ, "false")) := by
  refine ⟨?_, by decide!, by decide!, by decide!, by decide!⟩
  have hva : integerValues
      ((host.mapRange (h.next + 1) aValues.length).filterMap (fun i => aValues.get? i)) :=
    fun kv hkv => hai kv ((visited_mem host hhost _ aValues kv).1 hkv)
  have hvb : integerValues
      ((host.mapRange (h.next + 1) bValues.length).filterMap (fun i => bValues.get? i)) :=
    fun kv hkv => hbi kv ((visited_mem host hhost _ bValues kv).1 hkv)
  obtain ⟨result1, hrun1, hi1, hmem1⟩ :=
    setDifferenceLoop_integers bValues hbi _ [] hva (fun kv hkv => by simp at hkv)
  obtain ⟨result2, hrun2, hi2, hmem2⟩ :=
    setDifferenceLoop_integers aValues hai _ result1 hvb hi1
  have hmem : ∀ k, ((mapGet result2 k).isSome ↔
      (((mapGet aValues k).isSome ∧ mapGet bValues k = none) ∨
        ((mapGet bValues k).isSome ∧ mapGet aValues k = none))) := by
    intro k
    rw [hmem2 k, hmem1 k, mapGet_isSome_iff aValues, mapGet_isSome_iff bValues]
    simp only [visited_mem host hhost, mapGet, Option.isSome_none, Bool.false_eq_true,
      false_or]
  refine ⟨result2, ?_, hi2, hmem, ?_⟩
  · simp only [List.get?_eq_getElem?] at hrun1 hrun2
    simp [applyObjectMethod, callObjectMethod, setMethods, setDifference, Type_, SET_OBJ, ha,
      hb, hrun1, hrun2]
  · intro x xaddr hxb hxa
    have hs := (hmem ⟨INTEGER_OBJ, uint64 x⟩).2 (Or.inr ⟨hxb, hxa⟩)
    obtain ⟨w, hw⟩ := Option.isSome_iff_exists.1 hs
    simp [evalInExpression, Type_, LIST_OBJ, SET_OBJ, searchSet, Object.HashKey,
      mapGet_mapSet_same, hw]

theorem setDifference_adds_values_of_argument_witness :
    ∃ result,
      applyObjectMethod Host.doubling (some (.Set 2))
          (some (.Identifier ⟨token.IDENT, "difference"⟩ "difference")) [some (.Set 4)]
          ⟨5, [(0, ⟨[], none⟩)], [], [], [],
            [(2, [(⟨INTEGER_OBJ, 1⟩, some (.Integer 1 1))]),
              (4, [(⟨INTEGER_OBJ, 2⟩, some (.Integer 3 2))])]⟩ =
        .ok (some (.Set 5),
          ⟨6, [(0, ⟨[], none⟩)], [], [], [],
            mapSet [(2, [(⟨INTEGER_OBJ, 1⟩, some (.Integer 1 1))]),
              (4, [(⟨INTEGER_OBJ, 2⟩, some (.Integer 3 2))])] 5 result⟩) ∧
      (mapGet result ⟨INTEGER_OBJ, 2⟩).isSome := by
  obtain ⟨result, hrun, -, hmem, -⟩ :=
    (setDifference_adds_values_of_argument Host.doubling (fun _ _ => List.Perm.refl _)
      ⟨token.IDENT, "difference"⟩
      ⟨5, [(0, ⟨[], none⟩)], [], [], [],
        [(2, [(⟨INTEGER_OBJ, 1⟩, some (.Integer 1 1))]),
          (4, [(⟨INTEGER_OBJ, 2⟩, some (.Integer 3 2))])]⟩ 2 4
      [(⟨INTEGER_OBJ, 1⟩, some (.Integer 1 1))] [(⟨INTEGER_OBJ, 2⟩, some (.Integer 3 2))]
      rfl rfl
      (fun kv hkv => ⟨1, 1, by decide, by simpa using hkv⟩)
      (fun kv hkv => ⟨3, 2, by decide, by simpa using hkv⟩)).1
  exact ⟨result, hrun, (hmem ⟨INTEGER_OBJ, 2⟩).2 (Or.inr ⟨rfl, rfl⟩)⟩

/-! ## The order in which a map is visited -/

/-- C36, the divergence: the result of a program depends on the order in which `range`
visits the entries of a map, which the run-time system of Go chooses anew for every loop.  The
parser holds the pairs of a dict literal in a map, so of two pairs with the same key either
may be evaluated last and stay in the Dict: `{1: 1, 1: 2}[1]` evaluates to 2 on the host that
visits the entries in the order of their insertion and to 1 on the host that visits them in
the reverse order.  Likewise `list(set(1, 2))[0]` evaluates to 1 on the former and to 2 on the
latter.  The two hosts differ in nothing else, and both visit every entry of a map once. -/
theorem evaluation_depends_on_map_order :
    Host.doubling.visitsEveryEntry ∧ Host.reversing.visitsEveryEntry ∧
    Host.doubling.float = Host.reversing.float ∧ Host.doubling.spare = Host.reversing.spare ∧
    Host.doubling.toUint64 = Host.reversing.toUint64 ∧
    Host.doubling.maxLen = Host.reversing.maxLen ∧
    testEvalText Host.doubling (fun _ => none) 30 10
      [⟨token.LBRACE, "\x7b"⟩, ⟨token.INT, "1"⟩, ⟨token.COLON, ":"⟩, ⟨token.INT, "1"⟩,
        ⟨token.COMMA, ","⟩, ⟨token.INT, "1"⟩, ⟨token.COLON, ":"⟩, ⟨token.INT, "2"⟩,
        ⟨token.RBRACE, "\x7d"⟩, ⟨token.LBRACKET, "["⟩, ⟨token.INT, "1"⟩, ⟨token.RBRACKET, "]"⟩] =
      .ok (some (INTEGER_OBJ, "2")) ∧
    testEvalText Host.reversing (fun _ => none) 30 10
      [⟨token.LBRACE, "\x7b"⟩, ⟨token.INT, "1"⟩, ⟨token.COLON, ":"⟩, ⟨token.INT, "1"⟩,
        ⟨token.COMMA, ","⟩, ⟨token.INT, "1"⟩, ⟨token.COLON, ":"⟩, ⟨token.INT, "2"⟩,
        ⟨token.RBRACE, "\x7d"⟩, ⟨token.LBRACKET, "["⟩, ⟨token.INT, "1"⟩, ⟨token.RBRACKET, "]"⟩] =
      .ok (some (INTEGER_OBJ, "1")) ∧
    testEvalText Host.doubling (fun _ => none) 30 10
      [⟨token.IDENT, "list"⟩, ⟨token.LPAREN, "("⟩, ⟨token.IDENT, "set"⟩, ⟨token.LPAREN, "("⟩,
        ⟨token.INT, "1"⟩, ⟨token.COMMA, ","⟩, ⟨token.INT, "2"⟩, ⟨token.RPAREN, ")"⟩,
        ⟨token.RPAREN, ")"⟩, ⟨token.LBRACKET, "["⟩, ⟨token.INT, "0"⟩, ⟨token.RBRACKET, "]"⟩] =
      .ok (some (INTEGER_OBJ, "1")) ∧
    testEvalText Host.reversing (fun _ => none) 30 10
      [⟨token.IDENT, "list"⟩, ⟨token.LPAREN, "("⟩, ⟨token.IDENT, "set"⟩, ⟨token.LPAREN, "("⟩,
        ⟨token.INT, "1"⟩, ⟨token.COMMA, ","⟩, ⟨token.INT, "2"⟩, ⟨token.RPAREN, ")"⟩,
        ⟨token.RPAREN, ")"⟩, ⟨token.LBRACKET, "["⟩, ⟨token.INT, "0"⟩, ⟨token.RBRACKET, "]"⟩] =
      .ok (some (INTEGER_OBJ, "2")) :=
  ⟨fun _ _ => List.Perm.refl _, fun _ _ => List.reverse_perm _, rfl, rfl, rfl, rfl,
    by decide!, by decide!, by decide!, by decide!⟩

end evaluator

namespace parser

open token

/-! ## The parser returns -/

theorem weight_nextToken_le (p : Parser) : weight (nextToken p) ≤ weight p := by
  unfold weight nextToken NextToken
  cases hl : p.l with
  | nil =>
    simp only [List.length_nil]
    split_ifs <;> simp_all
  | cons t rest =>
    simp only [List.length_cons]
    split_ifs <;> omega

theorem weight_nextToken_lt (p : Parser) (h : hasToken p) :
    weight (nextToken p) + 2 ≤ weight p := by
  unfold hasToken at h
  unfold weight nextToken NextToken
  cases hl : p.l with
  | nil =>
    simp only [List.length_nil]
    split_ifs <;> simp_all
  | cons t rest =>
    simp only [List.length_cons]
    split_ifs <;> simp_all <;> omega

theorem hasToken_of_cur {p : Parser} {t : TokenType} (h : p.curToken.Type_ = t)
    (ht : t ≠ EOF) : hasToken p :=
  Or.inl (h ▸ ht)

theorem exists_succ_of_le {n m : Nat} (h : n + 1 ≤ m) : ∃ k, m = k + 1 ∧ n ≤ k :=
  ⟨m - 1, by omega, by omega⟩

theorem returns_succ {α : Type} {f : Nat → Parser → Except Fault (α × Parser)} {n slack : Nat}
    {p : Parser} {r : α × Parser} (h : ∀ k, n ≤ k → f (k + 1) p = .ok r)
    (hp : weight r.2 ≤ weight p + slack) :
    ∃ r, (∀ m, n + 1 ≤ m → f m p = .ok r) ∧ weight r.2 ≤ weight p + slack := by
  refine ⟨r, fun m hm => ?_, hp⟩
  obtain ⟨k, rfl, hk⟩ := exists_succ_of_le hm
  exact h k hk

theorem weight_errors (p : Parser) (errors : List String) :
    weight { p with errors := errors } = weight p := rfl

theorem weight_spacing (p : Parser) (spacing : Int) :
    weight { p with spacing := spacing } = weight p := rfl

theorem weight_skipFlag_true (p : Parser) : weight { p with skipFlag := true } ≤ weight p := by
  unfold weight
  simp only
  split_ifs <;> omega

theorem weight_skipFlag_false (p : Parser) :
    weight { p with skipFlag := false } ≤ weight p + 1 := by
  unfold weight
  simp only
  split_ifs <;> omega

theorem hasToken_of_peek {p : Parser} {t : TokenType} (h : peekTokenIs p t = true)
    (ht : t ≠ EOF) : hasToken p := by
  right
  simp only [peekTokenIs, beq_iff_eq] at h
  rw [h]
  exact ht

theorem hasToken_of_curTokenIs {p : Parser} {t : TokenType} (h : curTokenIs p t = true)
    (ht : t ≠ EOF) : hasToken p := by
  left
  simp only [curTokenIs, beq_iff_eq] at h
  rw [h]
  exact ht

theorem hasToken_nextToken_of_peek {p : Parser} {t : TokenType} (h : peekTokenIs p t = true)
    (ht : t ≠ EOF) : hasToken (nextToken p) := by
  left
  simp only [peekTokenIs, beq_iff_eq] at h
  show p.peekToken.Type_ ≠ EOF
  rw [h]
  exact ht

theorem expectPeek_true {p : Parser} {t : TokenType} (h : peekTokenIs p t = true) :
    expectPeek p t = (true, nextToken p) := by
  simp [expectPeek, h]

theorem expectPeek_false {p : Parser} {t : TokenType} (h : ¬ peekTokenIs p t = true) :
    expectPeek p t = (false, p) := by
  simp [expectPeek, h]

theorem weight_parseSpacing_le (p : Parser) : weight (parseSpacing p) ≤ weight p := by
  unfold parseSpacing
  split_ifs
  · exact weight_nextToken_le _
  · exact weight_nextToken_le _
  · exact le_refl _

theorem weight_parseSpacing_lt (p : Parser)
    (h : p.curToken.Type_ = TAB ∨ p.curToken.Type_ = NEWLINE) :
    weight (parseSpacing p) + 2 ≤ weight p := by
  have ht : hasToken p := by
    left
    rcases h with h | h <;> rw [h] <;> decide
  unfold parseSpacing
  split_ifs with h1 h2
  · exact weight_nextToken_lt { p with spacing := p.spacing + 1 } ht
  · exact weight_nextToken_lt { p with spacing := 0 } ht
  · rcases h with h | h
    · exact absurd h h1
    · exact absurd h h2

theorem weight_advanceWhitespaceLoop_le (n : Nat) :
    ∀ p : Parser, weight (advanceWhitespaceLoop n p) ≤ weight p := by
  induction n with
  | zero => intro p; exact le_refl _
  | succ n ih =>
    intro p
    unfold advanceWhitespaceLoop
    split_ifs
    · exact le_trans (ih _) (weight_parseSpacing_le p)
    · exact le_refl _

theorem weight_advanceWhitespace_le (p : Parser) : weight (advanceWhitespace p) ≤ weight p :=
  weight_advanceWhitespaceLoop_le _ p

theorem weight_skipSemicolonsLoop_le (n : Nat) :
    ∀ p : Parser, weight (skipSemicolonsLoop n p) ≤ weight p := by
  induction n with
  | zero => intro p; exact le_refl _
  | succ n ih =>
    intro p
    unfold skipSemicolonsLoop
    split_ifs
    · exact le_trans (ih _) (weight_nextToken_le p)
    · exact le_refl _

theorem weight_skipSemicolons_le (p : Parser) : weight (skipSemicolons p) ≤ weight p :=
  weight_skipSemicolonsLoop_le _ p

theorem weight_parseFunctionParametersLoop_le (n : Nat) :
    ∀ (identifiers : List ast.Identifier) (p : Parser),
      weight (parseFunctionParametersLoop n identifiers p).2 ≤ weight p := by
  induction n with
  | zero => intro identifiers p; exact le_refl _
  | succ n ih =>
    intro identifiers p
    unfold parseFunctionParametersLoop
    split_ifs
    · exact le_trans (ih _ _)
        (le_trans (weight_nextToken_le _) (weight_nextToken_le p))
    · exact le_refl _

theorem weight_expectPeek_le (p : Parser) (t : TokenType) :
    weight (expectPeek p t).2 ≤ weight p := by
  unfold expectPeek
  split_ifs
  · exact weight_nextToken_le p
  · exact le_refl _

theorem weight_parseFunctionParameters_le (p : Parser) :
    weight (parseFunctionParameters p).2 ≤ weight p := by
  unfold parseFunctionParameters
  split_ifs
  · exact weight_nextToken_le p
  · simp only
    split_ifs
    · exact le_trans (weight_expectPeek_le _ _)
        (le_trans (weight_parseFunctionParametersLoop_le _ _ _) (weight_nextToken_le p))
    · exact le_trans (weight_expectPeek_le _ _)
        (le_trans (weight_parseFunctionParametersLoop_le _ _ _) (weight_nextToken_le p))

theorem weight_step (p p1 : Parser) (hcur : p.curToken.Type_ ≠ EOF)
    (hle : weight p1 ≤ weight p) :
    weight (if p1.skipFlag then nextToken p1 else { p1 with skipFlag := true }) + 1 ≤
      weight p := by
  by_cases hf : p1.skipFlag = true
  · rw [if_pos hf]
    by_cases ht : hasToken p1
    · have := weight_nextToken_lt p1 ht
      omega
    · have h1 := weight_nextToken_le p1
      have h2 : weight p1 % 4 = 0 := by
        unfold hasToken at ht
        unfold weight
        simp only [not_or, not_not] at ht
        simp only [ht.1, ht.2, hf, if_true]
        omega
      have h3 : 2 ≤ weight p % 4 := by
        unfold weight
        simp only [hcur, if_false]
        split_ifs <;> omega
      omega
  · rw [if_neg hf]
    have : weight { p1 with skipFlag := true } + 1 = weight p1 := by
      unfold weight
      simp only [hf, if_true, if_false]
      rfl
    omega

theorem prefixParseFns_hasToken {p : Parser} {fn : PrefixParseFn}
    (h : prefixParseFns p.curToken.Type_ = some fn) : hasToken p := by
  left
  intro hc
  have h0 : prefixParseFns EOF = none := by decide
  rw [hc, h0] at h
  exact absurd h (by simp)

theorem infixParseFns_peek {p : Parser} {fn : InfixParseFn}
    (h : infixParseFns p.peekToken.Type_ = some fn) : p.peekToken.Type_ ≠ EOF := by
  intro hc
  have h0 : infixParseFns EOF = none := by decide
  rw [hc, h0] at h
  exact absurd h (by simp)

theorem step_prefixExpression (pf : String → Option Float64) (n : Nat) (ih : allReturn pf n) :
    returnsWithin (parsePrefixExpression pf) (n + 1) 1 0 hasToken := by
  intro p hpre hfuel
  have hw := weight_nextToken_lt p hpre
  obtain ⟨⟨right, p1⟩, h1, hpost⟩ := ih.expression PREFIX (nextToken p) trivial (by omega)
  dsimp only at h1 hpost
  apply returns_succ
  · intro k hk
    simp only [parsePrefixExpression, h1 k hk, bind, Except.bind, pure, Except.pure]
    rfl
  · dsimp only
    omega

theorem step_infixExpression (pf : String → Option Float64) (n : Nat) (ih : allReturn pf n)
    (left : Option ast.Expression) :
    returnsWithin (fun m => parseInfixExpression pf m left) (n + 1) 1 0 hasToken := by
  intro p hpre hfuel
  have hw := weight_nextToken_lt p hpre
  obtain ⟨⟨right, p1⟩, h1, hpost⟩ :=
    ih.expression (curPrecedence p) (nextToken p) trivial (by omega)
  dsimp only at h1 hpost
  apply returns_succ
  · intro k hk
    simp only [parseInfixExpression, h1 k hk, bind, Except.bind, pure, Except.pure]
    rfl
  · dsimp only
    omega

theorem step_inExpression (pf : String → Option Float64) (n : Nat) (ih : allReturn pf n)
    (left : Option ast.Expression) :
    returnsWithin (fun m => parseInExpression pf m left) (n + 1) 1 0 hasToken := by
  intro p hpre hfuel
  have hw := weight_nextToken_lt p hpre
  obtain ⟨⟨right, p1⟩, h1, hpost⟩ := ih.expression LOWEST (nextToken p) trivial (by omega)
  dsimp only at h1 hpost
  apply returns_succ
  · intro k hk
    simp only [parseInExpression, h1 k hk, bind, Except.bind, pure, Except.pure]
    rfl
  · dsimp only
    omega

theorem step_groupedExpression (pf : String → Option Float64) (n : Nat) (ih : allReturn pf n) :
    returnsWithin (parseGroupedExpression pf) (n + 1) 1 0 hasToken := by
  intro p hpre hfuel
  have hw := weight_nextToken_lt p hpre
  obtain ⟨⟨exp, p1⟩, h1, hpost⟩ := ih.expression LOWEST (nextToken p) trivial (by omega)
  dsimp only at h1 hpost
  have hw1 := weight_expectPeek_le p1 RPAREN
  by_cases hpk : peekTokenIs p1 RPAREN = true
  · apply returns_succ
    · intro k hk
      simp only [parseGroupedExpression, h1 k hk, expectPeek_true hpk, bind, Except.bind, pure,
        Except.pure, Bool.not_true, Bool.false_eq_true, if_false]
      rfl
    · rw [expectPeek_true hpk] at hw1
      dsimp only at hw1 ⊢
      omega
  · apply returns_succ
    · intro k hk
      simp only [parseGroupedExpression, h1 k hk, expectPeek_false hpk, bind, Except.bind, pure,
        Except.pure, Bool.not_false, if_true]
      rfl
    · dsimp only
      omega

theorem step_objectMethod (pf : String → Option Float64) (n : Nat) (ih : allReturn pf n)
    (left : Option ast.Expression) :
    returnsWithin (fun m => parseObjectMethod pf m left) (n + 1) 1 0 (fun _ => True) := by
  intro p _ hfuel
  by_cases hpk : peekTokenIs p IDENT = true
  · have hw := weight_nextToken_lt p (hasToken_of_peek hpk (by decide))
    obtain ⟨⟨method, p1⟩, h1, hpost⟩ := ih.expression LOWEST (nextToken p) trivial (by omega)
    dsimp only at h1 hpost
    apply returns_succ
    · intro k hk
      simp only [parseObjectMethod, h1 k hk, expectPeek_true hpk, bind, Except.bind, pure,
        Except.pure, Bool.not_true, Bool.false_eq_true, if_false]
      rfl
    · dsimp only
      omega
  · apply returns_succ
    · intro k hk
      simp only [parseObjectMethod, expectPeek_false hpk, Bool.not_false, if_true]
      rfl
    · dsimp only
      omega

theorem step_expressionListLoop (pf : String → Option Float64) (n : Nat) (ih : allReturn pf n)
    (list : List (Option ast.Expression)) :
    returnsWithin (fun m => parseExpressionListLoop pf m list) (n + 1) 1 0 (fun _ => True) := by
  intro p _ hfuel
  by_cases hpk : peekTokenIs p COMMA = true
  · have hw := weight_nextToken_lt p (hasToken_of_peek hpk (by decide))
    have hw1 := weight_nextToken_le (nextToken p)
    obtain ⟨⟨next, p1⟩, h1, hpost1⟩ :=
      ih.expression LOWEST (nextToken (nextToken p)) trivial (by omega)
    dsimp only at h1 hpost1
    obtain ⟨⟨result, p2⟩, h2, hpost2⟩ :=
      ih.expressionListLoop (list ++ [next]) p1 trivial (by omega)
    dsimp only at h2 hpost2
    apply returns_succ
    · intro k hk
      simp only [parseExpressionListLoop, hpk, h1 k hk, h2 k hk, bind, Except.bind, if_true]
      rfl
    · dsimp only
      omega
  · apply returns_succ
    · intro k hk
      simp only [parseExpressionListLoop, hpk, Bool.false_eq_true, if_false]
      rfl
    · dsimp only
      omega

theorem step_expressionList (pf : String → Option Float64) (n : Nat) (ih : allReturn pf n)
    (end_ : TokenType) :
    returnsWithin (fun m => parseExpressionList pf m end_) (n + 1) 1 0 hasToken := by
  intro p hpre hfuel
  have hw := weight_nextToken_lt p hpre
  by_cases hpk : peekTokenIs p end_ = true
  · apply returns_succ
    · intro k hk
      simp only [parseExpressionList, hpk, if_true]
      rfl
    · dsimp only
      omega
  · obtain ⟨⟨first, p1⟩, h1, hpost1⟩ := ih.expression LOWEST (nextToken p) trivial (by omega)
    dsimp only at h1 hpost1
    obtain ⟨⟨list, p2⟩, h2, hpost2⟩ := ih.expressionListLoop [first] p1 trivial (by omega)
    dsimp only at h2 hpost2
    have hw2 := weight_expectPeek_le p2 end_
    by_cases hpk2 : peekTokenIs p2 end_ = true
    · apply returns_succ
      · intro k hk
        simp only [parseExpressionList, hpk, h1 k hk, h2 k hk, expectPeek_true hpk2, bind,
          Except.bind, pure, Except.pure, Bool.not_true, Bool.false_eq_true, if_false]
        rfl
      · rw [expectPeek_true hpk2] at hw2
        dsimp only at hw2 ⊢
        omega
    · apply returns_succ
      · intro k hk
        simp only [parseExpressionList, hpk, h1 k hk, h2 k hk, expectPeek_false hpk2, bind,
          Except.bind, pure, Except.pure, Bool.not_false, Bool.false_eq_true, if_false, if_true]
        rfl
      · dsimp only
        omega

theorem step_listLiteral (pf : String → Option Float64) (n : Nat) (ih : allReturn pf n) :
    returnsWithin (parseListLiteral pf) (n + 1) 2 0 hasToken := by
  intro p hpre hfuel
  obtain ⟨⟨elements, p1⟩, h1, hpost⟩ := ih.expressionList RBRACKET p hpre (by omega)
  dsimp only at h1 hpost
  apply returns_succ
  · intro k hk
    simp only [parseListLiteral, h1 k hk, bind, Except.bind, pure, Except.pure]
    rfl
  · dsimp only
    omega

theorem step_callExpression (pf : String → Option Float64) (n : Nat) (ih : allReturn pf n)
    (function : Option ast.Expression) :
    returnsWithin (fun m => parseCallExpression pf m function) (n + 1) 2 0 hasToken := by
  intro p hpre hfuel
  obtain ⟨⟨arguments, p1⟩, h1, hpost⟩ := ih.expressionList RPAREN p hpre (by omega)
  dsimp only at h1 hpost
  apply returns_succ
  · intro k hk
    simp only [parseCallExpression, h1 k hk, bind, Except.bind, pure, Except.pure]
    rfl
  · dsimp only
    omega

theorem step_indexExpression (pf : String → Option Float64) (n : Nat) (ih : allReturn pf n)
    (left : Option ast.Expression) :
    returnsWithin (fun m => parseIndexExpression pf m left) (n + 1) 1 0 hasToken := by
  intro p hpre hfuel
  have hw := weight_nextToken_lt p hpre
  obtain ⟨⟨index, p1⟩, h1, hpost1⟩ := ih.expression LOWEST (nextToken p) trivial (by omega)
  dsimp only at h1 hpost1
  -- the part after the bounds: from the state `p3` on
  have rest : ∀ (colon : Bool) (endIndex : Option ast.Expression) (p3 : Parser),
      weight p3 ≤ weight p1 →
      ∃ r : Option ast.Expression × Parser,
        (∀ k, n ≤ k →
          (let e2 := expectPeek p3 RBRACKET
           if !e2.1 then pure (none, e2.2)
           else
             let e3 := expectPeek e2.2 ASSIGN
             if e3.1 then do
               let (value, p5) ← parseExpression pf k LOWEST (nextToken e3.2)
               pure (some (.IndexAssignExpression p.curToken left index colon endIndex value),
                 p5)
             else pure (some (.IndexExpression p.curToken left index colon endIndex), e3.2) :
            Except Fault (Option ast.Expression × Parser)) = .ok r) ∧
        weight r.2 ≤ weight p3 := by
    intro colon endIndex p3 hp3
    by_cases hpk2 : peekTokenIs p3 RBRACKET = true
    · have hw3 := weight_nextToken_le p3
      by_cases hpk3 : peekTokenIs (nextToken p3) ASSIGN = true
      · have hw4 := weight_nextToken_le (nextToken p3)
        have hw5 := weight_nextToken_le (nextToken (nextToken p3))
        obtain ⟨⟨value, p5⟩, h5, hpost5⟩ :=
          ih.expression LOWEST (nextToken (nextToken (nextToken p3))) trivial (by omega)
        dsimp only at h5 hpost5
        refine ⟨(some (.IndexAssignExpression p.curToken left index colon endIndex value), p5),
          fun k hk => ?_, ?_⟩
        · simp only [expectPeek_true hpk2, expectPeek_true hpk3, h5 k hk, bind, Except.bind,
            pure, Except.pure, Bool.not_true, Bool.false_eq_true, if_false, if_true]
        · dsimp only
          omega
      · refine ⟨(some (.IndexExpression p.curToken left index colon endIndex), nextToken p3),
          fun k hk => ?_, ?_⟩
        · simp only [expectPeek_true hpk2, expectPeek_false hpk3, pure, Except.pure,
            Bool.not_true, Bool.false_eq_true, if_false]
        · dsimp only
          omega
    · refine ⟨(none, p3), fun k hk => ?_, le_refl _⟩
      simp only [expectPeek_false hpk2, pure, Except.pure, Bool.not_false, if_true]
  by_cases hpk : peekTokenIs p1 COLON = true
  · have hw1 := weight_nextToken_le p1
    have hw2 := weight_nextToken_le (nextToken p1)
    obtain ⟨⟨endIndex, p2⟩, h2, hpost2⟩ :=
      ih.expression LOWEST (nextToken (nextToken p1)) trivial (by omega)
    dsimp only at h2 hpost2
    obtain ⟨r, hr, hpostr⟩ := rest true endIndex p2 (by omega)
    apply returns_succ
    · intro k hk
      have e := hr k hk
      simp only [parseIndexExpression, h1 k hk, expectPeek_true hpk, h2 k hk, bind, Except.bind,
        pure, Except.pure, if_true] at e ⊢
      exact e
    · omega
  · obtain ⟨r, hr, hpostr⟩ := rest false none p1 (le_refl _)
    apply returns_succ
    · intro k hk
      have e := hr k hk
      simp only [parseIndexExpression, h1 k hk, expectPeek_false hpk, bind, Except.bind,
        pure, Except.pure, Bool.false_eq_true, if_false] at e ⊢
      exact e
    · omega

theorem step_dictLiteralLoop (pf : String → Option Float64) (n : Nat) (ih : allReturn pf n)
    (pairs : List (Option ast.Expression × Option ast.Expression)) :
    returnsWithin (fun m => parseDictLiteralLoop pf m pairs) (n + 1) 1 0 hasToken := by
  intro p hpre hfuel
  by_cases hr : peekTokenIs p RBRACE = true
  · apply returns_succ
    · intro k hk
      simp only [parseDictLiteralLoop, hr, Bool.not_true, Bool.false_eq_true, if_false]
      rfl
    · dsimp only
      omega
  · have hw := weight_nextToken_lt p hpre
    have hw1 := weight_advanceWhitespace_le (nextToken p)
    obtain ⟨⟨key, p2⟩, h2, hpost2⟩ :=
      ih.expression LOWEST (advanceWhitespace (nextToken p)) trivial (by omega)
    dsimp only at h2 hpost2
    have hw2 := weight_advanceWhitespace_le p2
    by_cases hc : peekTokenIs (advanceWhitespace p2) COLON = true
    · have hw3 := weight_nextToken_le (advanceWhitespace p2)
      have hw4 := weight_nextToken_le (nextToken (advanceWhitespace p2))
      have hw5 := weight_advanceWhitespace_le (nextToken (nextToken (advanceWhitespace p2)))
      obtain ⟨⟨value, p4⟩, h4, hpost4⟩ :=
        ih.expression LOWEST (advanceWhitespace (nextToken (nextToken (advanceWhitespace p2))))
          trivial (by omega)
      dsimp only at h4 hpost4
      have hw6 := weight_advanceWhitespace_le p4
      by_cases hr2 : peekTokenIs (advanceWhitespace p4) RBRACE = true
      · obtain ⟨⟨result, p6⟩, h6, hpost6⟩ :=
          ih.dictLiteralLoop (pairsSet pairs key value) (advanceWhitespace p4)
            (hasToken_of_peek hr2 (by decide)) (by omega)
        dsimp only at h6 hpost6
        apply returns_succ
        · intro k hk
          simp only [parseDictLiteralLoop, hr, h2 k hk, expectPeek_true hc, h4 k hk, hr2,
            h6 k hk, bind, Except.bind, pure, Except.pure, Bool.not_true, Bool.not_false,
            Bool.false_eq_true, if_false, if_true]
          rfl
        · dsimp only
          omega
      · by_cases hcm : peekTokenIs (advanceWhitespace p4) COMMA = true
        · have hw7 := weight_nextToken_le (advanceWhitespace p4)
          obtain ⟨⟨result, p6⟩, h6, hpost6⟩ :=
            ih.dictLiteralLoop (pairsSet pairs key value) (nextToken (advanceWhitespace p4))
              (hasToken_nextToken_of_peek hcm (by decide)) (by omega)
          dsimp only at h6 hpost6
          apply returns_succ
          · intro k hk
            simp only [parseDictLiteralLoop, hr, h2 k hk, expectPeek_true hc, h4 k hk, hr2,
              expectPeek_true hcm, h6 k hk, bind, Except.bind, pure, Except.pure,
              Bool.not_true, Bool.not_false, Bool.false_eq_true, if_false, if_true]
            rfl
          · dsimp only
            omega
        · apply returns_succ
          · intro k hk
            simp only [parseDictLiteralLoop, hr, h2 k hk, expectPeek_true hc, h4 k hk, hr2,
              expectPeek_false hcm, bind, Except.bind, pure, Except.pure, Bool.not_true,
              Bool.not_false, Bool.false_eq_true, if_false, if_true]
            rfl
          · dsimp only
            omega
    · apply returns_succ
      · intro k hk
        simp only [parseDictLiteralLoop, hr, h2 k hk, expectPeek_false hc, bind, Except.bind,
          pure, Except.pure, Bool.not_false, Bool.false_eq_true, if_false, if_true]
        rfl
      · dsimp only
        omega

theorem step_dictLiteral (pf : String → Option Float64) (n : Nat) (ih : allReturn pf n) :
    returnsWithin (parseDictLiteral pf) (n + 1) 2 0 hasToken := by
  intro p hpre hfuel
  obtain ⟨⟨pairs, p1⟩, h1, hpost⟩ := ih.dictLiteralLoop [] p hpre (by omega)
  dsimp only at h1 hpost
  cases pairs with
  | none =>
    apply returns_succ
    · intro k hk
      simp only [parseDictLiteral, h1 k hk, bind, Except.bind, pure, Except.pure]
      rfl
    · dsimp only
      omega
  | some ps =>
    have hw1 := weight_expectPeek_le p1 RBRACE
    by_cases hpk : peekTokenIs p1 RBRACE = true
    · apply returns_succ
      · intro k hk
        simp only [parseDictLiteral, h1 k hk, expectPeek_true hpk, bind, Except.bind, pure,
          Except.pure, Bool.not_true, Bool.false_eq_true, if_false]
        rfl
      · rw [expectPeek_true hpk] at hw1
        dsimp only at hw1 ⊢
        omega
    · apply returns_succ
      · intro k hk
        simp only [parseDictLiteral, h1 k hk, expectPeek_false hpk, bind, Except.bind, pure,
          Except.pure, Bool.not_false, if_true]
        rfl
      · dsimp only
        omega

theorem infix_dispatch (pf : String → Option Float64) (n : Nat) (ih : allReturn pf n)
    (leftExp : Option ast.Expression) (p1 : Parser) (hpre1 : hasToken p1)
    (hfuel : 8 * weight p1 + 2 ≤ n) (fn : InfixParseFn) :
    ∃ r : Option ast.Expression × Parser,
      (∀ k, n ≤ k →
        (match fn with
          | .parseInfixExpression => parseInfixExpression pf k leftExp p1
          | .parseCallExpression => parseCallExpression pf k leftExp p1
          | .parseIndexExpression => parseIndexExpression pf k leftExp p1
          | .parseObjectMethod => parseObjectMethod pf k leftExp p1
          | .parseInExpression => parseInExpression pf k leftExp p1 :
          Except Fault (Option ast.Expression × Parser)) = .ok r) ∧
      weight r.2 ≤ weight p1 := by
  cases fn with
  | parseInfixExpression =>
    obtain ⟨r, hr, hp⟩ := ih.infixExpression leftExp p1 hpre1 (by omega)
    exact ⟨r, hr, hp⟩
  | parseCallExpression =>
    obtain ⟨r, hr, hp⟩ := ih.callExpression leftExp p1 hpre1 (by omega)
    exact ⟨r, hr, hp⟩
  | parseIndexExpression =>
    obtain ⟨r, hr, hp⟩ := ih.indexExpression leftExp p1 hpre1 (by omega)
    exact ⟨r, hr, hp⟩
  | parseObjectMethod =>
    obtain ⟨r, hr, hp⟩ := ih.objectMethod leftExp p1 trivial (by omega)
    exact ⟨r, hr, hp⟩
  | parseInExpression =>
    obtain ⟨r, hr, hp⟩ := ih.inExpression leftExp p1 hpre1 (by omega)
    exact ⟨r, hr, hp⟩

theorem step_expressionLoop (pf : String → Option Float64) (n : Nat) (ih : allReturn pf n)
    (precedence : Nat) (leftExp : Option ast.Expression) :
    returnsWithin (fun m => parseExpressionLoop pf m precedence leftExp) (n + 1) 1 0
      (fun _ => True) := by
  intro p _ hfuel
  by_cases hc : (!peekTokenIs p SEMICOLON && decide (precedence < peekPrecedence p)) = true
  · cases hfn : infixParseFns p.peekToken.Type_ with
    | none =>
      apply returns_succ
      · intro k hk
        simp only [parseExpressionLoop, hc, hfn, if_true]
        rfl
      · dsimp only
        omega
    | some fn =>
      have hpeek := infixParseFns_peek hfn
      have hw := weight_nextToken_lt p (Or.inr hpeek)
      obtain ⟨⟨leftExp1, p2⟩, h2, hpost2⟩ :=
        infix_dispatch pf n ih leftExp (nextToken p) (Or.inl hpeek) (by omega) fn
      dsimp only at hpost2
      obtain ⟨⟨result, p3⟩, h3, hpost3⟩ :=
        ih.expressionLoop precedence leftExp1 p2 trivial (by omega)
      dsimp only at h3 hpost3
      apply returns_succ
      · intro k hk
        have e := h2 k hk
        cases fn <;> dsimp only at e <;>
          simp only [parseExpressionLoop, hc, hfn, e, h3 k hk, bind, Except.bind, if_true] <;>
          rfl
      · dsimp only
        omega
  · apply returns_succ
    · intro k hk
      simp only [parseExpressionLoop, hc, Bool.false_eq_true, if_false]
      rfl
    · dsimp only
      omega

theorem prefix_dispatch (pf : String → Option Float64) (n : Nat) (ih : allReturn pf n)
    (p : Parser) (hpre : hasToken p) (hfuel : 8 * weight p + 2 ≤ n) (fn : PrefixParseFn) :
    ∃ r : Option ast.Expression × Parser,
      (∀ k, n ≤ k →
        (match fn with
          | .parseIdentifier => pure (parseIdentifier p)
          | .parseIntegerLiteral => pure (parseIntegerLiteral p)
          | .parseFloatLiteral => pure (parseFloatLiteral pf p)
          | .parsePrefixExpression => parsePrefixExpression pf k p
          | .parseBoolean => pure (parseBoolean p)
          | .parseGroupedExpression => parseGroupedExpression pf k p
          | .parseIfExpression => parseIfExpression pf k p
          | .parseStringLiteral => pure (parseStringLiteral p)
          | .parseListLiteral => parseListLiteral pf k p
          | .parseDictLiteral => parseDictLiteral pf k p :
          Except Fault (Option ast.Expression × Parser)) = .ok r) ∧
      weight r.2 ≤ weight p := by
  cases fn with
  | parseIdentifier => exact ⟨parseIdentifier p, fun _ _ => rfl, le_refl _⟩
  | parseIntegerLiteral =>
    refine ⟨parseIntegerLiteral p, fun _ _ => rfl, ?_⟩
    unfold parseIntegerLiteral
    split <;> exact le_refl _
  | parseFloatLiteral =>
    refine ⟨parseFloatLiteral pf p, fun _ _ => rfl, ?_⟩
    unfold parseFloatLiteral
    split <;> exact le_refl _
  | parsePrefixExpression =>
    obtain ⟨r, hr, hp⟩ := ih.prefixExpression p hpre (by omega)
    exact ⟨r, hr, hp⟩
  | parseBoolean => exact ⟨parseBoolean p, fun _ _ => rfl, le_refl _⟩
  | parseGroupedExpression =>
    obtain ⟨r, hr, hp⟩ := ih.groupedExpression p hpre (by omega)
    exact ⟨r, hr, hp⟩
  | parseIfExpression =>
    obtain ⟨r, hr, hp⟩ := ih.ifExpression p hpre (by omega)
    exact ⟨r, hr, hp⟩
  | parseStringLiteral => exact ⟨parseStringLiteral p, fun _ _ => rfl, le_refl _⟩
  | parseListLiteral =>
    obtain ⟨r, hr, hp⟩ := ih.listLiteral p hpre (by omega)
    exact ⟨r, hr, hp⟩
  | parseDictLiteral =>
    obtain ⟨r, hr, hp⟩ := ih.dictLiteral p hpre (by omega)
    exact ⟨r, hr, hp⟩

theorem step_expression (pf : String → Option Float64) (n : Nat) (ih : allReturn pf n)
    (precedence : Nat) :
    returnsWithin (fun m => parseExpression pf m precedence) (n + 1) 3 0 (fun _ => True) := by
  intro p _ hfuel
  cases hfn : prefixParseFns p.curToken.Type_ with
  | none =>
    apply returns_succ
    · intro k hk
      simp only [parseExpression, hfn]
      rfl
    · exact le_refl _
  | some fn =>
    obtain ⟨⟨leftExp, p1⟩, h1, hpost1⟩ :=
      prefix_dispatch pf n ih p (prefixParseFns_hasToken hfn) (by omega) fn
    dsimp only at hpost1
    obtain ⟨⟨result, p2⟩, h2, hpost2⟩ :=
      ih.expressionLoop precedence leftExp p1 trivial (by omega)
    dsimp only at h2 hpost2
    apply returns_succ
    · intro k hk
      have e := h1 k hk
      cases fn <;> dsimp only [pure, Except.pure] at e <;>
        simp only [parseExpression, hfn, e, h2 k hk, bind, Except.bind, pure, Except.pure] <;>
        rfl
    · dsimp only
      omega

theorem step_letStatement (pf : String → Option Float64) (n : Nat) (ih : allReturn pf n) :
    returnsWithin (parseLetStatement pf) (n + 1) 1 0 (fun _ => True) := by
  intro p _ hfuel
  by_cases hpk1 : peekTokenIs p IDENT = true
  · have hw1 := weight_nextToken_lt p (hasToken_of_peek hpk1 (by decide))
    by_cases hpk2 : peekTokenIs (nextToken p) ASSIGN = true
    · have hw2 := weight_nextToken_le (nextToken p)
      have hw3 := weight_nextToken_le (nextToken (nextToken p))
      obtain ⟨⟨value, p3⟩, h3, hpost3⟩ :=
        ih.expression LOWEST (nextToken (nextToken (nextToken p))) trivial (by omega)
      dsimp only at h3 hpost3
      have hw4 := weight_nextToken_le p3
      apply returns_succ
      · intro k hk
        simp only [parseLetStatement, expectPeek_true hpk1, expectPeek_true hpk2, h3 k hk, bind,
          Except.bind, pure, Except.pure, Bool.not_true, Bool.false_eq_true, if_false]
        rfl
      · dsimp only
        split_ifs <;> omega
    · apply returns_succ
      · intro k hk
        simp only [parseLetStatement, expectPeek_true hpk1, expectPeek_false hpk2,
          Bool.not_true, Bool.not_false, Bool.false_eq_true, if_false, if_true]
        rfl
      · dsimp only
        omega
  · apply returns_succ
    · intro k hk
      simp only [parseLetStatement, expectPeek_false hpk1, Bool.not_false, if_true]
      rfl
    · dsimp only
      omega

theorem step_identStatement (pf : String → Option Float64) (n : Nat) (ih : allReturn pf n) :
    returnsWithin (parseIdentStatement pf) (n + 1) 1 0 (fun _ => True) := by
  intro p _ hfuel
  by_cases hpk1 : peekTokenIs p ASSIGN = true
  · have hw1 := weight_nextToken_lt p (hasToken_of_peek hpk1 (by decide))
    have hw2 := weight_nextToken_le (nextToken p)
    obtain ⟨⟨value, p3⟩, h3, hpost3⟩ :=
      ih.expression LOWEST (nextToken (nextToken p)) trivial (by omega)
    dsimp only at h3 hpost3
    have hw4 := weight_skipSemicolons_le p3
    apply returns_succ
    · intro k hk
      simp only [parseIdentStatement, expectPeek_true hpk1, h3 k hk, bind, Except.bind, pure,
        Except.pure, Bool.not_true, Bool.false_eq_true, if_false]
      rfl
    · dsimp only
      omega
  · apply returns_succ
    · intro k hk
      simp only [parseIdentStatement, expectPeek_false hpk1, Bool.not_false, if_true]
      rfl
    · dsimp only
      omega

theorem step_returnStatement (pf : String → Option Float64) (n : Nat) (ih : allReturn pf n) :
    returnsWithin (parseReturnStatement pf) (n + 1) 1 0 hasToken := by
  intro p hpre hfuel
  have hw := weight_nextToken_lt p hpre
  obtain ⟨⟨value, p2⟩, h2, hpost2⟩ := ih.expression LOWEST (nextToken p) trivial (by omega)
  dsimp only at h2 hpost2
  have hw4 := weight_skipSemicolons_le p2
  apply returns_succ
  · intro k hk
    simp only [parseReturnStatement, h2 k hk, bind, Except.bind, pure, Except.pure]
    rfl
  · dsimp only
    omega

theorem step_expressionStatement (pf : String → Option Float64) (n : Nat)
    (ih : allReturn pf n) :
    returnsWithin (parseExpressionStatement pf) (n + 1) 4 0 (fun _ => True) := by
  intro p _ hfuel
  obtain ⟨⟨expression, p2⟩, h2, hpost2⟩ := ih.expression LOWEST p trivial (by omega)
  dsimp only at h2 hpost2
  have hw4 := weight_nextToken_le p2
  apply returns_succ
  · intro k hk
    simp only [parseExpressionStatement, h2 k hk, bind, Except.bind, pure, Except.pure]
    rfl
  · dsimp only
    split_ifs <;> omega

theorem step_blockStatement (pf : String → Option Float64) (n : Nat) (ih : allReturn pf n) :
    returnsWithin (parseBlockStatement pf) (n + 1) 7 1 (fun _ => True) := by
  intro p _ hfuel
  have hw := weight_nextToken_le p
  have hw1 := weight_advanceWhitespace_le (nextToken p)
  obtain ⟨⟨statements, p2⟩, h2, hpost2⟩ :=
    ih.blockStatementLoop p.spacing [] (advanceWhitespace (nextToken p)) trivial (by omega)
  dsimp only at h2 hpost2
  have hw2 := weight_skipFlag_false p2
  apply returns_succ
  · intro k hk
    simp only [parseBlockStatement, h2 k hk, bind, Except.bind, pure, Except.pure]
    rfl
  · dsimp only
    omega

theorem step_blockStatementLoop (pf : String → Option Float64) (n : Nat) (ih : allReturn pf n)
    (indentLevel : Int) (statements : List ast.Statement) :
    returnsWithin (fun m => parseBlockStatementLoop pf m indentLevel statements) (n + 1) 6 0
      (fun _ => True) := by
  intro p _ hfuel
  by_cases hc : (decide (p.spacing > indentLevel) && !curTokenIs p EOF) = true
  · have hcur : p.curToken.Type_ ≠ EOF := by
      simp only [Bool.and_eq_true, Bool.not_eq_true', curTokenIs, beq_eq_false_iff_ne] at hc
      exact hc.2
    obtain ⟨⟨stmt, p1⟩, h1, hpost1⟩ := ih.statement p trivial (by omega)
    dsimp only at h1 hpost1
    have hw := weight_step p p1 hcur (by omega)
    have hw1 := weight_advanceWhitespace_le
      (if p1.skipFlag then nextToken p1 else { p1 with skipFlag := true })
    obtain ⟨⟨result, p3⟩, h3, hpost3⟩ :=
      ih.blockStatementLoop indentLevel (statements ++ [stmt])
        (advanceWhitespace (if p1.skipFlag then nextToken p1 else { p1 with skipFlag := true }))
        trivial (by omega)
    dsimp only at h3 hpost3
    apply returns_succ
    · intro k hk
      simp only [parseBlockStatementLoop, hc, h1 k hk, h3 k hk, bind, Except.bind, if_true]
      rfl
    · dsimp only
      omega
  · apply returns_succ
    · intro k hk
      simp only [parseBlockStatementLoop, hc, Bool.false_eq_true, if_false]
      rfl
    · dsimp only
      omega

theorem step_whileStatement (pf : String → Option Float64) (n : Nat) (ih : allReturn pf n) :
    returnsWithin (parseWhileStatement pf) (n + 1) 1 0 hasToken := by
  intro p hpre hfuel
  have hw := weight_nextToken_lt p hpre
  obtain ⟨⟨condition, p2⟩, h2, hpost2⟩ := ih.expression LOWEST (nextToken p) trivial (by omega)
  dsimp only at h2 hpost2
  by_cases hpk : peekTokenIs p2 COLON = true
  · have hw2 := weight_nextToken_lt p2 (hasToken_of_peek hpk (by decide))
    obtain ⟨⟨body, p4⟩, h4, hpost4⟩ := ih.blockStatement (nextToken p2) trivial (by omega)
    dsimp only at h4 hpost4
    apply returns_succ
    · intro k hk
      simp only [parseWhileStatement, h2 k hk, expectPeek_true hpk, h4 k hk, bind, Except.bind,
        pure, Except.pure, Bool.not_true, Bool.false_eq_true, if_false]
      rfl
    · dsimp only
      omega
  · apply returns_succ
    · intro k hk
      simp only [parseWhileStatement, h2 k hk, expectPeek_false hpk, bind, Except.bind, pure,
        Except.pure, Bool.not_false, if_true]
      rfl
    · dsimp only
      omega

theorem step_forStatement (pf : String → Option Float64) (n : Nat) (ih : allReturn pf n) :
    returnsWithin (parseForStatement pf) (n + 1) 1 0 (fun _ => True) := by
  intro p _ hfuel
  by_cases hpk1 : peekTokenIs p IDENT = true
  · have hw1 := weight_nextToken_lt p (hasToken_of_peek hpk1 (by decide))
    by_cases hpk2 : peekTokenIs (nextToken p) IN = true
    · have hw2 := weight_nextToken_le (nextToken p)
      have hw3 := weight_nextToken_le (nextToken (nextToken p))
      obtain ⟨⟨iterable, p3⟩, h3, hpost3⟩ :=
        ih.expression LOWEST (nextToken (nextToken (nextToken p))) trivial (by omega)
      dsimp only at h3 hpost3
      by_cases hpk3 : peekTokenIs p3 COLON = true
      · have hw4 := weight_nextToken_lt p3 (hasToken_of_peek hpk3 (by decide))
        obtain ⟨⟨body, p5⟩, h5, hpost5⟩ := ih.blockStatement (nextToken p3) trivial (by omega)
        dsimp only at h5 hpost5
        apply returns_succ
        · intro k hk
          simp only [parseForStatement, expectPeek_true hpk1, expectPeek_true hpk2, h3 k hk,
            expectPeek_true hpk3, h5 k hk, bind, Except.bind, pure, Except.pure, Bool.not_true,
            Bool.false_eq_true, if_false]
          rfl
        · dsimp only
          omega
      · apply returns_succ
        · intro k hk
          simp only [parseForStatement, expectPeek_true hpk1, expectPeek_true hpk2, h3 k hk,
            expectPeek_false hpk3, bind, Except.bind, pure, Except.pure, Bool.not_true,
            Bool.not_false, Bool.false_eq_true, if_false, if_true]
          rfl
        · dsimp only
          omega
    · apply returns_succ
      · intro k hk
        simp only [parseForStatement, expectPeek_true hpk1, expectPeek_false hpk2,
          Bool.not_true, Bool.not_false, Bool.false_eq_true, if_false, if_true]
        rfl
      · dsimp only
        omega
  · apply returns_succ
    · intro k hk
      simp only [parseForStatement, expectPeek_false hpk1, Bool.not_false, if_true]
      rfl
    · dsimp only
      omega

theorem step_functionStatement (pf : String → Option Float64) (n : Nat) (ih : allReturn pf n) :
    returnsWithin (parseFunctionStatement pf) (n + 1) 1 0 (fun _ => True) := by
  intro p _ hfuel
  by_cases hpk1 : peekTokenIs p IDENT = true
  · have hw1 := weight_nextToken_lt p (hasToken_of_peek hpk1 (by decide))
    by_cases hpk2 : peekTokenIs (nextToken p) LPAREN = true
    · have hw2 := weight_nextToken_le (nextToken p)
      have hw3 := weight_parseFunctionParameters_le (nextToken (nextToken p))
      by_cases hpk3 :
          peekTokenIs (parseFunctionParameters (nextToken (nextToken p))).2 COLON = true
      · have hw4 := weight_nextToken_le (parseFunctionParameters (nextToken (nextToken p))).2
        obtain ⟨⟨body, p5⟩, h5, hpost5⟩ :=
          ih.blockStatement (nextToken (parseFunctionParameters (nextToken (nextToken p))).2)
            trivial (by omega)
        dsimp only at h5 hpost5
        apply returns_succ
        · intro k hk
          simp only [parseFunctionStatement, expectPeek_true hpk1, expectPeek_true hpk2,
            expectPeek_true hpk3, h5 k hk, bind, Except.bind, pure, Except.pure, Bool.not_true,
            Bool.false_eq_true, if_false]
          rfl
        · dsimp only
          omega
      · apply returns_succ
        · intro k hk
          simp only [parseFunctionStatement, expectPeek_true hpk1, expectPeek_true hpk2,
            expectPeek_false hpk3, Bool.not_true, Bool.not_false, Bool.false_eq_true, if_false,
            if_true]
          rfl
        · dsimp only
          omega
    · apply returns_succ
      · intro k hk
        simp only [parseFunctionStatement, expectPeek_true hpk1, expectPeek_false hpk2,
          Bool.not_true, Bool.not_false, Bool.false_eq_true, if_false, if_true]
        rfl
      · dsimp only
        omega
  · apply returns_succ
    · intro k hk
      simp only [parseFunctionStatement, expectPeek_false hpk1, Bool.not_false, if_true]
      rfl
    · dsimp only
      omega

theorem step_ifExpression (pf : String → Option Float64) (n : Nat) (ih : allReturn pf n) :
    returnsWithin (parseIfExpression pf) (n + 1) 1 0 hasToken := by
  intro p hpre hfuel
  have hw := weight_nextToken_lt p hpre
  obtain ⟨⟨condition, p1⟩, h1, hpost1⟩ := ih.expression LOWEST (nextToken p) trivial (by omega)
  dsimp only at h1 hpost1
  by_cases hpk : peekTokenIs p1 COLON = true
  · have hw1 := weight_nextToken_lt p1 (hasToken_of_peek hpk (by decide))
    obtain ⟨⟨consequence, p2⟩, h2, hpost2⟩ :=
      ih.blockStatement (nextToken p1) trivial (by omega)
    dsimp only at h2 hpost2
    have hw2 := weight_advanceWhitespace_le p2
    by_cases helse : curTokenIs (advanceWhitespace p2) ELSE = true
    · have hw3 := weight_skipFlag_true (advanceWhitespace p2)
      have hpre3 : hasToken { advanceWhitespace p2 with skipFlag := true } :=
        hasToken_of_curTokenIs (t := ELSE) helse (by decide)
      have hw4 := weight_nextToken_lt { advanceWhitespace p2 with skipFlag := true } hpre3
      dsimp only at hw3 hw4
      by_cases hcolon :
          curTokenIs (nextToken { advanceWhitespace p2 with skipFlag := true }) COLON = true
      · have hw5 := weight_nextToken_lt
          (nextToken { advanceWhitespace p2 with skipFlag := true })
          (hasToken_of_curTokenIs hcolon (by decide))
        dsimp only at hw5
        obtain ⟨⟨alternative, p5⟩, h5, hpost5⟩ :=
          ih.blockStatement
            (nextToken (nextToken { advanceWhitespace p2 with skipFlag := true })) trivial
            (by dsimp only; omega)
        dsimp only at h5 hpost5
        apply returns_succ
        · intro k hk
          simp only [parseIfExpression, h1 k hk, expectPeek_true hpk, h2 k hk, helse, hcolon,
            h5 k hk, bind, Except.bind, pure, Except.pure, Bool.not_true, Bool.false_eq_true,
            if_false, if_true]
          rfl
        · dsimp only
          omega
      · apply returns_succ
        · intro k hk
          simp only [parseIfExpression, h1 k hk, expectPeek_true hpk, h2 k hk, helse, hcolon,
            bind, Except.bind, pure, Except.pure, Bool.not_true, Bool.not_false,
            Bool.false_eq_true, if_false, if_true]
          rfl
        · dsimp only
          omega
    · apply returns_succ
      · intro k hk
        simp only [parseIfExpression, h1 k hk, expectPeek_true hpk, h2 k hk, helse, bind,
          Except.bind, pure, Except.pure, Bool.not_true, Bool.false_eq_true, if_false]
        rfl
      · dsimp only
        omega
  · apply returns_succ
    · intro k hk
      simp only [parseIfExpression, h1 k hk, expectPeek_false hpk, bind, Except.bind, pure,
        Except.pure, Bool.not_false, if_true]
      rfl
    · dsimp only
      omega

theorem step_statement (pf : String → Option Float64) (n : Nat) (ih : allReturn pf n) :
    returnsWithin (parseStatement pf) (n + 1) 5 0 (fun _ => True) := by
  intro p _ hfuel
  by_cases c1 : p.curToken.Type_ = TAB ∨ p.curToken.Type_ = NEWLINE
  · have hw := weight_parseSpacing_lt p c1
    obtain ⟨r, hr, hpost⟩ := ih.statement (parseSpacing p) trivial (by omega)
    apply returns_succ
    · intro k hk
      rw [parseStatement, if_pos c1]
      exact hr k hk
    · omega
  · by_cases c2 : p.curToken.Type_ = LET
    · obtain ⟨r, hr, hpost⟩ := ih.letStatement p trivial (by omega)
      apply returns_succ
      · intro k hk
        rw [parseStatement, if_neg c1, if_pos c2]
        exact hr k hk
      · exact hpost
    · by_cases c3 : p.curToken.Type_ = IDENT ∧ p.peekToken.Type_ = ASSIGN
      · obtain ⟨r, hr, hpost⟩ := ih.identStatement p trivial (by omega)
        apply returns_succ
        · intro k hk
          rw [parseStatement, if_neg c1, if_neg c2, if_pos c3]
          exact hr k hk
        · exact hpost
      · by_cases c4 : p.curToken.Type_ = RETURN
        · obtain ⟨r, hr, hpost⟩ :=
            ih.returnStatement p (hasToken_of_cur c4 (by decide)) (by omega)
          apply returns_succ
          · intro k hk
            rw [parseStatement, if_neg c1, if_neg c2, if_neg c3, if_pos c4]
            exact hr k hk
          · exact hpost
        · by_cases c5 : p.curToken.Type_ = FUNCTION
          · obtain ⟨r, hr, hpost⟩ := ih.functionStatement p trivial (by omega)
            apply returns_succ
            · intro k hk
              rw [parseStatement, if_neg c1, if_neg c2, if_neg c3, if_neg c4, if_pos c5]
              exact hr k hk
            · exact hpost
          · by_cases c6 : p.curToken.Type_ = FOR
            · obtain ⟨r, hr, hpost⟩ := ih.forStatement p trivial (by omega)
              apply returns_succ
              · intro k hk
                rw [parseStatement, if_neg c1, if_neg c2, if_neg c3, if_neg c4, if_neg c5,
                  if_pos c6]
                exact hr k hk
              · exact hpost
            · by_cases c7 : p.curToken.Type_ = WHILE
              · obtain ⟨r, hr, hpost⟩ :=
                  ih.whileStatement p (hasToken_of_cur c7 (by decide)) (by omega)
                apply returns_succ
                · intro k hk
                  rw [parseStatement, if_neg c1, if_neg c2, if_neg c3, if_neg c4, if_neg c5,
                    if_neg c6, if_pos c7]
                  exact hr k hk
                · exact hpost
              · obtain ⟨r, hr, hpost⟩ := ih.expressionStatement p trivial (by omega)
                apply returns_succ
                · intro k hk
                  rw [parseStatement, if_neg c1, if_neg c2, if_neg c3, if_neg c4, if_neg c5,
                    if_neg c6, if_neg c7]
                  exact hr k hk
                · exact hpost

theorem allReturn_all (pf : String → Option Float64) : ∀ n, allReturn pf n := by
  intro n
  induction n with
  | zero =>
    exact
      { statement := fun p _ h => by omega
        letStatement := fun p _ h => by omega
        identStatement := fun p _ h => by omega
        returnStatement := fun p _ h => by omega
        functionStatement := fun p _ h => by omega
        forStatement := fun p _ h => by omega
        whileStatement := fun p _ h => by omega
        expressionStatement := fun p _ h => by omega
        expression := fun _ p _ h => by omega
        expressionLoop := fun _ _ p _ h => by omega
        listLiteral := fun p _ h => by omega
        dictLiteral := fun p _ h => by omega
        dictLiteralLoop := fun _ p _ h => by omega
        expressionList := fun _ p _ h => by omega
        expressionListLoop := fun _ p _ h => by omega
        groupedExpression := fun p _ h => by omega
        ifExpression := fun p _ h => by omega
        blockStatement := fun p _ h => by omega
        blockStatementLoop := fun _ _ p _ h => by omega
        callExpression := fun _ p _ h => by omega
        indexExpression := fun _ p _ h => by omega
        objectMethod := fun _ p _ h => by omega
        inExpression := fun _ p _ h => by omega
        prefixExpression := fun p _ h => by omega
        infixExpression := fun _ p _ h => by omega }
  | succ n ih =>
    exact
      { statement := step_statement pf n ih
        letStatement := step_letStatement pf n ih
        identStatement := step_identStatement pf n ih
        returnStatement := step_returnStatement pf n ih
        functionStatement := step_functionStatement pf n ih
        forStatement := step_forStatement pf n ih
        whileStatement := step_whileStatement pf n ih
        expressionStatement := step_expressionStatement pf n ih
        expression := step_expression pf n ih
        expressionLoop := step_expressionLoop pf n ih
        listLiteral := step_listLiteral pf n ih
        dictLiteral := step_dictLiteral pf n ih
        dictLiteralLoop := step_dictLiteralLoop pf n ih
        expressionList := step_expressionList pf n ih
        expressionListLoop := step_expressionListLoop pf n ih
        groupedExpression := step_groupedExpression pf n ih
        ifExpression := step_ifExpression pf n ih
        blockStatement := step_blockStatement pf n ih
        blockStatementLoop := step_blockStatementLoop pf n ih
        callExpression := step_callExpression pf n ih
        indexExpression := step_indexExpression pf n ih
        objectMethod := step_objectMethod pf n ih
        inExpression := step_inExpression pf n ih
        prefixExpression := step_prefixExpression pf n ih
        infixExpression := step_infixExpression pf n ih }

theorem ParseProgramLoop_returns (pf : String → Option Float64) :
    ∀ (n : Nat) (statements : List ast.Statement) (p : Parser), 8 * weight p + 6 ≤ n →
      ∃ r, ∀ m, n ≤ m → ParseProgramLoop pf m statements p = .ok r := by
  intro n
  induction n with
  | zero =>
    intro statements p h
    omega
  | succ n ih =>
    intro statements p hfuel
    by_cases hcur : p.curToken.Type_ ≠ EOF
    · obtain ⟨⟨stmt, p1⟩, h1, hpost1⟩ := (allReturn_all pf n).statement p trivial (by omega)
      dsimp only at h1 hpost1
      have hw := weight_step p p1 hcur (by omega)
      obtain ⟨r, hr⟩ := ih (statements ++ [stmt])
        (if p1.skipFlag then nextToken p1 else { p1 with skipFlag := true }) (by omega)
      refine ⟨r, fun m hm => ?_⟩
      obtain ⟨k, rfl, hk⟩ := exists_succ_of_le hm
      rw [ParseProgramLoop, if_pos hcur, h1 k hk]
      exact hr k hk
    · refine ⟨(statements, p), fun m hm => ?_⟩
      obtain ⟨k, rfl, hk⟩ := exists_succ_of_le hm
      rw [ParseProgramLoop, if_neg hcur]

theorem weight_New (tokens : List Token) : weight (New tokens) ≤ 4 * tokens.length + 2 := by
  have key : ∀ q : Parser, q.curToken.Type_ ≠ EOF → q.peekToken.Type_ ≠ EOF →
      weight (nextToken (nextToken q)) + 4 ≤ weight q := by
    intro q hc hp
    have h1 := weight_nextToken_lt q (Or.inl hc)
    have h2 := weight_nextToken_lt (nextToken q) (Or.inl hp)
    omega
  have he : ("" : TokenType) ≠ EOF := by decide
  have h := key ⟨tokens, ⟨"", ""⟩, ⟨"", ""⟩, [], 0, true⟩ he he
  have h0 : weight ⟨tokens, ⟨"", ""⟩, ⟨"", ""⟩, [], 0, true⟩ = 4 * tokens.length + 6 := by
    unfold weight
    rw [if_neg he, if_neg he, if_pos rfl]
  have hn : New tokens = nextToken (nextToken ⟨tokens, ⟨"", ""⟩, ⟨"", ""⟩, [], 0, true⟩) := rfl
  rw [hn]
  omega

/-- C35, as amended: for every list of tokens, followed by `EOF` indefinitely, `ParseProgram`
returns a program, the same for every budget from `32 * length + 22` on: no input makes it
loop or abort.  A token that starts an expression and has no prefix parse function is recorded
in the errors; a missing expected token is not: `expectPeek` leaves the errors as they are,
and the production that called it returns nil. -/
theorem ParseProgram_returns (ParseFloat : String → Option Float64) (tokens : List Token) :
    (∃ program after, ∀ fuel, 32 * tokens.length + 22 ≤ fuel →
      ParseProgram ParseFloat fuel (New tokens) = .ok (program, after)) ∧
    (∀ (fuel precedence : Nat) (p : Parser), prefixParseFns p.curToken.Type_ = none →
      parseExpression ParseFloat (fuel + 1) precedence p =
        .ok (none,
          { p with
            errors := p.errors ++
              ["no prefix parse function for " ++ p.curToken.Type_ ++ " found"] })) ∧
    ∀ (p : Parser) (t : TokenType), (expectPeek p t).2.errors = p.errors := by
  refine ⟨?_, ?_, ?_⟩
  · have hw := weight_New tokens
    obtain ⟨⟨statements, after⟩, hr⟩ :=
      ParseProgramLoop_returns ParseFloat (32 * tokens.length + 22) [] (New tokens) (by omega)
    refine ⟨⟨statements⟩, after, fun fuel hfuel => ?_⟩
    simp only [ParseProgram, hr fuel hfuel]
  · intro fuel precedence p hfn
    simp only [parseExpression, hfn, noPrefixParseFnError]
  · intro p t
    unfold expectPeek
    split_ifs <;> rfl

theorem ParseProgram_returns_witness :
    32 * [(⟨LET, "let"⟩ : Token), ⟨INT, "5"⟩].length + 22 ≤ 86 ∧
    ∃ program after,
      ParseProgram (fun _ => none) 86 (New [⟨LET, "let"⟩, ⟨INT, "5"⟩]) = .ok (program, after) := by
  obtain ⟨program, after, h⟩ :=
    (ParseProgram_returns (fun _ => none) [⟨LET, "let"⟩, ⟨INT, "5"⟩]).1
  exact ⟨by decide, program, after, h 86 (by decide)⟩

set_option maxRecDepth 8192 in
/-- C35, the counterexample: `let 5` lacks the identifier that `parseLetStatement` expects.
The parser returns a program whose first statement is the nil pointer of the production, and
its errors are empty.  Likewise `(1`, which lacks the closing parenthesis, gives a statement
without an expression and no error. -/
theorem ParseProgram_missing_token_unrecorded :
    (∃ after,
      ParseProgram (fun _ => none) 30 (New [⟨LET, "let"⟩, ⟨INT, "5"⟩]) =
        .ok (⟨[.NilPointer "*ast.LetStatement",
          .ExpressionStatement ⟨INT, "5"⟩ (some (.IntegerLiteral ⟨INT, "5"⟩ 5))]⟩, after) ∧
      after.errors = []) ∧
    ∃ after,
      ParseProgram (fun _ => none) 30 (New [⟨LPAREN, "("⟩, ⟨INT, "1"⟩]) =
        .ok (⟨[.ExpressionStatement ⟨LPAREN, "("⟩ none]⟩, after) ∧
      after.errors = [] :=
  ⟨⟨_, rfl, rfl⟩, _, rfl, rfl⟩

/-! ## The statement after a block -/

set_option maxRecDepth 8192 in
/-- C37, the divergence: when `parseBlockStatement` stops, the first token of the statement
that ends the block is already the current token.  The block of an if-expression is parsed
inside `parseExpression`, whose loop over the operators then looks at the peek token, the
second token of that statement, and when it is an infix operator goes on with the
if-expression as the left operand: the first token of the statement is lost.  `if x:` / `y` /
`foo(3)` becomes the call of the if-expression with the argument 3 followed by a statement
without an expression, with the error for the `)`; `a = 10` / `if true:` / `1` / `a + 5`
becomes the sum of the if-expression and 5 followed by the statement `5`.  After the block of a
`def`, which is not parsed inside `parseExpression`, `foo(3)` is a statement of its own, and so
is `z = 5` after an if-block, `=` being no infix operator. -/
theorem block_lookahead_joins_next_statement (ParseFloat : String → Option Float64) :
    (∃ after,
      ParseProgram ParseFloat 30
        (New [⟨IF, "if"⟩, ⟨IDENT, "x"⟩, ⟨COLON, ":"⟩, ⟨NEWLINE, "\n"⟩, ⟨TAB, "\t"⟩,
          ⟨IDENT, "y"⟩, ⟨NEWLINE, "\n"⟩, ⟨IDENT, "foo"⟩, ⟨LPAREN, "("⟩, ⟨INT, "3"⟩,
          ⟨RPAREN, ")"⟩]) =
        .ok (⟨[.ExpressionStatement ⟨IF, "if"⟩
            (some (.CallExpression ⟨LPAREN, "("⟩
              (some (.IfExpression ⟨IF, "if"⟩ (some (.Identifier ⟨IDENT, "x"⟩ "x"))
                (some (.mk ⟨COLON, ":"⟩
                  [.ExpressionStatement ⟨IDENT, "y"⟩ (some (.Identifier ⟨IDENT, "y"⟩ "y"))]))
                none))
              [some (.IntegerLiteral ⟨INT, "3"⟩ 3)])),
          .ExpressionStatement ⟨RPAREN, ")"⟩ none]⟩, after) ∧
      after.errors = ["no prefix parse function for ) found"]) ∧
    (∃ after,
      ParseProgram ParseFloat 30
        (New [⟨IDENT, "a"⟩, ⟨ASSIGN, "="⟩, ⟨INT, "10"⟩, ⟨NEWLINE, "\n"⟩, ⟨IF, "if"⟩,
          ⟨token.TRUE, "true"⟩, ⟨COLON, ":"⟩, ⟨NEWLINE, "\n"⟩, ⟨TAB, "\t"⟩, ⟨INT, "1"⟩,
          ⟨NEWLINE, "\n"⟩, ⟨IDENT, "a"⟩, ⟨PLUS, "+"⟩, ⟨INT, "5"⟩]) =
        .ok (⟨[.LetStatement ⟨LET, "let"⟩ (some ⟨⟨IDENT, "a"⟩, "a"⟩)
            (some (.IntegerLiteral ⟨INT, "10"⟩ 10)),
          .ExpressionStatement ⟨IF, "if"⟩
            (some (.InfixExpression ⟨PLUS, "+"⟩
              (some (.IfExpression ⟨IF, "if"⟩ (some (.Boolean ⟨token.TRUE, "true"⟩ true))
                (some (.mk ⟨COLON, ":"⟩
                  [.ExpressionStatement ⟨INT, "1"⟩ (some (.IntegerLiteral ⟨INT, "1"⟩ 1))]))
                none))
              "+" (some (.IntegerLiteral ⟨INT, "5"⟩ 5)))),
          .ExpressionStatement ⟨INT, "5"⟩ (some (.IntegerLiteral ⟨INT, "5"⟩ 5))]⟩, after) ∧
      after.errors = []) ∧
    evaluator.testEvalText Host.doubling ParseFloat 30 10
      [⟨IDENT, "a"⟩, ⟨ASSIGN, "="⟩, ⟨INT, "10"⟩, ⟨NEWLINE, "\n"⟩, ⟨IF, "if"⟩,
        ⟨token.TRUE, "true"⟩, ⟨COLON, ":"⟩, ⟨NEWLINE, "\n"⟩, ⟨TAB, "\t"⟩, ⟨INT, "1"⟩,
        ⟨NEWLINE, "\n"⟩, ⟨IDENT, "a"⟩, ⟨PLUS, "+"⟩, ⟨INT, "5"⟩] =
      .ok (some (object.INTEGER_OBJ, "5")) ∧
    (∃ after,
      ParseProgram ParseFloat 30
        (New [⟨FUNCTION, "def"⟩, ⟨IDENT, "f"⟩, ⟨LPAREN, "("⟩, ⟨RPAREN, ")"⟩, ⟨COLON, ":"⟩,
          ⟨NEWLINE, "\n"⟩, ⟨TAB, "\t"⟩, ⟨IDENT, "y"⟩, ⟨NEWLINE, "\n"⟩, ⟨IDENT, "foo"⟩,
          ⟨LPAREN, "("⟩, ⟨INT, "3"⟩, ⟨RPAREN, ")"⟩]) =
        .ok (⟨[.FunctionStatement ⟨FUNCTION, "def"⟩ "f" []
            (some (.mk ⟨COLON, ":"⟩
              [.ExpressionStatement ⟨IDENT, "y"⟩ (some (.Identifier ⟨IDENT, "y"⟩ "y"))])),
          .ExpressionStatement ⟨IDENT, "foo"⟩
            (some (.CallExpression ⟨LPAREN, "("⟩ (some (.Identifier ⟨IDENT, "foo"⟩ "foo"))
              [some (.IntegerLiteral ⟨INT, "3"⟩ 3)]))]⟩, after) ∧
      after.errors = []) ∧
    ∃ after,
      ParseProgram ParseFloat 30
        (New [⟨IF, "if"⟩, ⟨IDENT, "x"⟩, ⟨COLON, ":"⟩, ⟨NEWLINE, "\n"⟩, ⟨TAB, "\t"⟩,
          ⟨IDENT, "y"⟩, ⟨NEWLINE, "\n"⟩, ⟨IDENT, "z"⟩, ⟨ASSIGN, "="⟩, ⟨INT, "5"⟩]) =
        .ok (⟨[.ExpressionStatement ⟨IF, "if"⟩
            (some (.IfExpression ⟨IF, "if"⟩ (some (.Identifier ⟨IDENT, "x"⟩ "x"))
              (some (.mk ⟨COLON, ":"⟩
                [.ExpressionStatement ⟨IDENT, "y"⟩ (some (.Identifier ⟨IDENT, "y"⟩ "y"))]))
              none)),
          .LetStatement ⟨LET, "let"⟩ (some ⟨⟨IDENT, "z"⟩, "z"⟩)
            (some (.IntegerLiteral ⟨INT, "5"⟩ 5))]⟩, after) ∧
      after.errors = [] :=
  ⟨⟨_, rfl, rfl⟩, ⟨_, rfl, rfl⟩, rfl, ⟨_, rfl, rfl⟩, _, rfl, rfl⟩

end parser

end Simpyl
